import Mathlib

/-!
Verification of the Group/Student/Parent relationship-consistency core of the
`voimle_pehmelt_backend` repository.

The definitions below are a shallow embedding of the request handlers in
`src/backend/routes/groups.js` and `src/backend/routes/students.js`, together
with the data model declared by the mongoose schemas (`Group`, `Parent`; the
`Student` schema file is not present in the sources, its fields are taken from
the routes that read and write student documents and from the data model in the
specification: id, firstName, lastName, age, group, parent, parentName,
parentEmail).

Modelling conventions:
* MongoDB ObjectIds are `Nat`; a collection is a `List` of documents in
  insertion order; `create` appends and draws a fresh id from `nextId`.
* `updateOne` with `$addToSet` / `$pull` becomes add-if-absent / filter on the
  id list of the matched document; `countDocuments` counts matching documents;
  `findOne`/`findById` return the first match in list order.
* The mongoose schema setter on `Parent.email` (`lowercase: true, trim: true`)
  is applied both when a document is stored and to the value of an
  email query filter, as modern mongoose does; this is `normEmail`.
* A mongoose document instance is an in-memory snapshot; `doc.save()` writes
  the paths the handler modified.  At every save site the set of modified
  paths is statically known, so each save is modelled as a targeted update of
  exactly those fields.
* Request fields that may be absent (JavaScript `undefined`) are `Option`s;
  the empty string models the other falsy string value.
* Authentication (role checks) is the external collaborator of the spec and is
  outside every claim checked here, so handlers are modelled for the
  authorized caller.
-/

namespace VP

/-! ## JavaScript string helpers -/

/-- Character-wise lower casing, modelling `String.prototype.toLowerCase`. -/
def lowerS (s : String) : String := ⟨s.data.map Char.toLower⟩

/-- Whitespace trimming from both ends, modelling `String.prototype.trim`. -/
def trimL (l : List Char) : List Char :=
  ((l.dropWhile Char.isWhitespace).reverse.dropWhile Char.isWhitespace).reverse

def trimS (s : String) : String := ⟨trimL s.data⟩

/-- The normalization the `Parent` schema applies to the `email` path
(`lowercase: true, trim: true`), used for stored values and query filters. -/
def normEmail (s : String) : String := trimS (lowerS s)

/-- Splitting on runs of whitespace, modelling `cleaned.split(/\s+/)` for a
trimmed input (no empty segments are produced). -/
def wordsAux : List Char → List Char → List (List Char)
  | [], cur => if cur.isEmpty then [] else [cur.reverse]
  | c :: cs, cur =>
    if c.isWhitespace then
      (if cur.isEmpty then wordsAux cs [] else cur.reverse :: wordsAux cs [])
    else wordsAux cs (c :: cur)

def wsTokens (s : String) : List String := (wordsAux s.data []).map (⟨·⟩)

/-- Truthiness of an optional string request field: absent or empty is falsy. -/
def strTruthy : Option String → Bool
  | none => false
  | some s => s ≠ ""

/-! ## `normalizeParentName` (identical copies in
`src/backend/routes/groups.js` lines 11–35 and
`src/backend/routes/students.js` lines 119–143) -/

structure NameParts where
  firstName : String
  lastName : String
  fullName : String
deriving Repr, DecidableEq

def lapsevanem : NameParts := ⟨"Lapsevanem", "", "Lapsevanem"⟩

def normalizeParentName (name : Option String) : NameParts :=
  match name with
  | none => lapsevanem
  | some s =>
    if s = "" then lapsevanem
    else
      let cleaned := trimS s
      if cleaned = "" then lapsevanem
      else
        let parts := wsTokens cleaned
        let firstName := parts.headD ""
        let lastName := if parts.tail ≠ [] then String.intercalate " " parts.tail else ""
        { firstName := if firstName = "" then "Lapsevanem" else firstName
          lastName := lastName
          fullName := cleaned }

/-! ## Data model (mongoose schemas `Group`, `Parent`, and the `Student`
document as used by the routes) -/

abbrev Id := Nat

structure StudentDoc where
  sid : Id
  firstName : String
  lastName : String
  age : Nat
  group : Option Id
  parent : Option Id
  parentName : String
  parentEmail : String
deriving Repr, DecidableEq

structure ParentDoc where
  pid : Id
  firstName : String
  lastName : String
  email : String
  phone : String
  students : List Id
deriving Repr, DecidableEq

structure GroupDoc where
  gid : Id
  name : String
  location : String
  description : String
  teachers : List Id
  students : List Id
  parents : List Id
deriving Repr, DecidableEq

/-- The document store: one collection per entity plus a fresh-id source. -/
structure DB where
  groups : List GroupDoc
  students : List StudentDoc
  parents : List ParentDoc
  nextId : Id
deriving Repr, DecidableEq

/-! ## Document-store primitives -/

def findGroup (db : DB) (g : Id) : Option GroupDoc := db.groups.find? (·.gid = g)

def findStudent (db : DB) (s : Id) : Option StudentDoc := db.students.find? (·.sid = s)

def findParent (db : DB) (p : Id) : Option ParentDoc := db.parents.find? (·.pid = p)

/-- `Parent.findOne({ email })`: the schema setter on `email` is applied to the
filter value, and stored emails already carry it. -/
def findParentByEmail (db : DB) (q : String) : Option ParentDoc :=
  db.parents.find? (·.email = normEmail q)

/-- `$addToSet` on an array of ids. -/
def addToSet (l : List Id) (x : Id) : List Id := if x ∈ l then l else l ++ [x]

/-- `$pull` of one value from an array of ids. -/
def pullId (l : List Id) (x : Id) : List Id := l.filter (· ≠ x)

def mapGroup (db : DB) (g : Id) (f : GroupDoc → GroupDoc) : DB :=
  { db with groups := db.groups.map (fun d => if d.gid = g then f d else d) }

def mapStudent (db : DB) (s : Id) (f : StudentDoc → StudentDoc) : DB :=
  { db with students := db.students.map (fun d => if d.sid = s then f d else d) }

def mapParent (db : DB) (p : Id) (f : ParentDoc → ParentDoc) : DB :=
  { db with parents := db.parents.map (fun d => if d.pid = p then f d else d) }

/-- `Group.updateOne({_id}, {$addToSet: {students}})`. -/
def groupAddStudent (db : DB) (g s : Id) : DB :=
  mapGroup db g (fun d => { d with students := addToSet d.students s })

/-- `Group.updateOne({_id}, {$pull: {students}})`. -/
def groupPullStudent (db : DB) (g s : Id) : DB :=
  mapGroup db g (fun d => { d with students := pullId d.students s })

def groupAddParent (db : DB) (g p : Id) : DB :=
  mapGroup db g (fun d => { d with parents := addToSet d.parents p })

def groupPullParent (db : DB) (g p : Id) : DB :=
  mapGroup db g (fun d => { d with parents := pullId d.parents p })

/-- `Student.countDocuments({ group, parent })`. -/
def countStudentsGP (db : DB) (g p : Id) : Nat :=
  (db.students.filter (fun s => s.group = some g ∧ s.parent = some p)).length

/-- `Student.countDocuments({ parent })`. -/
def countStudentsP (db : DB) (p : Id) : Nat :=
  (db.students.filter (fun s => s.parent = some p)).length

/-- `Group.countDocuments({ parents: p })` (array containment match). -/
def countGroupsP (db : DB) (p : Id) : Nat :=
  (db.groups.filter (fun g => p ∈ g.parents)).length

/-- `student.save()` after the handler mutated the in-memory document;
no other write touches the same student between fetch and save, so this
replaces the whole document. -/
def saveStudent (db : DB) (st : StudentDoc) : DB :=
  mapStudent db st.sid (fun _ => st)

/-- `parentDoc.save()` at a site whose only modified paths are the names. -/
def saveParentNames (db : DB) (p : Id) (f l : String) : DB :=
  mapParent db p (fun d => { d with firstName := f, lastName := l })

/-- `parentDoc.save()` at a site whose only modified path is `students`. -/
def saveParentStudents (db : DB) (p : Id) (sts : List Id) : DB :=
  mapParent db p (fun d => { d with students := sts })

/-- `group.save()` in the bulk handler: every path the handler assigns
(name, location, description, students, parents) is written; the remaining
paths of the snapshot were never written around it, so a full replace of the
matched document is exact. -/
def saveGroup (db : DB) (g : GroupDoc) : DB :=
  mapGroup db g.gid (fun _ => g)

/-- `Parent.create({firstName, lastName, email})`; the schema setter
normalizes the stored email; `students` defaults to `[]`. -/
def createParent (db : DB) (f l e : String) : ParentDoc × DB :=
  let p : ParentDoc :=
    { pid := db.nextId, firstName := f, lastName := l
      email := normEmail e, phone := "", students := [] }
  (p, { db with parents := db.parents ++ [p], nextId := db.nextId + 1 })

/-- `Student.create({...})`. -/
def createStudentDoc (db : DB) (f l : String) (age : Nat)
    (g p : Option Id) (pn pe : String) : StudentDoc × DB :=
  let s : StudentDoc :=
    { sid := db.nextId, firstName := f, lastName := l, age := age
      group := g, parent := p, parentName := pn, parentEmail := pe }
  (s, { db with students := db.students ++ [s], nextId := db.nextId + 1 })

/-- `Parent.deleteOne({_id})` / `parent.deleteOne()`. -/
def deleteParent (db : DB) (p : Id) : DB :=
  { db with parents := db.parents.filter (·.pid ≠ p) }

/-- `student.deleteOne()`. -/
def deleteStudentDoc (db : DB) (s : Id) : DB :=
  { db with students := db.students.filter (·.sid ≠ s) }

/-! ## Shared route helpers (`ensureParentInGroup`,
`removeParentFromGroupIfUnused`, duplicated in both route files; the
`students.js` copy also guards a missing group id, which in `groups.js` is
always the target group's own id) -/

def ensureParentInGroup (db : DB) (g p : Option Id) : DB :=
  match g, p with
  | some g, some p => groupAddParent db g p
  | _, _ => db

def removeParentFromGroupIfUnused (db : DB) (g p : Option Id) : DB :=
  match g, p with
  | some g, some p =>
    if countStudentsGP db g p = 0 then groupPullParent db g p else db
  | _, _ => db

/-! ## `PATCH /api/groups/:id/full` (`src/backend/routes/groups.js` 271–473) -/

/-- Insertion into a JavaScript `Set` (first occurrence wins, insertion order
is kept, `Array.from` reads the elements back in that order). -/
def insertIfAbsent (acc : List Id) (x : Id) : List Id :=
  if x ∈ acc then acc else acc ++ [x]

/-- `[...new Set(list)]`. -/
def dedupKeepFirst (l : List Id) : List Id := l.foldl insertIfAbsent []

structure ParentEntry where
  email : Option String
  name : Option String
deriving Repr, DecidableEq

structure PatchReq where
  name : Option String
  location : Option String
  description : Option String
  studentIds : Option (List (Option Id))
  parents : Option (List ParentEntry)
deriving Repr, DecidableEq

/-- `requestedStudentIds`: `Array.isArray(studentIds) ?
[...new Set(studentIds.filter(Boolean).map(String))] : []` (a falsy array
entry is `none`). -/
def requestedIds (req : PatchReq) : List Id :=
  match req.studentIds with
  | some l => dedupKeepFirst (l.filterMap id)
  | none => []

/-- One iteration of the `toRemove` loop (lines 324–337): null the student's
group, save, pull it from the target group's array, run unused-parent cleanup
on the target (`parentId` is read before the save; it equals `st.parent`). -/
def detachStep (gid : Id) (db : DB) (s : Id) (st : StudentDoc) : DB :=
  let db := saveStudent db { st with group := none }
  let db := groupPullStudent db gid s
  removeParentFromGroupIfUnused db (some gid) st.parent

/-- The `toRemove` loop. -/
def detachListed (gid : Id) (db : DB) : List Id → DB
  | [] => db
  | s :: rest =>
    match findStudent db s with
    | none => detachListed gid db rest
    | some st => detachListed gid (detachStep gid db s st) rest

/-- One iteration of the `toAssign` loop (lines 340–364): detach from a
different previous group (with cleanup there), point the student at the
target group, add it to the target's array, and make sure its parent is
listed on the target. -/
def assignStep (gid : Id) (db : DB) (s : Id) (st : StudentDoc) : DB :=
  let db :=
    if st.group = some gid then db
    else
      let db :=
        match st.group with
        | some pg =>
          let db := groupPullStudent db pg s
          removeParentFromGroupIfUnused db (some pg) st.parent
        | none => db
      saveStudent db { st with group := some gid }
  let db := groupAddStudent db gid s
  if st.parent ≠ none then ensureParentInGroup db (some gid) st.parent else db

/-- The `toAssign` loop. -/
def assignListed (gid : Id) (db : DB) : List Id → DB
  | [] => db
  | s :: rest =>
    match findStudent db s with
    | none => assignListed gid db rest
    | some st => assignListed gid (assignStep gid db s st) rest

/-- One iteration of the detach-all loop of the empty-roster branch (lines
369–379): the group's array entry is *not* pulled here, only the student's
`group` field is cleared and the unused-parent cleanup runs. -/
def detachAllStep (gid : Id) (db : DB) (st : StudentDoc) : DB :=
  let db := saveStudent db { st with group := none }
  removeParentFromGroupIfUnused db (some gid) st.parent

/-- The detach-all loop. -/
def detachAll (gid : Id) (db : DB) : List Id → DB
  | [] => db
  | s :: rest =>
    match findStudent db s with
    | none => detachAll gid db rest
    | some st => detachAll gid (detachAllStep gid db st) rest

/-- `Student.find({group}).distinct('parent')` then
`.filter(Boolean).map(String)` (line 383–387): the distinct non-null parents
of the group's current students, first occurrence order. -/
def distinctParents (db : DB) (gid : Id) : List Id :=
  dedupKeepFirst ((db.students.filter (·.group = some gid)).filterMap (·.parent))

/-- One step of the `parentPayload` loop (lines 392–428): resolve or create
the parent by normalized email, align its name fields, record its id. -/
def resolveEntry (db : DB) (entry : ParentEntry) : Option (Id × DB) :=
  match entry.email with
  | none => none
  | some raw =>
    let email := trimS (lowerS raw)
    if email = "" then none
    else
      let nameParts := normalizeParentName entry.name
      match findParentByEmail db email with
      | none =>
        let (p, db) := createParent db nameParts.firstName nameParts.lastName email
        some (p.pid, db)
      | some p =>
        let f := if nameParts.firstName ≠ "" ∧ p.firstName ≠ nameParts.firstName
          then nameParts.firstName else p.firstName
        let l := if p.lastName ≠ nameParts.lastName then nameParts.lastName else p.lastName
        let db := if f ≠ p.firstName ∨ l ≠ p.lastName then saveParentNames db p.pid f l else db
        some (p.pid, db)

/-- The `parentPayload` loop; `.error` carries the state at the moment the 400
for a missing email is returned (nothing done so far is undone). -/
def processParents (db : DB) (acc : List Id) : List ParentEntry → Except DB (List Id × DB)
  | [] => .ok (acc, db)
  | entry :: rest =>
    match resolveEntry db entry with
    | none => .error db
    | some (pid, db) => processParents db (insertIfAbsent acc pid) rest

/-- The removed-parents cleanup loop (lines 443–451). -/
def cleanupRemoved (gid : Id) (db : DB) : List Id → DB
  | [] => db
  | p :: rest =>
    let db := removeParentFromGroupIfUnused db (some gid) (some p)
    let still := countStudentsP db p > 0 ∨ countGroupsP db p > 0
    let db := if still then db else deleteParent db p
    cleanupRemoved gid db rest

/-- Lines 383–451: recompute the group's parent set, save the in-memory group
document, clean up parents that dropped out.  `gmem` is the in-memory group
document as mutated so far (name fields and `students` assigned); its
`parents` snapshot is still the originally loaded value. -/
def parentPhase (gid : Id) (gmem : GroupDoc) (req : PatchReq) (db : DB) : Nat × DB :=
  match processParents db (distinctParents db gid) (req.parents.getD []) with
  | .error db' => (400, db')
  | .ok (finalIds, db2) =>
    let removed := gmem.parents.filter (· ∉ finalIds)
    let db3 := saveGroup db2 { gmem with parents := finalIds }
    (200, cleanupRemoved gid db3 removed)

/-- The whole `PATCH /groups/:id/full` handler for an admin caller; returns
the HTTP status together with the store. -/
def patchGroupFull (db : DB) (gid : Id) (req : PatchReq) : Nat × DB :=
  match findGroup db gid with
  | none => (404, db)
  | some g0 =>
    let g1 := { g0 with
      name := match req.name with | some n => trimS n | none => g0.name
      location := match req.location with | some l => trimS l | none => g0.location
      description := match req.description with | some d => d | none => g0.description }
    let requested := requestedIds req
    if requested.isEmpty then
      let db1 := detachAll gid db g0.students
      parentPhase gid { g1 with students := [] } req db1
    else
      let found := db.students.filter (·.sid ∈ requested)
      if found.length ≠ requested.length then (400, db)
      else
        let toRemove := g0.students.filter (· ∉ requested)
        let db1 := detachListed gid db toRemove
        let db2 := assignListed gid db1 requested
        parentPhase gid { g1 with students := requested } req db2

/-! ## `POST /api/students` (`src/backend/routes/students.js` 145–233) -/

structure CreateStudentReq where
  firstName : String
  lastName : String
  age : Nat
  groupId : Option Id
  parentName : Option String
  parentEmail : Option String
deriving Repr, DecidableEq

/-- Parent resolution of the create route (lines 172–195).  Note the route
lower-cases but does not trim the email, and guards both name updates by
truthiness. -/
def resolveParentOnCreate (db : DB) (normalizedEmail : String)
    (nameParts : NameParts) : ParentDoc × DB :=
  match findParentByEmail db normalizedEmail with
  | none => createParent db nameParts.firstName nameParts.lastName normalizedEmail
  | some p =>
    let f := if nameParts.firstName ≠ "" ∧ p.firstName ≠ nameParts.firstName
      then nameParts.firstName else p.firstName
    let l := if nameParts.lastName ≠ "" ∧ p.lastName ≠ nameParts.lastName
      then nameParts.lastName else p.lastName
    let changed := f ≠ p.firstName ∨ l ≠ p.lastName
    ({ p with firstName := f, lastName := l },
      if changed then saveParentNames db p.pid f l else db)

def createStudent (db : DB) (req : CreateStudentReq) : Nat × DB :=
  if ¬ strTruthy req.parentEmail then (400, db)
  else
    match req.groupId, req.groupId.bind (findGroup db) with
    | some groupId, some _group =>
      let normalizedEmail := lowerS (req.parentEmail.getD "")
      let nameParts := normalizeParentName req.parentName
      let (parent, db) := resolveParentOnCreate db normalizedEmail nameParts
      let (student, db) := createStudentDoc db req.firstName req.lastName req.age
        (some groupId) (some parent.pid) nameParts.fullName normalizedEmail
      let db := groupAddStudent db groupId student.sid
      let db :=
        if student.sid ∈ parent.students then db
        else saveParentStudents db parent.pid (parent.students ++ [student.sid])
      let db := ensureParentInGroup db (some groupId) (some parent.pid)
      (201, db)
    | _, _ => (404, db)

/-! ## `PUT /api/students/:id` (`src/backend/routes/students.js` 238–403) -/

structure UpdateStudentReq where
  firstName : Option String
  lastName : Option String
  age : Option Nat
  groupId : Option Id
  parentName : Option String
  parentEmail : Option String
deriving Repr, DecidableEq

/-- The parent-email section of the update route (lines 301–351): `st` is the
in-memory student, `cp0` the fetched current parent (if any).  Returns the
updated student snapshot and store.  `nextParent` is a snapshot taken before
the current parent is mutated; the push into its `students` is guarded on
that snapshot, and each save writes only the paths modified at that site. -/
def updateParentSection (db : DB) (st : StudentDoc) (cp0 : Option ParentDoc)
    (parentName parentEmail : Option String) : StudentDoc × DB :=
  let normalizedEmail := lowerS (parentEmail.getD "")
  let nameParts := normalizeParentName
    (if strTruthy parentName then parentName else some st.parentName)
  let (st, cp, db) :=
    match cp0 with
    | some cp =>
      if cp.email = normalizedEmail then (st, some cp, db)
      else switchParent st cp.pid (some cp) normalizedEmail nameParts db
    | none => switchParent st 0 none normalizedEmail nameParts db
  let db :=
    match cp with
    | some c =>
      let f := if nameParts.firstName ≠ "" ∧ c.firstName ≠ nameParts.firstName
        then nameParts.firstName else c.firstName
      let l := if c.lastName ≠ nameParts.lastName then nameParts.lastName else c.lastName
      if f ≠ c.firstName ∨ l ≠ c.lastName then saveParentNames db c.pid f l else db
    | none => db
  ({ st with parentEmail := normalizedEmail, parentName := nameParts.fullName }, db)
where
  /-- Lines 305–330: resolve/create `nextParent`, detach from the old parent
  (deleting it when its `students` emptied), attach to the new one. -/
  switchParent (st : StudentDoc) (_cpid : Id) (cpOpt : Option ParentDoc)
      (normalizedEmail : String) (nameParts : NameParts) (db : DB) :
      StudentDoc × Option ParentDoc × DB :=
    let (np, db) :=
      match findParentByEmail db normalizedEmail with
      | some p => (p, db)
      | none => createParent db nameParts.firstName nameParts.lastName normalizedEmail
    let db :=
      match cpOpt with
      | some cp =>
        let pulled := pullId cp.students st.sid
        let db := saveParentStudents db cp.pid pulled
        if pulled = [] then deleteParent db cp.pid else db
      | none => db
    let (np, db) :=
      if st.sid ∈ np.students then (np, db)
      else
        let np := { np with students := np.students ++ [st.sid] }
        (np, saveParentStudents db np.pid np.students)
    ({ st with parent := some np.pid }, some np, db)

def updateStudent (db : DB) (sid : Id) (req : UpdateStudentReq) : Nat × DB :=
  match findStudent db sid with
  | none => (404, db)
  | some st0 =>
    let st := { st0 with
      firstName := req.firstName.getD st0.firstName
      lastName := req.lastName.getD st0.lastName
      age := req.age.getD st0.age }
    let originalGroupId := st0.group
    let originalParentId := st0.parent
    match moveGroup st originalGroupId db with
    | none => (404, db)
    | some (st, db) =>
      let currentParent := st.parent.bind (findParent db)
      let (st, db) :=
        if strTruthy req.parentEmail then
          updateParentSection db st currentParent req.parentName req.parentEmail
        else if strTruthy req.parentName ∧ currentParent.isSome then
          let nameParts := normalizeParentName req.parentName
          let db :=
            match currentParent with
            | some c =>
              let f := if c.firstName ≠ nameParts.firstName then nameParts.firstName else c.firstName
              let l := if c.lastName ≠ nameParts.lastName then nameParts.lastName else c.lastName
              if f ≠ c.firstName ∨ l ≠ c.lastName then saveParentNames db c.pid f l else db
            | none => db
          ({ st with parentName := nameParts.fullName }, db)
        else (st, db)
      let db := saveStudent db st
      let db := if st.parent.isSome then ensureParentInGroup db st.group st.parent else db
      let db :=
        if originalGroupId.isSome ∧ st.group ≠ originalGroupId then
          removeParentFromGroupIfUnused db originalGroupId originalParentId
        else db
      let db :=
        if originalParentId.isSome ∧ st.parent ≠ originalParentId then
          let targetGroupId := if st.group.isSome then st.group else originalGroupId
          removeParentFromGroupIfUnused db targetGroupId originalParentId
        else db
      (200, db)
where
  /-- Lines 272–294: optional move to a different group; `none` is the 404 on
  a missing target group, which is returned before any store write. -/
  moveGroup (st : StudentDoc) (originalGroupId : Option Id) (db : DB) :
      Option (StudentDoc × DB) :=
    match req.groupId with
    | some g =>
      if originalGroupId = some g then some (st, db)
      else
        match findGroup db g with
        | none => none
        | some _ =>
          let db :=
            match originalGroupId with
            | some og => groupPullStudent db og st.sid
            | none => db
          let db := groupAddStudent db g st.sid
          some ({ st with group := some g }, db)
    | none => some (st, db)

/-! ## `DELETE /api/students/:id` (`src/backend/routes/students.js` 408–458) -/

def deleteStudent (db : DB) (sid : Id) : Nat × DB :=
  match findStudent db sid with
  | none => (404, db)
  | some st =>
    let db :=
      match st.group with
      | some g => groupPullStudent db g sid
      | none => db
    let db :=
      match st.parent with
      | some p =>
        let db :=
          match findParent db p with
          | some pd =>
            let pulled := pullId pd.students sid
            let db := saveParentStudents db p pulled
            if pulled = [] then deleteParent db p else db
          | none => db
        removeParentFromGroupIfUnused db st.group (some p)
      | none => db
    (200, deleteStudentDoc db sid)

/-! ## `DELETE /api/groups/:id` (`src/backend/routes/groups.js` 543–576):
deletes the group's students and the group itself; parents are not touched. -/

def deleteGroup (db : DB) (gid : Id) : Nat × DB :=
  match findGroup db gid with
  | none => (404, db)
  | some _ =>
    let db := { db with students := db.students.filter (·.group ≠ some gid) }
    (200, { db with groups := db.groups.filter (·.gid ≠ gid) })

/-! ## Token facts for `normalizeParentName` -/

theorem wordsAux_ne_nil (l : List Char) (cur : List Char) :
    ∀ w ∈ wordsAux l cur, w ≠ [] := by
  induction l generalizing cur with
  | nil =>
    intro w hw
    cases cur with
    | nil => simp [wordsAux] at hw
    | cons a as =>
      simp [wordsAux] at hw
      subst hw
      simp
  | cons c cs ih =>
    intro w hw
    by_cases hws : c.isWhitespace = true
    · rw [wordsAux, if_pos hws] at hw
      by_cases hcur : cur.isEmpty = true
      · rw [if_pos hcur] at hw
        exact ih [] w hw
      · rw [if_neg hcur] at hw
        rcases List.mem_cons.mp hw with rfl | hw'
        · cases cur with
          | nil => simp at hcur
          | cons a as => simp
        · exact ih [] w hw'
    · rw [wordsAux, if_neg hws] at hw
      exact ih (c :: cur) w hw

theorem wsTokens_ne_empty (s : String) : ∀ t ∈ wsTokens s, t ≠ "" := by
  intro t ht
  simp only [wsTokens, List.mem_map] at ht
  obtain ⟨w, hw, rfl⟩ := ht
  have := wordsAux_ne_nil s.data [] w hw
  intro hc
  apply this
  have : w = ("" : String).data := congrArg String.data hc
  simpa using this

/-- C8.  Name normalization splits the trimmed raw name on whitespace, the
first token is the firstName and the remaining tokens joined by single spaces
are the lastName; `"  Jüri Tamm  "` gives `{Jüri, Tamm}`, and a missing,
empty or all-whitespace name gives the `"Lapsevanem"` placeholder with empty
lastName. -/
theorem normalizeParentName_spec :
    (∀ s : String, ∀ t ts, wsTokens (trimS s) = t :: ts →
      normalizeParentName (some s) =
        ⟨t, String.intercalate " " ts, trimS s⟩) ∧
    normalizeParentName (some "  Jüri Tamm  ") = ⟨"Jüri", "Tamm", "Jüri Tamm"⟩ ∧
    normalizeParentName none = lapsevanem ∧
    (∀ s : String, trimS s = "" → normalizeParentName (some s) = lapsevanem) := by
  refine ⟨?_, by decide, rfl, ?_⟩
  case refine_2 =>
    intro s h
    by_cases hs : s = ""
    · simp [normalizeParentName, hs]
    · simp [normalizeParentName, hs, h]
  · intro s t ts htok
    have hne : t ≠ "" := wsTokens_ne_empty (trimS s) t (htok ▸ List.mem_cons_self t ts)
    have hsne : s ≠ "" := by
      rintro rfl
      simp [trimS, trimL, wsTokens, wordsAux] at htok
    have htrimne : trimS s ≠ "" := by
      intro h
      rw [h] at htok
      simp [wsTokens, wordsAux] at htok
    simp only [normalizeParentName, if_neg hsne, if_neg htrimne, htok]
    simp only [List.headD_cons, List.tail_cons, if_neg hne]
    rcases ts with _ | ⟨t', ts'⟩
    · simp [String.intercalate]
    · simp

/-- Witness for `normalizeParentName_spec`: the token clause at `"a b c"`. -/
theorem normalizeParentName_spec_witness :
    normalizeParentName (some "a b c") = ⟨"a", "b c", "a b c"⟩ :=
  normalizeParentName_spec.1 "a b c" "a" ["b", "c"] (by decide)

/-! ## Concrete fixture for the scenario claims: group `G` (id 1) with
students `S1` (id 10) and `S2` (id 11), both children of parent `P1`
(id 20, email `a@x.com`). -/

def fixG : GroupDoc :=
  { gid := 1, name := "G", location := "Tallinn", description := ""
    teachers := [7], students := [10, 11], parents := [20] }

def fixS1 : StudentDoc :=
  { sid := 10, firstName := "S1", lastName := "X", age := 8, group := some 1
    parent := some 20, parentName := "P One", parentEmail := "a@x.com" }

def fixS2 : StudentDoc :=
  { sid := 11, firstName := "S2", lastName := "Y", age := 9, group := some 1
    parent := some 20, parentName := "P One", parentEmail := "a@x.com" }

def fixP1 : ParentDoc :=
  { pid := 20, firstName := "P", lastName := "One", email := "a@x.com"
    phone := "", students := [10, 11] }

def fixDB : DB := { groups := [fixG], students := [fixS1, fixS2], parents := [fixP1], nextId := 30 }

/-- Roster request `[S2]`. -/
def fixReqS2 : PatchReq :=
  { name := none, location := none, description := none
    studentIds := some [some 11], parents := some [] }

/-- Roster request `[]`. -/
def fixReqNone : PatchReq :=
  { name := none, location := none, description := none
    studentIds := some [], parents := some [] }

/-- C5.  From `G = {S1, S2}`, bulk-replacing the roster with `[S2]` nulls
`S1.group` and keeps `P1` in `G.parents`; then replacing with `[]` nulls
`S2.group`, removes `P1` from `G.parents`, and the `P1` record survives
exactly because students referencing it still exist. -/
theorem bulkReplace_scenario_C5 :
    (findStudent (patchGroupFull fixDB 1 fixReqS2).2 10).map (·.group) = some none ∧
    (findGroup (patchGroupFull fixDB 1 fixReqS2).2 1).map (·.parents) = some [20] ∧
    (findStudent (patchGroupFull (patchGroupFull fixDB 1 fixReqS2).2 1 fixReqNone).2 11).map (·.group)
      = some none ∧
    (findGroup (patchGroupFull (patchGroupFull fixDB 1 fixReqS2).2 1 fixReqNone).2 1).map (·.parents)
      = some [] ∧
    ((findParent (patchGroupFull (patchGroupFull fixDB 1 fixReqS2).2 1 fixReqNone).2 20).isSome ↔
      0 < countStudentsP (patchGroupFull (patchGroupFull fixDB 1 fixReqS2).2 1 fixReqNone).2 20) := by
  decide

/-! ## Toolkit: generic list lemmas -/

theorem find?_map_of_pred {α : Type} (l : List α) (t : α → α) (p : α → Bool)
    (hp : ∀ a, p (t a) = p a) : (l.map t).find? p = (l.find? p).map t := by
  induction l with
  | nil => simp
  | cons a as ih =>
    simp only [List.map_cons, List.find?]
    rw [hp a]
    cases hpa : p a
    · simpa using ih
    · simp

theorem mem_insertIfAbsent (acc : List Id) (x y : Id) :
    y ∈ insertIfAbsent acc x ↔ y ∈ acc ∨ y = x := by
  unfold insertIfAbsent
  split
  · rename_i h
    constructor
    · exact Or.inl
    · rintro (hy | rfl)
      · exact hy
      · exact h
  · simp

theorem nodup_insertIfAbsent (acc : List Id) (x : Id) (h : acc.Nodup) :
    (insertIfAbsent acc x).Nodup := by
  unfold insertIfAbsent
  split
  · exact h
  · rename_i hx
    simpa [List.nodup_append] using ⟨h, fun hmem => hx hmem⟩

theorem nodup_foldl_insertIfAbsent (l : List Id) :
    ∀ acc : List Id, acc.Nodup → (l.foldl insertIfAbsent acc).Nodup := by
  induction l with
  | nil => intro acc h; exact h
  | cons a as ih =>
    intro acc h
    exact ih _ (nodup_insertIfAbsent acc a h)

theorem mem_foldl_insertIfAbsent (l : List Id) :
    ∀ acc y, y ∈ l.foldl insertIfAbsent acc ↔ y ∈ acc ∨ y ∈ l := by
  induction l with
  | nil => simp
  | cons a as ih =>
    intro acc y
    simp only [List.foldl_cons, ih, mem_insertIfAbsent, List.mem_cons]
    tauto

theorem dedupKeepFirst_nodup (l : List Id) : (dedupKeepFirst l).Nodup :=
  nodup_foldl_insertIfAbsent l [] List.nodup_nil

theorem mem_dedupKeepFirst (l : List Id) (y : Id) : y ∈ dedupKeepFirst l ↔ y ∈ l := by
  simp [dedupKeepFirst, mem_foldl_insertIfAbsent]

/-! ## Toolkit: find/update interaction for the store -/

theorem findGroup_mapGroup (db : DB) (g g' : Id) (f : GroupDoc → GroupDoc)
    (hf : ∀ d, (f d).gid = d.gid) :
    findGroup (mapGroup db g f) g' =
      (findGroup db g').map (fun d => if d.gid = g then f d else d) := by
  unfold findGroup mapGroup
  exact find?_map_of_pred db.groups _ _ (by
    intro d
    by_cases h : d.gid = g <;> simp [h, hf])

theorem findStudent_mapStudent (db : DB) (s s' : Id) (f : StudentDoc → StudentDoc)
    (hf : ∀ d, (f d).sid = d.sid) :
    findStudent (mapStudent db s f) s' =
      (findStudent db s').map (fun d => if d.sid = s then f d else d) := by
  unfold findStudent mapStudent
  exact find?_map_of_pred db.students _ _ (by
    intro d
    by_cases h : d.sid = s <;> simp [h, hf])

theorem findParent_mapParent (db : DB) (p p' : Id) (f : ParentDoc → ParentDoc)
    (hf : ∀ d, (f d).pid = d.pid) :
    findParent (mapParent db p f) p' =
      (findParent db p').map (fun d => if d.pid = p then f d else d) := by
  unfold findParent mapParent
  exact find?_map_of_pred db.parents _ _ (by
    intro d
    by_cases h : d.pid = p <;> simp [h, hf])

/-! ## Toolkit: collection frames of the primitives -/

theorem mapGroup_students (db : DB) (g : Id) (f : GroupDoc → GroupDoc) :
    (mapGroup db g f).students = db.students := rfl

theorem mapGroup_parents (db : DB) (g : Id) (f : GroupDoc → GroupDoc) :
    (mapGroup db g f).parents = db.parents := rfl

theorem mapStudent_groups (db : DB) (s : Id) (f : StudentDoc → StudentDoc) :
    (mapStudent db s f).groups = db.groups := rfl

theorem mapParent_groups (db : DB) (p : Id) (f : ParentDoc → ParentDoc) :
    (mapParent db p f).groups = db.groups := rfl

theorem mapParent_students (db : DB) (p : Id) (f : ParentDoc → ParentDoc) :
    (mapParent db p f).students = db.students := rfl

theorem deleteParent_groups (db : DB) (p : Id) : (deleteParent db p).groups = db.groups := rfl

theorem deleteParent_students (db : DB) (p : Id) : (deleteParent db p).students = db.students := rfl

/-- `resolveEntry` touches only the parents collection and the id source. -/
theorem resolveEntry_frame (db : DB) (e : ParentEntry) (pid : Id) (db' : DB)
    (h : resolveEntry db e = some (pid, db')) :
    db'.groups = db.groups ∧ db'.students = db.students := by
  unfold resolveEntry at h
  cases he : e.email with
  | none => rw [he] at h; exact absurd h (by simp)
  | some raw =>
    rw [he] at h
    simp only at h
    split at h
    · exact absurd h (by simp)
    · split at h
      · rename_i hfind
        simp only [createParent, Option.some.injEq, Prod.mk.injEq] at h
        obtain ⟨-, rfl⟩ := h
        exact ⟨rfl, rfl⟩
      · rename_i p hfind
        simp only [Option.some.injEq, Prod.mk.injEq] at h
        obtain ⟨-, rfl⟩ := h
        constructor
        · rw [apply_ite DB.groups]
          simp [saveParentNames, mapParent]
        · rw [apply_ite DB.students]
          simp [saveParentNames, mapParent]

/-- A parent-entry is accepted exactly when it carries a non-empty email
after normalization. -/
def validEmail (e : ParentEntry) : Prop :=
  ∃ raw, e.email = some raw ∧ trimS (lowerS raw) ≠ ""

theorem resolveEntry_isSome (db : DB) (e : ParentEntry) (h : validEmail e) :
    (resolveEntry db e).isSome := by
  obtain ⟨raw, he, hne⟩ := h
  unfold resolveEntry
  rw [he]
  simp only [if_neg hne]
  split <;> simp [createParent]

theorem resolveEntry_none (db : DB) (e : ParentEntry) (h : ¬ validEmail e) :
    resolveEntry db e = none := by
  unfold resolveEntry
  cases he : e.email with
  | none => rfl
  | some raw =>
    simp only
    have hempty : trimS (lowerS raw) = "" := by
      by_contra hne
      exact h ⟨raw, he, hne⟩
    rw [if_pos hempty]

/-! ## C4: a missing student id fails the whole bulk replace up front -/

theorem filter_sid_mem_length_lt (db : DB) (requested : List Id) (s : Id)
    (hnodup : (db.students.map (·.sid)).Nodup) (hreq : requested.Nodup)
    (hs : s ∈ requested) (hmiss : findStudent db s = none) :
    (db.students.filter (·.sid ∈ requested)).length < requested.length := by
  classical
  set F := db.students.filter (·.sid ∈ requested) with hF
  have hFnodup : (F.map (·.sid)).Nodup :=
    hnodup.sublist ((db.students.filter_sublist (p := (·.sid ∈ requested))).map _)
  have hsub : (F.map (·.sid)).toFinset ⊆ requested.toFinset.erase s := by
    intro x hx
    simp only [List.mem_toFinset, List.mem_map] at hx
    obtain ⟨d, hd, rfl⟩ := hx
    have hdreq : d.sid ∈ requested := by
      have := List.of_mem_filter hd
      simpa using this
    have hdne : d.sid ≠ s := by
      rintro rfl
      have hnone := List.find?_eq_none.mp hmiss d (List.mem_of_mem_filter hd)
      simp at hnone
    exact Finset.mem_erase.mpr ⟨hdne, List.mem_toFinset.mpr hdreq⟩
  have hcard : (F.map (·.sid)).toFinset.card ≤ (requested.toFinset.erase s).card :=
    Finset.card_le_card hsub
  rw [List.toFinset_card_of_nodup hFnodup] at hcard
  rw [Finset.card_erase_of_mem (List.mem_toFinset.mpr hs)] at hcard
  rw [List.toFinset_card_of_nodup hreq] at hcard
  have hpos : 0 < requested.length := List.length_pos.mpr (List.ne_nil_of_mem hs)
  have := List.length_map F (·.sid) ▸ hcard
  omega

theorem requestedIds_nodup (req : PatchReq) : (requestedIds req).Nodup := by
  unfold requestedIds
  cases req.studentIds with
  | none => exact List.nodup_nil
  | some l => exact dedupKeepFirst_nodup _

/-- C4.  If the (deduplicated, non-empty) requested roster contains an id
with no student document, the bulk replace returns 400 and the store is
untouched. -/
theorem patch_unknown_student_400 (db : DB) (gid : Id) (req : PatchReq)
    (g0 : GroupDoc) (s : Id)
    (hnodup : (db.students.map (·.sid)).Nodup)
    (hg : findGroup db gid = some g0)
    (hs : s ∈ requestedIds req)
    (hmiss : findStudent db s = none) :
    patchGroupFull db gid req = (400, db) := by
  have hne : (requestedIds req).isEmpty = false := by
    cases h : requestedIds req with
    | nil => rw [h] at hs; simp at hs
    | cons a as => simp [h]
  have hlt := filter_sid_mem_length_lt db (requestedIds req) s hnodup
    (requestedIds_nodup req) hs hmiss
  unfold patchGroupFull
  rw [hg]
  simp only [hne, Bool.false_eq_true, if_false]
  rw [if_pos (by omega)]

/-- Witness for `patch_unknown_student_400`: requesting the unknown id 99 on
the concrete fixture. -/
theorem patch_unknown_student_400_witness :
    patchGroupFull fixDB 1
      { name := none, location := none, description := none
        studentIds := some [some 99], parents := some [] } = (400, fixDB) :=
  patch_unknown_student_400 fixDB 1 _ fixG 99 (by decide) (by decide) (by decide) (by decide)

/-! ## Views of a single group through `findGroup` -/

def teachersView (db : DB) (g : Id) : Option (List Id) := (findGroup db g).map (·.teachers)

def studentsView (db : DB) (g : Id) : Option (List Id) := (findGroup db g).map (·.students)

theorem teachersView_of_groups_eq (db db' : DB) (h : db'.groups = db.groups) (g : Id) :
    teachersView db' g = teachersView db g := by
  unfold teachersView findGroup
  rw [h]

theorem studentsView_of_groups_eq (db db' : DB) (h : db'.groups = db.groups) (g : Id) :
    studentsView db' g = studentsView db g := by
  unfold studentsView findGroup
  rw [h]

theorem teachersView_mapGroup (db : DB) (g g' : Id) (f : GroupDoc → GroupDoc)
    (hgid : ∀ d, (f d).gid = d.gid) (ht : ∀ d, (f d).teachers = d.teachers) :
    teachersView (mapGroup db g f) g' = teachersView db g' := by
  unfold teachersView
  rw [findGroup_mapGroup db g g' f hgid]
  cases findGroup db g' with
  | none => rfl
  | some d =>
    by_cases hd : d.gid = g
    · simp [hd, ht]
    · simp [hd]

theorem studentsView_mapGroup (db : DB) (g g' : Id) (f : GroupDoc → GroupDoc)
    (hgid : ∀ d, (f d).gid = d.gid) (ht : ∀ d, (f d).students = d.students) :
    studentsView (mapGroup db g f) g' = studentsView db g' := by
  unfold studentsView
  rw [findGroup_mapGroup db g g' f hgid]
  cases findGroup db g' with
  | none => rfl
  | some d =>
    by_cases hd : d.gid = g
    · simp [hd, ht]
    · simp [hd]

theorem teachersView_groupAddStudent (db : DB) (g s : Id) (g' : Id) :
    teachersView (groupAddStudent db g s) g' = teachersView db g' :=
  teachersView_mapGroup db g g' _ (fun _ => rfl) (fun _ => rfl)

theorem teachersView_groupPullStudent (db : DB) (g s : Id) (g' : Id) :
    teachersView (groupPullStudent db g s) g' = teachersView db g' :=
  teachersView_mapGroup db g g' _ (fun _ => rfl) (fun _ => rfl)

theorem teachersView_groupAddParent (db : DB) (g p : Id) (g' : Id) :
    teachersView (groupAddParent db g p) g' = teachersView db g' :=
  teachersView_mapGroup db g g' _ (fun _ => rfl) (fun _ => rfl)

theorem teachersView_groupPullParent (db : DB) (g p : Id) (g' : Id) :
    teachersView (groupPullParent db g p) g' = teachersView db g' :=
  teachersView_mapGroup db g g' _ (fun _ => rfl) (fun _ => rfl)

theorem studentsView_groupAddParent (db : DB) (g p : Id) (g' : Id) :
    studentsView (groupAddParent db g p) g' = studentsView db g' :=
  studentsView_mapGroup db g g' _ (fun _ => rfl) (fun _ => rfl)

theorem studentsView_groupPullParent (db : DB) (g p : Id) (g' : Id) :
    studentsView (groupPullParent db g p) g' = studentsView db g' :=
  studentsView_mapGroup db g g' _ (fun _ => rfl) (fun _ => rfl)

theorem teachersView_saveStudent (db : DB) (st : StudentDoc) (g' : Id) :
    teachersView (saveStudent db st) g' = teachersView db g' :=
  teachersView_of_groups_eq _ _ rfl g'

theorem teachersView_ensureParent (db : DB) (g p : Option Id) (g' : Id) :
    teachersView (ensureParentInGroup db g p) g' = teachersView db g' := by
  unfold ensureParentInGroup
  cases g with
  | none => cases p <;> rfl
  | some g0 =>
    cases p with
    | none => rfl
    | some p0 => exact teachersView_groupAddParent db g0 p0 g'

theorem teachersView_removeParent (db : DB) (g p : Option Id) (g' : Id) :
    teachersView (removeParentFromGroupIfUnused db g p) g' = teachersView db g' := by
  unfold removeParentFromGroupIfUnused
  cases g with
  | none => cases p <;> rfl
  | some g0 =>
    cases p with
    | none => rfl
    | some p0 =>
      show teachersView
        (if countStudentsGP db g0 p0 = 0 then groupPullParent db g0 p0 else db) g' =
        teachersView db g'
      split
      · exact teachersView_groupPullParent db g0 p0 g'
      · rfl

theorem studentsView_ensureParent (db : DB) (g p : Option Id) (g' : Id) :
    studentsView (ensureParentInGroup db g p) g' = studentsView db g' := by
  unfold ensureParentInGroup
  cases g with
  | none => cases p <;> rfl
  | some g0 =>
    cases p with
    | none => rfl
    | some p0 => exact studentsView_groupAddParent db g0 p0 g'

theorem studentsView_removeParent (db : DB) (g p : Option Id) (g' : Id) :
    studentsView (removeParentFromGroupIfUnused db g p) g' = studentsView db g' := by
  unfold removeParentFromGroupIfUnused
  cases g with
  | none => cases p <;> rfl
  | some g0 =>
    cases p with
    | none => rfl
    | some p0 =>
      show studentsView
        (if countStudentsGP db g0 p0 = 0 then groupPullParent db g0 p0 else db) g' =
        studentsView db g'
      split
      · exact studentsView_groupPullParent db g0 p0 g'
      · rfl

theorem teachersView_detachStep (gid : Id) (db : DB) (s : Id) (st : StudentDoc) (g' : Id) :
    teachersView (detachStep gid db s st) g' = teachersView db g' := by
  unfold detachStep
  rw [teachersView_removeParent, teachersView_groupPullStudent, teachersView_saveStudent]

theorem teachersView_assignStep (gid : Id) (db : DB) (s : Id) (st : StudentDoc) (g' : Id) :
    teachersView (assignStep gid db s st) g' = teachersView db g' := by
  unfold assignStep
  have hmid : ∀ dbm : DB,
      teachersView (if st.parent ≠ none
        then ensureParentInGroup dbm (some gid) st.parent else dbm) g' =
        teachersView dbm g' := by
    intro dbm
    split
    · exact teachersView_ensureParent dbm (some gid) st.parent g'
    · rfl
  rw [hmid, teachersView_groupAddStudent]
  split
  · rfl
  · cases st.group with
    | none => rw [teachersView_saveStudent]
    | some pg =>
      rw [teachersView_saveStudent, teachersView_removeParent,
        teachersView_groupPullStudent]

theorem teachersView_detachAllStep (gid : Id) (db : DB) (st : StudentDoc) (g' : Id) :
    teachersView (detachAllStep gid db st) g' = teachersView db g' := by
  unfold detachAllStep
  rw [teachersView_removeParent, teachersView_saveStudent]

theorem teachersView_detachListed (gid : Id) (l : List Id) :
    ∀ db g', teachersView (detachListed gid db l) g' = teachersView db g' := by
  induction l with
  | nil => intro db g'; rfl
  | cons s rest ih =>
    intro db g'
    unfold detachListed
    cases findStudent db s with
    | none => exact ih db g'
    | some st => rw [ih, teachersView_detachStep]

theorem teachersView_assignListed (gid : Id) (l : List Id) :
    ∀ db g', teachersView (assignListed gid db l) g' = teachersView db g' := by
  induction l with
  | nil => intro db g'; rfl
  | cons s rest ih =>
    intro db g'
    unfold assignListed
    cases findStudent db s with
    | none => exact ih db g'
    | some st => rw [ih, teachersView_assignStep]

theorem teachersView_detachAll (gid : Id) (l : List Id) :
    ∀ db g', teachersView (detachAll gid db l) g' = teachersView db g' := by
  induction l with
  | nil => intro db g'; rfl
  | cons s rest ih =>
    intro db g'
    unfold detachAll
    cases findStudent db s with
    | none => exact ih db g'
    | some st => rw [ih, teachersView_detachAllStep]

/-- The parent-payload loop never writes to the groups or students
collections, whatever its outcome. -/
theorem processParents_frame (entries : List ParentEntry) :
    ∀ db acc,
      (∀ acc' db2, processParents db acc entries = .ok (acc', db2) →
        db2.groups = db.groups ∧ db2.students = db.students) ∧
      (∀ db', processParents db acc entries = .error db' →
        db'.groups = db.groups ∧ db'.students = db.students) := by
  induction entries with
  | nil =>
    intro db acc
    constructor
    · intro acc' db2 h
      unfold processParents at h
      cases h
      exact ⟨rfl, rfl⟩
    · intro db' h
      unfold processParents at h
      cases h
  | cons e rest ih =>
    intro db acc
    constructor
    · intro acc' db2 h
      unfold processParents at h
      cases hres : resolveEntry db e with
      | none => rw [hres] at h; exact absurd h (by simp)
      | some pr =>
        rw [hres] at h
        obtain ⟨hg, hst⟩ := resolveEntry_frame db e pr.1 pr.2 (by rw [hres])
        have := (ih pr.2 (insertIfAbsent acc pr.1)).1 acc' db2 h
        exact ⟨this.1.trans hg, this.2.trans hst⟩
    · intro db' h
      unfold processParents at h
      cases hres : resolveEntry db e with
      | none =>
        rw [hres] at h
        simp only [Except.error.injEq] at h
        subst h
        exact ⟨rfl, rfl⟩
      | some pr =>
        rw [hres] at h
        obtain ⟨hg, hst⟩ := resolveEntry_frame db e pr.1 pr.2 (by rw [hres])
        have := (ih pr.2 (insertIfAbsent acc pr.1)).2 db' h
        exact ⟨this.1.trans hg, this.2.trans hst⟩

theorem cleanupRemoved_views (gid : Id) (l : List Id) :
    ∀ db, (∀ g', teachersView (cleanupRemoved gid db l) g' = teachersView db g') ∧
      (∀ g', studentsView (cleanupRemoved gid db l) g' = studentsView db g') ∧
      (cleanupRemoved gid db l).students = db.students := by
  induction l with
  | nil => intro db; exact ⟨fun g' => rfl, fun g' => rfl, rfl⟩
  | cons p rest ih =>
    intro db
    unfold cleanupRemoved
    set db1 := removeParentFromGroupIfUnused db (some gid) (some p) with hdb1
    set db2 := if countStudentsP db1 p > 0 ∨ countGroupsP db1 p > 0 then db1 else deleteParent db1 p with hdb2
    have h2t : ∀ g', teachersView db2 g' = teachersView db1 g' := by
      intro g'
      rw [hdb2]
      split
      · rfl
      · exact teachersView_of_groups_eq _ _ rfl g'
    have h2s : ∀ g', studentsView db2 g' = studentsView db1 g' := by
      intro g'
      rw [hdb2]
      split
      · rfl
      · exact studentsView_of_groups_eq _ _ rfl g'
    have h2st : db2.students = db1.students := by
      rw [hdb2]; split <;> rfl
    have h1st : db1.students = db.students := by
      rw [hdb1]
      show (if countStudentsGP db gid p = 0
        then groupPullParent db gid p else db).students = db.students
      split <;> rfl
    refine ⟨?_, ?_, ?_⟩
    · intro g'
      rw [(ih db2).1 g', h2t, hdb1, teachersView_removeParent]
    · intro g'
      rw [(ih db2).2.1 g', h2s, hdb1, studentsView_removeParent]
    · rw [(ih db2).2.2, h2st, h1st]

/-! ## `saveGroup` and the single-group views -/

theorem findGroup_gid (db : DB) (g : Id) (d : GroupDoc) (h : findGroup db g = some d) :
    d.gid = g := by
  have := List.find?_some h
  simpa using this

theorem findGroup_saveGroup (db : DB) (gm : GroupDoc) (g' : Id) :
    findGroup (saveGroup db gm) g' =
      (findGroup db g').map (fun d => if d.gid = gm.gid then gm else d) := by
  unfold findGroup saveGroup mapGroup
  refine find?_map_of_pred db.groups _ _ ?_
  intro d
  by_cases h : d.gid = gm.gid <;> simp [h]

theorem teachersView_saveGroup (db : DB) (gm : GroupDoc) (g' : Id)
    (hmem : ∀ d, findGroup db gm.gid = some d → d.teachers = gm.teachers) :
    teachersView (saveGroup db gm) g' = teachersView db g' := by
  unfold teachersView
  rw [findGroup_saveGroup]
  cases hfind : findGroup db g' with
  | none => rfl
  | some d =>
    have hdg : d.gid = g' := findGroup_gid db g' d hfind
    by_cases hd : d.gid = gm.gid
    · have : g' = gm.gid := hdg ▸ hd
      have hteq := hmem d (this ▸ hfind)
      simp [hd, hteq]
    · simp [hd]

theorem studentsView_saveGroup_self (db : DB) (gm : GroupDoc)
    (h : (findGroup db gm.gid).isSome) :
    studentsView (saveGroup db gm) gm.gid = some gm.students := by
  unfold studentsView
  rw [findGroup_saveGroup]
  cases hf : findGroup db gm.gid with
  | none => rw [hf] at h; simp at h
  | some d =>
    have hdg : d.gid = gm.gid := findGroup_gid db gm.gid d hf
    simp [hdg]

/-- The parent phase keeps every group's teacher list, provided the in-memory
group document carries the teacher list currently stored for its id. -/
theorem teachersView_parentPhase (gid : Id) (gmem : GroupDoc) (req : PatchReq)
    (db : DB) (g' : Id)
    (hmem : ∀ d, findGroup db gmem.gid = some d → d.teachers = gmem.teachers) :
    teachersView (parentPhase gid gmem req db).2 g' = teachersView db g' := by
  unfold parentPhase
  cases h : processParents db (distinctParents db gid) (req.parents.getD []) with
  | error db' =>
    have := (processParents_frame _ db _).2 db' h
    exact teachersView_of_groups_eq _ _ this.1 g'
  | ok pr =>
    obtain ⟨finalIds, db2⟩ := pr
    have hfr := (processParents_frame _ db _).1 finalIds db2 h
    show teachersView (cleanupRemoved gid
      (saveGroup db2 { gmem with parents := finalIds })
      (gmem.parents.filter (· ∉ finalIds))) g' = teachersView db g'
    rw [(cleanupRemoved_views gid _ _).1 g']
    rw [teachersView_saveGroup]
    · exact teachersView_of_groups_eq _ _ hfr.1 g'
    · intro d hd
      have : findGroup db gmem.gid = some d := by
        unfold findGroup at hd ⊢
        rw [← hfr.1]
        exact hd
      exact hmem d this

/-- C9 master lemma: no path of the bulk replace changes any group's
teacher list. -/
theorem teachersView_patchGroupFull (db : DB) (gid : Id) (req : PatchReq) (g' : Id) :
    teachersView (patchGroupFull db gid req).2 g' = teachersView db g' := by
  unfold patchGroupFull
  cases hg : findGroup db gid with
  | none => rfl
  | some g0 =>
    have hg0 : g0.gid = gid := findGroup_gid db gid g0 hg
    have hdbg : teachersView db g0.gid = some g0.teachers := by
      unfold teachersView
      rw [hg0, hg]
      rfl
    simp only
    split
    · rw [teachersView_parentPhase]
      · exact teachersView_detachAll gid g0.students db g'
      · intro d hd
        have h1 : teachersView (detachAll gid db g0.students) g0.gid =
            teachersView db g0.gid := teachersView_detachAll gid g0.students db g0.gid
        have h3 : teachersView (detachAll gid db g0.students) g0.gid = some d.teachers := by
          unfold teachersView
          rw [show findGroup (detachAll gid db g0.students) g0.gid = some d from hd]
          rfl
        exact Option.some.inj ((h3.symm.trans h1).trans hdbg)
    · split
      · rfl
      · rw [teachersView_parentPhase]
        · rw [teachersView_assignListed, teachersView_detachListed]
        · intro d hd
          have h1 : teachersView
              (assignListed gid (detachListed gid db (g0.students.filter (· ∉ requestedIds req)))
                (requestedIds req)) g0.gid = teachersView db g0.gid := by
            rw [teachersView_assignListed, teachersView_detachListed]
          have h3 : teachersView
              (assignListed gid (detachListed gid db (g0.students.filter (· ∉ requestedIds req)))
                (requestedIds req)) g0.gid = some d.teachers := by
            unfold teachersView
            rw [show findGroup
              (assignListed gid (detachListed gid db (g0.students.filter (· ∉ requestedIds req)))
                (requestedIds req)) g0.gid = some d from hd]
            rfl
          exact Option.some.inj ((h3.symm.trans h1).trans hdbg)

/-- C9.  A successful bulk roster replace leaves the target group's teacher
list exactly as it was. -/
theorem patch_preserves_teachers (db : DB) (gid : Id) (req : PatchReq)
    (_hsucc : (patchGroupFull db gid req).1 = 200) :
    teachersView (patchGroupFull db gid req).2 gid = teachersView db gid :=
  teachersView_patchGroupFull db gid req gid

/-- Witness for `patch_preserves_teachers` on the concrete fixture. -/
theorem patch_preserves_teachers_witness :
    teachersView (patchGroupFull fixDB 1 fixReqS2).2 1 = teachersView fixDB 1 :=
  patch_preserves_teachers fixDB 1 fixReqS2 (by decide)

theorem isSome_of_teachersView (db : DB) (g : Id) (l : List Id)
    (h : teachersView db g = some l) : (findGroup db g).isSome := by
  unfold teachersView at h
  cases hf : findGroup db g
  · rw [hf] at h; simp at h
  · rfl

/-- C10.  A successful bulk replace with a non-empty requested roster stores
exactly the requested ids — falsy entries dropped and duplicates removed — as
the group's students, with no duplicate left. -/
theorem patch_sets_students (db : DB) (gid : Id) (req : PatchReq)
    (hne : requestedIds req ≠ [])
    (hsucc : (patchGroupFull db gid req).1 = 200) :
    studentsView (patchGroupFull db gid req).2 gid = some (requestedIds req) ∧
      (requestedIds req).Nodup := by
  refine ⟨?_, requestedIds_nodup req⟩
  unfold patchGroupFull at hsucc ⊢
  cases hg : findGroup db gid with
  | none =>
    rw [hg] at hsucc
    exact absurd hsucc (show (404 : Nat) ≠ 200 by decide)
  | some g0 =>
    rw [hg] at hsucc
    have hg0 : g0.gid = gid := findGroup_gid db gid g0 hg
    have hie : (requestedIds req).isEmpty = false := by
      cases hr : requestedIds req
      · exact absurd hr hne
      · rfl
    simp only [hie, Bool.false_eq_true, if_false] at hsucc ⊢
    by_cases hval : (db.students.filter (·.sid ∈ requestedIds req)).length ≠
        (requestedIds req).length
    · rw [if_pos hval] at hsucc
      exact absurd hsucc (show (400 : Nat) ≠ 200 by decide)
    · rw [if_neg hval] at hsucc ⊢
      set dbR := assignListed gid
        (detachListed gid db (g0.students.filter (· ∉ requestedIds req)))
        (requestedIds req) with hdbR
      unfold parentPhase at hsucc ⊢
      cases hp : processParents dbR (distinctParents dbR gid) (req.parents.getD []) with
      | error db' =>
        rw [hp] at hsucc
        exact absurd hsucc (show (400 : Nat) ≠ 200 by decide)
      | ok pr =>
        obtain ⟨finalIds, db2⟩ := pr
        have hfr := (processParents_frame _ dbR _).1 finalIds db2 hp
        show studentsView (cleanupRemoved gid
          (saveGroup db2 { g0 with
            name := match req.name with | some n => trimS n | none => g0.name
            location := match req.location with | some l => trimS l | none => g0.location
            description := match req.description with | some d => d | none => g0.description
            students := requestedIds req
            parents := finalIds })
          (g0.parents.filter (· ∉ finalIds))) gid = some (requestedIds req)
        rw [(cleanupRemoved_views gid _ _).2.1 gid]
        have hsome : (findGroup db2 g0.gid).isSome := by
          refine isSome_of_teachersView db2 g0.gid g0.teachers ?_
          have h2 : teachersView db2 g0.gid = teachersView dbR g0.gid :=
            teachersView_of_groups_eq _ _ hfr.1 g0.gid
          have h1 : teachersView dbR g0.gid = teachersView db g0.gid := by
            rw [hdbR, teachersView_assignListed, teachersView_detachListed]
          rw [h2, h1]
          unfold teachersView
          rw [hg0, hg]
          rfl
        have := studentsView_saveGroup_self db2
          { g0 with
            name := match req.name with | some n => trimS n | none => g0.name
            location := match req.location with | some l => trimS l | none => g0.location
            description := match req.description with | some d => d | none => g0.description
            students := requestedIds req
            parents := finalIds } hsome
        rw [← hg0]
        exact this

/-- Witness for `patch_sets_students` on the concrete fixture. -/
theorem patch_sets_students_witness :
    studentsView (patchGroupFull fixDB 1 fixReqS2).2 1 = some (requestedIds fixReqS2) ∧
      (requestedIds fixReqS2).Nodup :=
  patch_sets_students fixDB 1 fixReqS2 (by decide) (by decide)

/-! ## C6: a missing email aborts the parent loop without undoing roster
mutations -/

/-- The student-roster part of the bulk replace, before parent processing. -/
def rosterPhase (db : DB) (gid : Id) (g0 : GroupDoc) (req : PatchReq) : DB :=
  if (requestedIds req).isEmpty then detachAll gid db g0.students
  else assignListed gid
    (detachListed gid db (g0.students.filter (· ∉ requestedIds req)))
    (requestedIds req)

theorem processParents_ok_of_valid (pre : List ParentEntry) :
    ∀ db acc, (∀ e ∈ pre, validEmail e) →
      ∃ acc' db', processParents db acc pre = .ok (acc', db') := by
  induction pre with
  | nil => intro db acc _; exact ⟨acc, db, rfl⟩
  | cons e rest ih =>
    intro db acc hv
    have hsome := resolveEntry_isSome db e (hv e (List.mem_cons_self e rest))
    cases hres : resolveEntry db e with
    | none => rw [hres] at hsome; simp at hsome
    | some pr =>
      obtain ⟨acc', db', hrec⟩ := ih pr.2 (insertIfAbsent acc pr.1)
        (fun x hx => hv x (List.mem_cons_of_mem e hx))
      refine ⟨acc', db', ?_⟩
      unfold processParents
      rw [hres]
      exact hrec

theorem processParents_append_error (pre : List ParentEntry) :
    ∀ db acc acc' db' (bad : ParentEntry) (post : List ParentEntry),
      processParents db acc pre = .ok (acc', db') → ¬ validEmail bad →
      processParents db acc (pre ++ bad :: post) = .error db' := by
  induction pre with
  | nil =>
    intro db acc acc' db' bad post hok hbad
    unfold processParents at hok
    cases hok
    show processParents db acc (bad :: post) = .error db
    unfold processParents
    rw [resolveEntry_none db bad hbad]
  | cons e rest ih =>
    intro db acc acc' db' bad post hok hbad
    show processParents db acc (e :: (rest ++ bad :: post)) = .error db'
    unfold processParents at hok ⊢
    cases hres : resolveEntry db e with
    | none => rw [hres] at hok; exact absurd hok (by simp)
    | some pr =>
      obtain ⟨pid, dbn⟩ := pr
      rw [hres] at hok
      exact ih dbn (insertIfAbsent acc pid) acc' db' bad post hok hbad

/-- C6.  When the parent payload contains an entry with a missing or empty
email after a run of valid entries, the bulk replace returns 400, processes
only the entries before the bad one, and keeps every student mutation the
roster part already made. -/
theorem patch_bad_parent_email (db : DB) (gid : Id) (req : PatchReq)
    (g0 : GroupDoc) (pre post : List ParentEntry) (bad : ParentEntry)
    (hg : findGroup db gid = some g0)
    (hval : (requestedIds req).isEmpty = true ∨
      (db.students.filter (·.sid ∈ requestedIds req)).length = (requestedIds req).length)
    (hsplit : req.parents = some (pre ++ bad :: post))
    (hpre : ∀ e ∈ pre, validEmail e)
    (hbad : ¬ validEmail bad) :
    ∃ acc dbp,
      processParents (rosterPhase db gid g0 req)
        (distinctParents (rosterPhase db gid g0 req) gid) pre = .ok (acc, dbp) ∧
      patchGroupFull db gid req = (400, dbp) ∧
      dbp.students = (rosterPhase db gid g0 req).students := by
  obtain ⟨acc, dbp, hok⟩ := processParents_ok_of_valid pre (rosterPhase db gid g0 req)
    (distinctParents (rosterPhase db gid g0 req) gid) hpre
  refine ⟨acc, dbp, hok, ?_, ((processParents_frame pre _ _).1 acc dbp hok).2⟩
  have herr := processParents_append_error pre (rosterPhase db gid g0 req)
    (distinctParents (rosterPhase db gid g0 req) gid) acc dbp bad post hok hbad
  unfold patchGroupFull
  rw [hg]
  simp only []
  cases hie : (requestedIds req).isEmpty with
  | true =>
    have hrp : rosterPhase db gid g0 req = detachAll gid db g0.students := by
      unfold rosterPhase
      rw [hie]
      rfl
    unfold parentPhase
    rw [← hrp]
    rw [hsplit]
    simp only [Option.getD_some]
    rw [herr]
    simp
  | false =>
    have hlen : ¬ (db.students.filter (·.sid ∈ requestedIds req)).length ≠
        (requestedIds req).length := by
      rcases hval with h | h
      · rw [hie] at h; exact absurd h (by decide)
      · exact fun hc => hc h
    have hrp : rosterPhase db gid g0 req = assignListed gid
        (detachListed gid db (g0.students.filter (· ∉ requestedIds req)))
        (requestedIds req) := by
      unfold rosterPhase
      rw [hie]
      rfl
    unfold parentPhase
    rw [← hrp]
    rw [hsplit]
    simp only [Option.getD_some]
    rw [herr]
    simp [hlen]

/-- Witness for `patch_bad_parent_email`: a valid entry followed by an entry
with no email on the concrete fixture. -/
theorem patch_bad_parent_email_witness :
    ∃ acc dbp,
      processParents
        (rosterPhase fixDB 1 fixG
          { name := none, location := none, description := none
            studentIds := some [some 11]
            parents := some [⟨some "b@x.com", some "New Parent"⟩, ⟨none, some "No Email"⟩] })
        (distinctParents
          (rosterPhase fixDB 1 fixG
            { name := none, location := none, description := none
              studentIds := some [some 11]
              parents := some [⟨some "b@x.com", some "New Parent"⟩, ⟨none, some "No Email"⟩] }) 1)
        [⟨some "b@x.com", some "New Parent"⟩] = .ok (acc, dbp) ∧
      patchGroupFull fixDB 1
        { name := none, location := none, description := none
          studentIds := some [some 11]
          parents := some [⟨some "b@x.com", some "New Parent"⟩, ⟨none, some "No Email"⟩] } =
        (400, dbp) ∧
      dbp.students =
        (rosterPhase fixDB 1 fixG
          { name := none, location := none, description := none
            studentIds := some [some 11]
            parents := some [⟨some "b@x.com", some "New Parent"⟩, ⟨none, some "No Email"⟩] }).students :=
  patch_bad_parent_email fixDB 1 _ fixG
    [⟨some "b@x.com", some "New Parent"⟩] [] ⟨none, some "No Email"⟩
    (by decide) (Or.inr (by decide)) rfl
    (by
      intro e he
      simp only [List.mem_singleton] at he
      subst he
      exact ⟨"b@x.com", rfl, by decide⟩)
    (by
      rintro ⟨raw, hraw, -⟩
      simp at hraw)

/-! ## Well-formedness of a store state: `_id`s are unique per collection and
all ids in use are below the fresh-id source. -/

def WF (db : DB) : Prop :=
  (db.groups.map (·.gid)).Nodup ∧
  (db.students.map (·.sid)).Nodup ∧
  (db.parents.map (·.pid)).Nodup ∧
  (∀ g ∈ db.groups, g.gid < db.nextId) ∧
  (∀ s ∈ db.students, s.sid < db.nextId) ∧
  (∀ p ∈ db.parents, p.pid < db.nextId) ∧
  (∀ s ∈ db.students, ∀ p, s.parent = some p → p < db.nextId)

/-- The database invariants of the specification, §3.  Invariant 1: a
student's group lists the student. -/
def inv1 (db : DB) : Prop :=
  ∀ s ∈ db.students, ∀ g gd, s.group = some g → findGroup db g = some gd →
    s.sid ∈ gd.students

/-- Invariant 2: a student's parent lists the student, and the parent is in
the parents set of the student's group. -/
def inv2 (db : DB) : Prop :=
  ∀ s ∈ db.students, ∀ p pd, s.parent = some p → findParent db p = some pd →
    s.sid ∈ pd.students ∧
    (∀ g gd, s.group = some g → findGroup db g = some gd → p ∈ gd.parents)

/-- Invariant 3 (orphan rule): a parent with an empty `students` set is
referenced by some group's `parents` set. -/
def orphanFree (db : DB) : Prop :=
  ∀ p ∈ db.parents, p.students = [] → ∃ g ∈ db.groups, p.pid ∈ g.parents

/-- No student references this parent id through its `parent` field. -/
def zeroRef (db : DB) (p : Id) : Prop := ∀ s ∈ db.students, s.parent ≠ some p

/-! ## Toolkit: keys, find?, membership -/

theorem eq_of_map_nodup {α β : Type} (k : α → β) (l : List α)
    (h : (l.map k).Nodup) (a b : α) (ha : a ∈ l) (hb : b ∈ l) (hk : k a = k b) :
    a = b := by
  induction l with
  | nil => simp at ha
  | cons c cs ih =>
    simp only [List.map_cons, List.nodup_cons] at h
    rcases List.mem_cons.mp ha with ha1 | ha2
    · rcases List.mem_cons.mp hb with hb1 | hb2
      · rw [ha1, hb1]
      · subst ha1
        exact absurd (by rw [hk]; exact List.mem_map_of_mem k hb2) h.1
    · rcases List.mem_cons.mp hb with hb1 | hb2
      · subst hb1
        exact absurd (by rw [← hk]; exact List.mem_map_of_mem k ha2) h.1
      · exact ih h.2 ha2 hb2

theorem findStudent_mem (db : DB) (s : Id) (d : StudentDoc)
    (h : findStudent db s = some d) : d ∈ db.students ∧ d.sid = s := by
  refine ⟨List.mem_of_find?_eq_some h, ?_⟩
  have := List.find?_some h
  simpa using this

theorem findParent_mem (db : DB) (p : Id) (d : ParentDoc)
    (h : findParent db p = some d) : d ∈ db.parents ∧ d.pid = p := by
  refine ⟨List.mem_of_find?_eq_some h, ?_⟩
  have := List.find?_some h
  simpa using this

theorem findGroup_mem (db : DB) (g : Id) (d : GroupDoc)
    (h : findGroup db g = some d) : d ∈ db.groups ∧ d.gid = g := by
  refine ⟨List.mem_of_find?_eq_some h, ?_⟩
  have := List.find?_some h
  simpa using this

theorem findParentByEmail_mem (db : DB) (q : String) (d : ParentDoc)
    (h : findParentByEmail db q = some d) : d ∈ db.parents ∧ d.email = normEmail q := by
  refine ⟨List.mem_of_find?_eq_some h, ?_⟩
  have := List.find?_some h
  simpa using this

/-- Under unique sids, `findStudent` returns any member with the queried id. -/
theorem findStudent_of_mem (db : DB) (hn : (db.students.map (·.sid)).Nodup)
    (d : StudentDoc) (hd : d ∈ db.students) : findStudent db d.sid = some d := by
  cases hf : findStudent db d.sid with
  | none =>
    have := List.find?_eq_none.mp hf d hd
    simp at this
  | some d' =>
    obtain ⟨hmem, hsid⟩ := findStudent_mem db d.sid d' hf
    have heq : d' = d := eq_of_map_nodup (·.sid) db.students hn d' d hmem hd (by simpa using hsid)
    rw [heq]

theorem findGroup_of_mem (db : DB) (hn : (db.groups.map (·.gid)).Nodup)
    (d : GroupDoc) (hd : d ∈ db.groups) : findGroup db d.gid = some d := by
  cases hf : findGroup db d.gid with
  | none =>
    have := List.find?_eq_none.mp hf d hd
    simp at this
  | some d' =>
    obtain ⟨hmem, hgid⟩ := findGroup_mem db d.gid d' hf
    have heq : d' = d := eq_of_map_nodup (·.gid) db.groups hn d' d hmem hd (by simpa using hgid)
    rw [heq]

theorem findParent_of_mem (db : DB) (hn : (db.parents.map (·.pid)).Nodup)
    (d : ParentDoc) (hd : d ∈ db.parents) : findParent db d.pid = some d := by
  cases hf : findParent db d.pid with
  | none =>
    have := List.find?_eq_none.mp hf d hd
    simp at this
  | some d' =>
    obtain ⟨hmem, hpid⟩ := findParent_mem db d.pid d' hf
    have heq : d' = d := eq_of_map_nodup (·.pid) db.parents hn d' d hmem hd (by simpa using hpid)
    rw [heq]

/-! ## Toolkit: map-key preservation -/

theorem map_key_of_pres {α β : Type} (t : α → α) (k : α → β) (l : List α)
    (h : ∀ a ∈ l, k (t a) = k a) : (l.map t).map k = l.map k := by
  induction l with
  | nil => rfl
  | cons a as ih =>
    simp only [List.map_cons]
    rw [h a (List.mem_cons_self a as), ih (fun x hx => h x (List.mem_cons_of_mem a hx))]

theorem ensureParent_students (db : DB) (g p : Option Id) :
    (ensureParentInGroup db g p).students = db.students := by
  unfold ensureParentInGroup
  cases g with
  | none => cases p <;> rfl
  | some g0 => cases p <;> rfl

theorem removeParent_students (db : DB) (g p : Option Id) :
    (removeParentFromGroupIfUnused db g p).students = db.students := by
  unfold removeParentFromGroupIfUnused
  cases g with
  | none => cases p <;> rfl
  | some g0 =>
    cases p with
    | none => rfl
    | some p0 =>
      show (if countStudentsGP db g0 p0 = 0
        then groupPullParent db g0 p0 else db).students = db.students
      split <;> rfl

theorem saveStudent_sidMap (db : DB) (st : StudentDoc) :
    (saveStudent db st).students.map (·.sid) = db.students.map (·.sid) := by
  unfold saveStudent mapStudent
  refine map_key_of_pres _ _ _ ?_
  intro d _
  by_cases h : d.sid = st.sid <;> simp [h]

/-- The `group`-erasing key of a student document: everything the roster
loops leave untouched. -/
def sKey (s : StudentDoc) : StudentDoc := { s with group := none }

theorem saveStudent_sKeyMap (db : DB) (st : StudentDoc) (x : Option Id)
    (hn : (db.students.map (·.sid)).Nodup) (hmem : st ∈ db.students) :
    (saveStudent db { st with group := x }).students.map sKey =
      db.students.map sKey := by
  unfold saveStudent mapStudent
  refine map_key_of_pres _ _ _ ?_
  intro d hd
  by_cases h : d.sid = st.sid
  · have : d = st := eq_of_map_nodup (·.sid) db.students hn d st hd hmem (by simpa using h)
    subst this
    simp [h, sKey]
  · simp [h]

/-! ## Roster-loop characterizations of the students collection -/

theorem detachStep_sidMap (gid : Id) (db : DB) (s : Id) (st : StudentDoc) :
    (detachStep gid db s st).students.map (·.sid) = db.students.map (·.sid) := by
  unfold detachStep
  rw [removeParent_students]
  exact saveStudent_sidMap db _

theorem detachAllStep_sidMap (gid : Id) (db : DB) (st : StudentDoc) :
    (detachAllStep gid db st).students.map (·.sid) = db.students.map (·.sid) := by
  unfold detachAllStep
  rw [removeParent_students]
  exact saveStudent_sidMap db _

theorem assignStep_sidMap (gid : Id) (db : DB) (s : Id) (st : StudentDoc) :
    (assignStep gid db s st).students.map (·.sid) = db.students.map (·.sid) := by
  unfold assignStep
  have hmid : ∀ dbm : DB,
      (if st.parent ≠ none then ensureParentInGroup dbm (some gid) st.parent
        else dbm).students = dbm.students := by
    intro dbm
    split
    · rw [ensureParent_students]
    · rfl
  rw [hmid]
  show (if st.group = some gid then db
    else saveStudent (match st.group with
      | some pg => removeParentFromGroupIfUnused (groupPullStudent db pg s) (some pg) st.parent
      | none => db) { st with group := some gid }).students.map (·.sid)
    = db.students.map (·.sid)
  split
  · rfl
  · rw [saveStudent_sidMap]
    cases st.group with
    | none => rfl
    | some pg =>
      rw [removeParent_students]
      rfl

theorem detachListed_sidMap (gid : Id) (l : List Id) :
    ∀ db, (detachListed gid db l).students.map (·.sid) = db.students.map (·.sid) := by
  induction l with
  | nil => intro db; rfl
  | cons s rest ih =>
    intro db
    unfold detachListed
    cases findStudent db s with
    | none => exact ih db
    | some st => rw [ih, detachStep_sidMap]

theorem detachAll_sidMap (gid : Id) (l : List Id) :
    ∀ db, (detachAll gid db l).students.map (·.sid) = db.students.map (·.sid) := by
  induction l with
  | nil => intro db; rfl
  | cons s rest ih =>
    intro db
    unfold detachAll
    cases findStudent db s with
    | none => exact ih db
    | some st => rw [ih, detachAllStep_sidMap]

theorem assignListed_sidMap (gid : Id) (l : List Id) :
    ∀ db, (assignListed gid db l).students.map (·.sid) = db.students.map (·.sid) := by
  induction l with
  | nil => intro db; rfl
  | cons s rest ih =>
    intro db
    unfold assignListed
    cases findStudent db s with
    | none => exact ih db
    | some st => rw [ih, assignStep_sidMap]

/-! ## Everything but the `group` field of students is invariant through the
roster loops (under unique sids) -/

theorem detachStep_sKeyMap (gid : Id) (db : DB) (s : Id) (st : StudentDoc)
    (hn : (db.students.map (·.sid)).Nodup) (hf : findStudent db s = some st) :
    (detachStep gid db s st).students.map sKey = db.students.map sKey := by
  unfold detachStep
  rw [removeParent_students]
  exact saveStudent_sKeyMap db st none hn (findStudent_mem db s st hf).1

theorem detachAllStep_sKeyMap (gid : Id) (db : DB) (s : Id) (st : StudentDoc)
    (hn : (db.students.map (·.sid)).Nodup) (hf : findStudent db s = some st) :
    (detachAllStep gid db st).students.map sKey = db.students.map sKey := by
  unfold detachAllStep
  rw [removeParent_students]
  exact saveStudent_sKeyMap db st none hn (findStudent_mem db s st hf).1

theorem assignStep_sKeyMap (gid : Id) (db : DB) (s : Id) (st : StudentDoc)
    (hn : (db.students.map (·.sid)).Nodup) (hf : findStudent db s = some st) :
    (assignStep gid db s st).students.map sKey = db.students.map sKey := by
  unfold assignStep
  have hmid : ∀ dbm : DB,
      (if st.parent ≠ none then ensureParentInGroup dbm (some gid) st.parent
        else dbm).students = dbm.students := by
    intro dbm
    split
    · rw [ensureParent_students]
    · rfl
  rw [hmid]
  show (if st.group = some gid then db
    else saveStudent (match st.group with
      | some pg => removeParentFromGroupIfUnused (groupPullStudent db pg s) (some pg) st.parent
      | none => db) { st with group := some gid }).students.map sKey
    = db.students.map sKey
  split
  · rfl
  · cases hg : st.group with
    | none => exact saveStudent_sKeyMap db st (some gid) hn (findStudent_mem db s st hf).1
    | some pg =>
      have hcoll : (removeParentFromGroupIfUnused (groupPullStudent db pg s)
          (some pg) st.parent).students = db.students := by
        rw [removeParent_students]
        rfl
      have hn' : ((removeParentFromGroupIfUnused (groupPullStudent db pg s)
          (some pg) st.parent).students.map (·.sid)).Nodup := by
        rw [hcoll]; exact hn
      have hmem' : st ∈ (removeParentFromGroupIfUnused (groupPullStudent db pg s)
          (some pg) st.parent).students := by
        rw [hcoll]; exact (findStudent_mem db s st hf).1
      have := saveStudent_sKeyMap _ st (some gid) hn' hmem'
      rw [this, hcoll]

theorem detachListed_sKeyMap (gid : Id) (l : List Id) :
    ∀ db, (db.students.map (·.sid)).Nodup →
      (detachListed gid db l).students.map sKey = db.students.map sKey := by
  induction l with
  | nil => intro db _; rfl
  | cons s rest ih =>
    intro db hn
    unfold detachListed
    cases hf : findStudent db s with
    | none => exact ih db hn
    | some st =>
      have hn' : ((detachStep gid db s st).students.map (·.sid)).Nodup := by
        rw [detachStep_sidMap]; exact hn
      rw [ih _ hn', detachStep_sKeyMap gid db s st hn hf]

theorem detachAll_sKeyMap (gid : Id) (l : List Id) :
    ∀ db, (db.students.map (·.sid)).Nodup →
      (detachAll gid db l).students.map sKey = db.students.map sKey := by
  induction l with
  | nil => intro db _; rfl
  | cons s rest ih =>
    intro db hn
    unfold detachAll
    cases hf : findStudent db s with
    | none => exact ih db hn
    | some st =>
      have hn' : ((detachAllStep gid db st).students.map (·.sid)).Nodup := by
        rw [detachAllStep_sidMap]; exact hn
      rw [ih _ hn', detachAllStep_sKeyMap gid db s st hn hf]

theorem assignListed_sKeyMap (gid : Id) (l : List Id) :
    ∀ db, (db.students.map (·.sid)).Nodup →
      (assignListed gid db l).students.map sKey = db.students.map sKey := by
  induction l with
  | nil => intro db _; rfl
  | cons s rest ih =>
    intro db hn
    unfold assignListed
    cases hf : findStudent db s with
    | none => exact ih db hn
    | some st =>
      have hn' : ((assignStep gid db s st).students.map (·.sid)).Nodup := by
        rw [assignStep_sidMap]; exact hn
      rw [ih _ hn', assignStep_sKeyMap gid db s st hn hf]

/-! ## `findStudent` through the roster loops -/

theorem findStudent_saveStudent (db : DB) (st : StudentDoc) (s' : Id) :
    findStudent (saveStudent db st) s' =
      (findStudent db s').map (fun d => if d.sid = st.sid then st else d) := by
  unfold findStudent saveStudent mapStudent
  refine find?_map_of_pred _ _ _ ?_
  intro d
  by_cases h : d.sid = st.sid <;> simp [h]

theorem findStudent_detachStep (gid : Id) (db : DB) (s : Id) (st : StudentDoc) (s' : Id)
    (hf : findStudent db s = some st) :
    findStudent (detachStep gid db s st) s' =
      if s' = s then some { st with group := none } else findStudent db s' := by
  obtain ⟨hmem, hsid⟩ := findStudent_mem db s st hf
  unfold detachStep
  have hcoll : findStudent (removeParentFromGroupIfUnused (groupPullStudent
      (saveStudent db { st with group := none }) gid s) (some gid) st.parent) s'
      = findStudent (saveStudent db { st with group := none }) s' := by
    unfold findStudent
    rw [removeParent_students]
    rfl
  rw [hcoll, findStudent_saveStudent]
  by_cases hs : s' = s
  · subst hs
    rw [hf, if_pos rfl]
    simp
  · rw [if_neg hs]
    cases hfs : findStudent db s' with
    | none => rfl
    | some d =>
      have hd : d.sid = s' := (findStudent_mem db s' d hfs).2
      have : ¬ d.sid = st.sid := by
        rw [hd, hsid]
        exact hs
      simp [this]

theorem findStudent_detachAllStep (gid : Id) (db : DB) (s : Id) (st : StudentDoc) (s' : Id)
    (hf : findStudent db s = some st) :
    findStudent (detachAllStep gid db st) s' =
      if s' = s then some { st with group := none } else findStudent db s' := by
  obtain ⟨hmem, hsid⟩ := findStudent_mem db s st hf
  unfold detachAllStep
  have hcoll : findStudent (removeParentFromGroupIfUnused
      (saveStudent db { st with group := none }) (some gid) st.parent) s'
      = findStudent (saveStudent db { st with group := none }) s' := by
    unfold findStudent
    rw [removeParent_students]
  rw [hcoll, findStudent_saveStudent]
  by_cases hs : s' = s
  · subst hs
    rw [hf, if_pos rfl]
    simp
  · rw [if_neg hs]
    cases hfs : findStudent db s' with
    | none => rfl
    | some d =>
      have hd : d.sid = s' := (findStudent_mem db s' d hfs).2
      have : ¬ d.sid = st.sid := by
        rw [hd, hsid]
        exact hs
      simp [this]

theorem setGroup_self (st : StudentDoc) (x : Option Id) (h : st.group = x) :
    { st with group := x } = st := by
  cases st
  simp_all

theorem findStudent_assignStep (gid : Id) (db : DB) (s : Id) (st : StudentDoc) (s' : Id)
    (hf : findStudent db s = some st) :
    findStudent (assignStep gid db s st) s' =
      if s' = s then some { st with group := some gid } else findStudent db s' := by
  obtain ⟨hmem, hsid⟩ := findStudent_mem db s st hf
  unfold assignStep
  have hmid : ∀ dbm : DB,
      findStudent (if st.parent ≠ none then ensureParentInGroup dbm (some gid) st.parent
        else dbm) s' = findStudent dbm s' := by
    intro dbm
    unfold findStudent
    split
    · rw [ensureParent_students]
    · rfl
  rw [hmid]
  have hadd : ∀ dbm : DB, findStudent (groupAddStudent dbm gid s) s' = findStudent dbm s' :=
    fun dbm => rfl
  rw [hadd]
  split
  · rename_i hgr
    by_cases hs : s' = s
    · subst hs
      rw [hf, if_pos rfl, setGroup_self st (some gid) hgr]
    · rw [if_neg hs]
  · rename_i hgr
    have hcoll : findStudent (match st.group with
        | some pg => removeParentFromGroupIfUnused (groupPullStudent db pg s) (some pg) st.parent
        | none => db) s' = findStudent db s' := by
      cases st.group with
      | none => rfl
      | some pg =>
        unfold findStudent
        rw [removeParent_students]
        rfl
    have hsave := findStudent_saveStudent (match st.group with
        | some pg => removeParentFromGroupIfUnused (groupPullStudent db pg s) (some pg) st.parent
        | none => db) { st with group := some gid } s'
    rw [hsave, hcoll]
    by_cases hs : s' = s
    · subst hs
      rw [hf, if_pos rfl]
      simp
    · rw [if_neg hs]
      cases hfs : findStudent db s' with
      | none => rfl
      | some d =>
        have hd : d.sid = s' := (findStudent_mem db s' d hfs).2
        have : ¬ d.sid = st.sid := by
          rw [hd, hsid]
          exact hs
        simp [this]

theorem findStudent_detachListed (gid : Id) (l : List Id) :
    ∀ db s', findStudent (detachListed gid db l) s' =
      if s' ∈ l then (findStudent db s').map (fun d => { d with group := none })
      else findStudent db s' := by
  induction l with
  | nil =>
    intro db s'
    simp [detachListed]
  | cons s rest ih =>
    intro db s'
    unfold detachListed
    cases hf : findStudent db s with
    | none =>
      rw [ih db s']
      by_cases hr : s' ∈ rest
      · rw [if_pos hr, if_pos (List.mem_cons_of_mem s hr)]
      · rw [if_neg hr]
        by_cases hs : s' = s
        · subst hs
          rw [if_pos (List.mem_cons_self s' rest), hf]
          rfl
        · rw [if_neg (by simp [hs, hr])]
    | some st =>
      rw [ih _ s', findStudent_detachStep gid db s st s' hf]
      by_cases hr : s' ∈ rest
      · rw [if_pos hr, if_pos (List.mem_cons_of_mem s hr)]
        by_cases hs : s' = s
        · subst hs
          rw [if_pos rfl, hf]
          rfl
        · rw [if_neg hs]
      · rw [if_neg hr]
        by_cases hs : s' = s
        · subst hs
          rw [if_pos rfl, if_pos (List.mem_cons_self s' rest), hf]
          rfl
        · rw [if_neg hs, if_neg (by simp [hs, hr])]

theorem findStudent_detachAll (gid : Id) (l : List Id) :
    ∀ db s', findStudent (detachAll gid db l) s' =
      if s' ∈ l then (findStudent db s').map (fun d => { d with group := none })
      else findStudent db s' := by
  induction l with
  | nil =>
    intro db s'
    simp [detachAll]
  | cons s rest ih =>
    intro db s'
    unfold detachAll
    cases hf : findStudent db s with
    | none =>
      rw [ih db s']
      by_cases hr : s' ∈ rest
      · rw [if_pos hr, if_pos (List.mem_cons_of_mem s hr)]
      · rw [if_neg hr]
        by_cases hs : s' = s
        · subst hs
          rw [if_pos (List.mem_cons_self s' rest), hf]
          rfl
        · rw [if_neg (by simp [hs, hr])]
    | some st =>
      rw [ih _ s', findStudent_detachAllStep gid db s st s' hf]
      by_cases hr : s' ∈ rest
      · rw [if_pos hr, if_pos (List.mem_cons_of_mem s hr)]
        by_cases hs : s' = s
        · subst hs
          rw [if_pos rfl, hf]
          rfl
        · rw [if_neg hs]
      · rw [if_neg hr]
        by_cases hs : s' = s
        · subst hs
          rw [if_pos rfl, if_pos (List.mem_cons_self s' rest), hf]
          rfl
        · rw [if_neg hs, if_neg (by simp [hs, hr])]

theorem findStudent_assignListed (gid : Id) (l : List Id) :
    ∀ db s', findStudent (assignListed gid db l) s' =
      if s' ∈ l then (findStudent db s').map (fun d => { d with group := some gid })
      else findStudent db s' := by
  induction l with
  | nil =>
    intro db s'
    simp [assignListed]
  | cons s rest ih =>
    intro db s'
    unfold assignListed
    cases hf : findStudent db s with
    | none =>
      rw [ih db s']
      by_cases hr : s' ∈ rest
      · rw [if_pos hr, if_pos (List.mem_cons_of_mem s hr)]
      · rw [if_neg hr]
        by_cases hs : s' = s
        · subst hs
          rw [if_pos (List.mem_cons_self s' rest), hf]
          rfl
        · rw [if_neg (by simp [hs, hr])]
    | some st =>
      rw [ih _ s', findStudent_assignStep gid db s st s' hf]
      by_cases hr : s' ∈ rest
      · rw [if_pos hr, if_pos (List.mem_cons_of_mem s hr)]
        by_cases hs : s' = s
        · subst hs
          rw [if_pos rfl, hf]
          rfl
        · rw [if_neg hs]
      · rw [if_neg hr]
        by_cases hs : s' = s
        · subst hs
          rw [if_pos rfl, if_pos (List.mem_cons_self s' rest), hf]
          rfl
        · rw [if_neg hs, if_neg (by simp [hs, hr])]

/-! ## Characterization of the parent-payload loop -/

/-- The fields of a parent document the parent loop never modifies. -/
def carries (q0 q : ParentDoc) : Prop :=
  q.pid = q0.pid ∧ q.email = q0.email ∧ q.students = q0.students ∧ q.phone = q0.phone

theorem carries_refl (q : ParentDoc) : carries q q := ⟨rfl, rfl, rfl, rfl⟩

theorem carries_trans (a b c : ParentDoc) (h1 : carries a b) (h2 : carries b c) :
    carries a c :=
  ⟨h2.1.trans h1.1, h2.2.1.trans h1.2.1, h2.2.2.1.trans h1.2.2.1, h2.2.2.2.trans h1.2.2.2⟩

theorem saveParentNames_char (db : DB) (pid : Id) (f l : String) :
    (∀ q0 ∈ db.parents, ∃ q ∈ (saveParentNames db pid f l).parents, carries q0 q) ∧
    (∀ q ∈ (saveParentNames db pid f l).parents, ∃ q0 ∈ db.parents, carries q0 q) := by
  constructor
  · intro q0 hq0
    refine ⟨_, List.mem_map_of_mem
      (fun d => if d.pid = pid then { d with firstName := f, lastName := l } else d) hq0, ?_⟩
    by_cases h : q0.pid = pid <;> simp [h, carries]
  · intro q hq
    simp only [saveParentNames, mapParent, List.mem_map] at hq
    obtain ⟨q0, hq0, rfl⟩ := hq
    refine ⟨q0, hq0, ?_⟩
    by_cases h : q0.pid = pid <;> simp [h, carries]

theorem condSaveParentNames_char (db : DB) (pid : Id) (c : Prop) [Decidable c]
    (f l : String) :
    (∀ q0 ∈ db.parents,
      ∃ q ∈ (if c then saveParentNames db pid f l else db).parents, carries q0 q) ∧
    (∀ q ∈ (if c then saveParentNames db pid f l else db).parents,
      ∃ q0 ∈ db.parents, carries q0 q) ∧
    db.nextId ≤ (if c then saveParentNames db pid f l else db).nextId := by
  by_cases hc : c
  · rw [if_pos hc]
    exact ⟨(saveParentNames_char db pid f l).1, (saveParentNames_char db pid f l).2,
      le_refl _⟩
  · rw [if_neg hc]
    exact ⟨fun q0 hq0 => ⟨q0, hq0, carries_refl q0⟩,
      fun q hq => ⟨q, hq, carries_refl q⟩, le_refl _⟩

theorem resolveEntry_parents_char (db : DB) (e : ParentEntry) (pid : Id) (db' : DB)
    (h : resolveEntry db e = some (pid, db')) :
    (∀ q0 ∈ db.parents, ∃ q ∈ db'.parents, carries q0 q) ∧
    (∀ q ∈ db'.parents, (∃ q0 ∈ db.parents, carries q0 q) ∨
      (q.students = [] ∧ q.pid = pid ∧ db.nextId ≤ q.pid)) ∧
    db.nextId ≤ db'.nextId := by
  unfold resolveEntry at h
  cases he : e.email with
  | none => rw [he] at h; exact absurd h (by simp)
  | some raw =>
    rw [he] at h
    simp only at h
    split at h
    · exact absurd h (by simp)
    · split at h
      · rename_i hfind
        simp only [createParent, Option.some.injEq, Prod.mk.injEq] at h
        obtain ⟨hpid, rfl⟩ := h
        refine ⟨?_, ?_, by simp⟩
        · intro q0 hq0
          exact ⟨q0, by simp [hq0], carries_refl q0⟩
        · intro q hq
          simp only [List.mem_append, List.mem_singleton] at hq
          rcases hq with hq | rfl
          · exact Or.inl ⟨q, hq, carries_refl q⟩
          · exact Or.inr ⟨rfl, by simp [hpid], le_refl _⟩
      · rename_i p hfind
        simp only [Option.some.injEq, Prod.mk.injEq] at h
        obtain ⟨hpid, rfl⟩ := h
        exact ⟨(condSaveParentNames_char db p.pid _ _ _).1,
          fun q hq => Or.inl ((condSaveParentNames_char db p.pid _ _ _).2.1 q hq),
          (condSaveParentNames_char db p.pid _ _ _).2.2⟩

theorem insertIfAbsent_sub (acc : List Id) (x : Id) : acc ⊆ insertIfAbsent acc x := by
  intro y hy
  rw [mem_insertIfAbsent]
  exact Or.inl hy

theorem processParents_acc_mono (es : List ParentEntry) :
    ∀ db acc acc' db2, processParents db acc es = .ok (acc', db2) → acc ⊆ acc' := by
  induction es with
  | nil =>
    intro db acc acc' db2 h
    unfold processParents at h
    cases h
    exact fun x hx => hx
  | cons e rest ih =>
    intro db acc acc' db2 h
    unfold processParents at h
    cases hres : resolveEntry db e with
    | none => rw [hres] at h; exact absurd h (by simp)
    | some pr =>
      obtain ⟨pid, dbn⟩ := pr
      rw [hres] at h
      exact fun x hx => ih dbn (insertIfAbsent acc pid) acc' db2 h (insertIfAbsent_sub acc pid hx)

theorem processParents_parents_char (es : List ParentEntry) :
    ∀ db acc acc' db2, processParents db acc es = .ok (acc', db2) →
      (∀ q0 ∈ db.parents, ∃ q ∈ db2.parents, carries q0 q) ∧
      (∀ q ∈ db2.parents, (∃ q0 ∈ db.parents, carries q0 q) ∨
        (q.students = [] ∧ q.pid ∈ acc' ∧ db.nextId ≤ q.pid)) ∧
      db.nextId ≤ db2.nextId := by
  induction es with
  | nil =>
    intro db acc acc' db2 h
    unfold processParents at h
    cases h
    exact ⟨fun q0 hq0 => ⟨q0, hq0, carries_refl q0⟩,
      fun q hq => Or.inl ⟨q, hq, carries_refl q⟩, le_refl _⟩
  | cons e rest ih =>
    intro db acc acc' db2 h
    unfold processParents at h
    cases hres : resolveEntry db e with
    | none => rw [hres] at h; exact absurd h (by simp)
    | some pr =>
      obtain ⟨pid, dbn⟩ := pr
      rw [hres] at h
      obtain ⟨hstep1, hstep2, hstepn⟩ := resolveEntry_parents_char db e pid dbn hres
      obtain ⟨hrec1, hrec2, hrecn⟩ := ih dbn (insertIfAbsent acc pid) acc' db2 h
      have hmono := processParents_acc_mono rest dbn (insertIfAbsent acc pid) acc' db2 h
      refine ⟨?_, ?_, hstepn.trans hrecn⟩
      · intro q0 hq0
        obtain ⟨q1, hq1, hc1⟩ := hstep1 q0 hq0
        obtain ⟨q2, hq2, hc2⟩ := hrec1 q1 hq1
        exact ⟨q2, hq2, carries_trans q0 q1 q2 hc1 hc2⟩
      · intro q hq
        rcases hrec2 q hq with ⟨q1, hq1, hc1⟩ | ⟨hst, hacc, hle⟩
        · rcases hstep2 q1 hq1 with ⟨q0, hq0, hc0⟩ | ⟨hst1, hpid1, hle1⟩
          · exact Or.inl ⟨q0, hq0, carries_trans q0 q1 q hc0 hc1⟩
          · refine Or.inr ⟨hc1.2.2.1.trans hst1, ?_, ?_⟩
            · rw [hc1.1, hpid1]
              exact hmono (by rw [mem_insertIfAbsent]; exact Or.inr rfl)
            · rw [hc1.1]
              exact hle1
        · exact Or.inr ⟨hst, hacc, hstepn.trans hle⟩

/-! ## The cleanup loop and `saveGroup`, per group -/

theorem findGroup_mapGroup_ne (db : DB) (g g' : Id) (f : GroupDoc → GroupDoc)
    (hf : ∀ d, d.gid = g → (f d).gid = g) (hne : g' ≠ g) :
    findGroup (mapGroup db g f) g' = findGroup db g' := by
  unfold findGroup mapGroup
  have hp : ∀ d : GroupDoc,
      (fun x => decide (x.gid = g')) (if d.gid = g then f d else d) =
        (fun x => decide (x.gid = g')) d := by
    intro d
    by_cases h : d.gid = g
    · rw [if_pos h]
      show decide ((f d).gid = g') = decide (d.gid = g')
      rw [hf d h, h]
    · rw [if_neg h]
  rw [find?_map_of_pred db.groups _ _ hp]
  cases hfd : db.groups.find? (fun x => decide (x.gid = g')) with
  | none => rfl
  | some d =>
    have hd : d.gid = g' := by simpa using List.find?_some hfd
    simp only [Option.map_some']
    rw [if_neg (by rw [hd]; exact hne)]

theorem findGroup_of_groups_eq (db db' : DB) (h : db'.groups = db.groups) (g : Id) :
    findGroup db' g = findGroup db g := by
  unfold findGroup
  rw [h]

theorem findGroup_mapGroup_self (db : DB) (g : Id) (f : GroupDoc → GroupDoc)
    (hf : ∀ d, (f d).gid = d.gid) :
    findGroup (mapGroup db g f) g = (findGroup db g).map f := by
  rw [findGroup_mapGroup db g g f hf]
  cases hfd : findGroup db g with
  | none => rfl
  | some d =>
    have hd : d.gid = g := findGroup_gid db g d hfd
    simp [hd]

theorem removeParent_parents (db : DB) (g p : Option Id) :
    (removeParentFromGroupIfUnused db g p).parents = db.parents := by
  unfold removeParentFromGroupIfUnused
  cases g with
  | none => cases p <;> rfl
  | some g0 =>
    cases p with
    | none => rfl
    | some p0 =>
      show (if countStudentsGP db g0 p0 = 0
        then groupPullParent db g0 p0 else db).parents = db.parents
      split <;> rfl

theorem ensureParent_parents (db : DB) (g p : Option Id) :
    (ensureParentInGroup db g p).parents = db.parents := by
  unfold ensureParentInGroup
  cases g with
  | none => cases p <;> rfl
  | some g0 => cases p <;> rfl

theorem findGroup_saveGroup_self (db : DB) (gm : GroupDoc)
    (h : (findGroup db gm.gid).isSome) :
    findGroup (saveGroup db gm) gm.gid = some gm := by
  rw [findGroup_saveGroup]
  cases hf : findGroup db gm.gid with
  | none => rw [hf] at h; simp at h
  | some d =>
    have hd : d.gid = gm.gid := findGroup_gid db gm.gid d hf
    simp [hd]

theorem findGroup_saveGroup_ne (db : DB) (gm : GroupDoc) (g' : Id) (h : g' ≠ gm.gid) :
    findGroup (saveGroup db gm) g' = findGroup db g' :=
  findGroup_mapGroup_ne db gm.gid g' _ (fun _ _ => rfl) h

/-- The cleanup loop leaves every group other than the target alone. -/
theorem cleanupRemoved_findGroup_ne (gid : Id) (l : List Id) :
    ∀ db g', g' ≠ gid → findGroup (cleanupRemoved gid db l) g' = findGroup db g' := by
  induction l with
  | nil => intro db g' _; rfl
  | cons p rest ih =>
    intro db g' hne
    unfold cleanupRemoved
    rw [ih _ g' hne]
    have h1 : ∀ dbm : DB, findGroup (removeParentFromGroupIfUnused dbm (some gid) (some p)) g'
        = findGroup dbm g' := by
      intro dbm
      show findGroup (if countStudentsGP dbm gid p = 0
        then groupPullParent dbm gid p else dbm) g' = findGroup dbm g'
      split
      · exact findGroup_mapGroup_ne dbm gid g' _ (fun d hd => hd) hne
      · rfl
    rw [show (if countStudentsP (removeParentFromGroupIfUnused db (some gid) (some p)) p > 0 ∨
        countGroupsP (removeParentFromGroupIfUnused db (some gid) (some p)) p > 0 then
        removeParentFromGroupIfUnused db (some gid) (some p)
      else deleteParent (removeParentFromGroupIfUnused db (some gid) (some p)) p) =
        (if countStudentsP (removeParentFromGroupIfUnused db (some gid) (some p)) p > 0 ∨
        countGroupsP (removeParentFromGroupIfUnused db (some gid) (some p)) p > 0 then
        removeParentFromGroupIfUnused db (some gid) (some p)
      else deleteParent (removeParentFromGroupIfUnused db (some gid) (some p)) p) from rfl]
    split
    · exact h1 db
    · rw [findGroup_of_groups_eq _ _ (deleteParent_groups _ p) g', h1 db]

/-- An id that is not in the cleanup list keeps its membership in the target
group's parents. -/
theorem cleanupRemoved_target_ref (gid : Id) (l : List Id) :
    ∀ db x, x ∉ l → (∀ d, findGroup db gid = some d → x ∈ d.parents) →
      ∀ d', findGroup (cleanupRemoved gid db l) gid = some d' → x ∈ d'.parents := by
  induction l with
  | nil =>
    intro db x _ href d' hd'
    exact href d' hd'
  | cons p rest ih =>
    intro db x hx href d' hd'
    have hxp : x ≠ p := fun hc => hx (hc ▸ List.mem_cons_self p rest)
    have hxr : x ∉ rest := fun hc => hx (List.mem_cons_of_mem p hc)
    unfold cleanupRemoved at hd'
    refine ih _ x hxr ?_ d' hd'
    intro d2 hd2
    have hstep : ∀ dbm : DB, (∀ d, findGroup dbm gid = some d → x ∈ d.parents) →
        ∀ d, findGroup (removeParentFromGroupIfUnused dbm (some gid) (some p)) gid = some d →
          x ∈ d.parents := by
      intro dbm hr d hd
      revert hd
      show findGroup (if countStudentsGP dbm gid p = 0
        then groupPullParent dbm gid p else dbm) gid = some d → x ∈ d.parents
      split
      · show findGroup (mapGroup dbm gid
            (fun d0 => { d0 with parents := pullId d0.parents p })) gid = some d →
            x ∈ d.parents
        rw [findGroup_mapGroup_self dbm gid
          (fun d0 => { d0 with parents := pullId d0.parents p }) (fun _ => rfl)]
        cases hfd : findGroup dbm gid with
        | none => simp
        | some d0 =>
          intro hsome
          simp only [Option.map_some'] at hsome
          cases hsome
          have := hr d0 hfd
          simp [pullId, this, hxp]
      · exact hr d
    revert hd2
    show findGroup (if countStudentsP (removeParentFromGroupIfUnused db (some gid) (some p)) p > 0 ∨
        countGroupsP (removeParentFromGroupIfUnused db (some gid) (some p)) p > 0 then
        removeParentFromGroupIfUnused db (some gid) (some p)
      else deleteParent (removeParentFromGroupIfUnused db (some gid) (some p)) p) gid =
        some d2 → x ∈ d2.parents
    split
    · exact hstep db href d2
    · rw [findGroup_of_groups_eq _ _ (deleteParent_groups _ p) gid]
      exact hstep db href d2

/-- Cleanup only deletes parent documents, never edits them. -/
theorem cleanupRemoved_parents_sub (gid : Id) (l : List Id) :
    ∀ db q, q ∈ (cleanupRemoved gid db l).parents → q ∈ db.parents := by
  induction l with
  | nil => intro db q h; exact h
  | cons p rest ih =>
    intro db q h
    have h1 := ih _ q h
    revert h1
    show q ∈ (if countStudentsP (removeParentFromGroupIfUnused db (some gid) (some p)) p > 0 ∨
        countGroupsP (removeParentFromGroupIfUnused db (some gid) (some p)) p > 0 then
        removeParentFromGroupIfUnused db (some gid) (some p)
      else deleteParent (removeParentFromGroupIfUnused db (some gid) (some p)) p).parents →
      q ∈ db.parents
    split
    · rw [removeParent_parents]
      exact id
    · intro hq
      simp only [deleteParent, removeParent_parents] at hq
      exact List.mem_of_mem_filter hq

/-! ## Reference preservation through the roster loops -/

/-- `q` is listed in `g'`'s parents. -/
def pRef (db : DB) (g' q : Id) : Prop :=
  ∃ d, findGroup db g' = some d ∧ q ∈ d.parents

/-- `x` is listed in `g'`'s students. -/
def sRef (db : DB) (g' x : Id) : Prop :=
  ∃ d, findGroup db g' = some d ∧ x ∈ d.students

theorem pRef_of_groups_eq (db db' : DB) (h : db'.groups = db.groups) (g' q : Id) :
    pRef db g' q → pRef db' g' q := by
  intro ⟨d, hd, hq⟩
  exact ⟨d, (findGroup_of_groups_eq db db' h g').trans hd, hq⟩

theorem pRef_mapGroup (db : DB) (g : Id) (f : GroupDoc → GroupDoc) (g' q : Id)
    (hgid : ∀ d, (f d).gid = d.gid) (hfp : ∀ d, q ∈ d.parents → q ∈ (f d).parents) :
    pRef db g' q → pRef (mapGroup db g f) g' q := by
  intro ⟨d, hd, hq⟩
  rw [pRef, findGroup_mapGroup db g g' f hgid, hd]
  refine ⟨_, rfl, ?_⟩
  by_cases h : d.gid = g
  · simp only [h, if_pos rfl]
    exact hfp d hq
  · simp only [if_neg h]
    exact hq

theorem mem_addToSet (l : List Id) (x y : Id) (h : y ∈ l) : y ∈ addToSet l x := by
  unfold addToSet
  split
  · exact h
  · simp [h]

theorem pRef_removeParent (db : DB) (g0 : Id) (po : Option Id) (g' q : Id)
    (hsafe : po = some q → g0 = g' → countStudentsGP db g0 q ≠ 0) :
    pRef db g' q → pRef (removeParentFromGroupIfUnused db (some g0) po) g' q := by
  intro href
  cases po with
  | none => exact href
  | some p0 =>
    show pRef (if countStudentsGP db g0 p0 = 0 then groupPullParent db g0 p0 else db) g' q
    split
    · rename_i hcnt
      obtain ⟨d, hd, hq⟩ := href
      show ∃ dd, findGroup (mapGroup db g0
        (fun d0 => { d0 with parents := pullId d0.parents p0 })) g' = some dd ∧ q ∈ dd.parents
      rw [findGroup_mapGroup db g0 g'
        (fun d0 => { d0 with parents := pullId d0.parents p0 }) (fun _ => rfl), hd]
      refine ⟨_, rfl, ?_⟩
      by_cases hdg : d.gid = g0
      · have hg : g0 = g' := by rw [← hdg]; exact findGroup_gid db g' d hd
        have hqp : q ≠ p0 := by
          intro hqp0
          exact hsafe (by rw [hqp0]) hg (by rw [← hqp0] at hcnt; exact hcnt)
        simp only [hdg, if_pos rfl]
        simp [pullId, hq, hqp]
      · simp only [if_neg hdg]
        exact hq
    · exact href

theorem pRef_groupPullStudent (db : DB) (g s : Id) (g' q : Id) :
    pRef db g' q → pRef (groupPullStudent db g s) g' q :=
  pRef_mapGroup db g _ g' q (fun _ => rfl) (fun _ hq => hq)

theorem pRef_groupAddStudent (db : DB) (g s : Id) (g' q : Id) :
    pRef db g' q → pRef (groupAddStudent db g s) g' q :=
  pRef_mapGroup db g _ g' q (fun _ => rfl) (fun _ hq => hq)

theorem pRef_groupAddParent (db : DB) (g p : Id) (g' q : Id) :
    pRef db g' q → pRef (groupAddParent db g p) g' q :=
  pRef_mapGroup db g _ g' q (fun _ => rfl) (fun d hq => mem_addToSet d.parents p q hq)

theorem pRef_ensureParent (db : DB) (g p : Option Id) (g' q : Id) :
    pRef db g' q → pRef (ensureParentInGroup db g p) g' q := by
  intro href
  unfold ensureParentInGroup
  cases g with
  | none => cases p <;> exact href
  | some g0 =>
    cases p with
    | none => exact href
    | some p0 => exact pRef_groupAddParent db g0 p0 g' q href

theorem countStudentsGP_ne_zero (db : DB) (g q : Id) (w : StudentDoc)
    (hw : w ∈ db.students) (hg : w.group = some g) (hp : w.parent = some q) :
    countStudentsGP db g q ≠ 0 := by
  unfold countStudentsGP
  have : w ∈ db.students.filter (fun s => s.group = some g ∧ s.parent = some q) :=
    List.mem_filter.mpr ⟨hw, by simp [hg, hp]⟩
  have hlen := List.length_pos.mpr (List.ne_nil_of_mem this)
  omega

theorem pRef_assignStep (gid : Id) (db : DB) (s : Id) (st : StudentDoc) (g' q : Id)
    (hw : ∃ w ∈ db.students, w.group = some g' ∧ w.parent = some q) :
    pRef db g' q → pRef (assignStep gid db s st) g' q := by
  intro href
  have hX : pRef (if st.group = some gid then db
      else saveStudent (match st.group with
        | some pg => removeParentFromGroupIfUnused (groupPullStudent db pg s) (some pg) st.parent
        | none => db) { st with group := some gid }) g' q := by
    split
    · exact href
    · refine pRef_of_groups_eq _ _ rfl g' q ?_
      cases hgr : st.group with
      | none => exact href
      | some pg =>
        refine pRef_removeParent _ pg st.parent g' q ?_
          (pRef_groupPullStudent db pg s g' q href)
        intro _ hgg
        obtain ⟨w, hwmem, hwg, hwp⟩ := hw
        show countStudentsGP (groupPullStudent db pg s) pg q ≠ 0
        rw [show countStudentsGP (groupPullStudent db pg s) pg q
          = countStudentsGP db pg q from rfl, hgg]
        exact countStudentsGP_ne_zero db g' q w hwmem hwg hwp
  have hY := pRef_groupAddStudent _ gid s g' q hX
  show pRef (if st.parent ≠ none then ensureParentInGroup (groupAddStudent
      (if st.group = some gid then db
      else saveStudent (match st.group with
        | some pg => removeParentFromGroupIfUnused (groupPullStudent db pg s) (some pg) st.parent
        | none => db) { st with group := some gid }) gid s) (some gid) st.parent
    else groupAddStudent
      (if st.group = some gid then db
      else saveStudent (match st.group with
        | some pg => removeParentFromGroupIfUnused (groupPullStudent db pg s) (some pg) st.parent
        | none => db) { st with group := some gid }) gid s) g' q
  by_cases hp : st.parent ≠ none
  · rw [if_pos hp]
    exact pRef_ensureParent _ (some gid) st.parent g' q hY
  · rw [if_neg hp]
    exact hY

theorem pRef_assignListed (gid : Id) (l : List Id) :
    ∀ db g' q, (∃ w ∈ db.students, w.group = some g' ∧ w.parent = some q ∧ w.sid ∉ l) →
      (db.students.map (·.sid)).Nodup →
      pRef db g' q → pRef (assignListed gid db l) g' q := by
  induction l with
  | nil => intro db g' q _ _ href; exact href
  | cons s rest ih =>
    intro db g' q hw hn href
    unfold assignListed
    cases hf : findStudent db s with
    | none =>
      obtain ⟨w, hwmem, hwg, hwp, hwl⟩ := hw
      exact ih db g' q ⟨w, hwmem, hwg, hwp, fun hc => hwl (List.mem_cons_of_mem s hc)⟩ hn href
    | some st =>
      obtain ⟨w, hwmem, hwg, hwp, hwl⟩ := hw
      have hws : w.sid ≠ s := fun hc => hwl (hc ▸ List.mem_cons_self s rest)
      have hwfind : findStudent db w.sid = some w := findStudent_of_mem db hn w hwmem
      have hwfind' : findStudent (assignStep gid db s st) w.sid = some w := by
        rw [findStudent_assignStep gid db s st w.sid hf, if_neg hws]
        exact hwfind
      have hwmem' : w ∈ (assignStep gid db s st).students :=
        List.mem_of_find?_eq_some hwfind'
      have hn' : ((assignStep gid db s st).students.map (·.sid)).Nodup := by
        rw [assignStep_sidMap]; exact hn
      refine ih _ g' q ⟨w, hwmem', hwg, hwp, fun hc => hwl (List.mem_cons_of_mem s hc)⟩ hn' ?_
      exact pRef_assignStep gid db s st g' q ⟨w, hwmem, hwg, hwp⟩ href

/-! ## Student-array reference preservation -/

theorem sRef_mapGroup (db : DB) (g : Id) (f : GroupDoc → GroupDoc) (g' x : Id)
    (hgid : ∀ d, (f d).gid = d.gid) (hfs : ∀ d, x ∈ d.students → x ∈ (f d).students) :
    sRef db g' x → sRef (mapGroup db g f) g' x := by
  intro ⟨d, hd, hx⟩
  rw [sRef, findGroup_mapGroup db g g' f hgid, hd]
  refine ⟨_, rfl, ?_⟩
  by_cases h : d.gid = g
  · simp only [h, if_pos rfl]
    exact hfs d hx
  · simp only [if_neg h]
    exact hx

theorem sRef_of_groups_eq (db db' : DB) (h : db'.groups = db.groups) (g' x : Id) :
    sRef db g' x → sRef db' g' x := by
  intro ⟨d, hd, hx⟩
  exact ⟨d, (findGroup_of_groups_eq db db' h g').trans hd, hx⟩

theorem sRef_removeParent (db : DB) (g : Id) (po : Option Id) (g' x : Id) :
    sRef db g' x → sRef (removeParentFromGroupIfUnused db (some g) po) g' x := by
  intro href
  cases po with
  | none => exact href
  | some p0 =>
    show sRef (if countStudentsGP db g p0 = 0 then groupPullParent db g p0 else db) g' x
    split
    · exact sRef_mapGroup db g _ g' x (fun _ => rfl) (fun _ hx => hx) href
    · exact href

theorem sRef_ensureParent (db : DB) (g p : Option Id) (g' x : Id) :
    sRef db g' x → sRef (ensureParentInGroup db g p) g' x := by
  intro href
  unfold ensureParentInGroup
  cases g with
  | none => cases p <;> exact href
  | some g0 =>
    cases p with
    | none => exact href
    | some p0 => exact sRef_mapGroup db g0 _ g' x (fun _ => rfl) (fun d hx => hx) href

theorem sRef_assignStep (gid : Id) (db : DB) (s : Id) (st : StudentDoc) (g' x : Id)
    (hxs : x ≠ s) : sRef db g' x → sRef (assignStep gid db s st) g' x := by
  intro href
  have hX : sRef (if st.group = some gid then db
      else saveStudent (match st.group with
        | some pg => removeParentFromGroupIfUnused (groupPullStudent db pg s) (some pg) st.parent
        | none => db) { st with group := some gid }) g' x := by
    split
    · exact href
    · refine sRef_of_groups_eq _ _ rfl g' x ?_
      cases st.group with
      | none => exact href
      | some pg =>
        refine sRef_removeParent _ pg st.parent g' x ?_
        refine sRef_mapGroup db pg _ g' x (fun _ => rfl) ?_ href
        intro d hx
        simp [pullId, hx, hxs]
  have hY : sRef (groupAddStudent (if st.group = some gid then db
      else saveStudent (match st.group with
        | some pg => removeParentFromGroupIfUnused (groupPullStudent db pg s) (some pg) st.parent
        | none => db) { st with group := some gid }) gid s) g' x :=
    sRef_mapGroup _ gid _ g' x (fun _ => rfl)
      (fun d hx => mem_addToSet d.students s x hx) hX
  show sRef (if st.parent ≠ none then ensureParentInGroup (groupAddStudent
      (if st.group = some gid then db
      else saveStudent (match st.group with
        | some pg => removeParentFromGroupIfUnused (groupPullStudent db pg s) (some pg) st.parent
        | none => db) { st with group := some gid }) gid s) (some gid) st.parent
    else groupAddStudent
      (if st.group = some gid then db
      else saveStudent (match st.group with
        | some pg => removeParentFromGroupIfUnused (groupPullStudent db pg s) (some pg) st.parent
        | none => db) { st with group := some gid }) gid s) g' x
  by_cases hp : st.parent ≠ none
  · rw [if_pos hp]
    exact sRef_ensureParent _ (some gid) st.parent g' x hY
  · rw [if_neg hp]
    exact hY

theorem sRef_assignListed (gid : Id) (l : List Id) :
    ∀ db g' x, x ∉ l → sRef db g' x → sRef (assignListed gid db l) g' x := by
  induction l with
  | nil => intro db g' x _ href; exact href
  | cons s rest ih =>
    intro db g' x hx href
    have hxs : x ≠ s := fun hc => hx (hc ▸ List.mem_cons_self s rest)
    have hxr : x ∉ rest := fun hc => hx (List.mem_cons_of_mem s hc)
    unfold assignListed
    cases hf : findStudent db s with
    | none => exact ih db g' x hxr href
    | some st => exact ih _ g' x hxr (sRef_assignStep gid db s st g' x hxs href)

/-! ## Detach loops leave non-target groups alone -/

theorem findGroup_removeParent_ne (db : DB) (g0 : Id) (po : Option Id) (g' : Id)
    (hne : g' ≠ g0) :
    findGroup (removeParentFromGroupIfUnused db (some g0) po) g' = findGroup db g' := by
  cases po with
  | none => rfl
  | some p0 =>
    show findGroup (if countStudentsGP db g0 p0 = 0
      then groupPullParent db g0 p0 else db) g' = findGroup db g'
    split
    · exact findGroup_mapGroup_ne db g0 g' _ (fun d hd => hd) hne
    · rfl

theorem findGroup_detachStep_ne (gid : Id) (db : DB) (s : Id) (st : StudentDoc) (g' : Id)
    (hne : g' ≠ gid) :
    findGroup (detachStep gid db s st) g' = findGroup db g' := by
  unfold detachStep
  rw [findGroup_removeParent_ne _ gid st.parent g' hne]
  rw [show groupPullStudent (saveStudent db { st with group := none }) gid s
    = mapGroup (saveStudent db { st with group := none }) gid
      (fun d => { d with students := pullId d.students s }) from rfl]
  rw [findGroup_mapGroup_ne _ gid g'
    (fun d => { d with students := pullId d.students s }) (fun d hd => hd) hne]
  exact findGroup_of_groups_eq _ _ rfl g'

theorem findGroup_detachAllStep_ne (gid : Id) (db : DB) (st : StudentDoc) (g' : Id)
    (hne : g' ≠ gid) :
    findGroup (detachAllStep gid db st) g' = findGroup db g' := by
  unfold detachAllStep
  rw [findGroup_removeParent_ne _ gid st.parent g' hne]
  exact findGroup_of_groups_eq _ _ rfl g'

theorem findGroup_detachListed_ne (gid : Id) (l : List Id) :
    ∀ db g', g' ≠ gid → findGroup (detachListed gid db l) g' = findGroup db g' := by
  induction l with
  | nil => intro db g' _; rfl
  | cons s rest ih =>
    intro db g' hne
    unfold detachListed
    cases findStudent db s with
    | none => exact ih db g' hne
    | some st => rw [ih _ g' hne, findGroup_detachStep_ne gid db s st g' hne]

theorem findGroup_detachAll_ne (gid : Id) (l : List Id) :
    ∀ db g', g' ≠ gid → findGroup (detachAll gid db l) g' = findGroup db g' := by
  induction l with
  | nil => intro db g' _; rfl
  | cons s rest ih =>
    intro db g' hne
    unfold detachAll
    cases findStudent db s with
    | none => exact ih db g' hne
    | some st => rw [ih _ g' hne, findGroup_detachAllStep_ne gid db st g' hne]

/-! ## Shape preservation: gid lists, pid lists, fresh-id bounds -/

def gidsOf (db : DB) : List Id := db.groups.map (·.gid)

def pidsOf (db : DB) : List Id := db.parents.map (·.pid)

theorem gidsOf_mapGroup (db : DB) (g : Id) (f : GroupDoc → GroupDoc)
    (hf : ∀ d, d.gid = g → (f d).gid = g) : gidsOf (mapGroup db g f) = gidsOf db := by
  unfold gidsOf mapGroup
  refine map_key_of_pres _ _ _ ?_
  intro d _
  by_cases h : d.gid = g
  · rw [if_pos h, hf d h, h]
  · rw [if_neg h]

theorem gidsOf_of_groups_eq (db db' : DB) (h : db'.groups = db.groups) :
    gidsOf db' = gidsOf db := by
  unfold gidsOf
  rw [h]

theorem gidsOf_removeParent (db : DB) (g p : Option Id) :
    gidsOf (removeParentFromGroupIfUnused db g p) = gidsOf db := by
  unfold removeParentFromGroupIfUnused
  cases g with
  | none => cases p <;> rfl
  | some g0 =>
    cases p with
    | none => rfl
    | some p0 =>
      show gidsOf (if countStudentsGP db g0 p0 = 0 then groupPullParent db g0 p0 else db) = gidsOf db
      split
      · exact gidsOf_mapGroup db g0 _ (fun d hd => hd)
      · rfl

theorem gidsOf_ensureParent (db : DB) (g p : Option Id) :
    gidsOf (ensureParentInGroup db g p) = gidsOf db := by
  unfold ensureParentInGroup
  cases g with
  | none => cases p <;> rfl
  | some g0 =>
    cases p with
    | none => rfl
    | some p0 => exact gidsOf_mapGroup db g0 _ (fun d hd => hd)

theorem gidsOf_groupPullStudent (db : DB) (g x : Id) :
    gidsOf (groupPullStudent db g x) = gidsOf db :=
  gidsOf_mapGroup db g (fun d => { d with students := pullId d.students x }) (fun _ hd => hd)

theorem gidsOf_groupAddStudent (db : DB) (g x : Id) :
    gidsOf (groupAddStudent db g x) = gidsOf db :=
  gidsOf_mapGroup db g (fun d => { d with students := addToSet d.students x }) (fun _ hd => hd)

theorem gidsOf_detachStep (gid : Id) (db : DB) (s : Id) (st : StudentDoc) :
    gidsOf (detachStep gid db s st) = gidsOf db := by
  unfold detachStep
  rw [gidsOf_removeParent, gidsOf_groupPullStudent]
  exact gidsOf_of_groups_eq _ _ rfl

theorem gidsOf_detachAllStep (gid : Id) (db : DB) (st : StudentDoc) :
    gidsOf (detachAllStep gid db st) = gidsOf db := by
  unfold detachAllStep
  rw [gidsOf_removeParent]
  exact gidsOf_of_groups_eq _ _ rfl

theorem gidsOf_assignStep (gid : Id) (db : DB) (s : Id) (st : StudentDoc) :
    gidsOf (assignStep gid db s st) = gidsOf db := by
  unfold assignStep
  have hmid : ∀ dbm : DB, gidsOf (if st.parent ≠ none
      then ensureParentInGroup dbm (some gid) st.parent else dbm) = gidsOf dbm := by
    intro dbm
    split
    · exact gidsOf_ensureParent dbm (some gid) st.parent
    · rfl
  rw [hmid, gidsOf_groupAddStudent]
  show gidsOf (if st.group = some gid then db
    else saveStudent (match st.group with
      | some pg => removeParentFromGroupIfUnused (groupPullStudent db pg s) (some pg) st.parent
      | none => db) { st with group := some gid }) = gidsOf db
  split
  · rfl
  · rw [show ∀ dbm stm, gidsOf (saveStudent dbm stm) = gidsOf dbm from fun _ _ => rfl]
    cases st.group with
    | none => rfl
    | some pg =>
      show gidsOf (removeParentFromGroupIfUnused (groupPullStudent db pg s)
        (some pg) st.parent) = gidsOf db
      rw [gidsOf_removeParent, gidsOf_groupPullStudent]

theorem gidsOf_detachListed (gid : Id) (l : List Id) :
    ∀ db, gidsOf (detachListed gid db l) = gidsOf db := by
  induction l with
  | nil => intro db; rfl
  | cons s rest ih =>
    intro db
    unfold detachListed
    cases findStudent db s with
    | none => exact ih db
    | some st => rw [ih, gidsOf_detachStep]

theorem gidsOf_detachAll (gid : Id) (l : List Id) :
    ∀ db, gidsOf (detachAll gid db l) = gidsOf db := by
  induction l with
  | nil => intro db; rfl
  | cons s rest ih =>
    intro db
    unfold detachAll
    cases findStudent db s with
    | none => exact ih db
    | some st => rw [ih, gidsOf_detachAllStep]

theorem gidsOf_assignListed (gid : Id) (l : List Id) :
    ∀ db, gidsOf (assignListed gid db l) = gidsOf db := by
  induction l with
  | nil => intro db; rfl
  | cons s rest ih =>
    intro db
    unfold assignListed
    cases findStudent db s with
    | none => exact ih db
    | some st => rw [ih, gidsOf_assignStep]

theorem gidsOf_saveGroup (db : DB) (gm : GroupDoc) :
    gidsOf (saveGroup db gm) = gidsOf db :=
  gidsOf_mapGroup db gm.gid _ (fun _ hd => hd ▸ rfl)

theorem gidsOf_cleanupRemoved (gid : Id) (l : List Id) :
    ∀ db, gidsOf (cleanupRemoved gid db l) = gidsOf db := by
  induction l with
  | nil => intro db; rfl
  | cons p rest ih =>
    intro db
    unfold cleanupRemoved
    rw [ih]
    show gidsOf (if countStudentsP (removeParentFromGroupIfUnused db (some gid) (some p)) p > 0 ∨
        countGroupsP (removeParentFromGroupIfUnused db (some gid) (some p)) p > 0 then
        removeParentFromGroupIfUnused db (some gid) (some p)
      else deleteParent (removeParentFromGroupIfUnused db (some gid) (some p)) p) = gidsOf db
    split
    · rw [gidsOf_removeParent]
    · rw [gidsOf_of_groups_eq _ _ (deleteParent_groups _ p), gidsOf_removeParent]

/-! ## Parent-collection shape through the parent loop -/

/-- Well-formedness of the parent collection alone. -/
def WFp (db : DB) : Prop :=
  (pidsOf db).Nodup ∧ ∀ p ∈ db.parents, p.pid < db.nextId

theorem pidsOf_saveParentNames (db : DB) (pid : Id) (f l : String) :
    pidsOf (saveParentNames db pid f l) = pidsOf db := by
  unfold pidsOf saveParentNames mapParent
  refine map_key_of_pres _ _ _ ?_
  intro d _
  by_cases h : d.pid = pid <;> simp [h]

theorem WFp_condSaveParentNames (db : DB) (pid : Id) (c : Prop) [Decidable c]
    (f l : String) (hw : WFp db) :
    WFp (if c then saveParentNames db pid f l else db) ∧
      db.nextId ≤ (if c then saveParentNames db pid f l else db).nextId := by
  by_cases hc : c
  · rw [if_pos hc]
    refine ⟨⟨?_, ?_⟩, le_refl _⟩
    · show (pidsOf _).Nodup
      rw [pidsOf_saveParentNames]
      exact hw.1
    · intro q hq
      obtain ⟨q0, hq0, hcar⟩ := (saveParentNames_char db pid f l).2 q hq
      show q.pid < (saveParentNames db pid f l).nextId
      rw [show (saveParentNames db pid f l).nextId = db.nextId from rfl, hcar.1]
      exact hw.2 q0 hq0
  · rw [if_neg hc]
    exact ⟨hw, le_refl _⟩

theorem WFp_resolveEntry (db : DB) (e : ParentEntry) (pid : Id) (db' : DB)
    (h : resolveEntry db e = some (pid, db')) (hw : WFp db) :
    WFp db' ∧ db.nextId ≤ db'.nextId := by
  unfold resolveEntry at h
  cases he : e.email with
  | none => rw [he] at h; exact absurd h (by simp)
  | some raw =>
    rw [he] at h
    simp only at h
    split at h
    · exact absurd h (by simp)
    · split at h
      · rename_i hfind
        simp only [createParent, Option.some.injEq, Prod.mk.injEq] at h
        obtain ⟨hpid, rfl⟩ := h
        refine ⟨⟨?_, ?_⟩, by simp⟩
        · show (List.map (·.pid) (db.parents ++ [_])).Nodup
          rw [List.map_append, List.map_singleton, List.nodup_append]
          refine ⟨hw.1, List.nodup_singleton _, ?_⟩
          intro x hx
          simp only [List.mem_singleton]
          intro hc
          subst hc
          obtain ⟨q, hq, hqx⟩ := List.mem_map.mp hx
          exact absurd (hqx ▸ hw.2 q hq) (lt_irrefl _)
        · intro p hp
          simp only [List.mem_append, List.mem_singleton] at hp
          rcases hp with hp | rfl
          · exact Nat.lt_succ_of_lt (hw.2 p hp)
          · exact Nat.lt_succ_self _
      · rename_i p hfind
        simp only [Option.some.injEq, Prod.mk.injEq] at h
        obtain ⟨hpid, rfl⟩ := h
        exact WFp_condSaveParentNames db p.pid _ _ _ hw

theorem WFp_processParents (es : List ParentEntry) :
    ∀ db acc,
      (∀ acc' db2, processParents db acc es = .ok (acc', db2) → WFp db →
        WFp db2 ∧ db.nextId ≤ db2.nextId) ∧
      (∀ db', processParents db acc es = .error db' → WFp db →
        WFp db' ∧ db.nextId ≤ db'.nextId) := by
  induction es with
  | nil =>
    intro db acc
    constructor
    · intro acc' db2 h hw
      unfold processParents at h
      cases h
      exact ⟨hw, le_refl _⟩
    · intro db' h _
      unfold processParents at h
      cases h
  | cons e rest ih =>
    intro db acc
    constructor
    · intro acc' db2 h hw
      unfold processParents at h
      cases hres : resolveEntry db e with
      | none => rw [hres] at h; exact absurd h (by simp)
      | some pr =>
        obtain ⟨pid, dbn⟩ := pr
        rw [hres] at h
        obtain ⟨hw', hle⟩ := WFp_resolveEntry db e pid dbn hres hw
        obtain ⟨hw2, hle2⟩ := (ih dbn (insertIfAbsent acc pid)).1 acc' db2 h hw'
        exact ⟨hw2, hle.trans hle2⟩
    · intro db' h hw
      unfold processParents at h
      cases hres : resolveEntry db e with
      | none =>
        rw [hres] at h
        cases h
        exact ⟨hw, le_refl _⟩
      | some pr =>
        obtain ⟨pid, dbn⟩ := pr
        rw [hres] at h
        obtain ⟨hw', hle⟩ := WFp_resolveEntry db e pid dbn hres hw
        obtain ⟨hw2, hle2⟩ := (ih dbn (insertIfAbsent acc pid)).2 db' h hw'
        exact ⟨hw2, hle.trans hle2⟩

theorem WFp_cleanupRemoved (gid : Id) (l : List Id) :
    ∀ db, WFp db → WFp (cleanupRemoved gid db l) ∧
      (cleanupRemoved gid db l).nextId = db.nextId := by
  induction l with
  | nil => intro db hw; exact ⟨hw, rfl⟩
  | cons p rest ih =>
    intro db hw
    unfold cleanupRemoved
    have hstep : WFp (if countStudentsP (removeParentFromGroupIfUnused db (some gid) (some p)) p > 0 ∨
        countGroupsP (removeParentFromGroupIfUnused db (some gid) (some p)) p > 0 then
        removeParentFromGroupIfUnused db (some gid) (some p)
      else deleteParent (removeParentFromGroupIfUnused db (some gid) (some p)) p) ∧
        (if countStudentsP (removeParentFromGroupIfUnused db (some gid) (some p)) p > 0 ∨
        countGroupsP (removeParentFromGroupIfUnused db (some gid) (some p)) p > 0 then
        removeParentFromGroupIfUnused db (some gid) (some p)
      else deleteParent (removeParentFromGroupIfUnused db (some gid) (some p)) p).nextId
        = db.nextId := by
      have hrp : WFp (removeParentFromGroupIfUnused db (some gid) (some p)) := by
        constructor
        · show (List.map _ (removeParentFromGroupIfUnused db (some gid) (some p)).parents).Nodup
          rw [removeParent_parents]
          exact hw.1
        · intro q hq
          rw [removeParent_parents] at hq
          have hnx : (removeParentFromGroupIfUnused db (some gid) (some p)).nextId = db.nextId := by
            show (if countStudentsGP db gid p = 0 then groupPullParent db gid p else db).nextId = db.nextId
            split <;> rfl
          rw [hnx]
          exact hw.2 q hq
      have hnx : (removeParentFromGroupIfUnused db (some gid) (some p)).nextId = db.nextId := by
        show (if countStudentsGP db gid p = 0 then groupPullParent db gid p else db).nextId = db.nextId
        split <;> rfl
      split
      · exact ⟨hrp, hnx⟩
      · refine ⟨⟨?_, ?_⟩, hnx⟩
        · show ((removeParentFromGroupIfUnused db (some gid) (some p)).parents.filter
            (·.pid ≠ p) |>.map (·.pid)).Nodup
          exact hrp.1.sublist ((List.filter_sublist _).map _)
        · intro q hq
          exact hrp.2 q (List.mem_of_mem_filter hq)
    obtain ⟨hw1, hnx1⟩ := hstep
    obtain ⟨hw2, hnx2⟩ := ih _ hw1
    exact ⟨hw2, hnx2.trans hnx1⟩

/-! ## Frame: the roster loops leave the parent collection and the id
source alone; the cleanup loop leaves the id source alone -/

theorem removeParent_nextId (db : DB) (g p : Option Id) :
    (removeParentFromGroupIfUnused db g p).nextId = db.nextId := by
  unfold removeParentFromGroupIfUnused
  cases g with
  | none => cases p <;> rfl
  | some g0 =>
    cases p with
    | none => rfl
    | some p0 =>
      show (if countStudentsGP db g0 p0 = 0
        then groupPullParent db g0 p0 else db).nextId = db.nextId
      split <;> rfl

theorem ensureParent_nextId (db : DB) (g p : Option Id) :
    (ensureParentInGroup db g p).nextId = db.nextId := by
  unfold ensureParentInGroup
  cases g with
  | none => cases p <;> rfl
  | some g0 => cases p <;> rfl

theorem detachStep_pFrame (gid : Id) (db : DB) (s : Id) (st : StudentDoc) :
    (detachStep gid db s st).parents = db.parents ∧
      (detachStep gid db s st).nextId = db.nextId := by
  unfold detachStep
  exact ⟨(removeParent_parents _ _ _).trans rfl, (removeParent_nextId _ _ _).trans rfl⟩

theorem detachAllStep_pFrame (gid : Id) (db : DB) (st : StudentDoc) :
    (detachAllStep gid db st).parents = db.parents ∧
      (detachAllStep gid db st).nextId = db.nextId := by
  unfold detachAllStep
  exact ⟨(removeParent_parents _ _ _).trans rfl, (removeParent_nextId _ _ _).trans rfl⟩

theorem assignStep_pFrame (gid : Id) (db : DB) (s : Id) (st : StudentDoc) :
    (assignStep gid db s st).parents = db.parents ∧
      (assignStep gid db s st).nextId = db.nextId := by
  unfold assignStep
  have hmid : ∀ dbm : DB, ((if st.parent ≠ none
      then ensureParentInGroup dbm (some gid) st.parent else dbm).parents = dbm.parents) ∧
      ((if st.parent ≠ none
      then ensureParentInGroup dbm (some gid) st.parent else dbm).nextId = dbm.nextId) := by
    intro dbm
    split
    · exact ⟨ensureParent_parents dbm (some gid) st.parent,
        ensureParent_nextId dbm (some gid) st.parent⟩
    · exact ⟨rfl, rfl⟩
  have hinner : ((if st.group = some gid then db
      else saveStudent (match st.group with
        | some pg => removeParentFromGroupIfUnused (groupPullStudent db pg s) (some pg) st.parent
        | none => db) { st with group := some gid }).parents = db.parents) ∧
      ((if st.group = some gid then db
      else saveStudent (match st.group with
        | some pg => removeParentFromGroupIfUnused (groupPullStudent db pg s) (some pg) st.parent
        | none => db) { st with group := some gid }).nextId = db.nextId) := by
    split
    · exact ⟨rfl, rfl⟩
    · constructor
      · show (match st.group with
          | some pg => removeParentFromGroupIfUnused (groupPullStudent db pg s) (some pg) st.parent
          | none => db).parents = db.parents
        cases st.group with
        | none => rfl
        | some pg => exact (removeParent_parents _ _ _).trans rfl
      · show (match st.group with
          | some pg => removeParentFromGroupIfUnused (groupPullStudent db pg s) (some pg) st.parent
          | none => db).nextId = db.nextId
        cases st.group with
        | none => rfl
        | some pg => exact (removeParent_nextId _ _ _).trans rfl
  exact ⟨((hmid _).1).trans hinner.1, ((hmid _).2).trans hinner.2⟩

theorem detachListed_pFrame (gid : Id) (l : List Id) :
    ∀ db, (detachListed gid db l).parents = db.parents ∧
      (detachListed gid db l).nextId = db.nextId := by
  induction l with
  | nil => intro db; exact ⟨rfl, rfl⟩
  | cons s rest ih =>
    intro db
    unfold detachListed
    cases findStudent db s with
    | none => exact ih db
    | some st =>
      exact ⟨((ih _).1).trans (detachStep_pFrame gid db s st).1,
        ((ih _).2).trans (detachStep_pFrame gid db s st).2⟩

theorem detachAll_pFrame (gid : Id) (l : List Id) :
    ∀ db, (detachAll gid db l).parents = db.parents ∧
      (detachAll gid db l).nextId = db.nextId := by
  induction l with
  | nil => intro db; exact ⟨rfl, rfl⟩
  | cons s rest ih =>
    intro db
    unfold detachAll
    cases findStudent db s with
    | none => exact ih db
    | some st =>
      exact ⟨((ih _).1).trans (detachAllStep_pFrame gid db st).1,
        ((ih _).2).trans (detachAllStep_pFrame gid db st).2⟩

theorem assignListed_pFrame (gid : Id) (l : List Id) :
    ∀ db, (assignListed gid db l).parents = db.parents ∧
      (assignListed gid db l).nextId = db.nextId := by
  induction l with
  | nil => intro db; exact ⟨rfl, rfl⟩
  | cons s rest ih =>
    intro db
    unfold assignListed
    cases findStudent db s with
    | none => exact ih db
    | some st =>
      exact ⟨((ih _).1).trans (assignStep_pFrame gid db s st).1,
        ((ih _).2).trans (assignStep_pFrame gid db s st).2⟩

theorem cleanupRemoved_nextId (gid : Id) (l : List Id) :
    ∀ db, (cleanupRemoved gid db l).nextId = db.nextId := by
  induction l with
  | nil => intro db; rfl
  | cons p rest ih =>
    intro db
    unfold cleanupRemoved
    rw [ih]
    show (if countStudentsP (removeParentFromGroupIfUnused db (some gid) (some p)) p > 0 ∨
        countGroupsP (removeParentFromGroupIfUnused db (some gid) (some p)) p > 0 then
        removeParentFromGroupIfUnused db (some gid) (some p)
      else deleteParent (removeParentFromGroupIfUnused db (some gid) (some p)) p).nextId
        = db.nextId
    split
    · exact removeParent_nextId db (some gid) (some p)
    · exact removeParent_nextId db (some gid) (some p)

/-! ## Transferring well-formedness along the phase characterizations -/

theorem sKey_mem_transfer (db db' : DB)
    (hskey : db'.students.map sKey = db.students.map sKey) :
    ∀ s ∈ db'.students, ∃ s0 ∈ db.students, s0.sid = s.sid ∧ s0.parent = s.parent := by
  intro s hs
  have h1 : sKey s ∈ db.students.map sKey := by
    rw [← hskey]
    exact List.mem_map_of_mem sKey hs
  obtain ⟨s0, hs0, hk⟩ := List.mem_map.mp h1
  refine ⟨s0, hs0, ?_, ?_⟩
  · show (sKey s0).sid = (sKey s).sid
    exact congrArg StudentDoc.sid hk
  · show (sKey s0).parent = (sKey s).parent
    exact congrArg StudentDoc.parent hk

theorem WF_of_parts (db db' : DB)
    (hg : gidsOf db' = gidsOf db)
    (hsid : db'.students.map (·.sid) = db.students.map (·.sid))
    (hskey : db'.students.map sKey = db.students.map sKey)
    (hle : db.nextId ≤ db'.nextId)
    (hwp : WFp db')
    (h : WF db) : WF db' := by
  obtain ⟨hgn, hsn, hpn, hgb, hsb, hpb, hrb⟩ := h
  refine ⟨?_, ?_, hwp.1, ?_, ?_, hwp.2, ?_⟩
  · show (gidsOf db').Nodup
    rw [hg]
    exact hgn
  · rw [hsid]
    exact hsn
  · intro g hgmem
    have hmm : g.gid ∈ gidsOf db := by
      rw [← hg]
      exact List.mem_map_of_mem _ hgmem
    obtain ⟨g0, hg0, hge⟩ := List.mem_map.mp hmm
    exact lt_of_lt_of_le (hge ▸ hgb g0 hg0) hle
  · intro s hs
    obtain ⟨s0, hs0, hsid0, _⟩ := sKey_mem_transfer db db' hskey s hs
    exact lt_of_lt_of_le (hsid0 ▸ hsb s0 hs0) hle
  · intro s hs p hp
    obtain ⟨s0, hs0, _, hpar0⟩ := sKey_mem_transfer db db' hskey s hs
    exact lt_of_lt_of_le (hrb s0 hs0 p (hpar0.trans hp)) hle

theorem parentPhase_WF (gid : Id) (gmem : GroupDoc) (req : PatchReq) (db : DB)
    (h : WF db) :
    WF (parentPhase gid gmem req db).2 ∧
      db.nextId ≤ (parentPhase gid gmem req db).2.nextId := by
  have hwp0 : WFp db := ⟨h.2.2.1, h.2.2.2.2.2.1⟩
  unfold parentPhase
  cases hpp : processParents db (distinctParents db gid) (req.parents.getD []) with
  | error db' =>
    obtain ⟨hgroups, hstudents⟩ :=
      ((processParents_frame _ db (distinctParents db gid)).2) db' hpp
    obtain ⟨hwp, hle⟩ :=
      ((WFp_processParents _ db (distinctParents db gid)).2) db' hpp hwp0
    exact ⟨WF_of_parts db db' (gidsOf_of_groups_eq _ _ hgroups)
      (by rw [hstudents]) (by rw [hstudents]) hle hwp h, hle⟩
  | ok pr =>
    obtain ⟨finalIds, db2⟩ := pr
    obtain ⟨hgroups, hstudents⟩ :=
      ((processParents_frame _ db (distinctParents db gid)).1) finalIds db2 hpp
    obtain ⟨hwp2, hle2⟩ :=
      ((WFp_processParents _ db (distinctParents db gid)).1) finalIds db2 hpp hwp0
    have hcv := cleanupRemoved_views gid (gmem.parents.filter (· ∉ finalIds))
      (saveGroup db2 { gmem with parents := finalIds })
    obtain ⟨hwpf, hnxf⟩ := WFp_cleanupRemoved gid (gmem.parents.filter (· ∉ finalIds))
      (saveGroup db2 { gmem with parents := finalIds }) hwp2
    have hstf : (cleanupRemoved gid (saveGroup db2 { gmem with parents := finalIds })
        (gmem.parents.filter (· ∉ finalIds))).students = db.students :=
      hcv.2.2.trans hstudents
    have hlef : db.nextId ≤ (cleanupRemoved gid (saveGroup db2 { gmem with parents := finalIds })
        (gmem.parents.filter (· ∉ finalIds))).nextId := by
      rw [hnxf]
      exact hle2
    refine ⟨WF_of_parts db _ ?_ (by rw [hstf]) (by rw [hstf]) hlef hwpf h, hlef⟩
    rw [gidsOf_cleanupRemoved, gidsOf_saveGroup, gidsOf_of_groups_eq _ _ hgroups]

/-- `PATCH /groups/:id/full` preserves well-formedness on every path and
never reuses an already-issued id. -/
theorem patch_WF (db : DB) (gid : Id) (req : PatchReq) (h : WF db) :
    WF (patchGroupFull db gid req).2 ∧
      db.nextId ≤ (patchGroupFull db gid req).2.nextId := by
  unfold patchGroupFull
  cases hg : findGroup db gid with
  | none => exact ⟨h, le_refl _⟩
  | some g0 =>
    simp only
    split
    · have hfr := detachAll_pFrame gid g0.students db
      have hwp1 : WFp (detachAll gid db g0.students) := by
        constructor
        · show ((detachAll gid db g0.students).parents.map (·.pid)).Nodup
          rw [hfr.1]
          exact h.2.2.1
        · intro p hp
          rw [hfr.1] at hp
          rw [hfr.2]
          exact h.2.2.2.2.2.1 p hp
      have hWF1 : WF (detachAll gid db g0.students) :=
        WF_of_parts db _ (gidsOf_detachAll gid g0.students db)
          (detachAll_sidMap gid g0.students db)
          (detachAll_sKeyMap gid g0.students db h.2.1)
          (le_of_eq hfr.2.symm) hwp1 h
      refine ⟨(parentPhase_WF gid _ req _ hWF1).1,
        le_trans (le_of_eq hfr.2.symm) (parentPhase_WF gid _ req _ hWF1).2⟩
    · split
      · exact ⟨h, le_refl _⟩
      · have hfrD := detachListed_pFrame gid (g0.students.filter (· ∉ requestedIds req)) db
        have hfrA := assignListed_pFrame gid (requestedIds req)
          (detachListed gid db (g0.students.filter (· ∉ requestedIds req)))
        have hnx2 : (assignListed gid
            (detachListed gid db (g0.students.filter (· ∉ requestedIds req)))
            (requestedIds req)).nextId = db.nextId := hfrA.2.trans hfrD.2
        have hpar2 : (assignListed gid
            (detachListed gid db (g0.students.filter (· ∉ requestedIds req)))
            (requestedIds req)).parents = db.parents := hfrA.1.trans hfrD.1
        have hwp1 : WFp (assignListed gid
            (detachListed gid db (g0.students.filter (· ∉ requestedIds req)))
            (requestedIds req)) := by
          constructor
          · show ((assignListed gid
              (detachListed gid db (g0.students.filter (· ∉ requestedIds req)))
              (requestedIds req)).parents.map (·.pid)).Nodup
            rw [hpar2]
            exact h.2.2.1
          · intro p hp
            rw [hpar2] at hp
            rw [hnx2]
            exact h.2.2.2.2.2.1 p hp
        have hnodupD : ((detachListed gid db
            (g0.students.filter (· ∉ requestedIds req))).students.map (·.sid)).Nodup := by
          rw [detachListed_sidMap]
          exact h.2.1
        have hWF1 : WF (assignListed gid
            (detachListed gid db (g0.students.filter (· ∉ requestedIds req)))
            (requestedIds req)) :=
          WF_of_parts db _
            (by rw [gidsOf_assignListed, gidsOf_detachListed])
            (by rw [assignListed_sidMap, detachListed_sidMap])
            (by rw [assignListed_sKeyMap _ _ _ hnodupD,
              detachListed_sKeyMap gid _ db h.2.1])
            (le_of_eq hnx2.symm) hwp1 h
        refine ⟨(parentPhase_WF gid _ req _ hWF1).1,
          le_trans (le_of_eq hnx2.symm) (parentPhase_WF gid _ req _ hWF1).2⟩

/-! ## Combined invariant bundle and generic `find` characterizations -/

/-- The bundle the attach/detach operations must maintain: well-formed ids
together with invariants 1 and 2 of the specification. -/
def Inv (db : DB) : Prop := WF db ∧ inv1 db ∧ inv2 db

theorem findParent_of_parents_eq (db db' : DB) (h : db'.parents = db.parents) (q : Id) :
    findParent db' q = findParent db q := by
  unfold findParent
  rw [h]

theorem findStudent_of_students_eq (db db' : DB) (h : db'.students = db.students) (s : Id) :
    findStudent db' s = findStudent db s := by
  unfold findStudent
  rw [h]

/-- `removeParentFromGroupIfUnused` does nothing while a student of that
group still references the parent. -/
theorem removeParent_noop_of_witness (db : DB) (g p : Id) (w : StudentDoc)
    (hw : w ∈ db.students) (hg : w.group = some g) (hp : w.parent = some p) :
    removeParentFromGroupIfUnused db (some g) (some p) = db := by
  show (if countStudentsGP db g p = 0 then groupPullParent db g p else db) = db
  rw [if_neg (countStudentsGP_ne_zero db g p w hw hg hp)]

theorem mem_addToSet_self (l : List Id) (x : Id) : x ∈ addToSet l x := by
  unfold addToSet
  split
  · assumption
  · exact List.mem_append_right _ (List.mem_singleton_self x)

theorem mem_pullId (l : List Id) (x y : Id) (hy : y ∈ l) (hne : y ≠ x) : y ∈ pullId l x := by
  unfold pullId
  exact List.mem_filter.mpr ⟨hy, by simpa using hne⟩

theorem mem_students_saveStudent_of_ne (db : DB) (st2 : StudentDoc) (w : StudentDoc)
    (hw : w ∈ db.students) (hne : w.sid ≠ st2.sid) : w ∈ (saveStudent db st2).students := by
  show w ∈ db.students.map (fun d => if d.sid = st2.sid then st2 else d)
  have hfix : (fun d => if d.sid = st2.sid then st2 else d) w = w := if_neg hne
  rw [← hfix]
  exact List.mem_map_of_mem _ hw

/-- Group-side effect bound of `removeParentFromGroupIfUnused`: students of a
group are never touched, and a parent entry can only disappear when no stored
student of that group references the parent at call time. -/
theorem removeParent_group_mono (db : DB) (go po : Option Id) (g' : Id) (gd : GroupDoc)
    (hfg : findGroup (removeParentFromGroupIfUnused db go po) g' = some gd) :
    ∃ gd0, findGroup db g' = some gd0 ∧ gd.students = gd0.students ∧
      ∀ p, p ∈ gd0.parents →
        (∃ w ∈ db.students, w.group = some g' ∧ w.parent = some p) → p ∈ gd.parents := by
  cases go with
  | none =>
    cases po with
    | none => exact ⟨gd, hfg, rfl, fun p hp _ => hp⟩
    | some p0 => exact ⟨gd, hfg, rfl, fun p hp _ => hp⟩
  | some g0 =>
    cases po with
    | none => exact ⟨gd, hfg, rfl, fun p hp _ => hp⟩
    | some p0 =>
      have hshape : removeParentFromGroupIfUnused db (some g0) (some p0) =
          if countStudentsGP db g0 p0 = 0 then groupPullParent db g0 p0 else db := rfl
      rw [hshape] at hfg
      split at hfg
      · rename_i hc
        rw [show groupPullParent db g0 p0 =
          mapGroup db g0 (fun d => { d with parents := pullId d.parents p0 }) from rfl,
          findGroup_mapGroup db g0 g'
            (fun d => { d with parents := pullId d.parents p0 }) (fun d => rfl)] at hfg
        cases hfg0 : findGroup db g' with
        | none => rw [hfg0] at hfg; exact absurd hfg (by simp)
        | some gd0 =>
          rw [hfg0] at hfg
          have hgid : gd0.gid = g' := findGroup_gid db g' gd0 hfg0
          simp only [Option.map] at hfg
          have hgd : gd = if gd0.gid = g0 then { gd0 with parents := pullId gd0.parents p0 }
              else gd0 := (Option.some.inj hfg).symm
          by_cases hgg : gd0.gid = g0
          · rw [hgd, if_pos hgg]
            refine ⟨gd0, rfl, rfl, ?_⟩
            intro p hp hw
            obtain ⟨w, hwmem, hwg, hwp⟩ := hw
            by_cases hpp : p = p0
            · subst hpp
              have hg0' : g0 = g' := hgg ▸ hgid
              subst hg0'
              exact absurd hc (countStudentsGP_ne_zero db g0 p w hwmem hwg hwp)
            · exact mem_pullId gd0.parents p0 p hp hpp
          · rw [hgd, if_neg hgg]
            exact ⟨gd0, rfl, rfl, fun p hp _ => hp⟩
      · exact ⟨gd, hfg, rfl, fun p hp _ => hp⟩

theorem detachStep_group_mono (gid : Id) (db : DB) (s : Id) (st : StudentDoc)
    (hfind : findStudent db s = some st) (g' : Id) (gd : GroupDoc)
    (hfg : findGroup (detachStep gid db s st) g' = some gd) :
    ∃ gd0, findGroup db g' = some gd0 ∧
      (∀ x, x ∈ gd0.students → x ≠ s → x ∈ gd.students) ∧
      (∀ p, p ∈ gd0.parents →
        (∃ w ∈ db.students, w.sid ≠ s ∧ w.group = some g' ∧ w.parent = some p) →
        p ∈ gd.parents) := by
  obtain ⟨hmem, hsid⟩ := findStudent_mem db s st hfind
  unfold detachStep at hfg
  obtain ⟨gdB, hfgB, hstu, hpar⟩ := removeParent_group_mono _ _ _ _ _ hfg
  rw [show groupPullStudent (saveStudent db { st with group := none }) gid s =
    mapGroup (saveStudent db { st with group := none }) gid
      (fun d => { d with students := pullId d.students s }) from rfl,
    findGroup_mapGroup _ gid g' (fun d => { d with students := pullId d.students s })
      (fun d => rfl),
    findGroup_of_groups_eq db (saveStudent db { st with group := none }) rfl g'] at hfgB
  cases hfg0 : findGroup db g' with
  | none => rw [hfg0] at hfgB; exact absurd hfgB (by simp)
  | some gd0 =>
    rw [hfg0] at hfgB
    simp only [Option.map] at hfgB
    have hgdB : gdB = if gd0.gid = gid then { gd0 with students := pullId gd0.students s }
        else gd0 := (Option.some.inj hfgB).symm
    refine ⟨gd0, rfl, ?_, ?_⟩
    · intro x hx hxs
      rw [hstu, hgdB]
      by_cases hgg : gd0.gid = gid
      · rw [if_pos hgg]
        exact mem_pullId gd0.students s x hx hxs
      · rw [if_neg hgg]
        exact hx
    · intro p hp hw
      obtain ⟨w, hwmem, hwne, hwg, hwp⟩ := hw
      have hpB : p ∈ gdB.parents := by
        rw [hgdB]
        by_cases hgg : gd0.gid = gid
        · rw [if_pos hgg]; exact hp
        · rw [if_neg hgg]; exact hp
      refine hpar p hpB ⟨w, ?_, hwg, hwp⟩
      show w ∈ (saveStudent db { st with group := none }).students
      exact mem_students_saveStudent_of_ne db _ w hwmem
        (by show w.sid ≠ st.sid; rw [hsid]; exact hwne)

theorem detachAllStep_group_mono (gid : Id) (db : DB) (s : Id) (st : StudentDoc)
    (hfind : findStudent db s = some st) (g' : Id) (gd : GroupDoc)
    (hfg : findGroup (detachAllStep gid db st) g' = some gd) :
    ∃ gd0, findGroup db g' = some gd0 ∧ gd.students = gd0.students ∧
      (∀ p, p ∈ gd0.parents →
        (∃ w ∈ db.students, w.sid ≠ s ∧ w.group = some g' ∧ w.parent = some p) →
        p ∈ gd.parents) := by
  obtain ⟨hmem, hsid⟩ := findStudent_mem db s st hfind
  unfold detachAllStep at hfg
  obtain ⟨gdB, hfgB, hstu, hpar⟩ := removeParent_group_mono _ _ _ _ _ hfg
  rw [findGroup_of_groups_eq db (saveStudent db { st with group := none }) rfl g'] at hfgB
  refine ⟨gdB, hfgB, hstu, ?_⟩
  intro p hp hw
  obtain ⟨w, hwmem, hwne, hwg, hwp⟩ := hw
  refine hpar p hp ⟨w, ?_, hwg, hwp⟩
  exact mem_students_saveStudent_of_ne db _ w hwmem
    (by show w.sid ≠ st.sid; rw [hsid]; exact hwne)

theorem assignStep_group_mono (gid : Id) (db : DB) (s : Id) (st : StudentDoc)
    (hfind : findStudent db s = some st) (g' : Id) (gd : GroupDoc)
    (hfg : findGroup (assignStep gid db s st) g' = some gd) :
    ∃ gd0, findGroup db g' = some gd0 ∧
      (∀ x, x ∈ gd0.students → x ≠ s → x ∈ gd.students) ∧
      (∀ p, p ∈ gd0.parents → p ∈ gd.parents) ∧
      (g' = gid → s ∈ gd.students ∧ ∀ p0, st.parent = some p0 → p0 ∈ gd.parents) := by
  obtain ⟨hmem, hsid⟩ := findStudent_mem db s st hfind
  unfold assignStep at hfg
  have hfg2 : findGroup (if st.parent ≠ none then
      ensureParentInGroup (groupAddStudent (if st.group = some gid then db
        else saveStudent (match st.group with
          | some pg => removeParentFromGroupIfUnused (groupPullStudent db pg s) (some pg) st.parent
          | none => db) { st with group := some gid }) gid s) (some gid) st.parent
    else groupAddStudent (if st.group = some gid then db
        else saveStudent (match st.group with
          | some pg => removeParentFromGroupIfUnused (groupPullStudent db pg s) (some pg) st.parent
          | none => db) { st with group := some gid }) gid s) g' = some gd := hfg
  clear hfg
  set dbM := (if st.group = some gid then db
    else saveStudent (match st.group with
      | some pg => removeParentFromGroupIfUnused (groupPullStudent db pg s) (some pg) st.parent
      | none => db) { st with group := some gid }) with hdbM
  have hMchar : ∃ F : GroupDoc → GroupDoc, (∀ d, (F d).gid = d.gid) ∧
      (∀ d, ∀ x ∈ d.students, x ≠ s → x ∈ (F d).students) ∧
      (∀ d, (F d).parents = d.parents) ∧
      findGroup dbM g' = (findGroup db g').map F := by
    rw [hdbM]
    by_cases hsg : st.group = some gid
    · refine ⟨fun d => d, fun d => rfl, fun d x hx _ => hx, fun d => rfl, ?_⟩
      rw [if_pos hsg]
      cases findGroup db g' <;> rfl
    · cases hsgv : st.group with
      | none =>
        refine ⟨fun d => d, fun d => rfl, fun d x hx _ => hx, fun d => rfl, ?_⟩
        rw [if_neg (show ¬(none : Option Id) = some gid from by simp)]
        show findGroup (saveStudent db { st with group := some gid }) g' =
          (findGroup db g').map fun d => d
        rw [findGroup_of_groups_eq db (saveStudent db { st with group := some gid }) rfl g']
        cases findGroup db g' <;> rfl
      | some pg =>
        refine ⟨fun d => if d.gid = pg then { d with students := pullId d.students s } else d,
          fun d => by by_cases h : d.gid = pg <;> simp [h],
          fun d x hx hxs => by
            show x ∈ (if d.gid = pg then { d with students := pullId d.students s } else d).students
            by_cases h : d.gid = pg
            · rw [if_pos h]
              exact mem_pullId d.students s x hx hxs
            · rw [if_neg h]
              exact hx,
          fun d => by by_cases h : d.gid = pg <;> simp [h], ?_⟩
        rw [if_neg (hsgv ▸ hsg)]
        show findGroup (saveStudent (removeParentFromGroupIfUnused (groupPullStudent db pg s)
          (some pg) st.parent) { st with group := some gid }) g' = _
        have hnoop : removeParentFromGroupIfUnused (groupPullStudent db pg s) (some pg) st.parent
            = groupPullStudent db pg s := by
          cases hpv : st.parent with
          | none => rfl
          | some p0 =>
            exact removeParent_noop_of_witness _ pg p0 st hmem hsgv hpv
        rw [hnoop]
        rw [findGroup_of_groups_eq (groupPullStudent db pg s)
          (saveStudent (groupPullStudent db pg s) { st with group := some gid }) rfl g']
        rw [show groupPullStudent db pg s = mapGroup db pg
          (fun d => { d with students := pullId d.students s }) from rfl]
        exact findGroup_mapGroup db pg g'
          (fun d => { d with students := pullId d.students s }) (fun d => rfl)
  obtain ⟨F, hFgid, hFstu, hFpar, hMeq⟩ := hMchar
  have hCeq : findGroup (groupAddStudent dbM gid s) g' = (findGroup dbM g').map
      (fun d => if d.gid = gid then { d with students := addToSet d.students s } else d) := by
    rw [show groupAddStudent dbM gid s = mapGroup dbM gid
      (fun d => { d with students := addToSet d.students s }) from rfl]
    exact findGroup_mapGroup dbM gid g'
      (fun d => { d with students := addToSet d.students s }) (fun d => rfl)
  by_cases hp : st.parent = none
  · rw [if_neg (fun h => h hp), hCeq, hMeq] at hfg2
    rename' hfg2 => hfg
    cases hfg0 : findGroup db g' with
    | none => rw [hfg0] at hfg; exact absurd hfg (by simp)
    | some gd0 =>
      rw [hfg0] at hfg
      simp only [Option.map] at hfg
      have hgd : gd = if (F gd0).gid = gid
          then { F gd0 with students := addToSet (F gd0).students s } else F gd0 :=
        (Option.some.inj hfg).symm
      have hg0 : gd0.gid = g' := findGroup_gid db g' gd0 hfg0
      refine ⟨gd0, rfl, ?_, ?_, ?_⟩
      · intro x hx hxs
        have hxF : x ∈ (F gd0).students := hFstu gd0 x hx hxs
        rw [hgd]
        by_cases hgg : (F gd0).gid = gid
        · rw [if_pos hgg]
          exact mem_addToSet _ s x hxF
        · rw [if_neg hgg]
          exact hxF
      · intro p hpmem
        have hpF : p ∈ (F gd0).parents := by rw [hFpar]; exact hpmem
        rw [hgd]
        by_cases hgg : (F gd0).gid = gid
        · rw [if_pos hgg]; exact hpF
        · rw [if_neg hgg]; exact hpF
      · intro hggid
        constructor
        · have hgg : (F gd0).gid = gid := by rw [hFgid, hg0]; exact hggid
          rw [hgd, if_pos hgg]
          exact mem_addToSet_self _ s
        · intro p0 hp0
          rw [hp] at hp0
          cases hp0
  · cases hpv : st.parent with
    | none => exact absurd hpv hp
    | some p0 =>
      rw [hpv, if_pos (show (some p0 : Option Id) ≠ none from by simp)] at hfg2
      rename' hfg2 => hfg
      rw [show ensureParentInGroup (groupAddStudent dbM gid s) (some gid) (some p0)
        = mapGroup (groupAddStudent dbM gid s) gid
          (fun d => { d with parents := addToSet d.parents p0 }) from rfl] at hfg
      rw [findGroup_mapGroup _ gid g'
        (fun d => { d with parents := addToSet d.parents p0 }) (fun d => rfl),
        hCeq, hMeq] at hfg
      cases hfg0 : findGroup db g' with
      | none => rw [hfg0] at hfg; exact absurd hfg (by simp)
      | some gd0 =>
        rw [hfg0] at hfg
        simp only [Option.map] at hfg
        have hgd : gd = if (if (F gd0).gid = gid
            then { F gd0 with students := addToSet (F gd0).students s } else F gd0).gid = gid
          then { (if (F gd0).gid = gid
            then { F gd0 with students := addToSet (F gd0).students s } else F gd0) with
              parents := addToSet (if (F gd0).gid = gid
            then { F gd0 with students := addToSet (F gd0).students s } else F gd0).parents p0 }
          else (if (F gd0).gid = gid
            then { F gd0 with students := addToSet (F gd0).students s } else F gd0) :=
          (Option.some.inj hfg).symm
        have hg0 : gd0.gid = g' := findGroup_gid db g' gd0 hfg0
        by_cases hgg : (F gd0).gid = gid
        · rw [if_pos hgg] at hgd
          rw [if_pos (show ({ F gd0 with
            students := addToSet (F gd0).students s } : GroupDoc).gid = gid from hgg)] at hgd
          refine ⟨gd0, rfl, ?_, ?_, ?_⟩
          · intro x hx hxs
            rw [hgd]
            exact mem_addToSet _ s x (hFstu gd0 x hx hxs)
          · intro p hpmem
            rw [hgd]
            refine mem_addToSet _ p0 p ?_
            show p ∈ (F gd0).parents
            rw [hFpar]
            exact hpmem
          · intro _
            rw [hgd]
            exact ⟨mem_addToSet_self _ s, by
              intro q hq
              cases hq
              exact mem_addToSet_self _ p0⟩
        · rw [if_neg hgg] at hgd
          rw [if_neg hgg] at hgd
          refine ⟨gd0, rfl, ?_, ?_, ?_⟩
          · intro x hx hxs
            rw [hgd]
            exact hFstu gd0 x hx hxs
          · intro p hpmem
            rw [hgd, hFpar]
            exact hpmem
          · intro hggid
            exact absurd (by rw [hFgid, hg0]; exact hggid) hgg

theorem inv_detachStep (gid : Id) (db : DB) (s : Id) (st : StudentDoc)
    (hn : (db.students.map (·.sid)).Nodup)
    (hfind : findStudent db s = some st)
    (h1 : inv1 db) (h2 : inv2 db) :
    inv1 (detachStep gid db s st) ∧ inv2 (detachStep gid db s st) := by
  obtain ⟨hmem, hsid⟩ := findStudent_mem db s st hfind
  have hn' : ((detachStep gid db s st).students.map (·.sid)).Nodup := by
    rw [detachStep_sidMap]
    exact hn
  constructor
  · intro s' hs' g gd hgrp hfg
    have hfs' : findStudent (detachStep gid db s st) s'.sid = some s' :=
      findStudent_of_mem _ hn' s' hs'
    rw [findStudent_detachStep gid db s st s'.sid hfind] at hfs'
    by_cases hss : s'.sid = s
    · rw [if_pos hss] at hfs'
      have hse : s' = { st with group := none } := (Option.some.inj hfs').symm
      rw [hse] at hgrp
      exact absurd hgrp (by simp)
    · rw [if_neg hss] at hfs'
      have hs0 : s' ∈ db.students := (findStudent_mem db s'.sid s' hfs').1
      obtain ⟨gd0, hfg0, hstu, hparm⟩ := detachStep_group_mono gid db s st hfind g gd hfg
      exact hstu s'.sid (h1 s' hs0 g gd0 hgrp hfg0) hss
  · intro s' hs' p pd hpar hfp
    have hfp0 : findParent db p = some pd := by
      rw [← findParent_of_parents_eq db (detachStep gid db s st)
        (detachStep_pFrame gid db s st).1 p]
      exact hfp
    have hfs' : findStudent (detachStep gid db s st) s'.sid = some s' :=
      findStudent_of_mem _ hn' s' hs'
    rw [findStudent_detachStep gid db s st s'.sid hfind] at hfs'
    by_cases hss : s'.sid = s
    · rw [if_pos hss] at hfs'
      have hse : s' = { st with group := none } := (Option.some.inj hfs').symm
      have hpst : st.parent = some p := by rw [hse] at hpar; exact hpar
      have hp2 := h2 st hmem p pd hpst hfp0
      constructor
      · rw [hse]
        exact hp2.1
      · intro g gd hg _
        rw [hse] at hg
        exact absurd hg (by simp)
    · rw [if_neg hss] at hfs'
      have hs0 : s' ∈ db.students := (findStudent_mem db s'.sid s' hfs').1
      have hp2 := h2 s' hs0 p pd hpar hfp0
      refine ⟨hp2.1, ?_⟩
      intro g gd hg hfg
      obtain ⟨gd0, hfg0, hstu, hparm⟩ := detachStep_group_mono gid db s st hfind g gd hfg
      exact hparm p (hp2.2 g gd0 hg hfg0) ⟨s', hs0, hss, hg, hpar⟩

theorem inv_detachAllStep (gid : Id) (db : DB) (s : Id) (st : StudentDoc)
    (hn : (db.students.map (·.sid)).Nodup)
    (hfind : findStudent db s = some st)
    (h1 : inv1 db) (h2 : inv2 db) :
    inv1 (detachAllStep gid db st) ∧ inv2 (detachAllStep gid db st) := by
  obtain ⟨hmem, hsid⟩ := findStudent_mem db s st hfind
  have hn' : ((detachAllStep gid db st).students.map (·.sid)).Nodup := by
    rw [detachAllStep_sidMap]
    exact hn
  constructor
  · intro s' hs' g gd hgrp hfg
    have hfs' : findStudent (detachAllStep gid db st) s'.sid = some s' :=
      findStudent_of_mem _ hn' s' hs'
    rw [findStudent_detachAllStep gid db s st s'.sid hfind] at hfs'
    by_cases hss : s'.sid = s
    · rw [if_pos hss] at hfs'
      have hse : s' = { st with group := none } := (Option.some.inj hfs').symm
      rw [hse] at hgrp
      exact absurd hgrp (by simp)
    · rw [if_neg hss] at hfs'
      have hs0 : s' ∈ db.students := (findStudent_mem db s'.sid s' hfs').1
      obtain ⟨gd0, hfg0, hstu, hparm⟩ := detachAllStep_group_mono gid db s st hfind g gd hfg
      rw [hstu]
      exact h1 s' hs0 g gd0 hgrp hfg0
  · intro s' hs' p pd hpar hfp
    have hfp0 : findParent db p = some pd := by
      rw [← findParent_of_parents_eq db (detachAllStep gid db st)
        (detachAllStep_pFrame gid db st).1 p]
      exact hfp
    have hfs' : findStudent (detachAllStep gid db st) s'.sid = some s' :=
      findStudent_of_mem _ hn' s' hs'
    rw [findStudent_detachAllStep gid db s st s'.sid hfind] at hfs'
    by_cases hss : s'.sid = s
    · rw [if_pos hss] at hfs'
      have hse : s' = { st with group := none } := (Option.some.inj hfs').symm
      have hpst : st.parent = some p := by rw [hse] at hpar; exact hpar
      have hp2 := h2 st hmem p pd hpst hfp0
      constructor
      · rw [hse]
        exact hp2.1
      · intro g gd hg _
        rw [hse] at hg
        exact absurd hg (by simp)
    · rw [if_neg hss] at hfs'
      have hs0 : s' ∈ db.students := (findStudent_mem db s'.sid s' hfs').1
      have hp2 := h2 s' hs0 p pd hpar hfp0
      refine ⟨hp2.1, ?_⟩
      intro g gd hg hfg
      obtain ⟨gd0, hfg0, hstu, hparm⟩ := detachAllStep_group_mono gid db s st hfind g gd hfg
      exact hparm p (hp2.2 g gd0 hg hfg0) ⟨s', hs0, hss, hg, hpar⟩

theorem inv_assignStep (gid : Id) (db : DB) (s : Id) (st : StudentDoc)
    (hn : (db.students.map (·.sid)).Nodup)
    (hfind : findStudent db s = some st)
    (h1 : inv1 db) (h2 : inv2 db) :
    inv1 (assignStep gid db s st) ∧ inv2 (assignStep gid db s st) := by
  obtain ⟨hmem, hsid⟩ := findStudent_mem db s st hfind
  have hn' : ((assignStep gid db s st).students.map (·.sid)).Nodup := by
    rw [assignStep_sidMap]
    exact hn
  constructor
  · intro s' hs' g gd hgrp hfg
    have hfs' : findStudent (assignStep gid db s st) s'.sid = some s' :=
      findStudent_of_mem _ hn' s' hs'
    rw [findStudent_assignStep gid db s st s'.sid hfind] at hfs'
    obtain ⟨gd0, hfg0, hstu, hparm, hself⟩ := assignStep_group_mono gid db s st hfind g gd hfg
    by_cases hss : s'.sid = s
    · rw [if_pos hss] at hfs'
      have hse : s' = { st with group := some gid } := (Option.some.inj hfs').symm
      have hgg : g = gid := by
        rw [hse] at hgrp
        exact (Option.some.inj hgrp).symm
      rw [hse, hsid]
      exact (hself hgg).1
    · rw [if_neg hss] at hfs'
      have hs0 : s' ∈ db.students := (findStudent_mem db s'.sid s' hfs').1
      exact hstu s'.sid (h1 s' hs0 g gd0 hgrp hfg0) hss
  · intro s' hs' p pd hpar hfp
    have hfp0 : findParent db p = some pd := by
      rw [← findParent_of_parents_eq db (assignStep gid db s st)
        (assignStep_pFrame gid db s st).1 p]
      exact hfp
    have hfs' : findStudent (assignStep gid db s st) s'.sid = some s' :=
      findStudent_of_mem _ hn' s' hs'
    rw [findStudent_assignStep gid db s st s'.sid hfind] at hfs'
    by_cases hss : s'.sid = s
    · rw [if_pos hss] at hfs'
      have hse : s' = { st with group := some gid } := (Option.some.inj hfs').symm
      have hpst : st.parent = some p := by rw [hse] at hpar; exact hpar
      have hp2 := h2 st hmem p pd hpst hfp0
      constructor
      · rw [hse]
        exact hp2.1
      · intro g gd hg hfg
        obtain ⟨gd0, hfg0, hstu, hparm, hself⟩ :=
          assignStep_group_mono gid db s st hfind g gd hfg
        have hgg : g = gid := by
          rw [hse] at hg
          exact (Option.some.inj hg).symm
        exact (hself hgg).2 p hpst
    · rw [if_neg hss] at hfs'
      have hs0 : s' ∈ db.students := (findStudent_mem db s'.sid s' hfs').1
      have hp2 := h2 s' hs0 p pd hpar hfp0
      refine ⟨hp2.1, ?_⟩
      intro g gd hg hfg
      obtain ⟨gd0, hfg0, hstu, hparm, hself⟩ :=
        assignStep_group_mono gid db s st hfind g gd hfg
      exact hparm p (hp2.2 g gd0 hg hfg0)

theorem inv_detachListed (gid : Id) (l : List Id) :
    ∀ db, (db.students.map (·.sid)).Nodup → inv1 db → inv2 db →
      inv1 (detachListed gid db l) ∧ inv2 (detachListed gid db l) := by
  induction l with
  | nil => intro db _ h1 h2; exact ⟨h1, h2⟩
  | cons s rest ih =>
    intro db hn h1 h2
    unfold detachListed
    cases hf : findStudent db s with
    | none => exact ih db hn h1 h2
    | some st =>
      have hstep := inv_detachStep gid db s st hn hf h1 h2
      have hn' : ((detachStep gid db s st).students.map (·.sid)).Nodup := by
        rw [detachStep_sidMap]
        exact hn
      exact ih _ hn' hstep.1 hstep.2

theorem inv_detachAll (gid : Id) (l : List Id) :
    ∀ db, (db.students.map (·.sid)).Nodup → inv1 db → inv2 db →
      inv1 (detachAll gid db l) ∧ inv2 (detachAll gid db l) := by
  induction l with
  | nil => intro db _ h1 h2; exact ⟨h1, h2⟩
  | cons s rest ih =>
    intro db hn h1 h2
    unfold detachAll
    cases hf : findStudent db s with
    | none => exact ih db hn h1 h2
    | some st =>
      have hstep := inv_detachAllStep gid db s st hn hf h1 h2
      have hn' : ((detachAllStep gid db st).students.map (·.sid)).Nodup := by
        rw [detachAllStep_sidMap]
        exact hn
      exact ih _ hn' hstep.1 hstep.2

theorem inv_assignListed (gid : Id) (l : List Id) :
    ∀ db, (db.students.map (·.sid)).Nodup → inv1 db → inv2 db →
      inv1 (assignListed gid db l) ∧ inv2 (assignListed gid db l) := by
  induction l with
  | nil => intro db _ h1 h2; exact ⟨h1, h2⟩
  | cons s rest ih =>
    intro db hn h1 h2
    unfold assignListed
    cases hf : findStudent db s with
    | none => exact ih db hn h1 h2
    | some st =>
      have hstep := inv_assignStep gid db s st hn hf h1 h2
      have hn' : ((assignStep gid db s st).students.map (·.sid)).Nodup := by
        rw [assignStep_sidMap]
        exact hn
      exact ih _ hn' hstep.1 hstep.2

theorem find?_append_singleton {α : Type} (l : List α) (a : α) (p : α → Bool)
    (hpa : p a = false) : (l ++ [a]).find? p = l.find? p := by
  induction l with
  | nil =>
    rw [List.nil_append, List.find?_cons_of_neg _ (by simp [hpa])]
  | cons x xs ih =>
    rw [List.cons_append]
    by_cases hpx : p x = true
    · rw [List.find?_cons_of_pos _ hpx, List.find?_cons_of_pos _ hpx]
    · rw [List.find?_cons_of_neg _ hpx, List.find?_cons_of_neg _ hpx, ih]

theorem findParent_saveParentNames (db : DB) (pid : Id) (f l : String) (q : Id) :
    findParent (saveParentNames db pid f l) q = (findParent db q).map
      (fun d => if d.pid = pid then { d with firstName := f, lastName := l } else d) := by
  unfold saveParentNames
  exact findParent_mapParent db pid q _ (fun d => rfl)

theorem findParent_condSaveParentNames (db : DB) (pid2 : Id) (c : Prop) [Decidable c]
    (f l : String) (p : Id) (pd' : ParentDoc)
    (h : findParent (if c then saveParentNames db pid2 f l else db) p = some pd') :
    ∃ pd0, findParent db p = some pd0 ∧ pd'.students = pd0.students := by
  revert h
  split
  · intro h
    rw [findParent_saveParentNames] at h
    cases hf0 : findParent db p with
    | none => rw [hf0] at h; exact absurd h (by simp)
    | some pd0 =>
      rw [hf0] at h
      simp only [Option.map] at h
      refine ⟨pd0, rfl, ?_⟩
      rw [(Option.some.inj h).symm]
      by_cases hdp : pd0.pid = pid2
      · rw [if_pos hdp]
      · rw [if_neg hdp]
  · intro h
    exact ⟨pd', h, rfl⟩

/-- `Parent.findById` on an id issued before the entry was processed is
unaffected by the entry except possibly for a name update. -/
theorem resolveEntry_findParent (db : DB) (e : ParentEntry) (pid : Id) (db' : DB)
    (h : resolveEntry db e = some (pid, db')) (p : Id) (hlt : p < db.nextId) :
    ∀ pd', findParent db' p = some pd' →
      ∃ pd0, findParent db p = some pd0 ∧ pd'.students = pd0.students := by
  unfold resolveEntry at h
  cases he : e.email with
  | none => rw [he] at h; exact absurd h (by simp)
  | some raw =>
    rw [he] at h
    simp only at h
    split at h
    · exact absurd h (by simp)
    · split at h
      · rename_i hfindP
        simp only [createParent, Option.some.injEq, Prod.mk.injEq] at h
        obtain ⟨hpid, rfl⟩ := h
        intro pd' hpd'
        refine ⟨pd', ?_, rfl⟩
        rw [← hpd']
        have hpa : (fun q : ParentDoc => decide (q.pid = p))
            { pid := db.nextId, firstName := (normalizeParentName e.name).firstName,
              lastName := (normalizeParentName e.name).lastName,
              email := normEmail (trimS (lowerS raw)), phone := "", students := [] } = false := by
          simp only [decide_eq_false_iff_not]
          show ¬ db.nextId = p
          exact fun hc => absurd (hc ▸ hlt) (lt_irrefl _)
        exact (find?_append_singleton db.parents _ _ hpa).symm
      · rename_i pdoc hfindP
        simp only [Option.some.injEq, Prod.mk.injEq] at h
        obtain ⟨hpid, rfl⟩ := h
        intro pd' hpd'
        exact findParent_condSaveParentNames db pdoc.pid _ _ _ p pd' hpd'

theorem inv1_of_frames (db db' : DB) (hg : db'.groups = db.groups)
    (hs : db'.students = db.students) (h1 : inv1 db) : inv1 db' := by
  intro s hs' g gd hgrp hfg
  rw [hs] at hs'
  rw [findGroup_of_groups_eq db db' hg g] at hfg
  exact h1 s hs' g gd hgrp hfg

theorem inv2_resolveEntry (db : DB) (e : ParentEntry) (pid : Id) (db' : DB)
    (h : resolveEntry db e = some (pid, db'))
    (href : ∀ s ∈ db.students, ∀ p, s.parent = some p → p < db.nextId)
    (h2 : inv2 db) : inv2 db' := by
  obtain ⟨hgroups, hstudents⟩ := resolveEntry_frame db e pid db' (by rw [h])
  intro s hs p pd hpar hfp
  rw [hstudents] at hs
  have hlt : p < db.nextId := href s hs p hpar
  obtain ⟨pd0, hfp0, hstu⟩ := resolveEntry_findParent db e pid db' h p hlt pd hfp
  have hp2 := h2 s hs p pd0 hpar hfp0
  refine ⟨by rw [hstu]; exact hp2.1, ?_⟩
  intro g gd hg hfg
  rw [findGroup_of_groups_eq db db' hgroups g] at hfg
  exact hp2.2 g gd hg hfg

theorem inv2_processParents (es : List ParentEntry) :
    ∀ db acc,
      (∀ acc' db2, processParents db acc es = .ok (acc', db2) →
        (∀ s ∈ db.students, ∀ p, s.parent = some p → p < db.nextId) → inv2 db → inv2 db2) ∧
      (∀ db', processParents db acc es = .error db' →
        (∀ s ∈ db.students, ∀ p, s.parent = some p → p < db.nextId) → inv2 db → inv2 db') := by
  induction es with
  | nil =>
    intro db acc
    constructor
    · intro acc' db2 h _ h2
      unfold processParents at h
      cases h
      exact h2
    · intro db' h _ _
      unfold processParents at h
      cases h
  | cons e rest ih =>
    intro db acc
    have step : ∀ pid dbn, resolveEntry db e = some (pid, dbn) →
        (∀ s ∈ db.students, ∀ p, s.parent = some p → p < db.nextId) → inv2 db →
        ((∀ s ∈ dbn.students, ∀ p, s.parent = some p → p < dbn.nextId) ∧ inv2 dbn) := by
      intro pid dbn hres href h2
      obtain ⟨hgroups, hstudents⟩ := resolveEntry_frame db e pid dbn (by rw [hres])
      refine ⟨?_, inv2_resolveEntry db e pid dbn hres href h2⟩
      intro s hs p hpar
      rw [hstudents] at hs
      exact lt_of_lt_of_le (href s hs p hpar)
        (resolveEntry_parents_char db e pid dbn hres).2.2
    constructor
    · intro acc' db2 h href h2
      unfold processParents at h
      cases hres : resolveEntry db e with
      | none => rw [hres] at h; exact absurd h (by simp)
      | some pr =>
        rw [hres] at h
        obtain ⟨href', h2'⟩ := step pr.1 pr.2 (by rw [hres]) href h2
        exact (ih pr.2 (insertIfAbsent acc pr.1)).1 acc' db2 h href' h2'
    · intro db' h href h2
      unfold processParents at h
      cases hres : resolveEntry db e with
      | none =>
        rw [hres] at h
        simp only [Except.error.injEq] at h
        subst h
        exact h2
      | some pr =>
        rw [hres] at h
        obtain ⟨href', h2'⟩ := step pr.1 pr.2 (by rw [hres]) href h2
        exact (ih pr.2 (insertIfAbsent acc pr.1)).2 db' h href' h2'

theorem mem_distinctParents (db : DB) (gid : Id) (s' : StudentDoc)
    (hs' : s' ∈ db.students) (hg : s'.group = some gid) (p : Id)
    (hp : s'.parent = some p) : p ∈ distinctParents db gid := by
  unfold distinctParents
  rw [mem_dedupKeepFirst]
  refine List.mem_filterMap.mpr ⟨s', ?_, hp⟩
  exact List.mem_filter.mpr ⟨hs', by simp [hg]⟩

theorem find?_filter_of_imp {α : Type} (l : List α) (p q : α → Bool)
    (h : ∀ a, p a = true → q a = true) : (l.filter q).find? p = l.find? p := by
  induction l with
  | nil => rfl
  | cons x xs ih =>
    by_cases hq : q x = true
    · rw [List.filter_cons_of_pos hq]
      by_cases hp : p x = true
      · rw [List.find?_cons_of_pos _ hp, List.find?_cons_of_pos _ hp]
      · rw [List.find?_cons_of_neg _ hp, List.find?_cons_of_neg _ hp, ih]
    · rw [List.filter_cons_of_neg (by simpa using hq)]
      have hp : ¬ p x = true := fun hp => hq (h x hp)
      rw [List.find?_cons_of_neg _ hp, ih]

theorem findParent_deleteParent (db : DB) (p0 p : Id) :
    findParent (deleteParent db p0) p = if p = p0 then none else findParent db p := by
  by_cases h : p = p0
  · rw [if_pos h]
    subst h
    apply List.find?_eq_none.mpr
    intro x hx
    have hne := (List.mem_filter.mp hx).2
    simp only [decide_eq_true_eq] at hne ⊢
    exact hne
  · rw [if_neg h]
    show (db.parents.filter _).find? _ = db.parents.find? _
    refine find?_filter_of_imp db.parents _ _ ?_
    intro a ha
    simp only [decide_eq_true_eq] at ha ⊢
    rw [ha]
    exact h

theorem cleanupRemoved_students (gid : Id) (l : List Id) :
    ∀ db, (cleanupRemoved gid db l).students = db.students :=
  fun db => (cleanupRemoved_views gid l db).2.2

/-- Surviving parent documents are untouched by the cleanup loop. -/
theorem cleanupRemoved_findParent_mono (gid : Id) (l : List Id) :
    ∀ db p pd', findParent (cleanupRemoved gid db l) p = some pd' →
      findParent db p = some pd' := by
  induction l with
  | nil => intro db p pd' h; exact h
  | cons q rest ih =>
    intro db p pd' h
    unfold cleanupRemoved at h
    have hstep := ih _ p pd' h
    revert hstep
    show findParent (if countStudentsP (removeParentFromGroupIfUnused db (some gid) (some q)) q > 0 ∨
        countGroupsP (removeParentFromGroupIfUnused db (some gid) (some q)) q > 0 then
        removeParentFromGroupIfUnused db (some gid) (some q)
      else deleteParent (removeParentFromGroupIfUnused db (some gid) (some q)) q) p = some pd' →
        findParent db p = some pd'
    have hrp : ∀ r, findParent (removeParentFromGroupIfUnused db (some gid) (some q)) r
        = findParent db r :=
      fun r => findParent_of_parents_eq db _ (removeParent_parents db (some gid) (some q)) r
    split
    · intro hstep
      rw [hrp] at hstep
      exact hstep
    · intro hstep
      rw [findParent_deleteParent] at hstep
      revert hstep
      split
      · intro hstep; cases hstep
      · intro hstep
        rw [hrp] at hstep
        exact hstep

/-- Group documents survive the cleanup loop with their student lists intact,
and keep every parent entry that some stored student of the group still
references. -/
theorem cleanupRemoved_group_mono (gid : Id) (l : List Id) :
    ∀ db g' gd', findGroup (cleanupRemoved gid db l) g' = some gd' →
      ∃ gd, findGroup db g' = some gd ∧ gd'.students = gd.students ∧
        ∀ p, p ∈ gd.parents →
          (∃ w ∈ db.students, w.group = some g' ∧ w.parent = some p) → p ∈ gd'.parents := by
  induction l with
  | nil => intro db g' gd' h; exact ⟨gd', h, rfl, fun p hp _ => hp⟩
  | cons q rest ih =>
    intro db g' gd' h
    unfold cleanupRemoved at h
    obtain ⟨gdm, hgdm, hstu, hpar⟩ := ih _ g' gd' h
    revert hgdm
    show findGroup (if countStudentsP (removeParentFromGroupIfUnused db (some gid) (some q)) q > 0 ∨
        countGroupsP (removeParentFromGroupIfUnused db (some gid) (some q)) q > 0 then
        removeParentFromGroupIfUnused db (some gid) (some q)
      else deleteParent (removeParentFromGroupIfUnused db (some gid) (some q)) q) g' = some gdm →
        _
    have hwit : ∀ p, (∃ w ∈ db.students, w.group = some g' ∧ w.parent = some p) →
        (∃ w ∈ (removeParentFromGroupIfUnused db (some gid) (some q)).students,
          w.group = some g' ∧ w.parent = some p) := by
      intro p hex
      rw [removeParent_students]
      exact hex
    intro hgdm
    have hgdm2 : findGroup (removeParentFromGroupIfUnused db (some gid) (some q)) g'
        = some gdm := by
      revert hgdm
      split
      · exact fun hh => hh
      · intro hh
        rw [findGroup_of_groups_eq _ _ (deleteParent_groups _ q) g'] at hh
        exact hh
    obtain ⟨gd, hgd, hstu2, hpar2⟩ := removeParent_group_mono _ _ _ _ _ hgdm2
    refine ⟨gd, hgd, hstu.trans hstu2, ?_⟩
    intro p hp hex
    have hwstep : ∃ w ∈ (removeParentFromGroupIfUnused db (some gid) (some q)).students,
        w.group = some g' ∧ w.parent = some p := hwit p hex
    have hpm : p ∈ gdm.parents := hpar2 p hp hex
    refine hpar p hpm ?_
    show ∃ w ∈ (if countStudentsP (removeParentFromGroupIfUnused db (some gid) (some q)) q > 0 ∨
        countGroupsP (removeParentFromGroupIfUnused db (some gid) (some q)) q > 0 then
        removeParentFromGroupIfUnused db (some gid) (some q)
      else deleteParent (removeParentFromGroupIfUnused db (some gid) (some q)) q).students,
        w.group = some g' ∧ w.parent = some p
    split
    · exact hwstep
    · rw [deleteParent_students]
      exact hwstep

theorem inv_parentPhase (gid : Id) (gmem : GroupDoc) (req : PatchReq) (db : DB)
    (hgid : gmem.gid = gid)
    (href : ∀ s ∈ db.students, ∀ p, s.parent = some p → p < db.nextId)
    (h1 : inv1 db) (h2 : inv2 db)
    (Hgrp : ∀ s' ∈ db.students, s'.group = some gid → s'.sid ∈ gmem.students) :
    inv1 (parentPhase gid gmem req db).2 ∧ inv2 (parentPhase gid gmem req db).2 := by
  unfold parentPhase
  cases hpp : processParents db (distinctParents db gid) (req.parents.getD []) with
  | error db' =>
    obtain ⟨hgroups, hstudents⟩ :=
      ((processParents_frame _ db (distinctParents db gid)).2) db' hpp
    exact ⟨inv1_of_frames db db' hgroups hstudents h1,
      ((inv2_processParents _ db (distinctParents db gid)).2) db' hpp href h2⟩
  | ok pr =>
    obtain ⟨finalIds, db2⟩ := pr
    obtain ⟨hgroups, hstudents⟩ :=
      ((processParents_frame _ db (distinctParents db gid)).1) finalIds db2 hpp
    have h1_2 : inv1 db2 := inv1_of_frames db db2 hgroups hstudents h1
    have h2_2 : inv2 db2 := ((inv2_processParents _ db (distinctParents db gid)).1)
      finalIds db2 hpp href h2
    have haccm : distinctParents db gid ⊆ finalIds :=
      processParents_acc_mono _ db (distinctParents db gid) finalIds db2 hpp
    have h1_3 : inv1 (saveGroup db2 { gmem with parents := finalIds }) := by
      intro s' hs' g gd hgrp hfgg
      have hs'2 : s' ∈ db2.students := hs'
      have hs'0 : s' ∈ db.students := by rw [← hstudents]; exact hs'2
      rw [findGroup_saveGroup] at hfgg
      cases hfd : findGroup db2 g with
      | none => rw [hfd] at hfgg; exact absurd hfgg (by simp)
      | some dcur =>
        rw [hfd] at hfgg
        simp only [Option.map] at hfgg
        have hdg : dcur.gid = g := findGroup_gid db2 g dcur hfd
        have hgd : gd = if dcur.gid = ({ gmem with parents := finalIds } : GroupDoc).gid
            then { gmem with parents := finalIds } else dcur := (Option.some.inj hfgg).symm
        by_cases hgg : dcur.gid = ({ gmem with parents := finalIds } : GroupDoc).gid
        · rw [hgd, if_pos hgg]
          have hggid : g = gid := by
            rw [← hdg, hgg]
            exact hgid
          show s'.sid ∈ gmem.students
          exact Hgrp s' hs'0 (by rw [← hggid]; exact hgrp)
        · rw [hgd, if_neg hgg]
          exact h1_2 s' hs'2 g dcur hgrp hfd
    have h2_3 : inv2 (saveGroup db2 { gmem with parents := finalIds }) := by
      intro s' hs' p pd hpar hfp
      have hs'2 : s' ∈ db2.students := hs'
      have hs'0 : s' ∈ db.students := by rw [← hstudents]; exact hs'2
      have hfp2 : findParent db2 p = some pd := by
        rw [← findParent_of_parents_eq db2 (saveGroup db2 { gmem with parents := finalIds })
          rfl p]
        exact hfp
      have hp2 := h2_2 s' hs'2 p pd hpar hfp2
      refine ⟨hp2.1, ?_⟩
      intro g gd hg hfgg
      rw [findGroup_saveGroup] at hfgg
      cases hfd : findGroup db2 g with
      | none => rw [hfd] at hfgg; exact absurd hfgg (by simp)
      | some dcur =>
        rw [hfd] at hfgg
        simp only [Option.map] at hfgg
        have hdg : dcur.gid = g := findGroup_gid db2 g dcur hfd
        have hgd : gd = if dcur.gid = ({ gmem with parents := finalIds } : GroupDoc).gid
            then { gmem with parents := finalIds } else dcur := (Option.some.inj hfgg).symm
        by_cases hgg : dcur.gid = ({ gmem with parents := finalIds } : GroupDoc).gid
        · rw [hgd, if_pos hgg]
          have hggid : g = gid := by
            rw [← hdg, hgg]
            exact hgid
          show p ∈ finalIds
          refine haccm (mem_distinctParents db gid s' hs'0 ?_ p hpar)
          rw [← hggid]
          exact hg
        · rw [hgd, if_neg hgg]
          exact hp2.2 g dcur hg hfd
    constructor
    · intro s' hs' g gd' hgrp hfgg
      have hs'3 : s' ∈ (saveGroup db2 { gmem with parents := finalIds }).students := by
        rw [← cleanupRemoved_students gid (gmem.parents.filter (· ∉ finalIds)) _]
        exact hs'
      obtain ⟨gd, hfg3, hstu, hparm⟩ := cleanupRemoved_group_mono gid _ _ g gd' hfgg
      rw [hstu]
      exact h1_3 s' hs'3 g gd hgrp hfg3
    · intro s' hs' p pd' hpar hfp
      have hs'3 : s' ∈ (saveGroup db2 { gmem with parents := finalIds }).students := by
        rw [← cleanupRemoved_students gid (gmem.parents.filter (· ∉ finalIds)) _]
        exact hs'
      have hfp3 := cleanupRemoved_findParent_mono gid _ _ p pd' hfp
      have hp3 := h2_3 s' hs'3 p pd' hpar hfp3
      refine ⟨hp3.1, ?_⟩
      intro g gd' hg hfgg
      obtain ⟨gd, hfg3, hstu, hparm⟩ := cleanupRemoved_group_mono gid _ _ g gd' hfgg
      exact hparm p (hp3.2 g gd hg hfg3) ⟨s', hs'3, hg, hpar⟩

/-- `PATCH /groups/:id/full` preserves invariants 1 and 2 on every path,
including the mid-loop 400 returns. -/
theorem inv_patchGroupFull (db : DB) (gid : Id) (req : PatchReq)
    (hWF : WF db) (h1 : inv1 db) (h2 : inv2 db) :
    inv1 (patchGroupFull db gid req).2 ∧ inv2 (patchGroupFull db gid req).2 := by
  unfold patchGroupFull
  cases hg : findGroup db gid with
  | none => exact ⟨h1, h2⟩
  | some g0 =>
    have hg0 : g0.gid = gid := findGroup_gid db gid g0 hg
    simp only
    split
    · have hinv1 := inv_detachAll gid g0.students db hWF.2.1 h1 h2
      have hn1 : ((detachAll gid db g0.students).students.map (·.sid)).Nodup := by
        rw [detachAll_sidMap]
        exact hWF.2.1
      have hnx1 : (detachAll gid db g0.students).nextId = db.nextId :=
        (detachAll_pFrame gid g0.students db).2
      have href1 : ∀ s ∈ (detachAll gid db g0.students).students, ∀ p,
          s.parent = some p → p < (detachAll gid db g0.students).nextId := by
        intro s hs p hp
        obtain ⟨s0, hs0, _, hpar0⟩ := sKey_mem_transfer db (detachAll gid db g0.students)
          (detachAll_sKeyMap gid g0.students db hWF.2.1) s hs
        rw [hnx1]
        exact hWF.2.2.2.2.2.2 s0 hs0 p (hpar0.trans hp)
      have Hgrp : ∀ s' ∈ (detachAll gid db g0.students).students, s'.group = some gid →
          s'.sid ∈ ([] : List Id) := by
        intro s' hs' hgrp
        have hfs : findStudent (detachAll gid db g0.students) s'.sid = some s' :=
          findStudent_of_mem _ hn1 s' hs'
        rw [findStudent_detachAll] at hfs
        by_cases hin : s'.sid ∈ g0.students
        · rw [if_pos hin] at hfs
          cases horig : findStudent db s'.sid with
          | none => rw [horig] at hfs; exact absurd hfs (by simp)
          | some so =>
            rw [horig] at hfs
            simp only [Option.map] at hfs
            have hse : s' = { so with group := none } := (Option.some.inj hfs).symm
            rw [hse] at hgrp
            exact absurd hgrp (by simp)
        · rw [if_neg hin] at hfs
          have hs0 : s' ∈ db.students := (findStudent_mem db s'.sid s' hfs).1
          exact absurd (h1 s' hs0 gid g0 hgrp hg) hin
      exact inv_parentPhase gid _ req _ hg0 href1 hinv1.1 hinv1.2 Hgrp
    · split
      · exact ⟨h1, h2⟩
      · have hinvD := inv_detachListed gid (g0.students.filter (· ∉ requestedIds req)) db
          hWF.2.1 h1 h2
        have hn1 : ((detachListed gid db
            (g0.students.filter (· ∉ requestedIds req))).students.map (·.sid)).Nodup := by
          rw [detachListed_sidMap]
          exact hWF.2.1
        have hinvA := inv_assignListed gid (requestedIds req) _ hn1 hinvD.1 hinvD.2
        have hn2 : ((assignListed gid (detachListed gid db
            (g0.students.filter (· ∉ requestedIds req)))
            (requestedIds req)).students.map (·.sid)).Nodup := by
          rw [assignListed_sidMap]
          exact hn1
        have hnx2 : (assignListed gid (detachListed gid db
            (g0.students.filter (· ∉ requestedIds req)))
            (requestedIds req)).nextId = db.nextId :=
          ((assignListed_pFrame gid (requestedIds req) _).2).trans
            ((detachListed_pFrame gid (g0.students.filter (· ∉ requestedIds req)) db).2)
        have href2 : ∀ s ∈ (assignListed gid (detachListed gid db
            (g0.students.filter (· ∉ requestedIds req)))
            (requestedIds req)).students, ∀ p, s.parent = some p →
            p < (assignListed gid (detachListed gid db
              (g0.students.filter (· ∉ requestedIds req))) (requestedIds req)).nextId := by
          intro s hs p hp
          obtain ⟨s0, hs0, _, hpar0⟩ := sKey_mem_transfer db _
            (by rw [assignListed_sKeyMap _ _ _ hn1,
              detachListed_sKeyMap gid _ db hWF.2.1]) s hs
          rw [hnx2]
          exact hWF.2.2.2.2.2.2 s0 hs0 p (hpar0.trans hp)
        have Hgrp : ∀ s' ∈ (assignListed gid (detachListed gid db
            (g0.students.filter (· ∉ requestedIds req)))
            (requestedIds req)).students, s'.group = some gid →
            s'.sid ∈ requestedIds req := by
          intro s' hs' hgrp
          have hfs : findStudent (assignListed gid (detachListed gid db
              (g0.students.filter (· ∉ requestedIds req)))
              (requestedIds req)) s'.sid = some s' :=
            findStudent_of_mem _ hn2 s' hs'
          rw [findStudent_assignListed] at hfs
          by_cases hin : s'.sid ∈ requestedIds req
          · exact hin
          · rw [if_neg hin] at hfs
            rw [findStudent_detachListed] at hfs
            by_cases hrem : s'.sid ∈ g0.students.filter (· ∉ requestedIds req)
            · rw [if_pos hrem] at hfs
              cases horig : findStudent db s'.sid with
              | none => rw [horig] at hfs; exact absurd hfs (by simp)
              | some so =>
                rw [horig] at hfs
                simp only [Option.map] at hfs
                have hse : s' = { so with group := none } := (Option.some.inj hfs).symm
                rw [hse] at hgrp
                exact absurd hgrp (by simp)
            · rw [if_neg hrem] at hfs
              have hs0 : s' ∈ db.students := (findStudent_mem db s'.sid s' hfs).1
              have hsidg : s'.sid ∈ g0.students := h1 s' hs0 gid g0 hgrp hg
              exact absurd (List.mem_filter.mpr ⟨hsidg, by simpa using hin⟩) hrem
        exact inv_parentPhase gid _ req _ hg0 href2 hinvA.1 hinvA.2 Hgrp

theorem find?_append_singleton_pos {α : Type} (l : List α) (a : α) (p : α → Bool)
    (hl : l.find? p = none) (hpa : p a = true) : (l ++ [a]).find? p = some a := by
  induction l with
  | nil =>
    rw [List.nil_append]
    exact List.find?_cons_of_pos _ hpa
  | cons x xs ih =>
    by_cases hpx : p x = true
    · rw [List.find?_cons_of_pos _ hpx] at hl
      cases hl
    · rw [List.find?_cons_of_neg _ hpx] at hl
      rw [List.cons_append, List.find?_cons_of_neg _ hpx]
      exact ih hl

theorem pidsOf_saveParentStudents (db : DB) (pid : Id) (sts : List Id) :
    pidsOf (saveParentStudents db pid sts) = pidsOf db := by
  unfold pidsOf saveParentStudents mapParent
  refine map_key_of_pres _ _ _ ?_
  intro d _
  by_cases h : d.pid = pid <;> simp [h]

theorem WFp_createParent (db : DB) (f l e : String) (hw : WFp db) :
    WFp (createParent db f l e).2 := by
  constructor
  · show (List.map (·.pid) (db.parents ++
      [{ pid := db.nextId, firstName := f, lastName := l
         email := normEmail e, phone := "", students := [] }])).Nodup
    rw [List.map_append, List.map_singleton, List.nodup_append]
    refine ⟨hw.1, List.nodup_singleton _, ?_⟩
    intro x hx
    simp only [List.mem_singleton]
    intro hc
    subst hc
    obtain ⟨q, hq, hqx⟩ := List.mem_map.mp hx
    exact absurd (hqx ▸ hw.2 q hq) (lt_irrefl _)
  · intro p hp
    have hp' : p ∈ db.parents ++
        [{ pid := db.nextId, firstName := f, lastName := l
           email := normEmail e, phone := "", students := [] }] := hp
    rw [List.mem_append, List.mem_singleton] at hp'
    rcases hp' with h | rfl
    · exact Nat.lt_succ_of_lt (hw.2 p h)
    · exact Nat.lt_succ_self _

theorem findParent_createParent_lt (db : DB) (f l e : String) (p : Id)
    (hlt : p < db.nextId) :
    findParent (createParent db f l e).2 p = findParent db p := by
  show (db.parents ++ [(⟨db.nextId, f, l, normEmail e, "", []⟩ : ParentDoc)]).find?
      (fun q : ParentDoc => decide (q.pid = p)) =
    db.parents.find? (fun q : ParentDoc => decide (q.pid = p))
  have hpa : (fun q : ParentDoc => decide (q.pid = p))
      (⟨db.nextId, f, l, normEmail e, "", []⟩ : ParentDoc) = false := by
    simp only [decide_eq_false_iff_not]
    show ¬ db.nextId = p
    exact fun hc => absurd (hc ▸ hlt) (lt_irrefl _)
  exact find?_append_singleton db.parents _ _ hpa

theorem findParent_createParent_self (db : DB) (f l e : String) (hw : WFp db) :
    findParent (createParent db f l e).2 (createParent db f l e).1.pid =
      some (createParent db f l e).1 := by
  show (db.parents ++ [(⟨db.nextId, f, l, normEmail e, "", []⟩ : ParentDoc)]).find?
      (fun q : ParentDoc => decide (q.pid = db.nextId)) =
    some (⟨db.nextId, f, l, normEmail e, "", []⟩ : ParentDoc)
  refine find?_append_singleton_pos db.parents _ _ ?_ (by simp)
  apply List.find?_eq_none.mpr
  intro x hx
  simp only [decide_eq_true_eq]
  exact fun hc => absurd (hc ▸ hw.2 x hx) (lt_irrefl _)

theorem condSaveParentNames_frames (db : DB) (pid : Id) (c : Prop) [Decidable c]
    (f l : String) :
    (if c then saveParentNames db pid f l else db).groups = db.groups ∧
    (if c then saveParentNames db pid f l else db).students = db.students ∧
    (if c then saveParentNames db pid f l else db).nextId = db.nextId := by
  split <;> exact ⟨rfl, rfl, rfl⟩

theorem findParent_condSaveParentNames_self (db : DB) (p : ParentDoc)
    (hpmem : p ∈ db.parents) (hn : (db.parents.map (·.pid)).Nodup)
    (c : Prop) [Decidable c] (f l : String) :
    ∃ PD, findParent (if c then saveParentNames db p.pid f l else db) p.pid = some PD ∧
      PD.students = p.students := by
  have hfp : findParent db p.pid = some p := findParent_of_mem db hn p hpmem
  split
  · rw [findParent_saveParentNames, hfp]
    simp only [Option.map_some']
    exact ⟨_, rfl, by simp⟩
  · exact ⟨p, hfp, rfl⟩

theorem resolveParentOnCreate_char (db : DB) (ne : String) (np : NameParts) :
    (resolveParentOnCreate db ne np).2.groups = db.groups ∧
    (resolveParentOnCreate db ne np).2.students = db.students ∧
    db.nextId ≤ (resolveParentOnCreate db ne np).2.nextId ∧
    (∀ p, p < db.nextId → ∀ pd', findParent (resolveParentOnCreate db ne np).2 p = some pd' →
      ∃ pd0, findParent db p = some pd0 ∧ pd'.students = pd0.students) ∧
    (WFp db → WFp (resolveParentOnCreate db ne np).2 ∧
      (resolveParentOnCreate db ne np).1.pid < (resolveParentOnCreate db ne np).2.nextId ∧
      ∃ PD, findParent (resolveParentOnCreate db ne np).2
          ((resolveParentOnCreate db ne np).1.pid) = some PD ∧
        PD.students = (resolveParentOnCreate db ne np).1.students) := by
  unfold resolveParentOnCreate
  cases hf : findParentByEmail db ne with
  | none =>
    refine ⟨rfl, rfl, Nat.le_succ _, ?_, ?_⟩
    · intro p hlt pd' hpd'
      rw [findParent_createParent_lt db _ _ _ p hlt] at hpd'
      exact ⟨pd', hpd', rfl⟩
    · intro hw
      refine ⟨WFp_createParent db _ _ _ hw, ?_, ?_⟩
      · show db.nextId < db.nextId + 1
        exact Nat.lt_succ_self _
      · exact ⟨_, findParent_createParent_self db _ _ _ hw, rfl⟩
  | some p =>
    have hpmem : p ∈ db.parents := (findParentByEmail_mem db ne p hf).1
    refine ⟨?_, ?_, ?_, ?_, ?_⟩
    · exact (condSaveParentNames_frames db p.pid _ _ _).1
    · exact (condSaveParentNames_frames db p.pid _ _ _).2.1
    · exact le_of_eq (condSaveParentNames_frames db p.pid _ _ _).2.2.symm
    · intro q hlt pd' hpd'
      exact findParent_condSaveParentNames db p.pid _ _ _ q pd' hpd'
    · intro hw
      refine ⟨(WFp_condSaveParentNames db p.pid _ _ _ hw).1, ?_, ?_⟩
      · refine lt_of_lt_of_le (hw.2 p hpmem) (le_of_eq ?_)
        exact ((condSaveParentNames_frames db p.pid _ _ _).2.2).symm
      · exact findParent_condSaveParentNames_self db p hpmem hw.1 _ _ _

theorem parents_mem_saveParentStudents (db : DB) (pid : Id) (sts : List Id)
    (q : ParentDoc) (hq : q ∈ (saveParentStudents db pid sts).parents) :
    ∃ q0 ∈ db.parents, q.pid = q0.pid := by
  simp only [saveParentStudents, mapParent, List.mem_map] at hq
  obtain ⟨q0, hq0, rfl⟩ := hq
  refine ⟨q0, hq0, ?_⟩
  by_cases h : q0.pid = pid <;> simp [h]

theorem WFp_saveParentStudents (db : DB) (pid : Id) (sts : List Id) (hw : WFp db) :
    WFp (saveParentStudents db pid sts) := by
  constructor
  · show (pidsOf _).Nodup
    rw [pidsOf_saveParentStudents]
    exact hw.1
  · intro q hq
    obtain ⟨q0, hq0, hqe⟩ := parents_mem_saveParentStudents db pid sts q hq
    show q.pid < db.nextId
    rw [hqe]
    exact hw.2 q0 hq0

theorem findParent_saveParentStudents (db : DB) (pid : Id) (sts : List Id) (q : Id) :
    findParent (saveParentStudents db pid sts) q = (findParent db q).map
      (fun d => if d.pid = pid then { d with students := sts } else d) := by
  unfold saveParentStudents
  exact findParent_mapParent db pid q _ (fun d => rfl)

/-- `POST /api/students` keeps the store well-formed and preserves
invariants 1 and 2 on every path. -/
theorem createStudent_WF_inv (db : DB) (req : CreateStudentReq)
    (hWF : WF db) (h1 : inv1 db) (h2 : inv2 db) :
    WF (createStudent db req).2 ∧ db.nextId ≤ (createStudent db req).2.nextId ∧
    inv1 (createStudent db req).2 ∧ inv2 (createStudent db req).2 := by
  obtain ⟨hgN, hsN, hpN, hgB, hsB, hpB, href⟩ := hWF
  unfold createStudent
  split
  · exact ⟨⟨hgN, hsN, hpN, hgB, hsB, hpB, href⟩, le_refl _, h1, h2⟩
  · split
    · rename_i groupId _gdoc hgideq hfgrpeq
      simp only []
      cases hRC : resolveParentOnCreate db (lowerS (req.parentEmail.getD ""))
          (normalizeParentName req.parentName) with
      | mk parent dbR =>
        simp only []
        have hch := resolveParentOnCreate_char db (lowerS (req.parentEmail.getD ""))
          (normalizeParentName req.parentName)
        rw [hRC] at hch
        obtain ⟨hRg, hRs, hRn, hRfp, hRwf⟩ := hch
        obtain ⟨hWpR, hpidlt, PD, hPD, hPDs⟩ := hRwf ⟨hpN, hpB⟩
        cases hSC : createStudentDoc dbR req.firstName req.lastName req.age
            (some groupId) (some parent.pid)
            (normalizeParentName req.parentName).fullName
            (lowerS (req.parentEmail.getD "")) with
        | mk student dbS =>
          simp only []
          unfold createStudentDoc at hSC
          injection hSC with hstu hdbS
          have hsid : student.sid = dbR.nextId := by rw [← hstu]
          have hsgrp : student.group = some groupId := by rw [← hstu]
          have hspar : student.parent = some parent.pid := by rw [← hstu]
          have hdbSs : dbS.students = dbR.students ++ [student] := by
            rw [← hdbS, ← hstu]
          have hdbSn : dbS.nextId = dbR.nextId + 1 := by rw [← hdbS]
          have hdbSg : dbS.groups = db.groups := by rw [← hdbS]; exact hRg
          have hdbSp : dbS.parents = dbR.parents := by rw [← hdbS]
          -- name the tail states
          set dbG := groupAddStudent dbS groupId student.sid with hdbG
          set dbP := (if student.sid ∈ parent.students then dbG
            else saveParentStudents dbG parent.pid (parent.students ++ [student.sid]))
            with hdbP
          show WF (ensureParentInGroup dbP (some groupId) (some parent.pid)) ∧
            db.nextId ≤ (ensureParentInGroup dbP (some groupId) (some parent.pid)).nextId ∧
            inv1 (ensureParentInGroup dbP (some groupId) (some parent.pid)) ∧
            inv2 (ensureParentInGroup dbP (some groupId) (some parent.pid))
          have hdbPg : dbP.groups = dbG.groups := by
            rw [hdbP]
            split
            · rfl
            · rfl
          have hdbPs : dbP.students = dbS.students := by
            rw [hdbP]
            split
            · rfl
            · rfl
          have hdbPn : dbP.nextId = dbS.nextId := by
            rw [hdbP]
            split
            · rfl
            · rfl
          have hfgP : ∀ g', findGroup dbP g' = (findGroup db g').map
              (fun d => if d.gid = groupId
                then { d with students := addToSet d.students student.sid } else d) := by
            intro g'
            rw [findGroup_of_groups_eq dbG dbP hdbPg g', hdbG]
            rw [show groupAddStudent dbS groupId student.sid = mapGroup dbS groupId
              (fun d => { d with students := addToSet d.students student.sid }) from rfl]
            rw [findGroup_mapGroup dbS groupId g'
              (fun d => { d with students := addToSet d.students student.sid }) (fun d => rfl)]
            rw [findGroup_of_groups_eq db dbS hdbSg g']
          have hfgE : ∀ g', findGroup (ensureParentInGroup dbP (some groupId)
              (some parent.pid)) g' = (findGroup dbP g').map
              (fun d => if d.gid = groupId
                then { d with parents := addToSet d.parents parent.pid } else d) := by
            intro g'
            show findGroup (mapGroup dbP groupId
              (fun d => { d with parents := addToSet d.parents parent.pid })) g' = _
            exact findGroup_mapGroup dbP groupId g'
              (fun d => { d with parents := addToSet d.parents parent.pid }) (fun d => rfl)
          have hfpE : ∀ q, findParent (ensureParentInGroup dbP (some groupId)
              (some parent.pid)) q = findParent dbP q :=
            fun q => findParent_of_parents_eq dbP _ rfl q
          have hstuE : (ensureParentInGroup dbP (some groupId)
              (some parent.pid)).students = db.students ++ [student] := by
            show dbP.students = db.students ++ [student]
            rw [hdbPs, hdbSs, hRs]
          have hnxE : (ensureParentInGroup dbP (some groupId)
              (some parent.pid)).nextId = dbR.nextId + 1 := by
            show dbP.nextId = dbR.nextId + 1
            rw [hdbPn, hdbSn]
          have hnxEge : db.nextId ≤ (ensureParentInGroup dbP (some groupId)
              (some parent.pid)).nextId := by
            rw [hnxE]
            exact le_trans hRn (Nat.le_succ _)
          have hgidsE : gidsOf (ensureParentInGroup dbP (some groupId) (some parent.pid))
              = gidsOf db := by
            rw [gidsOf_ensureParent, gidsOf_of_groups_eq dbG dbP hdbPg, hdbG,
              gidsOf_groupAddStudent, gidsOf_of_groups_eq db dbS hdbSg]
          have hWpS : WFp dbS := by
            constructor
            · show (dbS.parents.map (·.pid)).Nodup
              rw [hdbSp]
              exact hWpR.1
            · intro q hq
              rw [hdbSp] at hq
              rw [hdbSn]
              exact Nat.lt_succ_of_lt (hWpR.2 q hq)
          have hWpG : WFp dbG := hWpS
          have hWpP : WFp dbP := by
            rw [hdbP]
            split
            · exact hWpG
            · exact WFp_saveParentStudents dbG parent.pid _ hWpG
          have hfParG : findParent dbG = findParent dbR := by
            funext q
            exact findParent_of_parents_eq dbR dbG hdbSp q
          refine ⟨⟨?_, ?_, ?_, ?_, ?_, ?_, ?_⟩, hnxEge, ?_, ?_⟩
          · show (gidsOf (ensureParentInGroup dbP (some groupId) (some parent.pid))).Nodup
            rw [hgidsE]
            exact hgN
          · rw [hstuE, List.map_append, List.map_singleton, List.nodup_append]
            refine ⟨hsN, List.nodup_singleton _, ?_⟩
            intro x hx
            simp only [List.mem_singleton]
            intro hc
            subst hc
            obtain ⟨s0, hs0, hs0x⟩ := List.mem_map.mp hx
            have hlt := hsB s0 hs0
            rw [hs0x, hsid] at hlt
            exact absurd (lt_of_lt_of_le hlt hRn) (lt_irrefl _)
          · exact hWpP.1
          · intro g hgmem
            have hmm : g.gid ∈ gidsOf db := by
              rw [← hgidsE]
              exact List.mem_map_of_mem _ hgmem
            obtain ⟨g0, hg0, hge⟩ := List.mem_map.mp hmm
            rw [hnxE]
            exact lt_of_lt_of_le (hge ▸ hgB g0 hg0) (le_trans hRn (Nat.le_succ _))
          · intro s hs
            rw [hstuE] at hs
            rw [hnxE]
            rcases List.mem_append.mp hs with h | h
            · exact lt_of_lt_of_le (hsB s h) (le_trans hRn (Nat.le_succ _))
            · rw [List.mem_singleton] at h
              subst h
              rw [hsid]
              exact Nat.lt_succ_self _
          · intro q hq
            rw [hnxE]
            have hb := hWpP.2 q hq
            rw [hdbPn, hdbSn] at hb
            exact hb
          · intro s hs p hp
            rw [hstuE] at hs
            rw [hnxE]
            rcases List.mem_append.mp hs with h | h
            · exact lt_of_lt_of_le (href s h p hp) (le_trans hRn (Nat.le_succ _))
            · rw [List.mem_singleton] at h
              subst h
              rw [hspar] at hp
              cases hp
              exact Nat.lt_succ_of_lt hpidlt
          · intro s' hs' g gd hgrp hfg
            rw [hstuE] at hs'
            rw [hfgE, hfgP] at hfg
            cases hfd : findGroup db g with
            | none => rw [hfd] at hfg; exact absurd hfg (by simp)
            | some gd0 =>
              rw [hfd] at hfg
              simp only [Option.map] at hfg
              have hdg : gd0.gid = g := findGroup_gid db g gd0 hfd
              rcases List.mem_append.mp hs' with hOld | hNew
              · have hbase : s'.sid ∈ gd0.students := h1 s' hOld g gd0 hgrp hfd
                by_cases hgg : gd0.gid = groupId
                · rw [if_pos hgg, if_pos (show ({ gd0 with
                    students := addToSet gd0.students student.sid } : GroupDoc).gid = groupId
                    from hgg)] at hfg
                  rw [(Option.some.inj hfg).symm]
                  exact mem_addToSet _ _ _ hbase
                · rw [if_neg hgg, if_neg hgg] at hfg
                  rw [(Option.some.inj hfg).symm]
                  exact hbase
              · rw [List.mem_singleton] at hNew
                subst hNew
                rw [hsgrp] at hgrp
                cases hgrp
                rw [if_pos hdg, if_pos (show ({ gd0 with
                  students := addToSet gd0.students s'.sid } : GroupDoc).gid = groupId
                  from hdg)] at hfg
                rw [(Option.some.inj hfg).symm]
                exact mem_addToSet_self _ _
          · intro s' hs' p pd hpar hfp
            rw [hstuE] at hs'
            rw [hfpE] at hfp
            rcases List.mem_append.mp hs' with hOld | hNew
            · have hplt : p < db.nextId := href s' hOld p hpar
              have hfp2 : ∃ pd0, findParent db p = some pd0 ∧
                  (∀ x, x ∈ pd0.students → x ∈ pd.students) := by
                revert hfp
                rw [hdbP]
                split
                · intro hfp
                  rw [show findParent dbG p = findParent dbR p from by rw [hfParG]] at hfp
                  obtain ⟨pd0, hpd0, hstu0⟩ := hRfp p hplt pd hfp
                  exact ⟨pd0, hpd0, fun x hx => by rw [hstu0]; exact hx⟩
                · intro hfp
                  rw [findParent_saveParentStudents,
                    show findParent dbG p = findParent dbR p from by rw [hfParG]] at hfp
                  cases hfR : findParent dbR p with
                  | none => rw [hfR] at hfp; exact absurd hfp (by simp)
                  | some pdR =>
                    rw [hfR] at hfp
                    simp only [Option.map] at hfp
                    obtain ⟨pd0, hpd0, hstu0⟩ := hRfp p hplt pdR hfR
                    refine ⟨pd0, hpd0, ?_⟩
                    intro x hx
                    rw [(Option.some.inj hfp).symm]
                    by_cases hqq : pdR.pid = parent.pid
                    · rw [if_pos hqq]
                      show x ∈ parent.students ++ [student.sid]
                      have hpp : p = parent.pid := by
                        rw [← (findParent_mem dbR p pdR hfR).2, hqq]
                      have hRe : pdR = PD := by
                        rw [hpp] at hfR
                        exact Option.some.inj (hfR.symm.trans hPD)
                      refine List.mem_append_left _ ?_
                      rw [← hPDs, ← hRe, hstu0]
                      exact hx
                    · rw [if_neg hqq]
                      rw [hstu0]
                      exact hx
              obtain ⟨pd0, hpd0, hmono⟩ := hfp2
              have hp2 := h2 s' hOld p pd0 hpar hpd0
              refine ⟨hmono s'.sid hp2.1, ?_⟩
              intro g gd hg hfg
              rw [hfgE, hfgP] at hfg
              cases hfd : findGroup db g with
              | none => rw [hfd] at hfg; exact absurd hfg (by simp)
              | some gd0 =>
                rw [hfd] at hfg
                simp only [Option.map] at hfg
                have hbase := hp2.2 g gd0 hg hfd
                by_cases hgg : gd0.gid = groupId
                · rw [if_pos hgg, if_pos (show ({ gd0 with
                    students := addToSet gd0.students student.sid } : GroupDoc).gid = groupId
                    from hgg)] at hfg
                  rw [(Option.some.inj hfg).symm]
                  show p ∈ addToSet _ parent.pid
                  exact mem_addToSet _ _ _ hbase
                · rw [if_neg hgg, if_neg hgg] at hfg
                  rw [(Option.some.inj hfg).symm]
                  exact hbase
            · rw [List.mem_singleton] at hNew
              subst hNew
              rw [hspar] at hpar
              cases hpar
              have hfpP2 : ∃ pdP, findParent dbP parent.pid = some pdP ∧
                  s'.sid ∈ pdP.students := by
                rw [hdbP]
                split
                · rename_i hin
                  refine ⟨PD, ?_, ?_⟩
                  · rw [show findParent dbG parent.pid = findParent dbR parent.pid from
                      by rw [hfParG]]
                    exact hPD
                  · rw [hPDs]
                    exact hin
                · rename_i hnin
                  rw [findParent_saveParentStudents,
                    show findParent dbG parent.pid = findParent dbR parent.pid from
                      by rw [hfParG], hPD]
                  simp only [Option.map_some']
                  have hPDpid : PD.pid = parent.pid :=
                    (findParent_mem dbR parent.pid PD hPD).2
                  rw [if_pos hPDpid]
                  exact ⟨_, rfl, List.mem_append_right _ (List.mem_singleton_self _)⟩
              obtain ⟨pdP, hpdP, hsidin⟩ := hfpP2
              have hpdeq : pdP = pd := Option.some.inj (hpdP.symm.trans hfp)
              refine ⟨by rw [← hpdeq]; exact hsidin, ?_⟩
              intro g gd hg hfg
              rw [hsgrp] at hg
              cases hg
              rw [hfgE, hfgP] at hfg
              cases hfd : findGroup db groupId with
              | none => rw [hfd] at hfg; exact absurd hfg (by simp)
              | some gd0 =>
                rw [hfd] at hfg
                simp only [Option.map] at hfg
                have hdg : gd0.gid = groupId := findGroup_gid db groupId gd0 hfd
                rw [if_pos hdg, if_pos (show ({ gd0 with
                  students := addToSet gd0.students s'.sid } : GroupDoc).gid = groupId
                  from hdg)] at hfg
                rw [(Option.some.inj hfg).symm]
                exact mem_addToSet_self _ _
    · exact ⟨⟨hgN, hsN, hpN, hgB, hsB, hpB, href⟩, le_refl _, h1, h2⟩

/-- A `PUT /students/:id` body that only (possibly) moves the student to a
different group: every other field is absent. -/
def moveReq (g : Option Id) : UpdateStudentReq :=
  { firstName := none, lastName := none, age := none, groupId := g
    parentName := none, parentEmail := none }

/-- For a pure move request, the update route reduces to the group move, the
student save, the `ensureParentInGroup`, and the two guarded
`removeParentFromGroupIfUnused` calls. -/
theorem updateStudent_moveReq_eq (db : DB) (sid : Id) (g : Option Id) :
    updateStudent db sid (moveReq g) =
      match findStudent db sid with
      | none => (404, db)
      | some st0 =>
        match updateStudent.moveGroup (moveReq g) st0 st0.group db with
        | none => (404, db)
        | some (st1, db1) =>
          let db2 := saveStudent db1 st1
          let db3 := if st1.parent.isSome then ensureParentInGroup db2 st1.group st1.parent
            else db2
          let db4 := if st0.group.isSome ∧ st1.group ≠ st0.group
            then removeParentFromGroupIfUnused db3 st0.group st0.parent else db3
          let db5 := if st0.parent.isSome ∧ st1.parent ≠ st0.parent
            then removeParentFromGroupIfUnused db4
              (if st1.group.isSome then st1.group else st0.group) st0.parent else db4
          (200, db5) := by
  unfold updateStudent
  cases findStudent db sid with
  | none => rfl
  | some st0 => rfl

theorem moveGroup_char (req : UpdateStudentReq) (st : StudentDoc) (og : Option Id)
    (db : DB) (st' : StudentDoc) (db' : DB)
    (h : updateStudent.moveGroup req st og db = some (st', db')) :
    db'.parents = db.parents ∧ db'.nextId = db.nextId ∧ db'.students = db.students ∧
    ((st' = st ∧ db' = db) ∨
      ∃ gv, req.groupId = some gv ∧ og ≠ some gv ∧
        st' = { st with group := some gv } ∧
        ((og = none ∧ db' = groupAddStudent db gv st.sid) ∨
          ∃ ogv, og = some ogv ∧
            db' = groupAddStudent (groupPullStudent db ogv st.sid) gv st.sid)) := by
  unfold updateStudent.moveGroup at h
  cases hrg : req.groupId with
  | none =>
    rw [hrg] at h
    simp only [Option.some.injEq, Prod.mk.injEq] at h
    obtain ⟨rfl, rfl⟩ := h
    exact ⟨rfl, rfl, rfl, Or.inl ⟨rfl, rfl⟩⟩
  | some gv =>
    rw [hrg] at h
    simp only at h
    split at h
    · rename_i hog
      simp only [Option.some.injEq, Prod.mk.injEq] at h
      obtain ⟨rfl, rfl⟩ := h
      exact ⟨rfl, rfl, rfl, Or.inl ⟨rfl, rfl⟩⟩
    · rename_i hog
      cases hfg : findGroup db gv with
      | none => rw [hfg] at h; exact absurd h (by simp)
      | some gdv =>
        rw [hfg] at h
        simp only [Option.some.injEq, Prod.mk.injEq] at h
        obtain ⟨rfl, rfl⟩ := h
        have hfr : ∀ dbm : DB, (groupAddStudent dbm gv st.sid).parents = dbm.parents ∧
            (groupAddStudent dbm gv st.sid).nextId = dbm.nextId ∧
            (groupAddStudent dbm gv st.sid).students = dbm.students :=
          fun dbm => ⟨rfl, rfl, rfl⟩
        refine ⟨?_, ?_, ?_, Or.inr ⟨gv, rfl, hog, rfl, by
          cases og with
          | none => exact Or.inl ⟨rfl, rfl⟩
          | some ogv => exact Or.inr ⟨ogv, rfl, rfl⟩⟩⟩
        · cases og <;> rfl
        · cases og <;> rfl
        · cases og <;> rfl

theorem gidsOf_groupAddParent (db : DB) (g p : Id) :
    gidsOf (groupAddParent db g p) = gidsOf db :=
  gidsOf_mapGroup db g (fun d => { d with parents := addToSet d.parents p }) (fun _ hd => hd)

theorem map_id_of_mem {α : Type} (l : List α) (f : α → α) (h : ∀ x ∈ l, f x = x) :
    l.map f = l := by
  induction l with
  | nil => rfl
  | cons x xs ih =>
    rw [List.map_cons, h x (List.mem_cons_self x xs),
      ih (fun y hy => h y (List.mem_cons_of_mem x hy))]

/-- Saving an unmodified student document back is a no-op on the store. -/
theorem saveStudent_self (db : DB) (st0 : StudentDoc)
    (hn : (db.students.map (·.sid)).Nodup) (hmem : st0 ∈ db.students) :
    saveStudent db st0 = db := by
  show ({ db with
    students := db.students.map (fun d => if d.sid = st0.sid then st0 else d) } : DB) = db
  have hmapid : db.students.map (fun d => if d.sid = st0.sid then st0 else d)
      = db.students := by
    refine map_id_of_mem _ _ ?_
    intro x hx
    by_cases hxs : x.sid = st0.sid
    · rw [if_pos hxs]
      exact eq_of_map_nodup (·.sid) db.students hn st0 x hmem hx
        (show st0.sid = x.sid from hxs.symm)
    · rw [if_neg hxs]
  rw [hmapid]

/-- A group-level write that only extends a group's parent set keeps the store
well-formed and the invariants intact. -/
theorem WF_inv_groupAddParent (db : DB) (g0 p0 : Id)
    (hWF : WF db) (h1 : inv1 db) (h2 : inv2 db) :
    WF (groupAddParent db g0 p0) ∧ inv1 (groupAddParent db g0 p0) ∧
      inv2 (groupAddParent db g0 p0) := by
  refine ⟨WF_of_parts db _ (gidsOf_groupAddParent db g0 p0) rfl rfl (le_refl _)
    ⟨hWF.2.2.1, hWF.2.2.2.2.2.1⟩ hWF, ?_, ?_⟩
  · intro s hs g gd hgrp hfg
    rw [show groupAddParent db g0 p0 = mapGroup db g0
      (fun d => { d with parents := addToSet d.parents p0 }) from rfl,
      findGroup_mapGroup db g0 g (fun d => { d with parents := addToSet d.parents p0 })
      (fun d => rfl)] at hfg
    cases hfd : findGroup db g with
    | none => rw [hfd] at hfg; exact absurd hfg (by simp)
    | some gd0 =>
      rw [hfd] at hfg
      simp only [Option.map] at hfg
      have hbase := h1 s hs g gd0 hgrp hfd
      by_cases hgg : gd0.gid = g0
      · rw [if_pos hgg] at hfg
        rw [(Option.some.inj hfg).symm]
        exact hbase
      · rw [if_neg hgg] at hfg
        rw [(Option.some.inj hfg).symm]
        exact hbase
  · intro s hs p pd hpar hfp
    have hfp0 : findParent db p = some pd := hfp
    have hp2 := h2 s hs p pd hpar hfp0
    refine ⟨hp2.1, ?_⟩
    intro g gd hg hfg
    rw [show groupAddParent db g0 p0 = mapGroup db g0
      (fun d => { d with parents := addToSet d.parents p0 }) from rfl,
      findGroup_mapGroup db g0 g (fun d => { d with parents := addToSet d.parents p0 })
      (fun d => rfl)] at hfg
    cases hfd : findGroup db g with
    | none => rw [hfd] at hfg; exact absurd hfg (by simp)
    | some gd0 =>
      rw [hfd] at hfg
      simp only [Option.map] at hfg
      have hbase := hp2.2 g gd0 hg hfd
      by_cases hgg : gd0.gid = g0
      · rw [if_pos hgg] at hfg
        rw [(Option.some.inj hfg).symm]
        exact mem_addToSet _ _ _ hbase
      · rw [if_neg hgg] at hfg
        rw [(Option.some.inj hfg).symm]
        exact hbase

/-- The state changes of a successful group move inside `PUT /students/:id`:
pull from the previous group, add to the new one, save the student, ensure the
parent is listed on the new group, then conditionally drop it from the old
group. -/
def moveChain (db : DB) (st0 : StudentDoc) (gv : Id) : DB :=
  let db1 := groupAddStudent (match st0.group with
    | some ogv => groupPullStudent db ogv st0.sid
    | none => db) gv st0.sid
  let db2 := saveStudent db1 { st0 with group := some gv }
  let db3 := if st0.parent.isSome then ensureParentInGroup db2 (some gv) st0.parent else db2
  if st0.group.isSome ∧ (some gv : Option Id) ≠ st0.group
    then removeParentFromGroupIfUnused db3 st0.group st0.parent else db3

theorem moveChain_WF_inv (db : DB) (st0 : StudentDoc) (gv : Id)
    (hWF : WF db) (h1 : inv1 db) (h2 : inv2 db)
    (hmem0 : st0 ∈ db.students) :
    WF (moveChain db st0 gv) ∧ db.nextId ≤ (moveChain db st0 gv).nextId ∧
    inv1 (moveChain db st0 gv) ∧ inv2 (moveChain db st0 gv) := by
  obtain ⟨hgN, hsN, hpN, hgB, hsB, hpB, href⟩ := hWF
  unfold moveChain
  simp only []
  have hMexists : ∃ Fp : GroupDoc → GroupDoc, (∀ d, (Fp d).gid = d.gid) ∧
      (∀ d, ∀ x ∈ d.students, x ≠ st0.sid → x ∈ (Fp d).students) ∧
      (∀ d, (Fp d).parents = d.parents) ∧
      (∀ g', findGroup (match st0.group with
        | some ogv => groupPullStudent db ogv st0.sid
        | none => db) g' = (findGroup db g').map Fp) ∧
      (match st0.group with
        | some ogv => groupPullStudent db ogv st0.sid
        | none => db).students = db.students ∧
      (match st0.group with
        | some ogv => groupPullStudent db ogv st0.sid
        | none => db).parents = db.parents ∧
      (match st0.group with
        | some ogv => groupPullStudent db ogv st0.sid
        | none => db).nextId = db.nextId := by
    cases st0.group with
    | none =>
      refine ⟨fun d => d, fun d => rfl, fun d x hx _ => hx, fun d => rfl, ?_, rfl, rfl, rfl⟩
      intro g'
      cases findGroup db g' <;> rfl
    | some ogv =>
      refine ⟨fun d => if d.gid = ogv
          then { d with students := pullId d.students st0.sid } else d,
        fun d => by by_cases h : d.gid = ogv <;> simp [h],
        fun d x hx hxs => by
          show x ∈ (if d.gid = ogv
            then { d with students := pullId d.students st0.sid } else d).students
          by_cases h : d.gid = ogv
          · rw [if_pos h]
            exact mem_pullId d.students st0.sid x hx hxs
          · rw [if_neg h]
            exact hx,
        fun d => by by_cases h : d.gid = ogv <;> simp [h],
        ?_, rfl, rfl, rfl⟩
      intro g'
      show findGroup (groupPullStudent db ogv st0.sid) g' = (findGroup db g').map
        (fun d => if d.gid = ogv
          then { d with students := pullId d.students st0.sid } else d)
      exact findGroup_mapGroup db ogv g'
        (fun d => { d with students := pullId d.students st0.sid }) (fun d => rfl)
  obtain ⟨Fp, hFpgid, hFpstu, hFppar, hFpfind, hDPs, hDPp, hDPn⟩ := hMexists
  set DP := (match st0.group with
    | some ogv => groupPullStudent db ogv st0.sid
    | none => db) with hDP
  set D1 := groupAddStudent DP gv st0.sid with hD1
  set D2 := saveStudent D1 { st0 with group := some gv } with hD2
  set D3 := (if st0.parent.isSome then ensureParentInGroup D2 (some gv) st0.parent else D2)
    with hD3
  set CH := (if st0.group.isSome ∧ (some gv : Option Id) ≠ st0.group
    then removeParentFromGroupIfUnused D3 st0.group st0.parent else D3) with hCH
  have hD1find : ∀ g', findGroup D1 g' = (findGroup DP g').map
      (fun d => if d.gid = gv
        then { d with students := addToSet d.students st0.sid } else d) := by
    intro g'
    rw [hD1, show groupAddStudent DP gv st0.sid = mapGroup DP gv
      (fun d => { d with students := addToSet d.students st0.sid }) from rfl]
    exact findGroup_mapGroup DP gv g'
      (fun d => { d with students := addToSet d.students st0.sid }) (fun d => rfl)
  have hD2find : ∀ g', findGroup D2 g' = findGroup D1 g' := by
    intro g'
    rw [hD2]
    exact findGroup_of_groups_eq D1 _ rfl g'
  have hD1s : D1.students = db.students := by
    rw [hD1]
    show DP.students = db.students
    exact hDPs
  have hD2s : D2.students = db.students.map
      (fun d => if d.sid = st0.sid then { st0 with group := some gv } else d) := by
    rw [hD2]
    rw [show (saveStudent D1 { st0 with group := some gv }).students
      = D1.students.map (fun d => if d.sid = st0.sid
        then { st0 with group := some gv } else d) from rfl, hD1s]
  have hD2p : D2.parents = db.parents := by
    rw [hD2]
    show D1.parents = db.parents
    rw [hD1]
    show DP.parents = db.parents
    exact hDPp
  have hD2n : D2.nextId = db.nextId := by
    rw [hD2]
    show D1.nextId = db.nextId
    rw [hD1]
    show DP.nextId = db.nextId
    exact hDPn
  have hFq : ∃ Fq : GroupDoc → GroupDoc, (∀ d, (Fq d).gid = d.gid) ∧
      (∀ d, (Fq d).students = d.students) ∧
      (∀ d, ∀ q ∈ d.parents, q ∈ (Fq d).parents) ∧
      (∀ d, d.gid = gv → ∀ p0, st0.parent = some p0 → p0 ∈ (Fq d).parents) ∧
      (∀ g', findGroup D3 g' = (findGroup D2 g').map Fq) ∧
      D3.students = D2.students ∧ D3.parents = D2.parents ∧ D3.nextId = D2.nextId := by
    rw [hD3]
    cases hp0 : st0.parent with
    | none =>
      rw [if_neg (show ¬(none : Option Id).isSome = true from by simp)]
      refine ⟨fun d => d, fun d => rfl, fun d => rfl, fun d q hq => hq, ?_, ?_, rfl, rfl, rfl⟩
      · intro d hdg p1 hp1
        cases hp1
      · intro g'
        cases findGroup D2 g' <;> rfl
    | some p0 =>
      rw [if_pos (show (some p0 : Option Id).isSome = true from rfl)]
      refine ⟨fun d => if d.gid = gv then { d with parents := addToSet d.parents p0 } else d,
        fun d => by by_cases h : d.gid = gv <;> simp [h],
        fun d => by by_cases h : d.gid = gv <;> simp [h],
        fun d q hq => by
          show q ∈ (if d.gid = gv then { d with parents := addToSet d.parents p0 } else d).parents
          by_cases h : d.gid = gv
          · rw [if_pos h]
            exact mem_addToSet _ _ _ hq
          · rw [if_neg h]
            exact hq,
        ?_, ?_, rfl, rfl, rfl⟩
      · intro d hdg p1 hp1
        cases hp1
        show p0 ∈ (if d.gid = gv then { d with parents := addToSet d.parents p0 } else d).parents
        rw [if_pos hdg]
        exact mem_addToSet_self _ _
      · intro g'
        show findGroup (ensureParentInGroup D2 (some gv) (some p0)) g' = _
        rw [show ensureParentInGroup D2 (some gv) (some p0) = mapGroup D2 gv
          (fun d => { d with parents := addToSet d.parents p0 }) from rfl]
        exact findGroup_mapGroup D2 gv g'
          (fun d => { d with parents := addToSet d.parents p0 }) (fun d => rfl)
  obtain ⟨Fq, hFqgid, hFqstu, hFqpar, hFqself, hFqfind, hD3s2, hD3p2, hD3n2⟩ := hFq
  have hD3s : D3.students = db.students.map
      (fun d => if d.sid = st0.sid then { st0 with group := some gv } else d) := by
    rw [hD3s2, hD2s]
  have hD3p : D3.parents = db.parents := by rw [hD3p2, hD2p]
  have hD3n : D3.nextId = db.nextId := by rw [hD3n2, hD2n]
  have hLast : ∀ g' gd, findGroup CH g' = some gd → ∃ gd3, findGroup D3 g' = some gd3 ∧
      gd.students = gd3.students ∧
      (∀ p ∈ gd3.parents, (∃ w ∈ D3.students, w.group = some g' ∧ w.parent = some p) →
        p ∈ gd.parents) ∧ (g' = gv → gd = gd3) := by
    intro g' gd hfg
    rw [hCH] at hfg
    revert hfg
    split
    · rename_i hC
      intro hfg
      obtain ⟨gd3, h3, hstu, hpar⟩ := removeParent_group_mono D3 st0.group st0.parent g' gd hfg
      refine ⟨gd3, h3, hstu, hpar, ?_⟩
      intro hggv
      subst hggv
      obtain ⟨ogv, hog⟩ := Option.isSome_iff_exists.mp hC.1
      have hne : g' ≠ ogv := fun hc => hC.2 (by rw [hog, hc])
      rw [hog] at hfg
      rw [findGroup_removeParent_ne D3 ogv st0.parent g' hne] at hfg
      exact (Option.some.inj (h3.symm.trans hfg)).symm
    · intro hfg
      exact ⟨gd, hfg, rfl, fun p hp _ => hp, fun _ => rfl⟩
  have hCHs : CH.students = db.students.map
      (fun d => if d.sid = st0.sid then { st0 with group := some gv } else d) := by
    have h3 : CH.students = D3.students := by
      rw [hCH]
      split
      · exact removeParent_students D3 _ _
      · rfl
    rw [h3, hD3s]
  have hCHp : CH.parents = db.parents := by
    have h3 : CH.parents = D3.parents := by
      rw [hCH]
      split
      · exact removeParent_parents D3 _ _
      · rfl
    rw [h3, hD3p]
  have hCHn : CH.nextId = db.nextId := by
    have h3 : CH.nextId = D3.nextId := by
      rw [hCH]
      split
      · exact removeParent_nextId D3 _ _
      · rfl
    rw [h3, hD3n]
  have hCHfp : ∀ q, findParent CH q = findParent db q := by
    intro q
    unfold findParent
    rw [hCHp]
  have hgidsCH : gidsOf CH = gidsOf db := by
    have hg3 : gidsOf CH = gidsOf D3 := by
      rw [hCH]
      split
      · exact gidsOf_removeParent D3 _ _
      · rfl
    have hg31 : gidsOf D3 = gidsOf D2 := by
      rw [hD3]
      split
      · exact gidsOf_ensureParent D2 _ _
      · rfl
    have hg2 : gidsOf D2 = gidsOf D1 := by
      rw [hD2]
      exact gidsOf_of_groups_eq D1 _ rfl
    have hg1 : gidsOf D1 = gidsOf DP := by
      rw [hD1]
      exact gidsOf_groupAddStudent DP gv st0.sid
    have hg0 : gidsOf DP = gidsOf db := by
      rw [hDP]
      cases st0.group with
      | none => rfl
      | some ogv => exact gidsOf_groupPullStudent db ogv st0.sid
    exact hg3.trans (hg31.trans (hg2.trans (hg1.trans hg0)))
  refine ⟨⟨?_, ?_, ?_, ?_, ?_, ?_, ?_⟩, le_of_eq hCHn.symm, ?_, ?_⟩
  · show (gidsOf CH).Nodup
    rw [hgidsCH]
    exact hgN
  · show (CH.students.map (·.sid)).Nodup
    rw [hCHs]
    rw [map_key_of_pres _ (·.sid) db.students (fun d _ => by
      by_cases h : d.sid = st0.sid <;> simp [h])]
    exact hsN
  · show (CH.parents.map (·.pid)).Nodup
    rw [hCHp]
    exact hpN
  · intro g hgmem
    have hmm2 : g.gid ∈ gidsOf db := by
      rw [← hgidsCH]
      exact List.mem_map_of_mem _ hgmem
    obtain ⟨g0, hg0m, hge⟩ := List.mem_map.mp hmm2
    rw [hCHn]
    exact hge ▸ hgB g0 hg0m
  · intro s hs
    rw [hCHs] at hs
    obtain ⟨d0, hd0, hTd0⟩ := List.mem_map.mp hs
    rw [hCHn]
    by_cases h : d0.sid = st0.sid
    · rw [if_pos h] at hTd0
      rw [← hTd0]
      show st0.sid < db.nextId
      exact hsB st0 hmem0
    · rw [if_neg h] at hTd0
      rw [← hTd0]
      exact hsB d0 hd0
  · intro q hq
    rw [hCHp] at hq
    rw [hCHn]
    exact hpB q hq
  · intro s hs p hp
    rw [hCHs] at hs
    rw [hCHn]
    obtain ⟨d0, hd0, hTd0⟩ := List.mem_map.mp hs
    by_cases h : d0.sid = st0.sid
    · rw [if_pos h] at hTd0
      rw [← hTd0] at hp
      exact href st0 hmem0 p hp
    · rw [if_neg h] at hTd0
      rw [← hTd0] at hp
      exact href d0 hd0 p hp
  · intro s'' hs'' g' gd hgrp hfg
    rw [hCHs] at hs''
    obtain ⟨d0, hd0, hTd0⟩ := List.mem_map.mp hs''
    obtain ⟨gd3, h3, hstuEq, hparW, hself⟩ := hLast g' gd hfg
    rw [hFqfind g', hD2find g', hD1find g', hFpfind g'] at h3
    cases hfd : findGroup db g' with
    | none => rw [hfd] at h3; exact absurd h3 (by simp)
    | some gd0 =>
      rw [hfd] at h3
      simp only [Option.map] at h3
      have hgd3 : gd3 = Fq ((fun d => if d.gid = gv
          then { d with students := addToSet d.students st0.sid } else d) (Fp gd0)) :=
        (Option.some.inj h3).symm
      have hg0gid : gd0.gid = g' := findGroup_gid db g' gd0 hfd
      by_cases hd0s : d0.sid = st0.sid
      · rw [if_pos hd0s] at hTd0
        have hseq : s'' = { st0 with group := some gv } := hTd0.symm
        have hggv : g' = gv := by
          rw [hseq] at hgrp
          exact (Option.some.inj hgrp).symm
        rw [hstuEq, hgd3, hFqstu]
        have hFpg : (Fp gd0).gid = gv := by rw [hFpgid, hg0gid, hggv]
        show s''.sid ∈ (if (Fp gd0).gid = gv
          then { Fp gd0 with students := addToSet (Fp gd0).students st0.sid }
          else Fp gd0).students
        rw [if_pos hFpg, hseq]
        show st0.sid ∈ addToSet (Fp gd0).students st0.sid
        exact mem_addToSet_self _ _
      · rw [if_neg hd0s] at hTd0
        have hseq : s'' = d0 := hTd0.symm
        rw [hseq] at hgrp ⊢
        rw [hstuEq, hgd3, hFqstu]
        have hbase : d0.sid ∈ gd0.students := h1 d0 hd0 g' gd0 hgrp hfd
        have hFpmem : d0.sid ∈ (Fp gd0).students := hFpstu gd0 d0.sid hbase hd0s
        show d0.sid ∈ (if (Fp gd0).gid = gv
          then { Fp gd0 with students := addToSet (Fp gd0).students st0.sid }
          else Fp gd0).students
        by_cases hgg : (Fp gd0).gid = gv
        · rw [if_pos hgg]
          exact mem_addToSet _ _ _ hFpmem
        · rw [if_neg hgg]
          exact hFpmem
  · intro s'' hs'' p pd hpar hfp
    rw [hCHfp p] at hfp
    rw [hCHs] at hs''
    obtain ⟨d0, hd0, hTd0⟩ := List.mem_map.mp hs''
    by_cases hd0s : d0.sid = st0.sid
    · rw [if_pos hd0s] at hTd0
      have hseq : s'' = { st0 with group := some gv } := hTd0.symm
      have hpar0 : st0.parent = some p := by
        rw [hseq] at hpar
        exact hpar
      have hp2 := h2 st0 hmem0 p pd hpar0 hfp
      constructor
      · rw [hseq]
        show st0.sid ∈ pd.students
        exact hp2.1
      · intro g' gd hg hfg
        have hggv : g' = gv := by
          rw [hseq] at hg
          exact (Option.some.inj hg).symm
        obtain ⟨gd3, h3, hstuEq, hparW, hself⟩ := hLast g' gd hfg
        rw [hself hggv]
        rw [hFqfind g', hD2find g', hD1find g', hFpfind g'] at h3
        cases hfd : findGroup db g' with
        | none => rw [hfd] at h3; exact absurd h3 (by simp)
        | some gd0 =>
          rw [hfd] at h3
          simp only [Option.map] at h3
          have hgd3 : gd3 = Fq ((fun d => if d.gid = gv
              then { d with students := addToSet d.students st0.sid } else d) (Fp gd0)) :=
            (Option.some.inj h3).symm
          rw [hgd3]
          refine hFqself _ ?_ p hpar0
          have hg0gid : gd0.gid = g' := findGroup_gid db g' gd0 hfd
          have hFpg : (Fp gd0).gid = gv := by rw [hFpgid, hg0gid, hggv]
          show (if (Fp gd0).gid = gv
            then { Fp gd0 with students := addToSet (Fp gd0).students st0.sid }
            else Fp gd0).gid = gv
          rw [if_pos hFpg]
          exact hFpg
    · rw [if_neg hd0s] at hTd0
      have hseq : s'' = d0 := hTd0.symm
      rw [hseq] at hpar ⊢
      have hp2 := h2 d0 hd0 p pd hpar hfp
      refine ⟨hp2.1, ?_⟩
      intro g' gd hg hfg
      obtain ⟨gd3, h3, hstuEq, hparW, hself⟩ := hLast g' gd hfg
      rw [hFqfind g', hD2find g', hD1find g', hFpfind g'] at h3
      cases hfd : findGroup db g' with
      | none => rw [hfd] at h3; exact absurd h3 (by simp)
      | some gd0 =>
        rw [hfd] at h3
        simp only [Option.map] at h3
        have hgd3 : gd3 = Fq ((fun d => if d.gid = gv
            then { d with students := addToSet d.students st0.sid } else d) (Fp gd0)) :=
          (Option.some.inj h3).symm
        have hbase := hp2.2 g' gd0 hg hfd
        have hFpb : p ∈ (Fp gd0).parents := by
          rw [hFppar]
          exact hbase
        have hmid : p ∈ ((fun d => if d.gid = gv
            then { d with students := addToSet d.students st0.sid } else d) (Fp gd0)).parents := by
          show p ∈ (if (Fp gd0).gid = gv
            then { Fp gd0 with students := addToSet (Fp gd0).students st0.sid }
            else Fp gd0).parents
          by_cases hgg : (Fp gd0).gid = gv
          · rw [if_pos hgg]
            exact hFpb
          · rw [if_neg hgg]
            exact hFpb
        have hin3 : p ∈ gd3.parents := by
          rw [hgd3]
          exact hFqpar _ p hmid
        refine hparW p hin3 ⟨d0, ?_, hg, hpar⟩
        rw [hD3s]
        refine List.mem_map.mpr ⟨d0, hd0, ?_⟩
        rw [if_neg hd0s]

/-- `PUT /students/:id` with only a `groupId` in the payload keeps the store
well-formed, never lowers the id counter, and preserves both referential
invariants. -/
theorem updateStudent_move_WF_inv (db : DB) (sid : Id) (g : Option Id)
    (hWF : WF db) (h1 : inv1 db) (h2 : inv2 db) :
    WF (updateStudent db sid (moveReq g)).2 ∧
      db.nextId ≤ (updateStudent db sid (moveReq g)).2.nextId ∧
      inv1 (updateStudent db sid (moveReq g)).2 ∧
      inv2 (updateStudent db sid (moveReq g)).2 := by
  rw [updateStudent_moveReq_eq]
  cases hfs : findStudent db sid with
  | none => exact ⟨hWF, le_refl _, h1, h2⟩
  | some st0 =>
    have hmem0 : st0 ∈ db.students := (findStudent_mem db sid st0 hfs).1
    simp only []
    cases hmg : updateStudent.moveGroup (moveReq g) st0 st0.group db with
    | none => exact ⟨hWF, le_refl _, h1, h2⟩
    | some pr =>
      obtain ⟨st1, db1⟩ := pr
      obtain ⟨hfrP, hfrN, hfrS, hcase⟩ := moveGroup_char _ _ _ _ _ _ hmg
      have hst1par : st1.parent = st0.parent := by
        rcases hcase with ⟨he1, he2⟩ | ⟨gv, hgv, hog, he1, hdbc⟩ <;> rw [he1]
      simp only []
      rw [if_neg (fun hc => hc.2 hst1par)]
      rcases hcase with ⟨he1, he2⟩ | ⟨gv, hgv, hog, he1, hdbc⟩
      · rw [he1, he2]
        rw [if_neg (fun hc => hc.2 rfl)]
        rw [saveStudent_self db st0 hWF.2.1 hmem0]
        cases hp0 : st0.parent with
        | none =>
          rw [if_neg (by simp)]
          exact ⟨hWF, le_refl _, h1, h2⟩
        | some p0 =>
          rw [if_pos (show (some p0).isSome = true from rfl)]
          cases hg0 : st0.group with
          | none => exact ⟨hWF, le_refl _, h1, h2⟩
          | some g0 =>
            obtain ⟨hW3, h13, h23⟩ := WF_inv_groupAddParent db g0 p0 hWF h1 h2
            exact ⟨hW3, le_refl _, h13, h23⟩
      · rw [he1]
        have hdb1 : db1 = groupAddStudent (match st0.group with
            | some ogv => groupPullStudent db ogv st0.sid
            | none => db) gv st0.sid := by
          rcases hdbc with ⟨hogn, hdb⟩ | ⟨ogv, hogs, hdb⟩
          · rw [hdb, hogn]
          · rw [hdb, hogs]
        rw [hdb1]
        exact moveChain_WF_inv db st0 gv hWF h1 h2 hmem0

/-! ## Sequences of attach/detach operations -/

/-- One attach/detach operation of the API: `POST /students`,
`PUT /students/:id` with a `groupId` payload, `PATCH /groups/:id/full`. -/
inductive Op where
  | create (req : CreateStudentReq) : Op
  | move (sid : Id) (g : Option Id) : Op
  | bulk (gid : Id) (req : PatchReq) : Op

/-- Run one operation through the corresponding route handler, keeping the
resulting store. -/
def applyOp (db : DB) : Op → DB
  | Op.create req => (createStudent db req).2
  | Op.move sid g => (updateStudent db sid (moveReq g)).2
  | Op.bulk gid req => (patchGroupFull db gid req).2

/-- Run a sequence of operations left to right. -/
def applyOps (db : DB) (ops : List Op) : DB := ops.foldl applyOp db

theorem applyOp_Inv (db : DB) (op : Op) (h : Inv db) : Inv (applyOp db op) := by
  obtain ⟨hWF, h1, h2⟩ := h
  cases op with
  | create req =>
    obtain ⟨a, _, c, d⟩ := createStudent_WF_inv db req hWF h1 h2
    exact ⟨a, c, d⟩
  | move sid g =>
    obtain ⟨a, _, c, d⟩ := updateStudent_move_WF_inv db sid g hWF h1 h2
    exact ⟨a, c, d⟩
  | bulk gid req =>
    obtain ⟨c, d⟩ := inv_patchGroupFull db gid req hWF h1 h2
    exact ⟨(patch_WF db gid req hWF).1, c, d⟩

theorem applyOps_Inv (db : DB) (ops : List Op) (h : Inv db) : Inv (applyOps db ops) := by
  induction ops generalizing db with
  | nil => exact h
  | cons op ops ih => exact ih (applyOp db op) (applyOp_Inv db op h)

theorem fixDB_WF : WF fixDB := by
  refine ⟨by decide, by decide, by decide, by decide, by decide, by decide, ?_⟩
  intro s hs p hp
  have hs' : s = fixS1 ∨ s = fixS2 := by
    have hm : s ∈ [fixS1, fixS2] := hs
    simpa using hm
  rcases hs' with rfl | rfl
  · have hp20 : some (20 : Id) = some p := hp
    rw [← Option.some.inj hp20]
    decide
  · have hp20 : some (20 : Id) = some p := hp
    rw [← Option.some.inj hp20]
    decide

theorem fixDB_inv1 : inv1 fixDB := by
  intro s hs g gd hgr hfg
  obtain ⟨hgd, hgid⟩ := findGroup_mem fixDB g gd hfg
  have hgd' : gd = fixG := by
    have hm : gd ∈ [fixG] := hgd
    simpa using hm
  subst hgd'
  have hs' : s = fixS1 ∨ s = fixS2 := by
    have hm : s ∈ [fixS1, fixS2] := hs
    simpa using hm
  rcases hs' with rfl | rfl <;> decide

theorem fixDB_inv2 : inv2 fixDB := by
  intro s hs p pd hpar hfp
  obtain ⟨hpd, hpid⟩ := findParent_mem fixDB p pd hfp
  have hpd' : pd = fixP1 := by
    have hm : pd ∈ [fixP1] := hpd
    simpa using hm
  subst hpd'
  have hs' : s = fixS1 ∨ s = fixS2 := by
    have hm : s ∈ [fixS1, fixS2] := hs
    simpa using hm
  have hgpart : ∀ g gd, s.group = some g → findGroup fixDB g = some gd → p ∈ gd.parents := by
    intro g gd hg hfg
    obtain ⟨hgd, hgid⟩ := findGroup_mem fixDB g gd hfg
    have hgd' : gd = fixG := by
      have hm : gd ∈ [fixG] := hgd
      simpa using hm
    subst hgd'
    rcases hs' with rfl | rfl
    · have hp20 : some (20 : Id) = some p := hpar
      rw [← Option.some.inj hp20]
      decide
    · have hp20 : some (20 : Id) = some p := hpar
      rw [← Option.some.inj hp20]
      decide
  refine ⟨?_, hgpart⟩
  rcases hs' with rfl | rfl <;> decide

/-- C2: after any sequence of attach/detach operations (student creation,
group moves through the student update route, bulk roster replaces) starting
from a well-formed store satisfying both referential invariants, every student
whose `group` is `G` has its id in `G.students` (`inv1`), and every student
whose `parent` is `P` has its id in `P.students` and `P`'s id in the parents
set of the student's group (`inv2`). -/
theorem C2_attach_detach_invariants (db : DB) (ops : List Op)
    (hWF : WF db) (h1 : inv1 db) (h2 : inv2 db) :
    inv1 (applyOps db ops) ∧ inv2 (applyOps db ops) := by
  have h := applyOps_Inv db ops ⟨hWF, h1, h2⟩
  exact ⟨h.2.1, h.2.2⟩

/-- A concrete create request for the fixture. -/
def fixCreateReq : CreateStudentReq :=
  { firstName := "N", lastName := "M", age := 7
    groupId := some 1, parentName := some "Pa Rent"
    parentEmail := some "pa@x.com" }

/-- A concrete operation sequence exercising all three operation kinds. -/
def fixOps : List Op :=
  [Op.move 10 (some 1), Op.bulk 1 fixReqS2, Op.create fixCreateReq]

/-! ## The orphan rule through the routes -/

theorem countGroupsP_pos (db : DB) (x : Id) (h : 0 < countGroupsP db x) :
    ∃ g ∈ db.groups, x ∈ g.parents := by
  unfold countGroupsP at h
  cases hf : db.groups.filter (fun g => x ∈ g.parents) with
  | nil => rw [hf] at h; simp at h
  | cons g gs =>
    have hg : g ∈ db.groups.filter (fun g => x ∈ g.parents) := by
      rw [hf]
      exact List.mem_cons_self g gs
    exact ⟨g, List.mem_of_mem_filter hg, by simpa using List.of_mem_filter hg⟩

theorem countStudentsP_eq_zero (db : DB) (x : Id)
    (h : ∀ s ∈ db.students, s.parent ≠ some x) : countStudentsP db x = 0 := by
  unfold countStudentsP
  rw [List.length_eq_zero, List.filter_eq_nil_iff]
  intro s hs
  simpa using h s hs

/-- A parent with an empty `students` array is referenced by no student
document (by invariant 2 and unique parent ids). -/
theorem zeroRef_of_orphan (db : DB) (hpN : (db.parents.map (·.pid)).Nodup)
    (h2 : inv2 db) (q : ParentDoc) (hq : q ∈ db.parents) (hqs : q.students = []) :
    ∀ s ∈ db.students, s.parent ≠ some q.pid := by
  intro s hs hc
  have hfp : findParent db q.pid = some q := findParent_of_mem db hpN q hq
  have hmem := (h2 s hs q.pid q hc hfp).1
  rw [hqs] at hmem
  exact absurd hmem (List.not_mem_nil _)

theorem parentWitness_mapGroup (db : DB) (g : Id) (f : GroupDoc → GroupDoc) (x : Id)
    (hf : ∀ d, x ∈ d.parents → x ∈ (f d).parents)
    (h : ∃ gw ∈ db.groups, x ∈ gw.parents) :
    ∃ gw ∈ (mapGroup db g f).groups, x ∈ gw.parents := by
  obtain ⟨gw, hgw, hx⟩ := h
  refine ⟨(fun d => if d.gid = g then f d else d) gw,
    List.mem_map_of_mem (fun d => if d.gid = g then f d else d) hgw, ?_⟩
  show x ∈ (if gw.gid = g then f gw else gw).parents
  by_cases hgg : gw.gid = g
  · rw [if_pos hgg]
    exact hf gw hx
  · rw [if_neg hgg]
    exact hx

theorem parentWitness_of_groups_eq (db db' : DB) (hg : db'.groups = db.groups) (x : Id)
    (h : ∃ gw ∈ db.groups, x ∈ gw.parents) : ∃ gw ∈ db'.groups, x ∈ gw.parents := by
  rw [hg]
  exact h

theorem parentWitness_removeParent (db : DB) (g p : Option Id) (x : Id)
    (hne : p ≠ some x) (h : ∃ gw ∈ db.groups, x ∈ gw.parents) :
    ∃ gw ∈ (removeParentFromGroupIfUnused db g p).groups, x ∈ gw.parents := by
  unfold removeParentFromGroupIfUnused
  cases g with
  | none => cases p <;> exact h
  | some g0 =>
    cases p with
    | none => exact h
    | some p0 =>
      show ∃ gw ∈ (if countStudentsGP db g0 p0 = 0
        then groupPullParent db g0 p0 else db).groups, x ∈ gw.parents
      split
      · refine parentWitness_mapGroup db g0
          (fun d => { d with parents := pullId d.parents p0 }) x ?_ h
        intro d hd
        exact mem_pullId d.parents p0 x hd (fun hc => hne (by rw [hc]))
      · exact h

theorem parentWitness_ensureParent (db : DB) (g p : Option Id) (x : Id)
    (h : ∃ gw ∈ db.groups, x ∈ gw.parents) :
    ∃ gw ∈ (ensureParentInGroup db g p).groups, x ∈ gw.parents := by
  unfold ensureParentInGroup
  cases g with
  | none => cases p <;> exact h
  | some g0 =>
    cases p with
    | none => exact h
    | some p0 =>
      exact parentWitness_mapGroup db g0
        (fun d => { d with parents := addToSet d.parents p0 }) x
        (fun d hd => mem_addToSet d.parents p0 x hd) h

/-- Survival of a referenced-nowhere parent document through the
removed-parents cleanup loop: if it is still stored afterwards, some group of
the final state lists it — either the loop kept it on a positive group count,
or an untouched group reference existed already. -/
theorem cleanupRemoved_orphan (gid : Id) (l : List Id) :
    ∀ db q, q ∈ (cleanupRemoved gid db l).parents →
      (∀ s ∈ db.students, s.parent ≠ some q.pid) →
      (q.pid ∈ l ∨ ∃ gw ∈ db.groups, q.pid ∈ gw.parents) →
      ∃ gw ∈ (cleanupRemoved gid db l).groups, q.pid ∈ gw.parents := by
  induction l with
  | nil =>
    intro db q hq hz hw
    rcases hw with h | h
    · exact absurd h (List.not_mem_nil _)
    · exact h
  | cons p rest ih =>
    intro db q hq hz hw
    unfold cleanupRemoved at hq ⊢
    simp only [] at hq ⊢
    by_cases hstill : countStudentsP (removeParentFromGroupIfUnused db (some gid) (some p)) p > 0
        ∨ countGroupsP (removeParentFromGroupIfUnused db (some gid) (some p)) p > 0
    · rw [if_pos hstill] at hq ⊢
      set D := removeParentFromGroupIfUnused db (some gid) (some p) with hD
      refine ih D q hq ?_ ?_
      · intro s hs
        rw [hD, removeParent_students] at hs
        exact hz s hs
      · by_cases hpq : p = q.pid
        · rcases hstill with hcnt | hcnt
          · have hzero : countStudentsP D p = 0 := by
              apply countStudentsP_eq_zero
              intro s hs
              rw [hD, removeParent_students] at hs
              rw [hpq]
              exact hz s hs
            omega
          · right
            obtain ⟨gw, hgw, hx⟩ := countGroupsP_pos D p hcnt
            exact ⟨gw, hgw, hpq ▸ hx⟩
        · rcases hw with hmem | hwit
          · rcases List.mem_cons.mp hmem with he | hr
            · exact absurd he.symm hpq
            · exact Or.inl hr
          · right
            exact parentWitness_removeParent db (some gid) (some p) q.pid
              (fun hc => hpq (Option.some.inj hc)) hwit
    · rw [if_neg hstill] at hq ⊢
      set D := removeParentFromGroupIfUnused db (some gid) (some p) with hD
      have hqmem : q ∈ (deleteParent D p).parents := cleanupRemoved_parents_sub gid rest _ q hq
      have hqp : q.pid ≠ p := by
        simp only [deleteParent] at hqmem
        have hmf := List.of_mem_filter hqmem
        simpa using hmf
      refine ih (deleteParent D p) q hq ?_ ?_
      · intro s hs
        rw [deleteParent_students, hD, removeParent_students] at hs
        exact hz s hs
      · rcases hw with hmem | hwit
        · rcases List.mem_cons.mp hmem with he | hr
          · exact absurd he hqp
          · exact Or.inl hr
        · right
          refine parentWitness_of_groups_eq D (deleteParent D p) (deleteParent_groups D p)
            q.pid ?_
          exact parentWitness_removeParent db (some gid) (some p) q.pid
            (fun hc => hqp (Option.some.inj hc).symm) hwit

/-- Orphan-freeness transfers along any operation whose empty-`students`
parents trace back to empty-`students` parents and whose groups keep the
witness references of the original orphans. -/
theorem orphanFree_transfer (db db' : DB)
    (hpar : ∀ qn ∈ db'.parents, qn.students = [] →
      ∃ q ∈ db.parents, qn.pid = q.pid ∧ q.students = [])
    (hwit : ∀ q ∈ db.parents, q.students = [] →
      (∃ gw ∈ db.groups, q.pid ∈ gw.parents) → ∃ gw ∈ db'.groups, q.pid ∈ gw.parents)
    (hOF : orphanFree db) : orphanFree db' := by
  intro qn hqn hqns
  obtain ⟨q, hq, hpid, hqs⟩ := hpar qn hqn hqns
  rw [hpid]
  exact hwit q hq hqs (hOF q hq hqs)

/-- A group holding the only reference to a parent with an empty `students`
array. -/
def cexG : GroupDoc :=
  { gid := 2, name := "G2", location := "", description := ""
    teachers := [], students := [], parents := [21] }

def cexP : ParentDoc :=
  { pid := 21, firstName := "P", lastName := "Two", email := "b@x.com"
    phone := "", students := [] }

def cexDB : DB := { groups := [cexG], students := [], parents := [cexP], nextId := 30 }

/-- The parents list survives a whole group move unchanged. -/
theorem moveChain_parents (db : DB) (st0 : StudentDoc) (gv : Id) :
    (moveChain db st0 gv).parents = db.parents := by
  unfold moveChain
  simp only []
  set M := (match st0.group with
    | some ogv => groupPullStudent db ogv st0.sid
    | none => db) with hM
  have hMp : M.parents = db.parents := by
    rw [hM]
    cases st0.group <;> rfl
  set S := saveStudent (groupAddStudent M gv st0.sid) { st0 with group := some gv } with hS
  have hSp : S.parents = db.parents := by
    rw [hS]
    show M.parents = db.parents
    exact hMp
  set E := (if st0.parent.isSome then ensureParentInGroup S (some gv) st0.parent else S)
    with hE
  have hEp : E.parents = db.parents := by
    rw [hE]
    split
    · rw [ensureParent_parents]
      exact hSp
    · exact hSp
  split
  · rw [removeParent_parents]
    exact hEp
  · exact hEp

/-- A whole group move keeps orphan-freeness: the only parent id it can pull
from a group is the moved student's own parent, which lists that student. -/
theorem moveChain_orphan (db : DB) (st0 : StudentDoc) (gv : Id)
    (hpN : (db.parents.map (·.pid)).Nodup) (h2 : inv2 db)
    (hmem0 : st0 ∈ db.students) (hOF : orphanFree db) :
    orphanFree (moveChain db st0 gv) := by
  refine orphanFree_transfer db _ ?_ ?_ hOF
  · intro qn hqn hqns
    rw [moveChain_parents] at hqn
    exact ⟨qn, hqn, rfl, hqns⟩
  · intro q hq hqs hw
    have hz := zeroRef_of_orphan db hpN h2 q hq hqs
    have hne : st0.parent ≠ some q.pid := hz st0 hmem0
    unfold moveChain
    simp only []
    set M := (match st0.group with
      | some ogv => groupPullStudent db ogv st0.sid
      | none => db) with hM
    have h1 : ∃ gw ∈ M.groups, q.pid ∈ gw.parents := by
      rw [hM]
      cases st0.group with
      | none => exact hw
      | some ogv =>
        exact parentWitness_mapGroup db ogv
          (fun d => { d with students := pullId d.students st0.sid }) q.pid
          (fun d hd => hd) hw
    set S := saveStudent (groupAddStudent M gv st0.sid) { st0 with group := some gv } with hS
    have hSw : ∃ gw ∈ S.groups, q.pid ∈ gw.parents := by
      rw [hS]
      exact parentWitness_mapGroup M gv
        (fun d => { d with students := addToSet d.students st0.sid }) q.pid
        (fun d hd => hd) h1
    set E := (if st0.parent.isSome then ensureParentInGroup S (some gv) st0.parent else S)
      with hE
    have hEw : ∃ gw ∈ E.groups, q.pid ∈ gw.parents := by
      rw [hE]
      split
      · exact parentWitness_ensureParent S (some gv) st0.parent q.pid hSw
      · exact hSw
    split
    · exact parentWitness_removeParent E st0.group st0.parent q.pid hne hEw
    · exact hEw

/-- `PUT /students/:id` with only a `groupId` payload keeps orphan-freeness. -/
theorem updateStudent_move_orphan (db : DB) (sid : Id) (g : Option Id)
    (hWF : WF db) (h2 : inv2 db) (hOF : orphanFree db) :
    orphanFree (updateStudent db sid (moveReq g)).2 := by
  rw [updateStudent_moveReq_eq]
  cases hfs : findStudent db sid with
  | none => exact hOF
  | some st0 =>
    have hmem0 : st0 ∈ db.students := (findStudent_mem db sid st0 hfs).1
    simp only []
    cases hmg : updateStudent.moveGroup (moveReq g) st0 st0.group db with
    | none => exact hOF
    | some pr =>
      obtain ⟨st1, db1⟩ := pr
      obtain ⟨hfrP, hfrN, hfrS, hcase⟩ := moveGroup_char _ _ _ _ _ _ hmg
      have hst1par : st1.parent = st0.parent := by
        rcases hcase with ⟨he1, he2⟩ | ⟨gv, hgv, hog, he1, hdbc⟩ <;> rw [he1]
      simp only []
      rw [if_neg (fun hc => hc.2 hst1par)]
      rcases hcase with ⟨he1, he2⟩ | ⟨gv, hgv, hog, he1, hdbc⟩
      · rw [he1, he2]
        rw [if_neg (fun hc => hc.2 rfl)]
        rw [saveStudent_self db st0 hWF.2.1 hmem0]
        cases hp0 : st0.parent with
        | none =>
          rw [if_neg (by simp)]
          exact hOF
        | some p0 =>
          rw [if_pos (show (some p0).isSome = true from rfl)]
          refine orphanFree_transfer db _ ?_ ?_ hOF
          · intro qn hqn hqns
            rw [ensureParent_parents] at hqn
            exact ⟨qn, hqn, rfl, hqns⟩
          · intro q hq hqs hw
            exact parentWitness_ensureParent db st0.group (some p0) q.pid hw
      · rw [he1]
        have hdb1 : db1 = groupAddStudent (match st0.group with
            | some ogv => groupPullStudent db ogv st0.sid
            | none => db) gv st0.sid := by
          rcases hdbc with ⟨hogn, hdb⟩ | ⟨ogv, hogs, hdb⟩
          · rw [hdb, hogn]
          · rw [hdb, hogs]
        rw [hdb1]
        exact moveChain_orphan db st0 gv hWF.2.2.1 h2 hmem0 hOF

theorem saveParentStudents_parents_shape (db : DB) (p : Id) (sts : List Id) :
    ∀ qn ∈ (saveParentStudents db p sts).parents,
      (qn.pid = p ∧ qn.students = sts) ∨ (qn ∈ db.parents ∧ qn.pid ≠ p) := by
  intro qn hqn
  simp only [saveParentStudents, mapParent, List.mem_map] at hqn
  obtain ⟨q0, hq0, hf⟩ := hqn
  by_cases hpp : q0.pid = p
  · rw [if_pos hpp] at hf
    rw [← hf]
    exact Or.inl ⟨hpp, rfl⟩
  · rw [if_neg hpp] at hf
    rw [← hf]
    exact Or.inr ⟨hq0, hpp⟩

/-- `DELETE /students/:id` keeps orphan-freeness: the parent document is
deleted outright when its last student is removed, and the only group pull
targets the deleted student's own parent, which keeps a student reference
whenever it stays stored. -/
theorem deleteStudent_orphan (db : DB) (sid : Id)
    (hWF : WF db) (h2 : inv2 db) (hOF : orphanFree db) :
    orphanFree (deleteStudent db sid).2 := by
  unfold deleteStudent
  cases hfs : findStudent db sid with
  | none => exact hOF
  | some st =>
    have hmem : st ∈ db.students := (findStudent_mem db sid st hfs).1
    simp only []
    set dbG := (match st.group with
      | some g => groupPullStudent db g sid
      | none => db) with hG
    have hGp : dbG.parents = db.parents := by
      rw [hG]
      cases st.group <;> rfl
    have hGw : ∀ x, (∃ gw ∈ db.groups, x ∈ gw.parents) →
        ∃ gw ∈ dbG.groups, x ∈ gw.parents := by
      intro x hx
      rw [hG]
      cases st.group with
      | none => exact hx
      | some g0 =>
        exact parentWitness_mapGroup db g0
          (fun d => { d with students := pullId d.students sid }) x (fun d hd => hd) hx
    cases hp : st.parent with
    | none =>
      refine orphanFree_transfer db _ ?_ ?_ hOF
      · intro qn hqn hqns
        rw [show (deleteStudentDoc dbG sid).parents = dbG.parents from rfl, hGp] at hqn
        exact ⟨qn, hqn, rfl, hqns⟩
      · intro q hq hqs hw
        exact hGw q.pid hw
    | some p =>
      have hnep : ∀ q : ParentDoc, q ∈ db.parents → q.students = [] →
          (some p : Option Id) ≠ some q.pid := by
        intro q hq hqs
        have hz := zeroRef_of_orphan db hWF.2.2.1 h2 q hq hqs
        have hzst := hz st hmem
        rw [hp] at hzst
        exact hzst
      simp only []
      cases hfp : findParent dbG p with
      | none =>
        simp only []
        refine orphanFree_transfer db _ ?_ ?_ hOF
        · intro qn hqn hqns
          rw [show (deleteStudentDoc (removeParentFromGroupIfUnused dbG st.group (some p))
              sid).parents = (removeParentFromGroupIfUnused dbG st.group (some p)).parents
              from rfl, removeParent_parents, hGp] at hqn
          exact ⟨qn, hqn, rfl, hqns⟩
        · intro q hq hqs hw
          exact parentWitness_removeParent dbG st.group (some p) q.pid (hnep q hq hqs)
            (hGw q.pid hw)
      | some pd =>
        simp only []
        by_cases hpull : pullId pd.students sid = []
        · rw [if_pos hpull]
          refine orphanFree_transfer db _ ?_ ?_ hOF
          · intro qn hqn hqns
            have hqn2 : qn ∈ (deleteParent
                (saveParentStudents dbG p (pullId pd.students sid)) p).parents := by
              rw [← removeParent_parents _ st.group (some p)]
              exact hqn
            simp only [deleteParent] at hqn2
            have hqnp : qn.pid ≠ p := by simpa using List.of_mem_filter hqn2
            have hqn3 := List.mem_of_mem_filter hqn2
            rcases saveParentStudents_parents_shape dbG p _ qn hqn3 with ⟨hpe, _⟩ | ⟨hmemG, _⟩
            · exact absurd hpe hqnp
            · rw [hGp] at hmemG
              exact ⟨qn, hmemG, rfl, hqns⟩
          · intro q hq hqs hw
            exact parentWitness_removeParent
              (deleteParent (saveParentStudents dbG p (pullId pd.students sid)) p)
              st.group (some p) q.pid (hnep q hq hqs) (hGw q.pid hw)
        · rw [if_neg hpull]
          refine orphanFree_transfer db _ ?_ ?_ hOF
          · intro qn hqn hqns
            have hqn2 : qn ∈ (saveParentStudents dbG p (pullId pd.students sid)).parents := by
              rw [← removeParent_parents _ st.group (some p)]
              exact hqn
            rcases saveParentStudents_parents_shape dbG p _ qn hqn2 with ⟨_, hst⟩ | ⟨hmemG, _⟩
            · rw [hst] at hqns
              exact absurd hqns hpull
            · rw [hGp] at hmemG
              exact ⟨qn, hmemG, rfl, hqns⟩
          · intro q hq hqs hw
            exact parentWitness_removeParent
              (saveParentStudents dbG p (pullId pd.students sid))
              st.group (some p) q.pid (hnep q hq hqs) (hGw q.pid hw)

theorem resolveParentOnCreate_parents_shape (db : DB) (ne : String) (np : NameParts) :
    ∀ qn ∈ (resolveParentOnCreate db ne np).2.parents,
      (∃ q0 ∈ db.parents, qn.pid = q0.pid ∧ qn.students = q0.students) ∨
      (qn.pid = (resolveParentOnCreate db ne np).1.pid ∧
        qn.students = (resolveParentOnCreate db ne np).1.students) := by
  intro qn hqn
  unfold resolveParentOnCreate at hqn ⊢
  cases hf : findParentByEmail db ne with
  | none =>
    rw [hf] at hqn
    simp only [createParent] at hqn ⊢
    rcases List.mem_append.mp hqn with h | h
    · exact Or.inl ⟨qn, h, rfl, rfl⟩
    · rw [List.mem_singleton] at h
      subst h
      exact Or.inr ⟨rfl, rfl⟩
  | some p =>
    rw [hf] at hqn
    simp only [] at hqn ⊢
    obtain ⟨q0, hq0, hcar⟩ := (condSaveParentNames_char db p.pid _ _ _).2.1 qn hqn
    exact Or.inl ⟨q0, hq0, hcar.1, hcar.2.2.1⟩

/-- `POST /students` keeps orphan-freeness: a freshly created parent gets the
new student appended to its `students` array before the handler returns, and
no group pull happens on this route. -/
theorem createStudent_orphan (db : DB) (req : CreateStudentReq)
    (hOF : orphanFree db) : orphanFree (createStudent db req).2 := by
  unfold createStudent
  split
  · exact hOF
  · split
    · rename_i groupId _gdoc hgideq hfgrpeq
      simp only []
      cases hRC : resolveParentOnCreate db (lowerS (req.parentEmail.getD ""))
          (normalizeParentName req.parentName) with
      | mk parent dbR =>
        simp only []
        have hshape := resolveParentOnCreate_parents_shape db
          (lowerS (req.parentEmail.getD "")) (normalizeParentName req.parentName)
        have hgrR := (resolveParentOnCreate_char db (lowerS (req.parentEmail.getD ""))
          (normalizeParentName req.parentName)).1
        rw [hRC] at hshape hgrR
        cases hSC : createStudentDoc dbR req.firstName req.lastName req.age
            (some groupId) (some parent.pid)
            (normalizeParentName req.parentName).fullName
            (lowerS (req.parentEmail.getD "")) with
        | mk student dbS =>
          simp only []
          unfold createStudentDoc at hSC
          injection hSC with hstu hdbS
          have hdbSg : dbS.groups = db.groups := by rw [← hdbS]; exact hgrR
          have hdbSp : dbS.parents = dbR.parents := by rw [← hdbS]
          set dbG := groupAddStudent dbS groupId student.sid with hdbG
          set dbP := (if student.sid ∈ parent.students then dbG
            else saveParentStudents dbG parent.pid (parent.students ++ [student.sid]))
            with hdbP
          show orphanFree (ensureParentInGroup dbP (some groupId) (some parent.pid))
          refine orphanFree_transfer db _ ?_ ?_ hOF
          · intro qn hqn hqns
            have hqnP : qn ∈ dbP.parents := by
              rw [← ensureParent_parents dbP (some groupId) (some parent.pid)]
              exact hqn
            rw [hdbP] at hqnP
            by_cases hskip : student.sid ∈ parent.students
            · rw [if_pos hskip] at hqnP
              rw [hdbG] at hqnP
              have hqnR : qn ∈ dbR.parents := by
                rw [← hdbSp]
                exact hqnP
              rcases hshape qn hqnR with ⟨q0, hq0, hpe, hse⟩ | ⟨hpe, hse⟩
              · exact ⟨q0, hq0, hpe, hse ▸ hqns⟩
              · rw [hqns] at hse
                rw [← hse] at hskip
                exact absurd hskip (List.not_mem_nil _)
            · rw [if_neg hskip] at hqnP
              rcases saveParentStudents_parents_shape dbG parent.pid _ qn hqnP with
                ⟨hpe, hse⟩ | ⟨hmemG, hqnpid⟩
              · rw [hse] at hqns
                exact absurd hqns (by simp)
              · rw [hdbG] at hmemG
                have hqnR : qn ∈ dbR.parents := by
                  rw [← hdbSp]
                  exact hmemG
                rcases hshape qn hqnR with ⟨q0, hq0, hpe, hse⟩ | ⟨hpe, hse⟩
                · exact ⟨q0, hq0, hpe, hse ▸ hqns⟩
                · exact absurd hpe hqnpid
          · intro q hq hqs hw
            have hw1 : ∃ gw ∈ dbS.groups, q.pid ∈ gw.parents :=
              parentWitness_of_groups_eq db dbS hdbSg q.pid hw
            have hw2 : ∃ gw ∈ dbG.groups, q.pid ∈ gw.parents := by
              rw [hdbG]
              exact parentWitness_mapGroup dbS groupId
                (fun d => { d with students := addToSet d.students student.sid }) q.pid
                (fun d hd => hd) hw1
            have hw3 : ∃ gw ∈ dbP.groups, q.pid ∈ gw.parents := by
              rw [hdbP]
              split
              · exact hw2
              · exact hw2
            exact parentWitness_ensureParent dbP (some groupId) (some parent.pid) q.pid hw3
    · exact hOF

theorem pRef_removeParent_ne (db : DB) (g0 : Id) (po : Option Id) (g' q : Id)
    (hne : po ≠ some q) :
    pRef db g' q → pRef (removeParentFromGroupIfUnused db (some g0) po) g' q :=
  pRef_removeParent db g0 po g' q (fun hc _ => absurd hc hne)

theorem pRef_assignStep_ne (gid : Id) (db : DB) (s : Id) (st : StudentDoc) (g' q : Id)
    (hne : st.parent ≠ some q) :
    pRef db g' q → pRef (assignStep gid db s st) g' q := by
  intro href
  have hX : pRef (if st.group = some gid then db
      else saveStudent (match st.group with
        | some pg => removeParentFromGroupIfUnused (groupPullStudent db pg s) (some pg) st.parent
        | none => db) { st with group := some gid }) g' q := by
    split
    · exact href
    · refine pRef_of_groups_eq _ _ rfl g' q ?_
      cases hgr : st.group with
      | none => exact href
      | some pg =>
        exact pRef_removeParent_ne _ pg st.parent g' q hne
          (pRef_groupPullStudent db pg s g' q href)
  have hY := pRef_groupAddStudent _ gid s g' q hX
  show pRef (if st.parent ≠ none then ensureParentInGroup (groupAddStudent
      (if st.group = some gid then db
      else saveStudent (match st.group with
        | some pg => removeParentFromGroupIfUnused (groupPullStudent db pg s) (some pg) st.parent
        | none => db) { st with group := some gid }) gid s) (some gid) st.parent
    else groupAddStudent
      (if st.group = some gid then db
      else saveStudent (match st.group with
        | some pg => removeParentFromGroupIfUnused (groupPullStudent db pg s) (some pg) st.parent
        | none => db) { st with group := some gid }) gid s) g' q
  by_cases hp : st.parent ≠ none
  · rw [if_pos hp]
    exact pRef_ensureParent _ (some gid) st.parent g' q hY
  · rw [if_neg hp]
    exact hY

/-- A parent id referenced by no student survives in every group's parents
set through the `toAssign` loop. -/
theorem pRef_assignListed_zeroRef (gid : Id) (l : List Id) :
    ∀ db g' q, (∀ s ∈ db.students, s.parent ≠ some q) →
      (db.students.map (·.sid)).Nodup →
      pRef db g' q → pRef (assignListed gid db l) g' q := by
  induction l with
  | nil => intro db g' q _ _ href; exact href
  | cons s rest ih =>
    intro db g' q hz hn href
    unfold assignListed
    cases hf : findStudent db s with
    | none => exact ih db g' q hz hn href
    | some st =>
      have hstmem : st ∈ db.students := (findStudent_mem db s st hf).1
      have hne : st.parent ≠ some q := hz st hstmem
      have hn' : ((assignStep gid db s st).students.map (·.sid)).Nodup := by
        rw [assignStep_sidMap]
        exact hn
      have hz' : ∀ s' ∈ (assignStep gid db s st).students, s'.parent ≠ some q := by
        have hk := assignStep_sKeyMap gid db s st hn hf
        intro s' hs'
        obtain ⟨s0, hs0, _, hpar0⟩ := sKey_mem_transfer db _ hk s' hs'
        rw [← hpar0]
        exact hz s0 hs0
      exact ih _ g' q hz' hn' (pRef_assignStep_ne gid db s st g' q hne href)

theorem findGroup_isSome_of_gidsOf (db db' : DB) (hgids : gidsOf db' = gidsOf db) (g : Id)
    (h : (findGroup db g).isSome) : (findGroup db' g).isSome := by
  cases hf : findGroup db g with
  | none => rw [hf] at h; simp at h
  | some d =>
    obtain ⟨hd, hdg⟩ := findGroup_mem db g d hf
    have hmem : g ∈ gidsOf db' := by
      rw [hgids]
      exact hdg ▸ List.mem_map_of_mem (·.gid) hd
    obtain ⟨d', hd', hdg'⟩ := List.mem_map.mp hmem
    cases hf' : findGroup db' g with
    | some _ => rfl
    | none =>
      have hnone := List.find?_eq_none.mp hf' d' hd'
      simp [hdg'] at hnone

/-- The parent phase of the bulk replace keeps orphan-freeness when it
returns 200, relative to the original store `db` (the roster phase has
already run, producing `dbR`). -/
theorem parentPhase_orphan (gid : Id) (gmem : GroupDoc) (req : PatchReq) (dbR db : DB)
    (hgid : gmem.gid = gid)
    (hP : dbR.parents = db.parents)
    (hK : dbR.students.map sKey = db.students.map sKey)
    (hN : db.nextId ≤ dbR.nextId)
    (hsome : (findGroup dbR gid).isSome)
    (hRwit : ∀ q g', g' ≠ gid → (∀ s ∈ db.students, s.parent ≠ some q) →
      pRef db g' q → pRef dbR g' q)
    (hg0par : ∃ g0 ∈ db.groups, g0.gid = gid ∧ gmem.parents = g0.parents)
    (hgN : (db.groups.map (·.gid)).Nodup)
    (hpN : (db.parents.map (·.pid)).Nodup)
    (href : ∀ s ∈ db.students, ∀ p, s.parent = some p → p < db.nextId)
    (h2 : inv2 db) (hOF : orphanFree db)
    (hst : (parentPhase gid gmem req dbR).1 = 200) :
    orphanFree (parentPhase gid gmem req dbR).2 := by
  unfold parentPhase at hst ⊢
  cases hpp : processParents dbR (distinctParents dbR gid) (req.parents.getD []) with
  | error dbE =>
    rw [hpp] at hst
    simp only [] at hst
    exact absurd hst (by decide)
  | ok pr =>
    obtain ⟨finalIds, db2⟩ := pr
    simp only []
    obtain ⟨hgroups2, hstudents2⟩ :=
      ((processParents_frame _ dbR (distinctParents dbR gid)).1) finalIds db2 hpp
    obtain ⟨hcarry1, hchar, hnext2⟩ :=
      processParents_parents_char _ dbR (distinctParents dbR gid) finalIds db2 hpp
    set removed := gmem.parents.filter (· ∉ finalIds) with hrem
    set gnew : GroupDoc := { gmem with parents := finalIds } with hgnew
    set db3 := saveGroup db2 gnew with hdb3
    have hdb3p : db3.parents = db2.parents := by rw [hdb3]; rfl
    have hdb3s : db3.students = db2.students := by rw [hdb3]; rfl
    have hgnewgid : gnew.gid = gid := hgid
    have hsome2 : (findGroup db2 gnew.gid).isSome := by
      rw [hgnewgid]
      rw [findGroup_of_groups_eq dbR db2 hgroups2 gid]
      exact hsome
    have hfg3 : findGroup db3 gid = some gnew := by
      rw [hdb3, ← hgnewgid]
      exact findGroup_saveGroup_self db2 gnew hsome2
    intro q hq hqs
    have hq3 : q ∈ db3.parents := cleanupRemoved_parents_sub gid removed db3 q hq
    have hq2 : q ∈ db2.parents := by rw [← hdb3p]; exact hq3
    rcases hchar q hq2 with ⟨q0, hq0R, hcar⟩ | ⟨hqs', hqfin, hqge⟩
    · have hq0 : q0 ∈ db.parents := by rw [← hP]; exact hq0R
      have hq0s : q0.students = [] := by rw [← hcar.2.2.1]; exact hqs
      have hzdb : ∀ s ∈ db.students, s.parent ≠ some q.pid := by
        rw [hcar.1]
        exact zeroRef_of_orphan db hpN h2 q0 hq0 hq0s
      have hz3 : ∀ s ∈ db3.students, s.parent ≠ some q.pid := by
        intro s hs
        rw [hdb3s, hstudents2] at hs
        obtain ⟨s0, hs0, _, hpar0⟩ := sKey_mem_transfer db dbR hK s hs
        rw [← hpar0]
        exact hzdb s0 hs0
      have hW : q.pid ∈ removed ∨ ∃ gw ∈ db3.groups, q.pid ∈ gw.parents := by
        by_cases hfin : q.pid ∈ finalIds
        · right
          refine ⟨gnew, (findGroup_mem db3 gid gnew hfg3).1, ?_⟩
          show q.pid ∈ finalIds
          exact hfin
        · obtain ⟨gw, hgw, hgwp⟩ := hOF q0 hq0 hq0s
          by_cases hgwgid : gw.gid = gid
          · left
            obtain ⟨g0, hg0m, hg0gid, hg0p⟩ := hg0par
            have hgweq : gw = g0 := eq_of_map_nodup (·.gid) db.groups hgN gw g0 hgw hg0m
              (by show gw.gid = g0.gid; rw [hgwgid, hg0gid])
            rw [hrem]
            refine List.mem_filter.mpr ⟨?_, ?_⟩
            · rw [hg0p, hcar.1]
              exact hgweq ▸ hgwp
            · simpa using hfin
          · right
            have hpr0 : pRef db gw.gid q.pid :=
              ⟨gw, findGroup_of_mem db hgN gw hgw, by rw [hcar.1]; exact hgwp⟩
            have hprR : pRef dbR gw.gid q.pid := hRwit q.pid gw.gid hgwgid hzdb hpr0
            have hpr2 : pRef db2 gw.gid q.pid :=
              pRef_of_groups_eq dbR db2 hgroups2 gw.gid q.pid hprR
            have hpr3 : pRef db3 gw.gid q.pid := by
              rw [hdb3]
              obtain ⟨d, hd, hdp⟩ := hpr2
              refine ⟨d, ?_, hdp⟩
              rw [findGroup_saveGroup_ne db2 gnew gw.gid (by rw [hgnewgid]; exact hgwgid)]
              exact hd
            obtain ⟨d, hd, hdp⟩ := hpr3
            exact ⟨d, (findGroup_mem db3 gw.gid d hd).1, hdp⟩
      obtain ⟨gw, hgwm, hgwp⟩ := cleanupRemoved_orphan gid removed db3 q hq hz3 hW
      exact ⟨gw, hgwm, hgwp⟩
    · have hz3 : ∀ s ∈ db3.students, s.parent ≠ some q.pid := by
        intro s hs hc
        rw [hdb3s, hstudents2] at hs
        obtain ⟨s0, hs0, _, hpar0⟩ := sKey_mem_transfer db dbR hK s hs
        have hlt := href s0 hs0 q.pid (hpar0.trans hc)
        have hlt2 : q.pid < dbR.nextId := lt_of_lt_of_le hlt hN
        exact absurd hlt2 (not_lt_of_le hqge)
      have hW : q.pid ∈ removed ∨ ∃ gw ∈ db3.groups, q.pid ∈ gw.parents := by
        right
        refine ⟨gnew, (findGroup_mem db3 gid gnew hfg3).1, ?_⟩
        show q.pid ∈ finalIds
        exact hqfin
      obtain ⟨gw, hgwm, hgwp⟩ := cleanupRemoved_orphan gid removed db3 q hq hz3 hW
      exact ⟨gw, hgwm, hgwp⟩

/-- A successful `PATCH /groups/:id/full` keeps orphan-freeness. -/
theorem patch_orphan (db : DB) (gid : Id) (req : PatchReq)
    (hWF : WF db) (h2 : inv2 db) (hOF : orphanFree db)
    (hst : (patchGroupFull db gid req).1 = 200) :
    orphanFree (patchGroupFull db gid req).2 := by
  obtain ⟨hgN, hsN, hpN, hgB, hsB, hpB, href⟩ := hWF
  unfold patchGroupFull at hst ⊢
  cases hg : findGroup db gid with
  | none =>
    rw [hg] at hst
    simp only [] at hst
    exact absurd hst (by decide)
  | some g0 =>
    rw [hg] at hst
    have hg0 : g0.gid = gid := findGroup_gid db gid g0 hg
    have hsome0 : (findGroup db gid).isSome := by rw [hg]; rfl
    simp only [] at hst ⊢
    by_cases hreqE : (requestedIds req).isEmpty = true
    · rw [if_pos hreqE] at hst ⊢
      refine parentPhase_orphan gid _ req _ db hg0 (detachAll_pFrame gid g0.students db).1
        (detachAll_sKeyMap gid g0.students db hsN)
        (le_of_eq ((detachAll_pFrame gid g0.students db).2).symm)
        (findGroup_isSome_of_gidsOf db _ (gidsOf_detachAll gid g0.students db) gid hsome0)
        ?_ ⟨g0, (findGroup_mem db gid g0 hg).1, hg0, rfl⟩ hgN hpN href h2 hOF hst
      intro q g' hne _ hpr
      obtain ⟨d, hd, hdp⟩ := hpr
      refine ⟨d, ?_, hdp⟩
      rw [findGroup_detachAll_ne gid g0.students db g' hne]
      exact hd
    · rw [if_neg hreqE] at hst ⊢
      by_cases hlen : (db.students.filter (·.sid ∈ requestedIds req)).length
          ≠ (requestedIds req).length
      · rw [if_pos hlen] at hst
        simp only [] at hst
        exact absurd hst (by decide)
      · rw [if_neg hlen] at hst ⊢
        have hn1 : ((detachListed gid db
            (g0.students.filter (· ∉ requestedIds req))).students.map (·.sid)).Nodup := by
          rw [detachListed_sidMap]
          exact hsN
        refine parentPhase_orphan gid _ req _ db hg0
          (((assignListed_pFrame gid (requestedIds req) _).1).trans
            ((detachListed_pFrame gid _ db).1))
          (by rw [assignListed_sKeyMap _ _ _ hn1, detachListed_sKeyMap gid _ db hsN])
          (le_of_eq (((assignListed_pFrame gid (requestedIds req) _).2).trans
            ((detachListed_pFrame gid _ db).2)).symm)
          (findGroup_isSome_of_gidsOf db _ (by
            rw [gidsOf_assignListed, gidsOf_detachListed]) gid hsome0)
          ?_ ⟨g0, (findGroup_mem db gid g0 hg).1, hg0, rfl⟩ hgN hpN href h2 hOF hst
        intro q g' hne hz hpr
        have hprD : pRef (detachListed gid db (g0.students.filter (· ∉ requestedIds req)))
            g' q := by
          obtain ⟨d, hd, hdp⟩ := hpr
          refine ⟨d, ?_, hdp⟩
          rw [findGroup_detachListed_ne gid _ db g' hne]
          exact hd
        have hzD : ∀ s ∈ (detachListed gid db
            (g0.students.filter (· ∉ requestedIds req))).students, s.parent ≠ some q := by
          intro s hs
          obtain ⟨s0, hs0, _, hpar0⟩ := sKey_mem_transfer db _
            (detachListed_sKeyMap gid _ db hsN) s hs
          rw [← hpar0]
          exact hz s0 hs0
        exact pRef_assignListed_zeroRef gid (requestedIds req) _ g' q hzD hn1 hprD

/-- C7 counterexample: deleting a group (status 200) cascades the deletion of
its Student rows but leaves its Parent rows stored and performs no parent
cleanup, so a parent with an empty `students` array that only the deleted
group referenced becomes an orphan. -/
theorem C7_deleteGroup_orphan_cex :
    orphanFree cexDB ∧ (deleteGroup cexDB 2).1 = 200 ∧
      ¬ orphanFree (deleteGroup cexDB 2).2 := by
  unfold orphanFree
  decide

/-- C7 (amended): starting from a well-formed store satisfying invariant 2
and the orphan rule, creating a student, moving a student between groups
through the update route, deleting a student, and a *successful* bulk roster
replace each leave no parent whose `students` array is empty and whose id is
listed in no group's parents set.  Deleting a group does not have this
property (`C7_deleteGroup_orphan_cex`), and neither does the 400 path of the
bulk replace. -/
theorem C7_orphanFree_amended (db : DB) (hWF : WF db) (h2 : inv2 db)
    (hOF : orphanFree db) :
    (∀ req, orphanFree (createStudent db req).2) ∧
    (∀ sid g, orphanFree (updateStudent db sid (moveReq g)).2) ∧
    (∀ sid, orphanFree (deleteStudent db sid).2) ∧
    (∀ gid req, (patchGroupFull db gid req).1 = 200 →
      orphanFree (patchGroupFull db gid req).2) :=
  ⟨fun req => createStudent_orphan db req hOF,
   fun sid g => updateStudent_move_orphan db sid g hWF h2 hOF,
   fun sid => deleteStudent_orphan db sid hWF h2 hOF,
   fun gid req hst => patch_orphan db gid req hWF h2 hOF hst⟩

/-- Witness for `C7_orphanFree_amended` on the concrete fixture. -/
theorem C7_orphanFree_amended_witness :
    WF fixDB ∧ inv2 fixDB ∧ orphanFree fixDB ∧
      orphanFree (deleteStudent fixDB 10).2 :=
  ⟨fixDB_WF, fixDB_inv2, by unfold orphanFree; decide,
    (C7_orphanFree_amended fixDB fixDB_WF fixDB_inv2 (by unfold orphanFree; decide)).2.2.1 10⟩

/-! ## Email normalization: `toLowerCase`, `trim`, and the schema setter -/

theorem char_toNat_ofNat_lt (n : Nat) (h : n < 55296) : (Char.ofNat n).toNat = n := by
  unfold Char.ofNat
  rw [dif_pos (Or.inl h : n.isValidChar)]
  rfl

theorem toLower_toNat (c : Char) (h : c.toNat ≥ 65 ∧ c.toNat ≤ 90) :
    (Char.toLower c).toNat = c.toNat + 32 := by
  unfold Char.toLower
  simp only []
  rw [if_pos h]
  exact char_toNat_ofNat_lt _ (by omega)

theorem toLower_eq_self (c : Char) (h : ¬(c.toNat ≥ 65 ∧ c.toNat ≤ 90)) :
    Char.toLower c = c := by
  unfold Char.toLower
  simp only []
  rw [if_neg h]

theorem toLower_idem (c : Char) : Char.toLower (Char.toLower c) = Char.toLower c := by
  by_cases h : c.toNat ≥ 65 ∧ c.toNat ≤ 90
  · have h1 : (Char.toLower c).toNat = c.toNat + 32 := toLower_toNat c h
    refine toLower_eq_self _ ?_
    rw [h1]
    omega
  · rw [toLower_eq_self c h, toLower_eq_self c h]

theorem isWhitespace_false (c : Char)
    (h : c.toNat ≠ 32 ∧ c.toNat ≠ 9 ∧ c.toNat ≠ 13 ∧ c.toNat ≠ 10) :
    c.isWhitespace = false := by
  unfold Char.isWhitespace
  simp only [Bool.or_eq_false_iff, decide_eq_false_iff_not]
  refine ⟨⟨⟨fun hc => h.1 ?_, fun hc => h.2.1 ?_⟩, fun hc => h.2.2.1 ?_⟩,
    fun hc => h.2.2.2 ?_⟩
  all_goals rw [hc]
  all_goals rfl

theorem isWhitespace_toLower (c : Char) :
    (Char.toLower c).isWhitespace = c.isWhitespace := by
  by_cases h : c.toNat ≥ 65 ∧ c.toNat ≤ 90
  · have h1 : (Char.toLower c).toNat = c.toNat + 32 := toLower_toNat c h
    rw [isWhitespace_false _ (by rw [h1]; omega), isWhitespace_false _ (by omega)]
  · rw [toLower_eq_self c h]

theorem dropWhile_idem {α : Type} (p : α → Bool) (l : List α) :
    (l.dropWhile p).dropWhile p = l.dropWhile p := by
  induction l with
  | nil => rfl
  | cons a as ih =>
    by_cases h : p a = true
    · rw [List.dropWhile_cons_of_pos h, ih]
    · rw [List.dropWhile_cons_of_neg h, List.dropWhile_cons_of_neg h]

theorem dropWhile_head_false {α : Type} (p : α → Bool) (l : List α) (a : α) (as : List α)
    (h : l.dropWhile p = a :: as) : p a = false := by
  induction l with
  | nil => exact absurd h (by simp)
  | cons b bs ih =>
    by_cases hb : p b = true
    · rw [List.dropWhile_cons_of_pos hb] at h
      exact ih h
    · rw [List.dropWhile_cons_of_neg hb] at h
      have hb2 : b = a := (List.cons.inj h).1
      rw [← hb2]
      exact Bool.eq_false_iff.mpr hb

theorem dropWhile_eq_self_of_head {α : Type} (p : α → Bool) (l : List α)
    (h : ∀ a as, l = a :: as → p a = false) : l.dropWhile p = l := by
  cases l with
  | nil => rfl
  | cons a as => exact List.dropWhile_cons_of_neg (by rw [h a as rfl]; simp)

theorem trimL_prefix_drop (l : List Char) :
    trimL l <+: l.dropWhile Char.isWhitespace := by
  unfold trimL
  conv_rhs => rw [(List.reverse_reverse (l.dropWhile Char.isWhitespace)).symm]
  exact List.reverse_prefix.mpr (List.dropWhile_suffix _)

theorem trimL_dropWhile (l : List Char) :
    (trimL l).dropWhile Char.isWhitespace = trimL l := by
  refine dropWhile_eq_self_of_head _ _ ?_
  intro a as h
  have hpre : trimL l <+: l.dropWhile Char.isWhitespace := trimL_prefix_drop l
  obtain ⟨t, ht⟩ := hpre
  rw [h] at ht
  exact dropWhile_head_false Char.isWhitespace l a (as ++ t) (by rw [← ht]; rfl)

theorem trimL_idem (l : List Char) : trimL (trimL l) = trimL l := by
  show (((trimL l).dropWhile Char.isWhitespace).reverse.dropWhile Char.isWhitespace).reverse
    = trimL l
  rw [trimL_dropWhile]
  rw [show (trimL l).reverse = ((l.dropWhile Char.isWhitespace).reverse.dropWhile
    Char.isWhitespace) from List.reverse_reverse _]
  rw [dropWhile_idem]
  rfl

theorem trimL_map_toLower (l : List Char) :
    trimL (l.map Char.toLower) = (trimL l).map Char.toLower := by
  have hp : (Char.isWhitespace ∘ Char.toLower) = Char.isWhitespace :=
    funext isWhitespace_toLower
  unfold trimL
  rw [List.dropWhile_map, hp, ← List.map_reverse, List.dropWhile_map, hp, ← List.map_reverse]

theorem lowerS_trimS_comm (s : String) : lowerS (trimS s) = trimS (lowerS s) := by
  show (⟨(trimL s.data).map Char.toLower⟩ : String) = ⟨trimL (s.data.map Char.toLower)⟩
  rw [trimL_map_toLower]

theorem lowerS_idem (s : String) : lowerS (lowerS s) = lowerS s := by
  show (⟨(s.data.map Char.toLower).map Char.toLower⟩ : String) = ⟨s.data.map Char.toLower⟩
  rw [List.map_map]
  rw [show (Char.toLower ∘ Char.toLower) = Char.toLower from funext (fun c => toLower_idem c)]

theorem trimS_idem (s : String) : trimS (trimS s) = trimS s := by
  show (⟨trimL (trimL s.data)⟩ : String) = ⟨trimL s.data⟩
  rw [trimL_idem]

theorem normEmail_lowerS (s : String) : normEmail (lowerS s) = normEmail s := by
  unfold normEmail
  rw [lowerS_idem]

theorem normEmail_trimS_lowerS (s : String) :
    normEmail (trimS (lowerS s)) = normEmail s := by
  unfold normEmail
  rw [lowerS_trimS_comm, lowerS_idem, trimS_idem]

theorem normEmail_idem (s : String) : normEmail (normEmail s) = normEmail s :=
  normEmail_trimS_lowerS s

/-- The email-uniqueness invariant of the parent collection: stored emails
are pairwise distinct and fixed points of the schema normalization. -/
def EU (db : DB) : Prop :=
  (db.parents.map (·.email)).Nodup ∧ ∀ p ∈ db.parents, normEmail p.email = p.email

theorem EU_of_parents_eq (db db' : DB) (h : db'.parents = db.parents) (hEU : EU db) :
    EU db' := by
  unfold EU
  rw [h]
  exact hEU

theorem EU_mapParent (db : DB) (pid : Id) (f : ParentDoc → ParentDoc)
    (hf : ∀ d, (f d).email = d.email) (hEU : EU db) : EU (mapParent db pid f) := by
  constructor
  · show ((db.parents.map fun d => if d.pid = pid then f d else d).map (·.email)).Nodup
    rw [map_key_of_pres _ _ _ ?_]
    · exact hEU.1
    · intro d _
      show (if d.pid = pid then f d else d).email = d.email
      split
      · exact hf d
      · rfl
  · intro q hq
    simp only [mapParent, List.mem_map] at hq
    obtain ⟨q0, hq0, hfq⟩ := hq
    have he : q.email = q0.email := by
      rw [← hfq]
      show (if q0.pid = pid then f q0 else q0).email = q0.email
      split
      · exact hf q0
      · rfl
    rw [he]
    exact hEU.2 q0 hq0

theorem EU_saveParentNames (db : DB) (pid : Id) (f l : String) (hEU : EU db) :
    EU (saveParentNames db pid f l) :=
  EU_mapParent db pid _ (fun d => rfl) hEU

theorem EU_saveParentStudents (db : DB) (pid : Id) (sts : List Id) (hEU : EU db) :
    EU (saveParentStudents db pid sts) :=
  EU_mapParent db pid _ (fun d => rfl) hEU

theorem EU_deleteParent (db : DB) (p : Id) (hEU : EU db) : EU (deleteParent db p) := by
  constructor
  · show ((db.parents.filter (·.pid ≠ p)).map (·.email)).Nodup
    exact hEU.1.sublist (List.Sublist.map _ (List.filter_sublist _))
  · intro q hq
    exact hEU.2 q (List.mem_of_mem_filter hq)

theorem EU_createParent (db : DB) (f l e : String)
    (hguard : findParentByEmail db e = none) (hEU : EU db) :
    EU (createParent db f l e).2 := by
  constructor
  · show ((db.parents ++
      [({ pid := db.nextId, firstName := f, lastName := l, email := normEmail e
          phone := "", students := [] } : ParentDoc)]).map (·.email)).Nodup
    rw [List.map_append]
    refine List.nodup_append.mpr ⟨hEU.1, List.nodup_singleton _, ?_⟩
    intro x hx hx2
    obtain ⟨d, hd, hde⟩ := List.mem_map.mp hx
    have hxe : x = normEmail e := by simpa using hx2
    have hnone := List.find?_eq_none.mp hguard d hd
    refine hnone ?_
    have hde2 : d.email = normEmail e := by rw [hde]; exact hxe
    simpa using hde2
  · intro q hq
    rcases List.mem_append.mp hq with h | h
    · exact hEU.2 q h
    · rw [List.mem_singleton] at h
      subst h
      exact normEmail_idem e

theorem EU_condSaveParentNames (db : DB) (pid : Id) (c : Prop) [Decidable c] (f l : String)
    (hEU : EU db) : EU (if c then saveParentNames db pid f l else db) := by
  split
  · exact EU_saveParentNames db pid f l hEU
  · exact hEU

theorem EU_resolveEntry (db : DB) (e : ParentEntry) (pid : Id) (db' : DB)
    (h : resolveEntry db e = some (pid, db')) (hEU : EU db) : EU db' := by
  unfold resolveEntry at h
  cases he : e.email with
  | none => rw [he] at h; exact absurd h (by simp)
  | some raw =>
    rw [he] at h
    simp only at h
    split at h
    · exact absurd h (by simp)
    · split at h
      · rename_i hfind
        simp only [createParent, Option.some.injEq, Prod.mk.injEq] at h
        obtain ⟨hpid, rfl⟩ := h
        exact EU_createParent db _ _ _ hfind hEU
      · rename_i p hfind
        simp only [Option.some.injEq, Prod.mk.injEq] at h
        obtain ⟨hpid, rfl⟩ := h
        exact EU_condSaveParentNames db p.pid _ _ _ hEU

theorem EU_processParents (es : List ParentEntry) :
    ∀ db acc,
      (∀ acc' db2, processParents db acc es = .ok (acc', db2) → EU db → EU db2) ∧
      (∀ db', processParents db acc es = .error db' → EU db → EU db') := by
  induction es with
  | nil =>
    intro db acc
    constructor
    · intro acc' db2 h hEU
      unfold processParents at h
      cases h
      exact hEU
    · intro db' h _
      unfold processParents at h
      cases h
  | cons e rest ih =>
    intro db acc
    constructor
    · intro acc' db2 h hEU
      unfold processParents at h
      cases hres : resolveEntry db e with
      | none => rw [hres] at h; exact absurd h (by simp)
      | some pr =>
        obtain ⟨pid, dbn⟩ := pr
        rw [hres] at h
        exact (ih dbn (insertIfAbsent acc pid)).1 acc' db2 h
          (EU_resolveEntry db e pid dbn hres hEU)
    · intro db' h hEU
      unfold processParents at h
      cases hres : resolveEntry db e with
      | none =>
        rw [hres] at h
        cases h
        exact hEU
      | some pr =>
        obtain ⟨pid, dbn⟩ := pr
        rw [hres] at h
        exact (ih dbn (insertIfAbsent acc pid)).2 db' h
          (EU_resolveEntry db e pid dbn hres hEU)

theorem EU_cleanupRemoved (gid : Id) (l : List Id) :
    ∀ db, EU db → EU (cleanupRemoved gid db l) := by
  induction l with
  | nil => intro db h; exact h
  | cons p rest ih =>
    intro db h
    unfold cleanupRemoved
    simp only []
    refine ih _ ?_
    split
    · exact EU_of_parents_eq db _ (removeParent_parents db (some gid) (some p)) h
    · exact EU_deleteParent _ p
        (EU_of_parents_eq db _ (removeParent_parents db (some gid) (some p)) h)

theorem EU_parentPhase (gid : Id) (gmem : GroupDoc) (req : PatchReq) (db : DB)
    (hEU : EU db) : EU (parentPhase gid gmem req db).2 := by
  unfold parentPhase
  cases hpp : processParents db (distinctParents db gid) (req.parents.getD []) with
  | error dbE =>
    simp only []
    exact (EU_processParents _ db (distinctParents db gid)).2 dbE hpp hEU
  | ok pr =>
    obtain ⟨finalIds, db2⟩ := pr
    simp only []
    have hEU2 := (EU_processParents _ db (distinctParents db gid)).1 finalIds db2 hpp hEU
    refine EU_cleanupRemoved gid _ _ ?_
    exact EU_of_parents_eq db2 _ rfl hEU2

theorem EU_patchGroupFull (db : DB) (gid : Id) (req : PatchReq) (hEU : EU db) :
    EU (patchGroupFull db gid req).2 := by
  unfold patchGroupFull
  cases hg : findGroup db gid with
  | none => exact hEU
  | some g0 =>
    simp only []
    split
    · exact EU_parentPhase gid _ req _
        (EU_of_parents_eq db _ (detachAll_pFrame gid g0.students db).1 hEU)
    · split
      · exact hEU
      · exact EU_parentPhase gid _ req _ (EU_of_parents_eq db _
          ((((assignListed_pFrame gid (requestedIds req) _).1)).trans
            ((detachListed_pFrame gid _ db).1)) hEU)

theorem EU_resolveParentOnCreate (db : DB) (ne : String) (np : NameParts) (hEU : EU db) :
    EU (resolveParentOnCreate db ne np).2 := by
  unfold resolveParentOnCreate
  cases hf : findParentByEmail db ne with
  | none => exact EU_createParent db _ _ _ hf hEU
  | some p =>
    simp only []
    exact EU_condSaveParentNames db p.pid _ _ _ hEU

theorem EU_createStudent (db : DB) (req : CreateStudentReq) (hEU : EU db) :
    EU (createStudent db req).2 := by
  unfold createStudent
  split
  · exact hEU
  · split
    · rename_i groupId _gdoc hgideq hfgrpeq
      simp only []
      cases hRC : resolveParentOnCreate db (lowerS (req.parentEmail.getD ""))
          (normalizeParentName req.parentName) with
      | mk parent dbR =>
        simp only []
        have hEUR : EU dbR := by
          have hr := EU_resolveParentOnCreate db (lowerS (req.parentEmail.getD ""))
            (normalizeParentName req.parentName) hEU
          rw [hRC] at hr
          exact hr
        cases hSC : createStudentDoc dbR req.firstName req.lastName req.age
            (some groupId) (some parent.pid)
            (normalizeParentName req.parentName).fullName
            (lowerS (req.parentEmail.getD "")) with
        | mk student dbS =>
          simp only []
          unfold createStudentDoc at hSC
          injection hSC with hstu hdbS
          have hdbSp : dbS.parents = dbR.parents := by rw [← hdbS]
          have hEUS : EU dbS := EU_of_parents_eq dbR dbS hdbSp hEUR
          refine EU_of_parents_eq _ _ (ensureParent_parents _ _ _) ?_
          split
          · exact EU_of_parents_eq dbS _ rfl hEUS
          · exact EU_saveParentStudents _ _ _ (EU_of_parents_eq dbS _ rfl hEUS)
    · exact hEU

theorem EU_switchParent (st : StudentDoc) (cpid : Id) (cpOpt : Option ParentDoc)
    (ne : String) (np : NameParts) (db : DB) (hEU : EU db) :
    EU (updateParentSection.switchParent st cpid cpOpt ne np db).2.2 := by
  unfold updateParentSection.switchParent
  cases hf : findParentByEmail db ne with
  | some p =>
    simp only []
    cases cpOpt with
    | none =>
      simp only []
      split
      all_goals try simp only []
      all_goals first
        | exact hEU
        | exact EU_saveParentStudents _ _ _ hEU
    | some cp =>
      simp only []
      split
      all_goals try simp only []
      all_goals split
      all_goals try simp only []
      all_goals first
        | exact hEU
        | exact EU_saveParentStudents _ _ _ hEU
        | exact EU_deleteParent _ _ (EU_saveParentStudents _ _ _ hEU)
        | exact EU_saveParentStudents _ _ _
            (EU_deleteParent _ _ (EU_saveParentStudents _ _ _ hEU))
        | exact EU_saveParentStudents _ _ _ (EU_saveParentStudents _ _ _ hEU)
  | none =>
    have hEU1 : EU (createParent db np.firstName np.lastName ne).2 :=
      EU_createParent db _ _ _ hf hEU
    simp only [createParent] at hEU1 ⊢
    cases cpOpt with
    | none =>
      simp only []
      split
      all_goals try simp only []
      all_goals first
        | exact hEU1
        | exact EU_saveParentStudents _ _ _ hEU1
    | some cp =>
      simp only []
      split
      all_goals try simp only []
      all_goals split
      all_goals try simp only []
      all_goals first
        | exact hEU1
        | exact EU_saveParentStudents _ _ _ hEU1
        | exact EU_deleteParent _ _ (EU_saveParentStudents _ _ _ hEU1)
        | exact EU_saveParentStudents _ _ _
            (EU_deleteParent _ _ (EU_saveParentStudents _ _ _ hEU1))
        | exact EU_saveParentStudents _ _ _ (EU_saveParentStudents _ _ _ hEU1)

theorem EU_updateParentSection (db : DB) (st : StudentDoc) (cp0 : Option ParentDoc)
    (pn pe : Option String) (hEU : EU db) :
    EU (updateParentSection db st cp0 pn pe).2 := by
  unfold updateParentSection
  simp only []
  cases cp0 with
  | some cp =>
    simp only []
    by_cases hce : cp.email = lowerS (pe.getD "")
    · rw [if_pos hce]
      simp only []
      exact EU_condSaveParentNames db cp.pid _ _ _ hEU
    · rw [if_neg hce]
      cases hsw : updateParentSection.switchParent st cp.pid (some cp) (lowerS (pe.getD ""))
          (normalizeParentName (if strTruthy pn = true then pn else some st.parentName)) db with
      | mk st1 pr =>
        obtain ⟨cpN, db1⟩ := pr
        simp only []
        have hEU1 : EU db1 := by
          have hs := EU_switchParent st cp.pid (some cp) (lowerS (pe.getD ""))
            (normalizeParentName (if strTruthy pn = true then pn else some st.parentName))
            db hEU
          rw [hsw] at hs
          exact hs
        cases cpN with
        | none => exact hEU1
        | some c => exact EU_condSaveParentNames db1 c.pid _ _ _ hEU1
  | none =>
    simp only []
    cases hsw : updateParentSection.switchParent st 0 none (lowerS (pe.getD ""))
        (normalizeParentName (if strTruthy pn = true then pn else some st.parentName)) db with
    | mk st1 pr =>
      obtain ⟨cpN, db1⟩ := pr
      simp only []
      have hEU1 : EU db1 := by
        have hs := EU_switchParent st 0 none (lowerS (pe.getD ""))
          (normalizeParentName (if strTruthy pn = true then pn else some st.parentName))
          db hEU
        rw [hsw] at hs
        exact hs
      cases cpN with
      | none => exact hEU1
      | some c => exact EU_condSaveParentNames db1 c.pid _ _ _ hEU1

theorem updateTail_parents (db : DB) (st : StudentDoc) (og op : Option Id) :
    (let db3 := saveStudent db st
     let db4 := if st.parent.isSome then ensureParentInGroup db3 st.group st.parent else db3
     let db5 := if og.isSome ∧ st.group ≠ og
       then removeParentFromGroupIfUnused db4 og op else db4
     if op.isSome ∧ st.parent ≠ op
       then removeParentFromGroupIfUnused db5
         (if st.group.isSome then st.group else og) op else db5).parents = db.parents := by
  simp only []
  split
  · rw [removeParent_parents]
    split
    · rw [removeParent_parents]
      split
      · rw [ensureParent_parents]
        rfl
      · rfl
    · split
      · rw [ensureParent_parents]
        rfl
      · rfl
  · split
    · rw [removeParent_parents]
      split
      · rw [ensureParent_parents]
        rfl
      · rfl
    · split
      · rw [ensureParent_parents]
        rfl
      · rfl

set_option maxHeartbeats 6400000 in
theorem EU_updateStudent (db : DB) (sid : Id) (req : UpdateStudentReq) (hEU : EU db) :
    EU (updateStudent db sid req).2 := by
  unfold updateStudent
  cases hfs : findStudent db sid with
  | none => exact hEU
  | some st0 =>
    simp only []
    cases hmg : updateStudent.moveGroup req { st0 with
        firstName := req.firstName.getD st0.firstName
        lastName := req.lastName.getD st0.lastName
        age := req.age.getD st0.age } st0.group db with
    | none => exact hEU
    | some pr =>
      obtain ⟨st1, db1⟩ := pr
      simp only []
      have hEU1 : EU db1 :=
        EU_of_parents_eq db db1 (moveGroup_char _ _ _ _ _ _ hmg).1 hEU
      by_cases hpe : strTruthy req.parentEmail = true
      · rw [if_pos hpe]
        cases hup : updateParentSection db1 st1 (st1.parent.bind (findParent db1))
            req.parentName req.parentEmail with
        | mk st2 db2 =>
          simp only []
          have hEU2 : EU db2 := by
            have hu := EU_updateParentSection db1 st1 (st1.parent.bind (findParent db1))
              req.parentName req.parentEmail hEU1
            rw [hup] at hu
            exact hu
          exact EU_of_parents_eq db2 _ (updateTail_parents db2 st2 st0.group st0.parent) hEU2
      · rw [if_neg hpe]
        by_cases hpn : strTruthy req.parentName = true ∧
            (st1.parent.bind (findParent db1)).isSome = true
        · rw [if_pos hpn]
          cases hcp : st1.parent.bind (findParent db1) with
          | none =>
            rw [hcp] at hpn
            exact absurd hpn.2 (by simp)
          | some c =>
            simp only []
            refine EU_of_parents_eq _ _ (updateTail_parents
              (if (if c.firstName ≠ (normalizeParentName req.parentName).firstName then
                      (normalizeParentName req.parentName).firstName else c.firstName)
                    ≠ c.firstName ∨
                  (if c.lastName ≠ (normalizeParentName req.parentName).lastName then
                      (normalizeParentName req.parentName).lastName else c.lastName)
                    ≠ c.lastName
                then saveParentNames db1 c.pid
                  (if c.firstName ≠ (normalizeParentName req.parentName).firstName then
                    (normalizeParentName req.parentName).firstName else c.firstName)
                  (if c.lastName ≠ (normalizeParentName req.parentName).lastName then
                    (normalizeParentName req.parentName).lastName else c.lastName)
                else db1)
              { st1 with parentName := (normalizeParentName req.parentName).fullName }
              st0.group st0.parent) ?_
            exact EU_condSaveParentNames db1 c.pid _ _ _ hEU1
        · rw [if_neg hpn]
          simp only []
          exact EU_of_parents_eq db1 _ (updateTail_parents db1 st1 st0.group st0.parent) hEU1

theorem findParentByEmail_congr (db : DB) (e1 e2 : String)
    (h : normEmail e1 = normEmail e2) :
    findParentByEmail db e1 = findParentByEmail db e2 := by
  unfold findParentByEmail
  rw [h]

/-- C3: the three parent-email consumers (`POST /students`,
`PUT /students/:id`, `PATCH /groups/:id/full`) all resolve parents through
`Parent.findOne({email})`, keyed by the schema-normalized (lowercased and
trimmed) email.  If two supplied strings agree after lowercasing and
trimming, the create/update lookup (which only lowercases its query) and the
bulk lookup (which trims the lowercased query) return the same result; any
returned record's normalized email equals the query's; under the
email-uniqueness invariant at most one record exists per normalized email,
and all three operations preserve that invariant, so no two Parent records
with the same normalized email are ever created. -/
theorem C3_email_resolution (db : DB) (hEU : EU db) :
    (∀ e1 e2, normEmail e1 = normEmail e2 →
      findParentByEmail db (lowerS e1) = findParentByEmail db (trimS (lowerS e2)) ∧
      findParentByEmail db (lowerS e1) = findParentByEmail db (lowerS e2)) ∧
    (∀ e p, findParentByEmail db e = some p → normEmail p.email = normEmail e) ∧
    (∀ p1 ∈ db.parents, ∀ p2 ∈ db.parents,
      normEmail p1.email = normEmail p2.email → p1 = p2) ∧
    (∀ req, EU (createStudent db req).2) ∧
    (∀ sid req, EU (updateStudent db sid req).2) ∧
    (∀ gid req, EU (patchGroupFull db gid req).2) := by
  refine ⟨?_, ?_, ?_, ?_, ?_, ?_⟩
  · intro e1 e2 h
    constructor
    · exact findParentByEmail_congr db _ _
        (by rw [normEmail_lowerS, normEmail_trimS_lowerS, h])
    · exact findParentByEmail_congr db _ _
        (by rw [normEmail_lowerS, normEmail_lowerS, h])
  · intro e p h
    obtain ⟨hp, he⟩ := findParentByEmail_mem db e p h
    rw [he]
    exact normEmail_idem e
  · intro p1 h1 p2 h2 he
    have he1 : p1.email = p2.email := by
      rw [← hEU.2 p1 h1, ← hEU.2 p2 h2]
      exact he
    exact eq_of_map_nodup (·.email) db.parents hEU.1 p1 p2 h1 h2
      (by show p1.email = p2.email; exact he1)
  · intro req
    exact EU_createStudent db req hEU
  · intro sid req
    exact EU_updateStudent db sid req hEU
  · intro gid req
    exact EU_patchGroupFull db gid req hEU

/-- Witness for `C3_email_resolution`: on the concrete fixture, the
create/update-route lookup for the raw string with stray spaces and upper
case agrees with the bulk-route lookup for a differently-written raw string
with the same normalization. -/
theorem C3_email_resolution_witness :
    EU fixDB ∧
      findParentByEmail fixDB (lowerS " A@X.com ") =
        findParentByEmail fixDB (trimS (lowerS "a@x.COM")) :=
  ⟨by unfold EU; decide,
    ((C3_email_resolution fixDB (by unfold EU; decide)).1 " A@X.com " "a@x.COM"
      (by decide)).1⟩

/-- Witness for `C2_attach_detach_invariants` on the concrete fixture with a
sequence exercising all three operation kinds. -/
theorem C2_attach_detach_invariants_witness :
    WF fixDB ∧ inv1 fixDB ∧ inv2 fixDB ∧
      (inv1 (applyOps fixDB fixOps) ∧ inv2 (applyOps fixDB fixOps)) :=
  ⟨fixDB_WF, fixDB_inv1, fixDB_inv2,
    C2_attach_detach_invariants fixDB fixOps fixDB_WF fixDB_inv1 fixDB_inv2⟩

/-! ## C1: idempotence of the bulk roster replace.

Strategy: characterize one run of the handler, then show the second run is a
no-op in every phase.  The roster loops are no-ops because the first run
already detached and assigned everything; the parent loop is a replay of the
same email lookups, whose only effects are name writes that rewrite the
values already stored. -/

theorem pullId_not_mem (l : List Id) (x : Id) (h : x ∉ l) : pullId l x = l :=
  List.filter_eq_self.mpr (fun a ha => by
    by_cases hax : a = x
    · exact absurd (hax ▸ ha) h
    · simp [hax])

theorem filter_not_mem_self (l : List Id) : l.filter (· ∉ l) = [] :=
  List.filter_eq_nil_iff.mpr (fun a ha => by simp [ha])

theorem addToSet_of_mem (l : List Id) (x : Id) (h : x ∈ l) : addToSet l x = l :=
  if_pos h

theorem mem_addToSet_rev (l : List Id) (x y : Id) (h : y ∈ addToSet l x) :
    y ∈ l ∨ y = x := by
  unfold addToSet at h
  split at h
  · exact Or.inl h
  · simpa using h

theorem mem_pullId_rev (l : List Id) (x y : Id) (h : y ∈ pullId l x) :
    y ∈ l ∧ y ≠ x := by
  have := List.mem_filter.mp h
  exact ⟨this.1, by simpa using this.2⟩

theorem find?_filter_first {α : Type} (p keep : α → Bool) (l : List α) (m : α)
    (hf : l.find? p = some m) (hk : keep m = true) :
    (l.filter keep).find? p = some m := by
  induction l with
  | nil => simp at hf
  | cons a as ih =>
    by_cases hp : p a = true
    · rw [List.find?_cons_of_pos _ hp] at hf
      have ham : a = m := by simpa using hf
      subst ham
      rw [List.filter_cons_of_pos hk, List.find?_cons_of_pos _ hp]
    · rw [List.find?_cons_of_neg _ hp] at hf
      by_cases hka : keep a = true
      · rw [List.filter_cons_of_pos hka, List.find?_cons_of_neg _ hp]
        exact ih hf
      · rw [List.filter_cons_of_neg (by simpa using hka)]
        exact ih hf

theorem find?_append_some {α : Type} (p : α → Bool) (l1 l2 : List α) (m : α)
    (hf : l1.find? p = some m) : (l1 ++ l2).find? p = some m := by
  rw [List.find?_append, hf]
  rfl

theorem find?_append_none {α : Type} (p : α → Bool) (l1 l2 : List α)
    (hf : l1.find? p = none) : (l1 ++ l2).find? p = l2.find? p := by
  rw [List.find?_append, hf]
  rfl

theorem filter_sid_length_congr (l l' : List StudentDoc) (r : List Id)
    (h : l'.map (·.sid) = l.map (·.sid)) :
    (l'.filter (·.sid ∈ r)).length = (l.filter (·.sid ∈ r)).length := by
  have key : ∀ L : List StudentDoc,
      (L.filter (·.sid ∈ r)).length = (L.map (·.sid)).countP (· ∈ r) := by
    intro L
    rw [List.countP_map]
    exact (List.countP_eq_length_filter _ _).symm
  rw [key l', key l, h]

theorem findStudent_isSome_iff (db : DB) (x : Id) :
    (findStudent db x).isSome ↔ x ∈ db.students.map (·.sid) := by
  unfold findStudent
  rw [List.find?_isSome]
  constructor
  · rintro ⟨d, hd, hp⟩
    simp only [decide_eq_true_eq] at hp
    exact hp ▸ List.mem_map_of_mem _ hd
  · intro hx
    obtain ⟨d, hd, he⟩ := List.mem_map.mp hx
    exact ⟨d, hd, by simp [he]⟩

theorem findStudent_none_transfer (A B : DB)
    (h : B.students.map (·.sid) = A.students.map (·.sid)) (x : Id)
    (hn : findStudent A x = none) : findStudent B x = none := by
  cases hfb : findStudent B x with
  | none => rfl
  | some d =>
    have hsome : (findStudent B x).isSome := by rw [hfb]; rfl
    have hx : x ∈ A.students.map (·.sid) := by
      rw [← h]
      exact (findStudent_isSome_iff B x).mp hsome
    have h2 : (findStudent A x).isSome := (findStudent_isSome_iff A x).mpr hx
    rw [hn] at h2
    exact absurd h2 (by simp)

theorem findGroup_isSome_iff (db : DB) (g : Id) :
    (findGroup db g).isSome ↔ g ∈ gidsOf db := by
  unfold findGroup
  rw [List.find?_isSome]
  constructor
  · rintro ⟨d, hd, hp⟩
    simp only [decide_eq_true_eq] at hp
    exact hp ▸ List.mem_map_of_mem _ hd
  · intro hx
    obtain ⟨d, hd, he⟩ := List.mem_map.mp hx
    exact ⟨d, hd, by simp [he]⟩

theorem all_found_of_length_eq (db : DB) (r : List Id)
    (hnodup : (db.students.map (·.sid)).Nodup) (hr : r.Nodup)
    (hlen : (db.students.filter (·.sid ∈ r)).length = r.length) :
    ∀ s ∈ r, ∃ st, findStudent db s = some st := by
  intro s hs
  cases hf : findStudent db s with
  | some st => exact ⟨st, rfl⟩
  | none =>
    have := filter_sid_mem_length_lt db r s hnodup hr hs hf
    omega

theorem DB_ext (a b : DB) (h1 : a.groups = b.groups) (h2 : a.students = b.students)
    (h3 : a.parents = b.parents) (h4 : a.nextId = b.nextId) : a = b := by
  cases a
  cases b
  simp_all

/-! ### The parent loop as last-write-wins name writes keyed by resolved pid -/

/-- The fields of a parent document the loop's name writes leave alone. -/
def pKey (d : ParentDoc) : ParentDoc := { d with firstName := "", lastName := "" }

/-- The normalized email key an entry is matched with. -/
def entryKey (e : ParentEntry) : String := trimS (lowerS (e.email.getD ""))

/-- The id the email lookup of an entry yields in a given store (0 if absent). -/
def lookupPid (db : DB) (e : ParentEntry) : Id :=
  ((findParentByEmail db (entryKey e)).map (·.pid)).getD 0

/-- One name-alignment write of the parent loop, keyed by pid. -/
def stepFn (w : Id × NameParts) (d : ParentDoc) : ParentDoc :=
  if d.pid = w.1 then { d with firstName := w.2.firstName, lastName := w.2.lastName } else d

def nameWrite (db : DB) (w : Id × NameParts) : DB :=
  { db with parents := db.parents.map (stepFn w) }

/-- The write the loop performs for each entry, relative to a reference store. -/
def traceWrites (X : DB) (es : List ParentEntry) : List (Id × NameParts) :=
  es.map (fun e => (lookupPid X e, normalizeParentName e.name))

/-- The last name-parts value a write list stores for a given pid. -/
def lastWrite (p : Id) : List (Id × NameParts) → Option NameParts
  | [] => none
  | w :: ws =>
    match lastWrite p ws with
    | some np => some np
    | none => if w.1 = p then some w.2 else none

/-- The cumulative effect of a write list on one parent document. -/
def writeFn (ws : List (Id × NameParts)) (d : ParentDoc) : ParentDoc :=
  match lastWrite d.pid ws with
  | none => d
  | some np => { d with firstName := np.firstName, lastName := np.lastName }

theorem pKeyMap_saveParentNames (db : DB) (p : Id) (f l : String) :
    (saveParentNames db p f l).parents.map pKey = db.parents.map pKey := by
  unfold saveParentNames mapParent
  refine map_key_of_pres _ _ _ ?_
  intro d _
  by_cases h : d.pid = p <;> simp [h, pKey]

theorem pKeyMap_nameWrite (db : DB) (w : Id × NameParts) :
    (nameWrite db w).parents.map pKey = db.parents.map pKey := by
  unfold nameWrite stepFn
  refine map_key_of_pres _ _ _ ?_
  intro d _
  by_cases h : d.pid = w.1 <;> simp [h, pKey]

theorem pidsOf_nameWrite (db : DB) (w : Id × NameParts) :
    pidsOf (nameWrite db w) = pidsOf db := by
  unfold pidsOf nameWrite stepFn
  refine map_key_of_pres _ _ _ ?_
  intro d _
  by_cases h : d.pid = w.1 <;> simp [h]

theorem find?_key_congr {α β : Type} (k : α → β) (p : β → Bool) :
    ∀ (l l' : List α), l'.map k = l.map k →
      (l'.find? (fun a => p (k a))).map k = (l.find? (fun a => p (k a))).map k := by
  intro l
  induction l with
  | nil =>
    intro l' h
    have h0 : l' = [] := List.map_eq_nil_iff.mp h
    rw [h0]
  | cons a as ih =>
    intro l' h
    cases l' with
    | nil => simp at h
    | cons b bs =>
      simp only [List.map_cons, List.cons.injEq] at h
      obtain ⟨hk, ht⟩ := h
      by_cases hp : p (k a) = true
      · rw [@List.find?_cons_of_pos α (fun x => p (k x)) b bs
            (show p (k b) = true by rw [hk]; exact hp),
          @List.find?_cons_of_pos α (fun x => p (k x)) a as hp]
        simp [hk]
      · rw [@List.find?_cons_of_neg α (fun x => p (k x)) b bs
            (show ¬ p (k b) = true by rw [hk]; exact hp),
          @List.find?_cons_of_neg α (fun x => p (k x)) a as hp]
        exact ih bs ht

theorem findParentByEmail_pKey_congr (A B : DB)
    (h : B.parents.map pKey = A.parents.map pKey) (em : String) :
    (findParentByEmail B em).map pKey = (findParentByEmail A em).map pKey :=
  find?_key_congr pKey (fun x => decide (x.email = normEmail em)) A.parents B.parents h

theorem findParentByEmail_pid_congr (A B : DB)
    (h : B.parents.map pKey = A.parents.map pKey) (em : String) :
    (findParentByEmail B em).map (·.pid) = (findParentByEmail A em).map (·.pid) := by
  have h2 := findParentByEmail_pKey_congr A B h em
  have e1 : ∀ o : Option ParentDoc, o.map (·.pid) = (o.map pKey).map (·.pid) := by
    intro o
    cases o <;> rfl
  rw [e1 (findParentByEmail B em), h2, ← e1 (findParentByEmail A em)]

theorem lookupPid_congr (A B : DB) (h : B.parents.map pKey = A.parents.map pKey)
    (e : ParentEntry) : lookupPid B e = lookupPid A e := by
  unfold lookupPid
  rw [findParentByEmail_pid_congr A B h]

theorem findParentByEmail_isSome_congr (A B : DB)
    (h : B.parents.map pKey = A.parents.map pKey) (em : String) :
    (findParentByEmail B em).isSome = (findParentByEmail A em).isSome := by
  have h2 := findParentByEmail_pid_congr A B h em
  cases hb : findParentByEmail B em <;> cases ha : findParentByEmail A em <;>
    rw [hb, ha] at h2 <;> simp_all

/-! ### Exact characterization of one `resolveEntry` step -/

theorem normalizeParentName_firstName_ne (nm : Option String) :
    (normalizeParentName nm).firstName ≠ "" := by
  unfold normalizeParentName
  cases nm with
  | none => show lapsevanem.firstName ≠ ""; decide
  | some s =>
    simp only []
    by_cases h1 : s = ""
    · rw [if_pos h1]
      show lapsevanem.firstName ≠ ""
      decide
    · rw [if_neg h1]
      by_cases h2 : trimS s = ""
      · rw [if_pos h2]
        show lapsevanem.firstName ≠ ""
        decide
      · rw [if_neg h2]
        show (if (wsTokens (trimS s)).headD "" = "" then "Lapsevanem"
          else (wsTokens (trimS s)).headD "") ≠ ""
        split
        · decide
        · assumption

theorem absorb_firstName (np : NameParts) (a : String) (h : np.firstName ≠ "") :
    (if np.firstName ≠ "" ∧ a ≠ np.firstName then np.firstName else a) = np.firstName := by
  by_cases ha : a = np.firstName
  · rw [if_neg (fun hc => hc.2 ha), ha]
  · rw [if_pos ⟨h, ha⟩]

theorem absorb_lastName (np : NameParts) (a : String) :
    (if a ≠ np.lastName then np.lastName else a) = np.lastName := by
  by_cases ha : a = np.lastName
  · rw [if_neg (fun hc => hc ha), ha]
  · rw [if_pos ha]

theorem entryKey_eq (e : ParentEntry) (raw : String) (he : e.email = some raw) :
    entryKey e = trimS (lowerS raw) := by
  unfold entryKey
  rw [he]
  rfl

theorem lookupPid_eval (db : DB) (e : ParentEntry) (q : ParentDoc)
    (h : findParentByEmail db (entryKey e) = some q) : lookupPid db e = q.pid := by
  unfold lookupPid
  rw [h]
  rfl

theorem resolveEntry_some_valid (db : DB) (e : ParentEntry) (pr : Id × DB)
    (h : resolveEntry db e = some pr) : validEmail e := by
  by_contra hv
  rw [resolveEntry_none db e hv] at h
  exact absurd h (by simp)

/-- A found entry performs exactly one keyed name write: the branch where the
names already agree is the same store as the write, and the conditional write
always stores the normalized name parts verbatim. -/
theorem resolveEntry_found_char (db : DB) (e : ParentEntry) (raw : String) (q : ParentDoc)
    (p1 : Id) (db1 : DB)
    (he : e.email = some raw) (hne : trimS (lowerS raw) ≠ "")
    (hq : findParentByEmail db (trimS (lowerS raw)) = some q)
    (hpn : (pidsOf db).Nodup)
    (h : resolveEntry db e = some (p1, db1)) :
    p1 = q.pid ∧ db1 = nameWrite db (q.pid, normalizeParentName e.name) := by
  unfold resolveEntry at h
  rw [he] at h
  simp only at h
  rw [if_neg hne] at h
  split at h
  · rename_i hfind
    rw [hq] at hfind
    exact absurd hfind (by simp)
  · rename_i p hfind
    rw [hq] at hfind
    have hpq : p = q := (Option.some.inj hfind).symm
    subst hpq
    simp only [Option.some.injEq, Prod.mk.injEq] at h
    obtain ⟨hp1, hdb1⟩ := h
    refine ⟨hp1.symm, ?_⟩
    rw [← hdb1]
    rw [absorb_firstName (normalizeParentName e.name) p.firstName
      (normalizeParentName_firstName_ne e.name),
      absorb_lastName (normalizeParentName e.name) p.lastName]
    by_cases hch : (normalizeParentName e.name).firstName ≠ p.firstName ∨
        (normalizeParentName e.name).lastName ≠ p.lastName
    · rw [if_pos hch]
      rfl
    · rw [if_neg hch]
      push_neg at hch
      obtain ⟨hc1, hc2⟩ := hch
      show db = { db with
        parents := db.parents.map (stepFn (p.pid, normalizeParentName e.name)) }
      have hmap : db.parents.map (stepFn (p.pid, normalizeParentName e.name))
          = db.parents := by
        refine map_id_of_mem _ _ ?_
        intro d hd
        unfold stepFn
        have hpn' : (db.parents.map (·.pid)).Nodup := hpn
        by_cases hdp : d.pid = p.pid
        · rw [if_pos hdp]
          have hdq : d = p := eq_of_map_nodup (·.pid) db.parents hpn' d p hd
            (findParentByEmail_mem db _ p hq).1 (by simpa using hdp)
          rw [hdq, hc1, hc2]
        · rw [if_neg hdp]
      rw [hmap]

/-- A missed entry creates a parent carrying the normalized names, the
normalized email, and the next fresh id. -/
theorem resolveEntry_created_char (db : DB) (e : ParentEntry) (raw : String)
    (p1 : Id) (db1 : DB)
    (he : e.email = some raw) (hne : trimS (lowerS raw) ≠ "")
    (hq : findParentByEmail db (trimS (lowerS raw)) = none)
    (h : resolveEntry db e = some (p1, db1)) :
    p1 = db.nextId ∧
      db1 = (createParent db (normalizeParentName e.name).firstName
        (normalizeParentName e.name).lastName (trimS (lowerS raw))).2 := by
  unfold resolveEntry at h
  rw [he] at h
  simp only at h
  rw [if_neg hne] at h
  split at h
  · simp only [createParent, Option.some.injEq, Prod.mk.injEq] at h
    obtain ⟨hp1, hdb1⟩ := h
    exact ⟨hp1.symm, hdb1.symm⟩
  · rename_i p hfind
    rw [hq] at hfind
    exact absurd hfind (by simp)

theorem resolveEntry_step_shape (S : DB) (e : ParentEntry) (p1 : Id) (S1 : DB)
    (h : resolveEntry S e = some (p1, S1)) :
    S1.parents.map pKey = S.parents.map pKey ∨ ∃ c, S1.parents = S.parents ++ [c] := by
  unfold resolveEntry at h
  cases he : e.email with
  | none => rw [he] at h; exact absurd h (by simp)
  | some raw =>
    rw [he] at h
    simp only at h
    split at h
    · exact absurd h (by simp)
    · split at h
      · simp only [createParent, Option.some.injEq, Prod.mk.injEq] at h
        obtain ⟨-, hdb1⟩ := h
        exact Or.inr ⟨_, by rw [← hdb1]⟩
      · rename_i p hfind
        simp only [Option.some.injEq, Prod.mk.injEq] at h
        obtain ⟨-, hdb1⟩ := h
        refine Or.inl ?_
        rw [← hdb1]
        have key : ∀ (c : Prop) (inst : Decidable c) (f l : String),
            (@ite DB c inst (saveParentNames S p.pid f l) S).parents.map pKey
              = S.parents.map pKey := by
          intro c inst f l
          by_cases hc : c
          · rw [if_pos hc]
            exact pKeyMap_saveParentNames S p.pid f l
          · rw [if_neg hc]
        exact key _ _ _ _

theorem resolveEntry_lookup_stable (S : DB) (e : ParentEntry) (p1 : Id) (S1 : DB)
    (h : resolveEntry S e = some (p1, S1)) (em : String) (q : ParentDoc)
    (hq : findParentByEmail S em = some q) :
    ∃ q', findParentByEmail S1 em = some q' ∧ q'.pid = q.pid := by
  rcases resolveEntry_step_shape S e p1 S1 h with hmap | ⟨c, happ⟩
  · have hc := findParentByEmail_pid_congr S S1 hmap em
    rw [hq] at hc
    cases hq1 : findParentByEmail S1 em with
    | none => rw [hq1] at hc; exact absurd hc (by simp)
    | some q1 =>
      rw [hq1] at hc
      exact ⟨q1, rfl, by simpa using hc⟩
  · refine ⟨q, ?_, rfl⟩
    show S1.parents.find? (·.email = normEmail em) = some q
    rw [happ]
    exact find?_append_some _ _ _ q hq

theorem processParents_lookup_stable (es : List ParentEntry) :
    ∀ S acc accF SF, processParents S acc es = .ok (accF, SF) →
      ∀ em q, findParentByEmail S em = some q →
        ∃ q', findParentByEmail SF em = some q' ∧ q'.pid = q.pid := by
  induction es with
  | nil =>
    intro S acc accF SF h em q hq
    unfold processParents at h
    cases h
    exact ⟨q, hq, rfl⟩
  | cons e rest ih =>
    intro S acc accF SF h em q hq
    unfold processParents at h
    cases hres : resolveEntry S e with
    | none => rw [hres] at h; exact absurd h (by simp)
    | some pr =>
      obtain ⟨p1, S1⟩ := pr
      rw [hres] at h
      obtain ⟨q1, hq1, hq1p⟩ := resolveEntry_lookup_stable S e p1 S1 hres em q hq
      obtain ⟨q', hq', hq'p⟩ := ih S1 (insertIfAbsent acc p1) accF SF h em q1 hq1
      exact ⟨q', hq', hq'p.trans hq1p⟩

theorem processParents_error_split (es : List ParentEntry) :
    ∀ S acc SE, processParents S acc es = .error SE →
      ∃ pre bad post accP, es = pre ++ bad :: post ∧
        processParents S acc pre = .ok (accP, SE) ∧ ¬ validEmail bad := by
  induction es with
  | nil =>
    intro S acc SE h
    unfold processParents at h
    cases h
  | cons e rest ih =>
    intro S acc SE h
    unfold processParents at h
    cases hres : resolveEntry S e with
    | none =>
      rw [hres] at h
      simp only [Except.error.injEq] at h
      subst h
      refine ⟨[], e, rest, acc, rfl, rfl, ?_⟩
      intro hv
      have h2 := resolveEntry_isSome S e hv
      rw [hres] at h2
      exact absurd h2 (by simp)
    | some pr =>
      obtain ⟨p1, S1⟩ := pr
      rw [hres] at h
      obtain ⟨pre, bad, post, accP, hsplit, hok, hbad⟩ := ih S1 (insertIfAbsent acc p1) SE h
      refine ⟨e :: pre, bad, post, accP, by rw [hsplit]; rfl, ?_, hbad⟩
      show processParents S acc (e :: pre) = .ok (accP, SE)
      unfold processParents
      rw [hres]
      exact hok

/-! ### Composing the name writes -/

theorem lastWrite_cons (p : Id) (w : Id × NameParts) (ws : List (Id × NameParts)) :
    lastWrite p (w :: ws) = match lastWrite p ws with
      | some np => some np
      | none => if w.1 = p then some w.2 else none := rfl

theorem traceWrites_cons (X : DB) (e : ParentEntry) (es : List ParentEntry) :
    traceWrites X (e :: es)
      = (lookupPid X e, normalizeParentName e.name) :: traceWrites X es := rfl

theorem traceWrites_congr (A B : DB) (es : List ParentEntry)
    (h : ∀ e ∈ es, lookupPid B e = lookupPid A e) :
    traceWrites B es = traceWrites A es := by
  unfold traceWrites
  exact List.map_congr_left (fun e he => by rw [h e he])

theorem writeFn_eval_none (ws : List (Id × NameParts)) (d : ParentDoc)
    (h : lastWrite d.pid ws = none) : writeFn ws d = d := by
  unfold writeFn
  rw [h]

theorem writeFn_eval_some (ws : List (Id × NameParts)) (d : ParentDoc) (np : NameParts)
    (h : lastWrite d.pid ws = some np) :
    writeFn ws d = { d with firstName := np.firstName, lastName := np.lastName } := by
  unfold writeFn
  rw [h]

theorem nameWrite_mem_char (db : DB) (w : Id × NameParts) (d : ParentDoc)
    (hd : d ∈ (nameWrite db w).parents) :
    (d.pid = w.1 → d.firstName = w.2.firstName ∧ d.lastName = w.2.lastName) ∧
    (d.pid ≠ w.1 → d ∈ db.parents) := by
  have hd' : d ∈ db.parents.map (stepFn w) := hd
  obtain ⟨d0, hd0, heq⟩ := List.mem_map.mp hd'
  unfold stepFn at heq
  by_cases h : d0.pid = w.1
  · rw [if_pos h] at heq
    constructor
    · intro _
      rw [← heq]
      exact ⟨rfl, rfl⟩
    · intro hne
      rw [← heq] at hne
      exact absurd h hne
  · rw [if_neg h] at heq
    rw [← heq]
    exact ⟨fun hc => absurd hc h, fun _ => hd0⟩

theorem stepFn_pid (w : Id × NameParts) (d : ParentDoc) : (stepFn w d).pid = d.pid := by
  unfold stepFn
  split <;> rfl

theorem writeFn_stepFn (w : Id × NameParts) (ws : List (Id × NameParts)) (d : ParentDoc) :
    writeFn ws (stepFn w d) = writeFn (w :: ws) d := by
  cases hlw : lastWrite d.pid ws with
  | some np =>
    rw [writeFn_eval_some ws (stepFn w d) np (by rw [stepFn_pid]; exact hlw),
      writeFn_eval_some (w :: ws) d np (by rw [lastWrite_cons, hlw])]
    unfold stepFn
    split
    · rfl
    · rfl
  | none =>
    rw [writeFn_eval_none ws (stepFn w d) (by rw [stepFn_pid]; exact hlw)]
    by_cases hd : d.pid = w.1
    · rw [writeFn_eval_some (w :: ws) d w.2 (by
        rw [lastWrite_cons, hlw]
        show (if w.1 = d.pid then some w.2 else none) = some w.2
        rw [if_pos hd.symm])]
      unfold stepFn
      rw [if_pos hd]
    · rw [writeFn_eval_none (w :: ws) d (by
        rw [lastWrite_cons, hlw]
        show (if w.1 = d.pid then some w.2 else none) = none
        rw [if_neg (fun hc => hd hc.symm)])]
      unfold stepFn
      rw [if_neg hd]

theorem foldl_nameWrite_char (ws : List (Id × NameParts)) :
    ∀ db : DB, (ws.foldl nameWrite db).groups = db.groups ∧
      (ws.foldl nameWrite db).students = db.students ∧
      (ws.foldl nameWrite db).nextId = db.nextId ∧
      (ws.foldl nameWrite db).parents = db.parents.map (writeFn ws) := by
  induction ws with
  | nil =>
    intro db
    refine ⟨rfl, rfl, rfl, ?_⟩
    show db.parents = db.parents.map (writeFn [])
    rw [map_id_of_mem _ _ (fun d _ => writeFn_eval_none [] d rfl)]
  | cons w ws ih =>
    intro db
    obtain ⟨h1, h2, h3, h4⟩ := ih (nameWrite db w)
    refine ⟨h1, h2, h3, ?_⟩
    show (ws.foldl nameWrite (nameWrite db w)).parents = db.parents.map (writeFn (w :: ws))
    rw [h4]
    show (db.parents.map (stepFn w)).map (writeFn ws) = db.parents.map (writeFn (w :: ws))
    rw [List.map_map]
    exact List.map_congr_left (fun d _ => writeFn_stepFn w ws d)

theorem foldl_nameWrite_id (ws : List (Id × NameParts)) (db : DB)
    (h : ∀ d ∈ db.parents, ∀ np, lastWrite d.pid ws = some np →
      d.firstName = np.firstName ∧ d.lastName = np.lastName) :
    ws.foldl nameWrite db = db := by
  have hc := foldl_nameWrite_char ws db
  have hpar : db.parents.map (writeFn ws) = db.parents := by
    refine map_id_of_mem _ _ ?_
    intro d hd
    cases hlw : lastWrite d.pid ws with
    | none => exact writeFn_eval_none ws d hlw
    | some np =>
      rw [writeFn_eval_some ws d np hlw]
      obtain ⟨h1, h2⟩ := h d hd np hlw
      rw [← h1, ← h2]
  exact DB_ext _ _ hc.1 hc.2.1 (hc.2.2.2.trans hpar) hc.2.2.1

/-! ### Characterization of a successful run of the parent loop -/

theorem processParents_run_char (es : List ParentEntry) :
    ∀ S acc accF SF, WFp S → processParents S acc es = .ok (accF, SF) →
      (∀ e ∈ es, validEmail e) ∧
      (∀ e ∈ es, (findParentByEmail SF (entryKey e)).isSome = true) ∧
      accF = (es.map (lookupPid SF)).foldl insertIfAbsent acc ∧
      (∀ d ∈ SF.parents, ∀ np, lastWrite d.pid (traceWrites SF es) = some np →
        d.firstName = np.firstName ∧ d.lastName = np.lastName) ∧
      (∀ d ∈ SF.parents, lastWrite d.pid (traceWrites SF es) = none → d ∈ S.parents) := by
  induction es with
  | nil =>
    intro S acc accF SF _ h
    unfold processParents at h
    cases h
    refine ⟨by simp, by simp, rfl, ?_, ?_⟩
    · intro d _ np hlw
      simp [traceWrites, lastWrite] at hlw
    · intro d hd _
      exact hd
  | cons e rest ih =>
    intro S acc accF SF hWp h
    unfold processParents at h
    cases hres : resolveEntry S e with
    | none => rw [hres] at h; exact absurd h (by simp)
    | some pr =>
      obtain ⟨p1, S1⟩ := pr
      rw [hres] at h
      have hWp1 := (WFp_resolveEntry S e p1 S1 hres hWp).1
      obtain ⟨hvalr, hsomer, haccr, hnamesr, hframer⟩ :=
        ih S1 (insertIfAbsent acc p1) accF SF hWp1 h
      obtain ⟨raw, he, hne⟩ := resolveEntry_some_valid S e (p1, S1) hres
      have hkey := entryKey_eq e raw he
      have hstab := processParents_lookup_stable rest S1 (insertIfAbsent acc p1) accF SF h
      cases hfq : findParentByEmail S (trimS (lowerS raw)) with
      | some q =>
        obtain ⟨hp1, hS1⟩ := resolveEntry_found_char S e raw q p1 S1 he hne hfq hWp.1 hres
        have hpk : S1.parents.map pKey = S.parents.map pKey := by
          rw [hS1]
          exact pKeyMap_nameWrite S _
        have hc := findParentByEmail_pid_congr S S1 hpk (trimS (lowerS raw))
        rw [hfq] at hc
        cases hq1 : findParentByEmail S1 (trimS (lowerS raw)) with
        | none => rw [hq1] at hc; exact absurd hc (by simp)
        | some q1 =>
          rw [hq1] at hc
          have hq1pid : q1.pid = q.pid := by simpa using hc
          obtain ⟨q', hq', hq'pid⟩ := hstab (trimS (lowerS raw)) q1 hq1
          have hlook : lookupPid SF e = p1 := by
            rw [hp1]
            refine (lookupPid_eval SF e q' (by rw [hkey]; exact hq')).trans ?_
            rw [hq'pid, hq1pid]
          refine ⟨?_, ?_, ?_, ?_, ?_⟩
          · intro x hx
            rcases List.mem_cons.mp hx with hx1 | hx2
            · exact hx1 ▸ ⟨raw, he, hne⟩
            · exact hvalr x hx2
          · intro x hx
            rcases List.mem_cons.mp hx with hx1 | hx2
            · subst hx1
              rw [hkey, hq']
              rfl
            · exact hsomer x hx2
          · rw [haccr]
            show _ = ((lookupPid SF e :: rest.map (lookupPid SF)).foldl insertIfAbsent acc)
            rw [hlook]
            rfl
          · intro d hd np hlw
            rw [traceWrites_cons, lastWrite_cons] at hlw
            cases hrw : lastWrite d.pid (traceWrites SF rest) with
            | some np0 =>
              rw [hrw] at hlw
              simp only [Option.some.injEq] at hlw
              subst hlw
              exact hnamesr d hd np0 hrw
            | none =>
              rw [hrw] at hlw
              simp only [] at hlw
              by_cases hdp : lookupPid SF e = d.pid
              · rw [if_pos hdp] at hlw
                simp only [Option.some.injEq] at hlw
                subst hlw
                have hdS1 : d ∈ S1.parents := hframer d hd hrw
                have hdp2 : d.pid = q.pid := by rw [← hdp, hlook, hp1]
                rw [hS1] at hdS1
                exact (nameWrite_mem_char S _ d hdS1).1 hdp2
              · rw [if_neg hdp] at hlw
                exact absurd hlw (by simp)
          · intro d hd hlw
            rw [traceWrites_cons, lastWrite_cons] at hlw
            cases hrw : lastWrite d.pid (traceWrites SF rest) with
            | some np0 =>
              rw [hrw] at hlw
              simp at hlw
            | none =>
              rw [hrw] at hlw
              simp only [] at hlw
              by_cases hdp : lookupPid SF e = d.pid
              · rw [if_pos hdp] at hlw
                exact absurd hlw (by simp)
              · have hdS1 : d ∈ S1.parents := hframer d hd hrw
                rw [hS1] at hdS1
                have hdq : d.pid ≠ q.pid := by
                  rw [← hp1, ← hlook]
                  exact fun hc => hdp hc.symm
                exact (nameWrite_mem_char S _ d hdS1).2 hdq
      | none =>
        obtain ⟨hp1, hS1⟩ := resolveEntry_created_char S e raw p1 S1 he hne hfq hres
        have hc : findParentByEmail S1 (trimS (lowerS raw))
            = some (createParent S (normalizeParentName e.name).firstName
              (normalizeParentName e.name).lastName (trimS (lowerS raw))).1 := by
          rw [hS1]
          show (S.parents ++ [(createParent S (normalizeParentName e.name).firstName
            (normalizeParentName e.name).lastName
            (trimS (lowerS raw))).1]).find? (·.email = normEmail (trimS (lowerS raw))) = _
          rw [find?_append_none _ _ _ hfq]
          rw [List.find?_cons_of_pos _ (by simp [createParent])]
        obtain ⟨q', hq', hq'pid⟩ := hstab (trimS (lowerS raw)) _ hc
        have hlook : lookupPid SF e = p1 := by
          rw [hp1]
          refine (lookupPid_eval SF e q' (by rw [hkey]; exact hq')).trans ?_
          rw [hq'pid]
          rfl
        refine ⟨?_, ?_, ?_, ?_, ?_⟩
        · intro x hx
          rcases List.mem_cons.mp hx with hx1 | hx2
          · exact hx1 ▸ ⟨raw, he, hne⟩
          · exact hvalr x hx2
        · intro x hx
          rcases List.mem_cons.mp hx with hx1 | hx2
          · subst hx1
            rw [hkey, hq']
            rfl
          · exact hsomer x hx2
        · rw [haccr]
          show _ = ((lookupPid SF e :: rest.map (lookupPid SF)).foldl insertIfAbsent acc)
          rw [hlook]
          rfl
        · intro d hd np hlw
          rw [traceWrites_cons, lastWrite_cons] at hlw
          cases hrw : lastWrite d.pid (traceWrites SF rest) with
          | some np0 =>
            rw [hrw] at hlw
            simp only [Option.some.injEq] at hlw
            subst hlw
            exact hnamesr d hd np0 hrw
          | none =>
            rw [hrw] at hlw
            simp only [] at hlw
            by_cases hdp : lookupPid SF e = d.pid
            · rw [if_pos hdp] at hlw
              simp only [Option.some.injEq] at hlw
              subst hlw
              have hdS1 : d ∈ S1.parents := hframer d hd hrw
              have hdp2 : d.pid = S.nextId := by rw [← hdp, hlook, hp1]
              rw [hS1] at hdS1
              have hdS1' : d ∈ S.parents ++ [(createParent S
                  (normalizeParentName e.name).firstName
                  (normalizeParentName e.name).lastName (trimS (lowerS raw))).1] := hdS1
              rcases List.mem_append.mp hdS1' with hmem | hmem
              · have := hWp.2 d hmem
                rw [hdp2] at this
                exact absurd this (lt_irrefl _)
              · have hdeq : d = (createParent S (normalizeParentName e.name).firstName
                    (normalizeParentName e.name).lastName (trimS (lowerS raw))).1 := by
                  simpa using hmem
                rw [hdeq]
                exact ⟨rfl, rfl⟩
            · rw [if_neg hdp] at hlw
              exact absurd hlw (by simp)
        · intro d hd hlw
          rw [traceWrites_cons, lastWrite_cons] at hlw
          cases hrw : lastWrite d.pid (traceWrites SF rest) with
          | some np0 =>
            rw [hrw] at hlw
            simp at hlw
          | none =>
            rw [hrw] at hlw
            simp only [] at hlw
            by_cases hdp : lookupPid SF e = d.pid
            · rw [if_pos hdp] at hlw
              exact absurd hlw (by simp)
            · have hdS1 : d ∈ S1.parents := hframer d hd hrw
              rw [hS1] at hdS1
              have hdS1' : d ∈ S.parents ++ [(createParent S
                  (normalizeParentName e.name).firstName
                  (normalizeParentName e.name).lastName (trimS (lowerS raw))).1] := hdS1
              rcases List.mem_append.mp hdS1' with hmem | hmem
              · exact hmem
              · have hdeq : d = (createParent S (normalizeParentName e.name).firstName
                    (normalizeParentName e.name).lastName (trimS (lowerS raw))).1 := by
                  simpa using hmem
                have hdpid : d.pid = S.nextId := by rw [hdeq]; rfl
                exact absurd (show lookupPid SF e = d.pid by
                  rw [hlook, hp1, ← hdpid]) hdp

/-! ### Replaying the parent loop over its own result -/

theorem processParents_replay (es : List ParentEntry) :
    ∀ T acc, (pidsOf T).Nodup →
      (∀ e ∈ es, validEmail e) →
      (∀ e ∈ es, (findParentByEmail T (entryKey e)).isSome = true) →
      processParents T acc es =
        .ok ((es.map (lookupPid T)).foldl insertIfAbsent acc,
          (traceWrites T es).foldl nameWrite T) := by
  induction es with
  | nil => intro T acc _ _ _; rfl
  | cons e rest ih =>
    intro T acc hpn hval hsome
    obtain ⟨raw, he, hne⟩ := hval e (List.mem_cons_self e rest)
    have hkey := entryKey_eq e raw he
    have hs := hsome e (List.mem_cons_self e rest)
    rw [hkey] at hs
    cases hq : findParentByEmail T (trimS (lowerS raw)) with
    | none => rw [hq] at hs; exact absurd hs (by simp)
    | some q =>
      have hiss := resolveEntry_isSome T e ⟨raw, he, hne⟩
      cases hres : resolveEntry T e with
      | none => rw [hres] at hiss; exact absurd hiss (by simp)
      | some pr =>
        obtain ⟨p1, T1⟩ := pr
        obtain ⟨hp1, hT1⟩ := resolveEntry_found_char T e raw q p1 T1 he hne hq hpn hres
        subst hp1
        subst hT1
        have hpk := pKeyMap_nameWrite T (q.pid, normalizeParentName e.name)
        have hpn1 : (pidsOf (nameWrite T (q.pid, normalizeParentName e.name))).Nodup := by
          rw [pidsOf_nameWrite]
          exact hpn
        have hlc : ∀ e', lookupPid (nameWrite T (q.pid, normalizeParentName e.name)) e'
            = lookupPid T e' := fun e' => lookupPid_congr T _ hpk e'
        have hsome1 : ∀ e' ∈ rest,
            (findParentByEmail (nameWrite T (q.pid, normalizeParentName e.name))
              (entryKey e')).isSome = true := by
          intro e' he'
          rw [findParentByEmail_isSome_congr T _ hpk (entryKey e')]
          exact hsome e' (List.mem_cons_of_mem e he')
        have hrec := ih (nameWrite T (q.pid, normalizeParentName e.name))
          (insertIfAbsent acc q.pid) hpn1 (fun x hx => hval x (List.mem_cons_of_mem e hx)) hsome1
        unfold processParents
        rw [hres]
        refine hrec.trans ?_
        have hmap : rest.map (lookupPid (nameWrite T (q.pid, normalizeParentName e.name)))
            = rest.map (lookupPid T) := List.map_congr_left (fun x _ => hlc x)
        have htw : traceWrites (nameWrite T (q.pid, normalizeParentName e.name)) rest
            = traceWrites T rest := traceWrites_congr T _ rest (fun x _ => hlc x)
        rw [hmap, htw]
        have hle : lookupPid T e = q.pid := lookupPid_eval T e q (by rw [hkey]; exact hq)
        show _ = Except.ok (((lookupPid T e :: rest.map (lookupPid T)).foldl insertIfAbsent acc),
          (((lookupPid T e, normalizeParentName e.name) :: traceWrites T rest).foldl nameWrite T))
        rw [hle]
        rfl

/-- Replaying the parent loop on a store that kept the final documents of a
successful run (possibly dropping documents whose ids are outside the final
id set) resolves the same ids and leaves the store untouched. -/
theorem parent_replay (es : List ParentEntry) (S : DB) (acc accF : List Id) (SF T : DB)
    (hWp : WFp S) (h : processParents S acc es = .ok (accF, SF))
    (hpnT : (pidsOf T).Nodup)
    (hTsub : ∀ d ∈ T.parents, d ∈ SF.parents)
    (hTlook : ∀ em q, findParentByEmail SF em = some q → q.pid ∈ accF →
      findParentByEmail T em = some q) :
    processParents T acc es = .ok (accF, T) := by
  obtain ⟨hval, hsome, hacc, hnames, _⟩ := processParents_run_char es S acc accF SF hWp h
  have hTq : ∀ e ∈ es, ∃ q, findParentByEmail SF (entryKey e) = some q ∧
      findParentByEmail T (entryKey e) = some q := by
    intro e he
    have hs := hsome e he
    cases hq : findParentByEmail SF (entryKey e) with
    | none => rw [hq] at hs; exact absurd hs (by simp)
    | some q =>
      refine ⟨q, rfl, hTlook _ q hq ?_⟩
      have hm : lookupPid SF e ∈ es.map (lookupPid SF) := List.mem_map_of_mem _ he
      have hm2 : lookupPid SF e ∈ (es.map (lookupPid SF)).foldl insertIfAbsent acc :=
        (mem_foldl_insertIfAbsent _ acc _).mpr (Or.inr hm)
      rw [← hacc] at hm2
      rw [← lookupPid_eval SF e q hq]
      exact hm2
  have hTsome : ∀ e ∈ es, (findParentByEmail T (entryKey e)).isSome = true := by
    intro e he
    obtain ⟨q, _, hTq'⟩ := hTq e he
    rw [hTq']
    rfl
  have hTlookpid : ∀ e ∈ es, lookupPid T e = lookupPid SF e := by
    intro e he
    obtain ⟨q, h1, h2⟩ := hTq e he
    rw [lookupPid_eval T e q h2, lookupPid_eval SF e q h1]
  rw [processParents_replay es T acc hpnT hval hTsome]
  have hacc2 : (es.map (lookupPid T)).foldl insertIfAbsent acc = accF := by
    rw [List.map_congr_left hTlookpid, ← hacc]
  have hstate : (traceWrites T es).foldl nameWrite T = T := by
    rw [traceWrites_congr SF T es hTlookpid]
    refine foldl_nameWrite_id (traceWrites SF es) T ?_
    intro d hd np hlw
    exact hnames d (hTsub d hd) np hlw
  rw [hacc2, hstate]

/-! ### Stability of documents and lookups through `saveGroup` and cleanup -/

theorem findParentByEmail_of_parents_eq (A B : DB) (h : B.parents = A.parents)
    (em : String) : findParentByEmail B em = findParentByEmail A em := by
  unfold findParentByEmail
  rw [h]

theorem saveGroup_parents (db : DB) (g : GroupDoc) : (saveGroup db g).parents = db.parents := rfl

theorem saveGroup_students (db : DB) (g : GroupDoc) :
    (saveGroup db g).students = db.students := rfl

theorem saveGroup_nextId (db : DB) (g : GroupDoc) : (saveGroup db g).nextId = db.nextId := rfl

/-- A parent document whose id is outside the cleanup list keeps its position
as the first email match. -/
theorem cleanupRemoved_findParentByEmail (gid : Id) (l : List Id) :
    ∀ db em q, findParentByEmail db em = some q → q.pid ∉ l →
      findParentByEmail (cleanupRemoved gid db l) em = some q := by
  induction l with
  | nil => intro db em q h _; exact h
  | cons p rest ih =>
    intro db em q h hq
    have hqp : q.pid ≠ p := fun hc => hq (hc ▸ List.mem_cons_self p rest)
    have hqr : q.pid ∉ rest := fun hc => hq (List.mem_cons_of_mem p hc)
    unfold cleanupRemoved
    refine ih _ em q ?_ hqr
    have h1 : findParentByEmail (removeParentFromGroupIfUnused db (some gid) (some p)) em
        = some q := by
      rw [findParentByEmail_of_parents_eq db _ (removeParent_parents db (some gid) (some p)) em]
      exact h
    show findParentByEmail (if countStudentsP (removeParentFromGroupIfUnused db (some gid) (some p)) p > 0 ∨
        countGroupsP (removeParentFromGroupIfUnused db (some gid) (some p)) p > 0 then
        removeParentFromGroupIfUnused db (some gid) (some p)
      else deleteParent (removeParentFromGroupIfUnused db (some gid) (some p)) p) em = some q
    split
    · exact h1
    · show ((removeParentFromGroupIfUnused db (some gid) (some p)).parents.filter
        (·.pid ≠ p)).find? (·.email = normEmail em) = some q
      exact find?_filter_first _ _ _ q h1 (by simpa using hqp)

/-- The target group document survives the cleanup loop verbatim when no
cleaned-up id is in its parent set. -/
theorem cleanupRemoved_findGroup_target (gid : Id) (l : List Id) :
    ∀ db g, findGroup db gid = some g → (∀ p ∈ l, p ∉ g.parents) →
      findGroup (cleanupRemoved gid db l) gid = some g := by
  induction l with
  | nil => intro db g h _; exact h
  | cons p rest ih =>
    intro db g h hp
    unfold cleanupRemoved
    refine ih _ g ?_ (fun x hx => hp x (List.mem_cons_of_mem p hx))
    have hpg : p ∉ g.parents := hp p (List.mem_cons_self p rest)
    have h1 : findGroup (removeParentFromGroupIfUnused db (some gid) (some p)) gid
        = some g := by
      show findGroup (if countStudentsGP db gid p = 0
        then groupPullParent db gid p else db) gid = some g
      split
      · show findGroup (mapGroup db gid
          (fun d => { d with parents := pullId d.parents p })) gid = some g
        rw [findGroup_mapGroup_self db gid
          (fun d => { d with parents := pullId d.parents p }) (fun _ => rfl), h]
        simp only [Option.map_some']
        rw [pullId_not_mem g.parents p hpg]
      · exact h
    show findGroup (if countStudentsP (removeParentFromGroupIfUnused db (some gid) (some p)) p > 0 ∨
        countGroupsP (removeParentFromGroupIfUnused db (some gid) (some p)) p > 0 then
        removeParentFromGroupIfUnused db (some gid) (some p)
      else deleteParent (removeParentFromGroupIfUnused db (some gid) (some p)) p) gid = some g
    split
    · exact h1
    · rw [findGroup_of_groups_eq _ _ (deleteParent_groups _ p) gid]
      exact h1

theorem distinctParents_of_students_eq (A B : DB) (h : B.students = A.students)
    (gid : Id) : distinctParents B gid = distinctParents A gid := by
  unfold distinctParents
  rw [h]

/-! ### The second run's roster loops are no-ops -/

theorem detachListed_cons (gid : Id) (db : DB) (s : Id) (rest : List Id) :
    detachListed gid db (s :: rest) = match findStudent db s with
      | none => detachListed gid db rest
      | some st => detachListed gid (detachStep gid db s st) rest := rfl

theorem assignListed_cons (gid : Id) (db : DB) (s : Id) (rest : List Id) :
    assignListed gid db (s :: rest) = match findStudent db s with
      | none => assignListed gid db rest
      | some st => assignListed gid (assignStep gid db s st) rest := rfl

theorem detachAll_cons (gid : Id) (db : DB) (s : Id) (rest : List Id) :
    detachAll gid db (s :: rest) = match findStudent db s with
      | none => detachAll gid db rest
      | some st => detachAll gid (detachAllStep gid db st) rest := rfl

theorem detachListed_all_missing (gid : Id) (l : List Id) :
    ∀ db, (∀ s ∈ l, findStudent db s = none) → detachListed gid db l = db := by
  induction l with
  | nil => intro db _; rfl
  | cons s rest ih =>
    intro db h
    unfold detachListed
    rw [h s (List.mem_cons_self s rest)]
    exact ih db (fun x hx => h x (List.mem_cons_of_mem s hx))

theorem sRef_groupAddStudent_self (db : DB) (g s : Id) (hg : (findGroup db g).isSome) :
    sRef (groupAddStudent db g s) g s := by
  cases hfd : findGroup db g with
  | none => rw [hfd] at hg; simp at hg
  | some d0 =>
    refine ⟨{ d0 with students := addToSet d0.students s }, ?_, mem_addToSet_self _ s⟩
    rw [show groupAddStudent db g s = mapGroup db g
      (fun d => { d with students := addToSet d.students s }) from rfl,
      findGroup_mapGroup_self db g
      (fun d => { d with students := addToSet d.students s }) (fun _ => rfl), hfd]
    simp only [Option.map_some']

theorem pRef_groupAddParent_self (db : DB) (g p : Id) (hg : (findGroup db g).isSome) :
    pRef (groupAddParent db g p) g p := by
  cases hfd : findGroup db g with
  | none => rw [hfd] at hg; simp at hg
  | some d0 =>
    refine ⟨{ d0 with parents := addToSet d0.parents p }, ?_, mem_addToSet_self _ p⟩
    rw [show groupAddParent db g p = mapGroup db g
      (fun d => { d with parents := addToSet d.parents p }) from rfl,
      findGroup_mapGroup_self db g
      (fun d => { d with parents := addToSet d.parents p }) (fun _ => rfl), hfd]
    simp only [Option.map_some']

/-- A single assign step for a student already attached to the target group,
already in its array, and with its parent already listed, does nothing. -/
theorem assignStep_id (gid : Id) (db : DB) (s : Id) (st : StudentDoc)
    (hgn : (gidsOf db).Nodup)
    (hgrp : st.group = some gid)
    (hsref : sRef db gid s)
    (hpref : ∀ p, st.parent = some p → pRef db gid p) :
    assignStep gid db s st = db := by
  obtain ⟨G, hG, hsmem⟩ := hsref
  have hgn' : (db.groups.map (·.gid)).Nodup := hgn
  have hGgid : G.gid = gid := findGroup_gid db gid G hG
  have haddS : groupAddStudent db gid s = db := by
    show ({ db with groups := db.groups.map (fun d => if d.gid = gid then { d with students := addToSet d.students s } else d) } : DB) = db
    have hmap : db.groups.map
        (fun d => if d.gid = gid then { d with students := addToSet d.students s } else d)
        = db.groups := by
      refine map_id_of_mem _ _ ?_
      intro d hd
      by_cases hdg : d.gid = gid
      · rw [if_pos hdg]
        have hdG : d = G := eq_of_map_nodup (·.gid) db.groups hgn' d G hd
          (findGroup_mem db gid G hG).1 (by simp [hdg, hGgid])
        rw [hdG, addToSet_of_mem G.students s hsmem]
      · rw [if_neg hdg]
    rw [hmap]
  show (if st.parent ≠ none then ensureParentInGroup (groupAddStudent
      (if st.group = some gid then db
      else saveStudent (match st.group with
        | some pg => removeParentFromGroupIfUnused (groupPullStudent db pg s) (some pg) st.parent
        | none => db) { st with group := some gid }) gid s) (some gid) st.parent
    else groupAddStudent
      (if st.group = some gid then db
      else saveStudent (match st.group with
        | some pg => removeParentFromGroupIfUnused (groupPullStudent db pg s) (some pg) st.parent
        | none => db) { st with group := some gid }) gid s) = db
  rw [if_pos hgrp, haddS]
  cases hsp : st.parent with
  | none => rw [if_neg (by simp)]
  | some p =>
    rw [if_pos (by simp)]
    show groupAddParent db gid p = db
    obtain ⟨G2, hG2, hpmem⟩ := hpref p hsp
    have hG2gid : G2.gid = gid := findGroup_gid db gid G2 hG2
    show ({ db with groups := db.groups.map (fun d => if d.gid = gid then { d with parents := addToSet d.parents p } else d) } : DB) = db
    have hmap : db.groups.map
        (fun d => if d.gid = gid then { d with parents := addToSet d.parents p } else d)
        = db.groups := by
      refine map_id_of_mem _ _ ?_
      intro d hd
      by_cases hdg : d.gid = gid
      · rw [if_pos hdg]
        have hdG : d = G2 := eq_of_map_nodup (·.gid) db.groups hgn' d G2 hd
          (findGroup_mem db gid G2 hG2).1 (by simp [hdg, hG2gid])
        rw [hdG, addToSet_of_mem G2.parents p hpmem]
      · rw [if_neg hdg]
    rw [hmap]

/-- The assign loop is a no-op when every listed student it finds is already
fully attached to the target group. -/
theorem assignListed_id (gid : Id) (l : List Id) :
    ∀ db, (gidsOf db).Nodup →
      (∀ s ∈ l, ∀ st, findStudent db s = some st →
        st.group = some gid ∧ sRef db gid s ∧ (∀ p, st.parent = some p → pRef db gid p)) →
      assignListed gid db l = db := by
  induction l with
  | nil => intro db _ _; rfl
  | cons s rest ih =>
    intro db hgn h
    cases hf : findStudent db s with
    | none =>
      rw [show assignListed gid db (s :: rest) = assignListed gid db rest from by
        rw [assignListed_cons, hf]]
      exact ih db hgn (fun x hx => h x (List.mem_cons_of_mem s hx))
    | some st =>
      obtain ⟨h1, h2, h3⟩ := h s (List.mem_cons_self s rest) st hf
      rw [show assignListed gid db (s :: rest)
          = assignListed gid (assignStep gid db s st) rest from by
        rw [assignListed_cons, hf]]
      rw [assignStep_id gid db s st hgn h1 h2 h3]
      exact ih db hgn (fun x hx => h x (List.mem_cons_of_mem s hx))

/-! ### Reverse characterization of the roster loops' group-array effects -/

theorem sRef_mapGroup_rev_students (db : DB) (g : Id) (f : GroupDoc → GroupDoc)
    (g' x : Id) (hgid : ∀ d, (f d).gid = d.gid) (hstu : ∀ d, (f d).students = d.students)
    (h : sRef (mapGroup db g f) g' x) : sRef db g' x := by
  obtain ⟨d, hd, hx⟩ := h
  rw [findGroup_mapGroup db g g' f hgid] at hd
  cases hfd : findGroup db g' with
  | none => rw [hfd] at hd; exact absurd hd (by simp)
  | some d0 =>
    rw [hfd] at hd
    simp only [Option.map_some'] at hd
    cases hd
    refine ⟨d0, hfd, ?_⟩
    by_cases hdg : d0.gid = g
    · rw [if_pos hdg, hstu d0] at hx
      exact hx
    · rw [if_neg hdg] at hx
      exact hx

theorem sRef_removeParent_rev (db : DB) (g0 : Id) (po : Option Id) (g' x : Id)
    (h : sRef (removeParentFromGroupIfUnused db (some g0) po) g' x) : sRef db g' x := by
  cases po with
  | none => exact h
  | some p0 =>
    revert h
    show sRef (if countStudentsGP db g0 p0 = 0 then groupPullParent db g0 p0 else db) g' x → _
    split
    · exact sRef_mapGroup_rev_students db g0
        (fun d => { d with parents := pullId d.parents p0 }) g' x (fun _ => rfl) (fun _ => rfl)
    · exact id

theorem sRef_ensureParent_rev (db : DB) (g p : Option Id) (g' x : Id)
    (h : sRef (ensureParentInGroup db g p) g' x) : sRef db g' x := by
  cases g with
  | none => cases p <;> exact h
  | some g0 =>
    cases p with
    | none => exact h
    | some p0 =>
      exact sRef_mapGroup_rev_students db g0
        (fun d => { d with parents := addToSet d.parents p0 }) g' x (fun _ => rfl) (fun _ => rfl) h

theorem sRef_groupPullStudent_rev (db : DB) (g s : Id) (g' x : Id)
    (h : sRef (groupPullStudent db g s) g' x) : sRef db g' x ∧ (g' = g → x ≠ s) := by
  obtain ⟨d, hd, hx⟩ := h
  rw [show groupPullStudent db g s = mapGroup db g
    (fun d => { d with students := pullId d.students s }) from rfl,
    findGroup_mapGroup db g g' (fun d => { d with students := pullId d.students s })
    (fun _ => rfl)] at hd
  cases hfd : findGroup db g' with
  | none => rw [hfd] at hd; exact absurd hd (by simp)
  | some d0 =>
    rw [hfd] at hd
    simp only [Option.map_some'] at hd
    cases hd
    by_cases hdg : d0.gid = g
    · rw [if_pos hdg] at hx
      obtain ⟨hx0, hxs⟩ := mem_pullId_rev d0.students s x hx
      exact ⟨⟨d0, hfd, hx0⟩, fun _ => hxs⟩
    · rw [if_neg hdg] at hx
      refine ⟨⟨d0, hfd, hx⟩, ?_⟩
      intro hg'
      exact absurd ((findGroup_gid db g' d0 hfd).trans hg') hdg

theorem sRef_groupAddStudent_rev (db : DB) (g s : Id) (g' x : Id)
    (h : sRef (groupAddStudent db g s) g' x) : sRef db g' x ∨ x = s := by
  obtain ⟨d, hd, hx⟩ := h
  rw [show groupAddStudent db g s = mapGroup db g
    (fun d => { d with students := addToSet d.students s }) from rfl,
    findGroup_mapGroup db g g' (fun d => { d with students := addToSet d.students s })
    (fun _ => rfl)] at hd
  cases hfd : findGroup db g' with
  | none => rw [hfd] at hd; exact absurd hd (by simp)
  | some d0 =>
    rw [hfd] at hd
    simp only [Option.map_some'] at hd
    cases hd
    by_cases hdg : d0.gid = g
    · rw [if_pos hdg] at hx
      rcases mem_addToSet_rev d0.students s x hx with hx0 | hx0
      · exact Or.inl ⟨d0, hfd, hx0⟩
      · exact Or.inr hx0
    · rw [if_neg hdg] at hx
      exact Or.inl ⟨d0, hfd, hx⟩

theorem sRef_detachStep_rev (gid : Id) (db : DB) (s : Id) (st : StudentDoc) (x : Id)
    (h : sRef (detachStep gid db s st) gid x) : sRef db gid x ∧ x ≠ s := by
  have h1 : sRef (groupPullStudent (saveStudent db { st with group := none }) gid s) gid x :=
    sRef_removeParent_rev _ gid st.parent gid x h
  obtain ⟨h2, h3⟩ := sRef_groupPullStudent_rev _ gid s gid x h1
  exact ⟨sRef_of_groups_eq _ db rfl gid x h2, h3 rfl⟩

theorem detachListed_sRef_rev (gid : Id) (l : List Id) :
    ∀ db x, sRef (detachListed gid db l) gid x →
      sRef db gid x ∧ (x ∈ l → findStudent db x = none) := by
  induction l with
  | nil => intro db x h; exact ⟨h, fun hx => absurd hx (by simp)⟩
  | cons s rest ih =>
    intro db x h
    cases hf : findStudent db s with
    | none =>
      rw [show detachListed gid db (s :: rest) = detachListed gid db rest from by
        rw [detachListed_cons, hf]] at h
      obtain ⟨h1, h2⟩ := ih db x h
      refine ⟨h1, ?_⟩
      intro hx
      rcases List.mem_cons.mp hx with rfl | hmem
      · exact hf
      · exact h2 hmem
    | some st =>
      rw [show detachListed gid db (s :: rest)
          = detachListed gid (detachStep gid db s st) rest from by
        rw [detachListed_cons, hf]] at h
      obtain ⟨h1, h2⟩ := ih _ x h
      obtain ⟨hbase, hxs⟩ := sRef_detachStep_rev gid db s st x h1
      refine ⟨hbase, ?_⟩
      intro hx
      rcases List.mem_cons.mp hx with rfl | hmem
      · exact absurd rfl hxs
      · exact findStudent_none_transfer _ db (detachStep_sidMap gid db s st).symm x (h2 hmem)

theorem sRef_assignStep_rev (gid : Id) (db : DB) (s : Id) (st : StudentDoc) (x : Id)
    (h : sRef (assignStep gid db s st) gid x) : x = s ∨ sRef db gid x := by
  have hbig : assignStep gid db s st = (if st.parent ≠ none then ensureParentInGroup
      (groupAddStudent
        (if st.group = some gid then db
        else saveStudent (match st.group with
          | some pg => removeParentFromGroupIfUnused (groupPullStudent db pg s) (some pg) st.parent
          | none => db) { st with group := some gid }) gid s) (some gid) st.parent
    else groupAddStudent
      (if st.group = some gid then db
      else saveStudent (match st.group with
        | some pg => removeParentFromGroupIfUnused (groupPullStudent db pg s) (some pg) st.parent
        | none => db) { st with group := some gid }) gid s) := rfl
  rw [hbig] at h
  have h1 : sRef (groupAddStudent
      (if st.group = some gid then db
      else saveStudent (match st.group with
        | some pg => removeParentFromGroupIfUnused (groupPullStudent db pg s) (some pg) st.parent
        | none => db) { st with group := some gid }) gid s) gid x := by
    by_cases hp : st.parent ≠ none
    · rw [if_pos hp] at h
      exact sRef_ensureParent_rev _ (some gid) st.parent gid x h
    · rw [if_neg hp] at h
      exact h
  rcases sRef_groupAddStudent_rev _ gid s gid x h1 with h2 | h2
  · by_cases hg : st.group = some gid
    · rw [if_pos hg] at h2
      exact Or.inr h2
    · rw [if_neg hg] at h2
      have h3 : sRef (match st.group with
          | some pg => removeParentFromGroupIfUnused (groupPullStudent db pg s) (some pg) st.parent
          | none => db) gid x :=
        sRef_of_groups_eq _ _ rfl gid x h2
      cases hsg : st.group with
      | none =>
        rw [hsg] at h3
        exact Or.inr h3
      | some pg =>
        rw [hsg] at h3
        have h4 := sRef_removeParent_rev _ pg st.parent gid x h3
        exact Or.inr (sRef_groupPullStudent_rev db pg s gid x h4).1
  · exact Or.inl h2

theorem assignListed_sRef_rev (gid : Id) (l : List Id) :
    ∀ db x, sRef (assignListed gid db l) gid x → x ∈ l ∨ sRef db gid x := by
  induction l with
  | nil => intro db x h; exact Or.inr h
  | cons s rest ih =>
    intro db x h
    cases hf : findStudent db s with
    | none =>
      rw [show assignListed gid db (s :: rest) = assignListed gid db rest from by
        rw [assignListed_cons, hf]] at h
      rcases ih db x h with hm | hb
      · exact Or.inl (List.mem_cons_of_mem s hm)
      · exact Or.inr hb
    | some st =>
      rw [show assignListed gid db (s :: rest)
          = assignListed gid (assignStep gid db s st) rest from by
        rw [assignListed_cons, hf]] at h
      rcases ih _ x h with hm | hb
      · exact Or.inl (List.mem_cons_of_mem s hm)
      · rcases sRef_assignStep_rev gid db s st x hb with hxs | hb2
        · exact Or.inl (hxs ▸ List.mem_cons_self x rest)
        · exact Or.inr hb2

/-! ### Forward facts: the assign loop attaches every found listed student -/

theorem gidsOf_saveStudent (db : DB) (st : StudentDoc) :
    gidsOf (saveStudent db st) = gidsOf db := rfl

theorem assignStep_sRef_self (gid : Id) (db : DB) (s : Id) (st : StudentDoc)
    (hg : gid ∈ gidsOf db) : sRef (assignStep gid db s st) gid s := by
  have hgmid : gid ∈ gidsOf (if st.group = some gid then db
      else saveStudent (match st.group with
        | some pg => removeParentFromGroupIfUnused (groupPullStudent db pg s) (some pg) st.parent
        | none => db) { st with group := some gid }) := by
    split
    · exact hg
    · show gid ∈ gidsOf (saveStudent _ _)
      rw [gidsOf_saveStudent]
      cases st.group with
      | none => exact hg
      | some pg =>
        rw [gidsOf_removeParent, gidsOf_groupPullStudent]
        exact hg
  have hsome := (findGroup_isSome_iff _ gid).mpr hgmid
  have hadd := sRef_groupAddStudent_self _ gid s hsome
  show sRef (if st.parent ≠ none then ensureParentInGroup (groupAddStudent
      (if st.group = some gid then db
      else saveStudent (match st.group with
        | some pg => removeParentFromGroupIfUnused (groupPullStudent db pg s) (some pg) st.parent
        | none => db) { st with group := some gid }) gid s) (some gid) st.parent
    else groupAddStudent
      (if st.group = some gid then db
      else saveStudent (match st.group with
        | some pg => removeParentFromGroupIfUnused (groupPullStudent db pg s) (some pg) st.parent
        | none => db) { st with group := some gid }) gid s) gid s
  split
  · exact sRef_ensureParent _ (some gid) st.parent gid s hadd
  · exact hadd

theorem assignListed_sRef_self (gid : Id) (l : List Id) :
    ∀ db, (db.students.map (·.sid)).Nodup → l.Nodup → gid ∈ gidsOf db →
      ∀ s ∈ l, (findStudent db s).isSome = true → sRef (assignListed gid db l) gid s := by
  induction l with
  | nil => intro db _ _ _ s hs _; exact absurd hs (by simp)
  | cons s0 rest ih =>
    intro db hsn hln hg s hs hfs
    cases hf0 : findStudent db s0 with
    | none =>
      rw [show assignListed gid db (s0 :: rest) = assignListed gid db rest from by
        rw [assignListed_cons, hf0]]
      rcases List.mem_cons.mp hs with rfl | hmem
      · rw [hf0] at hfs
        exact absurd hfs (by simp)
      · exact ih db hsn (List.Nodup.of_cons hln) hg s hmem hfs
    | some st0 =>
      rw [show assignListed gid db (s0 :: rest)
          = assignListed gid (assignStep gid db s0 st0) rest from by
        rw [assignListed_cons, hf0]]
      have hs0nr : s0 ∉ rest := (List.nodup_cons.mp hln).1
      have hsn' : ((assignStep gid db s0 st0).students.map (·.sid)).Nodup := by
        rw [assignStep_sidMap]
        exact hsn
      have hg' : gid ∈ gidsOf (assignStep gid db s0 st0) := by
        rw [gidsOf_assignStep]
        exact hg
      rcases List.mem_cons.mp hs with rfl | hmem
      · exact sRef_assignListed gid rest _ gid s hs0nr
          (assignStep_sRef_self gid db s st0 hg)
      · exact ih _ hsn' (List.Nodup.of_cons hln) hg' s hmem (by
          rw [findStudent_assignStep gid db s0 st0 s hf0,
            if_neg (fun hc => hs0nr (by rw [hc] at hmem; exact hmem))]
          exact hfs)

theorem gidsOf_assignMid (gid : Id) (db : DB) (s : Id) (go po : Option Id)
    (doc : StudentDoc) :
    gidsOf (groupAddStudent (if go = some gid then db
      else saveStudent (match go with
        | some pg => removeParentFromGroupIfUnused (groupPullStudent db pg s) (some pg) po
        | none => db) doc) gid s) = gidsOf db := by
  rw [gidsOf_groupAddStudent]
  split
  · rfl
  · show gidsOf (saveStudent _ _) = _
    rw [gidsOf_saveStudent]
    cases go with
    | none => rfl
    | some pg => rw [gidsOf_removeParent, gidsOf_groupPullStudent]

theorem assignStep_pRef_self (gid : Id) (db : DB) (s : Id) (st : StudentDoc) (p : Id)
    (hg : gid ∈ gidsOf db) (hp : st.parent = some p) :
    pRef (assignStep gid db s st) gid p := by
  show pRef (if st.parent ≠ none then ensureParentInGroup (groupAddStudent
      (if st.group = some gid then db
      else saveStudent (match st.group with
        | some pg => removeParentFromGroupIfUnused (groupPullStudent db pg s) (some pg) st.parent
        | none => db) { st with group := some gid }) gid s) (some gid) st.parent
    else groupAddStudent
      (if st.group = some gid then db
      else saveStudent (match st.group with
        | some pg => removeParentFromGroupIfUnused (groupPullStudent db pg s) (some pg) st.parent
        | none => db) { st with group := some gid }) gid s) gid p
  rw [hp]
  rw [if_pos (by simp)]
  refine pRef_groupAddParent_self _ gid p ?_
  refine (findGroup_isSome_iff _ gid).mpr ?_
  rw [gidsOf_assignMid]
  exact hg

theorem assignListed_pRef_self (gid : Id) (l : List Id) :
    ∀ db, (db.students.map (·.sid)).Nodup → l.Nodup → gid ∈ gidsOf db →
      ∀ s ∈ l, ∀ st, findStudent db s = some st → ∀ p, st.parent = some p →
        pRef (assignListed gid db l) gid p := by
  induction l with
  | nil => intro db _ _ _ s hs _ _ _ _; exact absurd hs (by simp)
  | cons s0 rest ih =>
    intro db hsn hln hg s hs st hfst p hp
    cases hf0 : findStudent db s0 with
    | none =>
      rw [show assignListed gid db (s0 :: rest) = assignListed gid db rest from by
        rw [assignListed_cons, hf0]]
      rcases List.mem_cons.mp hs with rfl | hmem
      · rw [hf0] at hfst
        exact absurd hfst (by simp)
      · exact ih db hsn (List.Nodup.of_cons hln) hg s hmem st hfst p hp
    | some st0 =>
      rw [show assignListed gid db (s0 :: rest)
          = assignListed gid (assignStep gid db s0 st0) rest from by
        rw [assignListed_cons, hf0]]
      have hs0nr : s0 ∉ rest := (List.nodup_cons.mp hln).1
      have hsn' : ((assignStep gid db s0 st0).students.map (·.sid)).Nodup := by
        rw [assignStep_sidMap]
        exact hsn
      rcases List.mem_cons.mp hs with rfl | hmem
      · have hsteq : st0 = st := Option.some.inj (hf0.symm.trans hfst)
        subst hsteq
        have hstep : pRef (assignStep gid db s st0) gid p :=
          assignStep_pRef_self gid db s st0 p hg hp
        have hfind1 : findStudent (assignStep gid db s st0) s
            = some { st0 with group := some gid } := by
          rw [findStudent_assignStep gid db s st0 s hf0, if_pos rfl]
        have hwmem : ({ st0 with group := some gid } : StudentDoc)
            ∈ (assignStep gid db s st0).students :=
          (findStudent_mem _ s _ hfind1).1
        have hwsid : ({ st0 with group := some gid } : StudentDoc).sid = s :=
          (findStudent_mem _ s _ hfind1).2
        refine pRef_assignListed gid rest _ gid p
          ⟨{ st0 with group := some gid }, hwmem, rfl, ?_, ?_⟩ hsn' hstep
        · show st0.parent = some p
          exact hp
        · rw [hwsid]
          exact hs0nr
      · exact ih _ hsn' (List.Nodup.of_cons hln) (by rw [gidsOf_assignStep]; exact hg)
          s hmem st (by
            rw [findStudent_assignStep gid db s0 st0 s hf0,
              if_neg (fun hc => hs0nr (by rw [hc] at hmem; exact hmem))]
            exact hfst) p hp

/-- Saving back a group document identical to the stored one is a no-op. -/
theorem saveGroup_self (db : DB) (g : GroupDoc) (hgn : (gidsOf db).Nodup)
    (hg : findGroup db g.gid = some g) : saveGroup db g = db := by
  have hgn' : (db.groups.map (·.gid)).Nodup := hgn
  show ({ db with groups := db.groups.map (fun d => if d.gid = g.gid then g else d) } : DB) = db
  have hmap : db.groups.map (fun d => if d.gid = g.gid then g else d) = db.groups := by
    refine map_id_of_mem _ _ ?_
    intro d hd
    by_cases hdg : d.gid = g.gid
    · rw [if_pos hdg]
      exact (eq_of_map_nodup (·.gid) db.groups hgn' d g hd (findGroup_mem db g.gid g hg).1
        (by simpa using hdg)).symm
    · rw [if_neg hdg]
  rw [hmap]

/-! ### The second run's detach-all loop is a no-op -/

theorem countStudentsGP_of_students_eq (A B : DB) (h : B.students = A.students)
    (g p : Id) : countStudentsGP B g p = countStudentsGP A g p := by
  unfold countStudentsGP
  rw [h]

theorem pRef_mapGroup_rev (db : DB) (g : Id) (f : GroupDoc → GroupDoc) (g' q : Id)
    (hgid : ∀ d, (f d).gid = d.gid) (hpar : ∀ d, q ∈ (f d).parents → q ∈ d.parents)
    (h : pRef (mapGroup db g f) g' q) : pRef db g' q := by
  obtain ⟨d, hd, hx⟩ := h
  rw [findGroup_mapGroup db g g' f hgid] at hd
  cases hfd : findGroup db g' with
  | none => rw [hfd] at hd; exact absurd hd (by simp)
  | some d0 =>
    rw [hfd] at hd
    simp only [Option.map_some'] at hd
    cases hd
    by_cases hdg : d0.gid = g
    · rw [if_pos hdg] at hx
      exact ⟨d0, hfd, hpar d0 hx⟩
    · rw [if_neg hdg] at hx
      exact ⟨d0, hfd, hx⟩

theorem pRef_removeParent_rev (db : DB) (g0 : Id) (po : Option Id) (g' q : Id)
    (h : pRef (removeParentFromGroupIfUnused db (some g0) po) g' q) : pRef db g' q := by
  cases po with
  | none => exact h
  | some p0 =>
    revert h
    show pRef (if countStudentsGP db g0 p0 = 0 then groupPullParent db g0 p0 else db) g' q → _
    split
    · exact pRef_mapGroup_rev db g0 (fun d => { d with parents := pullId d.parents p0 }) g' q
        (fun _ => rfl) (fun d hq => (mem_pullId_rev d.parents p0 q hq).1)
    · exact id

theorem pRef_detachAllStep_rev (gid : Id) (db : DB) (st : StudentDoc) (g' q : Id)
    (h : pRef (detachAllStep gid db st) g' q) : pRef db g' q := by
  have h1 : pRef (saveStudent db { st with group := none }) g' q :=
    pRef_removeParent_rev _ gid st.parent g' q h
  exact pRef_of_groups_eq _ db rfl g' q h1

theorem not_pRef_groupPullParent (db : DB) (g p : Id) :
    ¬ pRef (groupPullParent db g p) g p := by
  intro hc
  obtain ⟨d, hd, hq⟩ := hc
  rw [show groupPullParent db g p = mapGroup db g
    (fun d => { d with parents := pullId d.parents p }) from rfl,
    findGroup_mapGroup_self db g (fun d => { d with parents := pullId d.parents p })
    (fun _ => rfl)] at hd
  cases hfd : findGroup db g with
  | none => rw [hfd] at hd; exact absurd hd (by simp)
  | some d0 =>
    rw [hfd] at hd
    simp only [Option.map_some'] at hd
    cases hd
    exact absurd rfl (mem_pullId_rev d0.parents p p hq).2

theorem groupPullParent_id (db : DB) (g p : Id) (hgn : (gidsOf db).Nodup)
    (hnp : ¬ pRef db g p) : groupPullParent db g p = db := by
  have hgn' : (db.groups.map (·.gid)).Nodup := hgn
  show ({ db with groups := db.groups.map (fun d => if d.gid = g then { d with parents := pullId d.parents p } else d) } : DB) = db
  have hmap : db.groups.map
      (fun d => if d.gid = g then { d with parents := pullId d.parents p } else d)
      = db.groups := by
    refine map_id_of_mem _ _ ?_
    intro d hd
    by_cases hdg : d.gid = g
    · rw [if_pos hdg]
      have hfind : findGroup db g = some d := by
        rw [← hdg]
        exact findGroup_of_mem db hgn' d hd
      have hpd : p ∉ d.parents := fun hc => hnp ⟨d, hfind, hc⟩
      rw [pullId_not_mem d.parents p hpd]
    · rw [if_neg hdg]
  rw [hmap]

theorem removeParent_id (db : DB) (gid p : Id) (hgn : (gidsOf db).Nodup)
    (h : countStudentsGP db gid p ≠ 0 ∨ ¬ pRef db gid p) :
    removeParentFromGroupIfUnused db (some gid) (some p) = db := by
  show (if countStudentsGP db gid p = 0 then groupPullParent db gid p else db) = db
  by_cases hc : countStudentsGP db gid p = 0
  · rw [if_pos hc]
    rcases h with h | h
    · exact absurd hc h
    · exact groupPullParent_id db gid p hgn h
  · rw [if_neg hc]

theorem detachAllStep_students (gid : Id) (db : DB) (st : StudentDoc) :
    (detachAllStep gid db st).students
      = db.students.map (fun d => if d.sid = st.sid then { st with group := none } else d) := by
  show (removeParentFromGroupIfUnused (saveStudent db { st with group := none })
    (some gid) st.parent).students = _
  rw [removeParent_students]
  rfl

theorem studentsView_saveStudent (db : DB) (st : StudentDoc) (g' : Id) :
    studentsView (saveStudent db st) g' = studentsView db g' := rfl

theorem studentsView_detachAllStep (gid : Id) (db : DB) (st : StudentDoc) (g' : Id) :
    studentsView (detachAllStep gid db st) g' = studentsView db g' := by
  show studentsView (removeParentFromGroupIfUnused (saveStudent db { st with group := none })
    (some gid) st.parent) g' = _
  rw [studentsView_removeParent]
  rfl

theorem studentsView_detachAll (gid : Id) (l : List Id) :
    ∀ db g', studentsView (detachAll gid db l) g' = studentsView db g' := by
  induction l with
  | nil => intro db g'; rfl
  | cons s rest ih =>
    intro db g'
    cases hf : findStudent db s with
    | none =>
      rw [show detachAll gid db (s :: rest) = detachAll gid db rest from by
        rw [detachAll_cons, hf]]
      exact ih db g'
    | some st =>
      rw [show detachAll gid db (s :: rest) = detachAll gid (detachAllStep gid db st) rest from by
        rw [detachAll_cons, hf], ih, studentsView_detachAllStep]

theorem detachAll_WF (gid : Id) (db : DB) (l : List Id) (h : WF db) :
    WF (detachAll gid db l) := by
  have hfr := detachAll_pFrame gid l db
  have hwp : WFp (detachAll gid db l) := by
    constructor
    · show ((detachAll gid db l).parents.map (·.pid)).Nodup
      rw [hfr.1]
      exact h.2.2.1
    · intro p hp
      rw [hfr.1] at hp
      rw [hfr.2]
      exact h.2.2.2.2.2.1 p hp
  exact WF_of_parts db _ (gidsOf_detachAll gid l db) (detachAll_sidMap gid l db)
    (detachAll_sKeyMap gid l db h.2.1) (le_of_eq hfr.2.symm) hwp h

theorem roster_WF (gid : Id) (db : DB) (l r : List Id) (h : WF db) :
    WF (assignListed gid (detachListed gid db l) r) := by
  have hfrD := detachListed_pFrame gid l db
  have hfrA := assignListed_pFrame gid r (detachListed gid db l)
  have hnx2 : (assignListed gid (detachListed gid db l) r).nextId = db.nextId :=
    hfrA.2.trans hfrD.2
  have hpar2 : (assignListed gid (detachListed gid db l) r).parents = db.parents :=
    hfrA.1.trans hfrD.1
  have hwp1 : WFp (assignListed gid (detachListed gid db l) r) := by
    constructor
    · show ((assignListed gid (detachListed gid db l) r).parents.map (·.pid)).Nodup
      rw [hpar2]
      exact h.2.2.1
    · intro p hp
      rw [hpar2] at hp
      rw [hnx2]
      exact h.2.2.2.2.2.1 p hp
  have hnodupD : ((detachListed gid db l).students.map (·.sid)).Nodup := by
    rw [detachListed_sidMap]
    exact h.2.1
  exact WF_of_parts db _
    (by rw [gidsOf_assignListed, gidsOf_detachListed])
    (by rw [assignListed_sidMap, detachListed_sidMap])
    (by rw [assignListed_sKeyMap _ _ _ hnodupD, detachListed_sKeyMap gid _ db h.2.1])
    (le_of_eq hnx2.symm) hwp1 h

/-- What one run of the detach-all loop guarantees for a parent id `p` that
starts out as the parent of some listed-and-found student, of some attached
student outside the list, or already unlisted on the target group: afterwards
`p` is either still counted among the target's attached students or absent
from the target's parent set. -/
theorem detachAll_pulled (gid p : Id) (l : List Id) : ∀ (db : DB),
    (db.students.map (·.sid)).Nodup →
    ((∃ s ∈ l, ∃ st, findStudent db s = some st ∧ st.parent = some p) ∨
     (∃ w ∈ db.students, w.parent = some p ∧ w.group = some gid ∧ w.sid ∉ l) ∨
     ¬ pRef db gid p) →
    (∃ w ∈ (detachAll gid db l).students, w.parent = some p ∧ w.group = some gid) ∨
    ¬ pRef (detachAll gid db l) gid p := by
  induction l with
  | nil =>
    intro db _ h
    rcases h with ⟨s, hs, _⟩ | ⟨w, hw, hp1, hp2, _⟩ | h
    · exact absurd hs (by simp)
    · exact Or.inl ⟨w, hw, hp1, hp2⟩
    · exact Or.inr h
  | cons s rest ih =>
    intro db hsn h
    cases hf : findStudent db s with
    | none =>
      rw [show detachAll gid db (s :: rest) = detachAll gid db rest from by
        rw [detachAll_cons, hf]]
      refine ih db hsn ?_
      rcases h with ⟨s0, hs0, st0, hfs0, hp0⟩ | ⟨w, hw, hp1, hp2, hp3⟩ | h
      · rcases List.mem_cons.mp hs0 with rfl | hmem
        · rw [hf] at hfs0
          exact absurd hfs0 (by simp)
        · exact Or.inl ⟨s0, hmem, st0, hfs0, hp0⟩
      · exact Or.inr (Or.inl ⟨w, hw, hp1, hp2, fun hc => hp3 (List.mem_cons_of_mem s hc)⟩)
      · exact Or.inr (Or.inr h)
    | some st =>
      rw [show detachAll gid db (s :: rest) = detachAll gid (detachAllStep gid db st) rest from by
        rw [detachAll_cons, hf]]
      have hstsid : st.sid = s := (findStudent_mem db s st hf).2
      have hsn' : ((detachAllStep gid db st).students.map (·.sid)).Nodup := by
        rw [detachAllStep_sidMap]
        exact hsn
      refine ih (detachAllStep gid db st) hsn' ?_
      rcases h with ⟨s0, hs0, st0, hfs0, hp0⟩ | ⟨w, hw, hp1, hp2, hp3⟩ | h
      · by_cases hss : s0 = s
        · subst hss
          have hsteq : st0 = st := Option.some.inj (hfs0.symm.trans hf)
          subst hsteq
          have hred : detachAllStep gid db st0 = removeParentFromGroupIfUnused
              (saveStudent db { st0 with group := none }) (some gid) (some p) := by
            show removeParentFromGroupIfUnused (saveStudent db { st0 with group := none })
              (some gid) st0.parent = _
            rw [hp0]
          rw [hred]
          by_cases hcnt : countStudentsGP (saveStudent db { st0 with group := none }) gid p = 0
          · have hform : removeParentFromGroupIfUnused
                (saveStudent db { st0 with group := none }) (some gid) (some p)
                = groupPullParent (saveStudent db { st0 with group := none }) gid p := by
              show (if countStudentsGP (saveStudent db { st0 with group := none }) gid p = 0
                then groupPullParent (saveStudent db { st0 with group := none }) gid p
                else saveStudent db { st0 with group := none }) = _
              rw [if_pos hcnt]
            rw [hform]
            exact Or.inr (Or.inr (not_pRef_groupPullParent _ gid p))
          · have hform : removeParentFromGroupIfUnused
                (saveStudent db { st0 with group := none }) (some gid) (some p)
                = saveStudent db { st0 with group := none } := by
              show (if countStudentsGP (saveStudent db { st0 with group := none }) gid p = 0
                then groupPullParent (saveStudent db { st0 with group := none }) gid p
                else saveStudent db { st0 with group := none }) = _
              rw [if_neg hcnt]
            rw [hform]
            have hne : ((saveStudent db { st0 with group := none }).students.filter
                (fun s => s.group = some gid ∧ s.parent = some p)).length ≠ 0 := hcnt
            have hne2 : (saveStudent db { st0 with group := none }).students.filter
                (fun s => s.group = some gid ∧ s.parent = some p) ≠ [] := by
              intro hc
              rw [hc] at hne
              exact hne rfl
            obtain ⟨w, hwmem⟩ := List.exists_mem_of_ne_nil _ hne2
            have hw := List.mem_filter.mp hwmem
            have hwprop : w.group = some gid ∧ w.parent = some p := by
              have h2 := hw.2
              simp only [decide_eq_true_eq] at h2
              exact h2
            have hmm : w ∈ db.students.map
                (fun d => if d.sid = st0.sid then { st0 with group := none } else d) := hw.1
            obtain ⟨d, hd, hde⟩ := List.mem_map.mp hmm
            have hdne : ¬ d.sid = st0.sid := by
              intro hc
              rw [if_pos hc] at hde
              rw [← hde] at hwprop
              exact absurd hwprop.1 (by simp)
            rw [if_neg hdne] at hde
            subst hde
            by_cases hdr : d.sid ∈ rest
            · refine Or.inl ⟨d.sid, hdr, d, ?_, hwprop.2⟩
              refine findStudent_of_mem _ ?_ d hw.1
              rw [saveStudent_sidMap]
              exact hsn
            · refine Or.inr (Or.inl ⟨d, hw.1, hwprop.2, hwprop.1, hdr⟩)
        · have hmem : s0 ∈ rest := by
            rcases List.mem_cons.mp hs0 with h1 | h1
            · exact absurd h1 hss
            · exact h1
          refine Or.inl ⟨s0, hmem, st0, ?_, hp0⟩
          rw [findStudent_detachAllStep gid db s st s0 hf, if_neg hss]
          exact hfs0
      · have hws : w.sid ≠ s := fun hc => hp3 (hc ▸ List.mem_cons_self s rest)
        refine Or.inr (Or.inl ⟨w, ?_, hp1, hp2, fun hc => hp3 (List.mem_cons_of_mem s hc)⟩)
        rw [detachAllStep_students]
        refine List.mem_map.mpr ⟨w, hw, ?_⟩
        show (if w.sid = st.sid then ({ st with group := none } : StudentDoc) else w) = w
        rw [if_neg (by rw [hstsid]; exact hws)]
      · exact Or.inr (Or.inr (fun hc => h (pRef_detachAllStep_rev gid db st gid p hc)))

/-- The detach-all loop is a no-op when every listed student it finds is
already detached and its parent is either still counted among the target
group's attached students or no longer in the target's parent set. -/
theorem detachAll_id (gid : Id) (l : List Id) : ∀ (db : DB),
    (gidsOf db).Nodup →
    (db.students.map (·.sid)).Nodup →
    (∀ s ∈ l, ∀ st, findStudent db s = some st →
      st.group = none ∧
      ∀ p, st.parent = some p → countStudentsGP db gid p ≠ 0 ∨ ¬ pRef db gid p) →
    detachAll gid db l = db := by
  induction l with
  | nil => intro db _ _ _; rfl
  | cons s rest ih =>
    intro db hgn hsn h
    cases hf : findStudent db s with
    | none =>
      rw [show detachAll gid db (s :: rest) = detachAll gid db rest from by
        rw [detachAll_cons, hf]]
      exact ih db hgn hsn (fun x hx => h x (List.mem_cons_of_mem s hx))
    | some st =>
      obtain ⟨h1, h2⟩ := h s (List.mem_cons_self s rest) st hf
      have hstep : detachAllStep gid db st = db := by
        show removeParentFromGroupIfUnused (saveStudent db { st with group := none })
          (some gid) st.parent = db
        rw [setGroup_self st none h1,
          saveStudent_self db st hsn (findStudent_mem db s st hf).1]
        cases hsp : st.parent with
        | none => rfl
        | some p => exact removeParent_id db gid p hgn (h2 p hsp)
      rw [show detachAll gid db (s :: rest) = detachAll gid (detachAllStep gid db st) rest from by
        rw [detachAll_cons, hf], hstep]
      exact ih db hgn hsn (fun x hx => h x (List.mem_cons_of_mem s hx))

/-! ### Unfolding equations for the handler and its parent phase -/

/-- The metadata assignments of the bulk handler: trimmed name and location,
raw description, each only when present in the payload. -/
def applyMeta (g0 : GroupDoc) (req : PatchReq) : GroupDoc :=
  { g0 with
    name := match req.name with | some n => trimS n | none => g0.name
    location := match req.location with | some l => trimS l | none => g0.location
    description := match req.description with | some d => d | none => g0.description }

theorem patchGroupFull_none (db : DB) (gid : Id) (req : PatchReq)
    (hg : findGroup db gid = none) : patchGroupFull db gid req = (404, db) := by
  unfold patchGroupFull
  rw [hg]

theorem patchGroupFull_some (db : DB) (gid : Id) (req : PatchReq) (g0 : GroupDoc)
    (hg : findGroup db gid = some g0) :
    patchGroupFull db gid req =
      if (requestedIds req).isEmpty then
        parentPhase gid { applyMeta g0 req with students := [] } req
          (detachAll gid db g0.students)
      else if (db.students.filter (·.sid ∈ requestedIds req)).length
          ≠ (requestedIds req).length then (400, db)
      else parentPhase gid { applyMeta g0 req with students := requestedIds req } req
        (assignListed gid (detachListed gid db (g0.students.filter (· ∉ requestedIds req)))
          (requestedIds req)) := by
  unfold patchGroupFull
  rw [hg]
  rfl

theorem parentPhase_ok (gid : Id) (gmem : GroupDoc) (req : PatchReq) (db : DB)
    (finalIds : List Id) (db2 : DB)
    (hpp : processParents db (distinctParents db gid) (req.parents.getD [])
      = .ok (finalIds, db2)) :
    parentPhase gid gmem req db =
      (200, cleanupRemoved gid (saveGroup db2 { gmem with parents := finalIds })
        (gmem.parents.filter (· ∉ finalIds))) := by
  unfold parentPhase
  rw [hpp]

theorem parentPhase_error (gid : Id) (gmem : GroupDoc) (req : PatchReq) (db : DB)
    (db2 : DB)
    (hpp : processParents db (distinctParents db gid) (req.parents.getD [])
      = .error db2) :
    parentPhase gid gmem req db = (400, db2) := by
  unfold parentPhase
  rw [hpp]

/-- Re-applying the metadata assignments to the document saved by the first
run computes the same document again. -/
theorem applyMeta_idem (g0 : GroupDoc) (req : PatchReq) (stu finalIds : List Id) :
    ({ { applyMeta { { applyMeta g0 req with students := stu } with parents := finalIds } req
        with students := stu } with parents := finalIds } : GroupDoc)
      = { { applyMeta g0 req with students := stu } with parents := finalIds } := by
  unfold applyMeta
  cases req.name <;> cases req.location <;> cases req.description <;> rfl

/-! ### The second run's parent phase replays the first -/

/-- A failed parent loop re-run from its own error state fails at the same
entry and leaves the state alone. -/
theorem processParents_error_replay (es : List ParentEntry) (S db2 : DB) (acc : List Id)
    (hWp : WFp S) (hpn2 : (pidsOf db2).Nodup)
    (h : processParents S acc es = .error db2) :
    processParents db2 acc es = .error db2 := by
  obtain ⟨pre, bad, post, accP, hsplit, hok, hbad⟩ :=
    processParents_error_split es S acc db2 h
  have hreplay := parent_replay pre S acc accP db2 db2 hWp hok hpn2
    (fun d hd => hd) (fun em q hq _ => hq)
  rw [hsplit]
  exact processParents_append_error pre db2 acc accP db2 bad post hreplay hbad

/-- After a successful parent phase from `S` with snapshot `gmem`, the saved
group document is what `findGroup` returns on the target id. -/
theorem parentPhase_target (gid : Id) (gmem : GroupDoc) (req : PatchReq) (S : DB)
    (finalIds : List Id) (db2 : DB)
    (hgS : gid ∈ gidsOf S)
    (hgid : gmem.gid = gid)
    (hpp : processParents S (distinctParents S gid) (req.parents.getD [])
      = .ok (finalIds, db2)) :
    findGroup (cleanupRemoved gid (saveGroup db2 { gmem with parents := finalIds })
        (gmem.parents.filter (· ∉ finalIds))) gid
      = some { gmem with parents := finalIds } := by
  subst hgid
  obtain ⟨hgr2, _⟩ := (processParents_frame (req.parents.getD []) S
    (distinctParents S gmem.gid)).1 finalIds db2 hpp
  have hsome2 : (findGroup db2 gmem.gid).isSome := by
    rw [findGroup_isSome_iff, gidsOf_of_groups_eq S db2 hgr2]
    exact hgS
  have h3 : findGroup (saveGroup db2 { gmem with parents := finalIds }) gmem.gid
      = some { gmem with parents := finalIds } :=
    findGroup_saveGroup_self db2 _ hsome2
  refine cleanupRemoved_findGroup_target gmem.gid _ _ _ h3 ?_
  intro q hq
  show q ∉ finalIds
  simpa using (List.mem_filter.mp hq).2

/-- Replaying the successful parent phase on its own output state changes
nothing: same accumulator, same lookups, and the group save and the empty
cleanup rewrite what is already stored. -/
theorem parentPhase_replay (gid : Id) (gmem gmem2 : GroupDoc) (req : PatchReq) (S : DB)
    (finalIds : List Id) (db2 : DB)
    (hWFS : WF S)
    (hgS : gid ∈ gidsOf S)
    (hgid : gmem.gid = gid)
    (hpp : processParents S (distinctParents S gid) (req.parents.getD [])
      = .ok (finalIds, db2))
    (hgm2 : ({ gmem2 with parents := finalIds } : GroupDoc) = { gmem with parents := finalIds })
    (hgp2 : gmem2.parents = finalIds) :
    parentPhase gid gmem2 req
        (cleanupRemoved gid (saveGroup db2 { gmem with parents := finalIds })
          (gmem.parents.filter (· ∉ finalIds)))
      = (200, cleanupRemoved gid (saveGroup db2 { gmem with parents := finalIds })
          (gmem.parents.filter (· ∉ finalIds))) := by
  obtain ⟨hgr2, hst2⟩ := (processParents_frame (req.parents.getD []) S
    (distinctParents S gid)).1 finalIds db2 hpp
  have hWpS : WFp S := ⟨hWFS.2.2.1, hWFS.2.2.2.2.2.1⟩
  have hWFF : WF (cleanupRemoved gid (saveGroup db2 { gmem with parents := finalIds })
      (gmem.parents.filter (· ∉ finalIds))) := by
    have h1 := (parentPhase_WF gid gmem req S hWFS).1
    rw [parentPhase_ok gid gmem req S finalIds db2 hpp] at h1
    exact h1
  have hstF : (cleanupRemoved gid (saveGroup db2 { gmem with parents := finalIds })
      (gmem.parents.filter (· ∉ finalIds))).students = S.students := by
    rw [cleanupRemoved_students, saveGroup_students, hst2]
  have hacc : distinctParents (cleanupRemoved gid (saveGroup db2
      { gmem with parents := finalIds }) (gmem.parents.filter (· ∉ finalIds))) gid
      = distinctParents S gid :=
    distinctParents_of_students_eq S _ hstF gid
  have hremnot : ∀ q ∈ gmem.parents.filter (· ∉ finalIds), q ∉ finalIds := by
    intro q hq
    simpa using (List.mem_filter.mp hq).2
  have hTsub : ∀ d ∈ (cleanupRemoved gid (saveGroup db2 { gmem with parents := finalIds })
      (gmem.parents.filter (· ∉ finalIds))).parents, d ∈ db2.parents := by
    intro d hd
    have h4 := cleanupRemoved_parents_sub gid (gmem.parents.filter (· ∉ finalIds))
      (saveGroup db2 { gmem with parents := finalIds }) d hd
    rw [saveGroup_parents] at h4
    exact h4
  have hTlook : ∀ em q, findParentByEmail db2 em = some q → q.pid ∈ finalIds →
      findParentByEmail (cleanupRemoved gid (saveGroup db2 { gmem with parents := finalIds })
        (gmem.parents.filter (· ∉ finalIds))) em = some q := by
    intro em q hq hqf
    have h3 : findParentByEmail (saveGroup db2 { gmem with parents := finalIds }) em
        = some q := by
      rw [findParentByEmail_of_parents_eq db2 _ (saveGroup_parents db2 _) em]
      exact hq
    refine cleanupRemoved_findParentByEmail gid _ _ em q h3 ?_
    intro hc
    exact (hremnot q.pid hc) hqf
  have hreplay := parent_replay (req.parents.getD []) S (distinctParents S gid) finalIds db2 _
    hWpS hpp hWFF.2.2.1 hTsub hTlook
  have hppF : processParents (cleanupRemoved gid (saveGroup db2
      { gmem with parents := finalIds }) (gmem.parents.filter (· ∉ finalIds)))
      (distinctParents (cleanupRemoved gid (saveGroup db2 { gmem with parents := finalIds })
        (gmem.parents.filter (· ∉ finalIds))) gid) (req.parents.getD [])
      = .ok (finalIds, cleanupRemoved gid (saveGroup db2 { gmem with parents := finalIds })
          (gmem.parents.filter (· ∉ finalIds))) := by
    rw [hacc]
    exact hreplay
  rw [parentPhase_ok gid gmem2 req _ finalIds _ hppF]
  have hgFind := parentPhase_target gid gmem req S finalIds db2 hgS hgid hpp
  have hrem2 : gmem2.parents.filter (· ∉ finalIds) = [] := by
    rw [hgp2]
    exact filter_not_mem_self finalIds
  have hsg : saveGroup (cleanupRemoved gid (saveGroup db2 { gmem with parents := finalIds })
      (gmem.parents.filter (· ∉ finalIds))) { gmem with parents := finalIds }
      = cleanupRemoved gid (saveGroup db2 { gmem with parents := finalIds })
        (gmem.parents.filter (· ∉ finalIds)) := by
    refine saveGroup_self _ _ hWFF.1 ?_
    rw [hgid] at hgFind ⊢
    exact hgFind
  rw [hrem2, hgm2, hsg]
  rfl

/-! ### The idempotence argument, path by path -/

theorem patch_fix_of_eq (db dbF : DB) (gid : Id) (req : PatchReq) (code code2 : Nat)
    (h1 : patchGroupFull db gid req = (code, dbF))
    (h2 : patchGroupFull dbF gid req = (code2, dbF)) :
    (patchGroupFull (patchGroupFull db gid req).2 gid req).2
      = (patchGroupFull db gid req).2 := by
  rw [h1]
  show (patchGroupFull dbF gid req).2 = dbF
  rw [h2]

theorem patch_idem_empty (db : DB) (gid : Id) (req : PatchReq) (g0 : GroupDoc)
    (hWF : WF db) (hg : findGroup db gid = some g0)
    (he : (requestedIds req).isEmpty = true) :
    (patchGroupFull (patchGroupFull db gid req).2 gid req).2
      = (patchGroupFull db gid req).2 := by
  have hsn : (db.students.map (·.sid)).Nodup := hWF.2.1
  have hrun1 : patchGroupFull db gid req
      = parentPhase gid { applyMeta g0 req with students := [] } req
        (detachAll gid db g0.students) := by
    rw [patchGroupFull_some db gid req g0 hg, if_pos he]
  have hWF1 : WF (detachAll gid db g0.students) := detachAll_WF gid db g0.students hWF
  have hWp1 : WFp (detachAll gid db g0.students) := ⟨hWF1.2.2.1, hWF1.2.2.2.2.2.1⟩
  have hgmemgid : ({ applyMeta g0 req with students := [] } : GroupDoc).gid = gid :=
    findGroup_gid db gid g0 hg
  have hgS : gid ∈ gidsOf (detachAll gid db g0.students) := by
    rw [gidsOf_detachAll]
    refine (findGroup_isSome_iff db gid).mp ?_
    rw [hg]
    rfl
  cases hpp : processParents (detachAll gid db g0.students)
      (distinctParents (detachAll gid db g0.students) gid) (req.parents.getD []) with
  | error db2 =>
    have hrun1' : patchGroupFull db gid req = (400, db2) := by
      rw [hrun1]
      exact parentPhase_error gid _ req _ db2 hpp
    have hWF2 : WF db2 := by
      have h1 := (patch_WF db gid req hWF).1
      rw [hrun1'] at h1
      exact h1
    obtain ⟨hgr2, hst2⟩ := (processParents_frame (req.parents.getD [])
      (detachAll gid db g0.students)
      (distinctParents (detachAll gid db g0.students) gid)).2 db2 hpp
    have hsv : studentsView db2 gid = some g0.students := by
      have h1 : studentsView db2 gid = studentsView (detachAll gid db g0.students) gid := by
        unfold studentsView
        rw [findGroup_of_groups_eq _ _ hgr2 gid]
      rw [h1, studentsView_detachAll gid g0.students db gid]
      unfold studentsView
      rw [hg]
      rfl
    obtain ⟨GF, hgF, hGFs⟩ : ∃ GF, findGroup db2 gid = some GF
        ∧ GF.students = g0.students := by
      cases hfd : findGroup db2 gid with
      | none =>
        unfold studentsView at hsv
        rw [hfd] at hsv
        exact absurd hsv (by simp)
      | some GF =>
        refine ⟨GF, rfl, ?_⟩
        unfold studentsView at hsv
        rw [hfd] at hsv
        simpa using hsv
    have hid : detachAll gid db2 g0.students = db2 := by
      refine detachAll_id gid g0.students db2 hWF2.1 hWF2.2.1 ?_
      intro s hs st2 hfs2
      have heq := findStudent_of_students_eq (detachAll gid db g0.students) db2 hst2 s
      rw [heq, findStudent_detachAll gid g0.students db s, if_pos hs] at hfs2
      cases horig : findStudent db s with
      | none =>
        rw [horig] at hfs2
        exact absurd hfs2 (by simp)
      | some orig =>
        rw [horig] at hfs2
        simp only [Option.map_some'] at hfs2
        have hst2eq : st2 = { orig with group := none } := (Option.some.inj hfs2).symm
        subst hst2eq
        refine ⟨rfl, ?_⟩
        intro p hp
        have hporig : orig.parent = some p := hp
        rcases detachAll_pulled gid p g0.students db hsn
            (Or.inl ⟨s, hs, orig, horig, hporig⟩) with ⟨w, hw, hwp, hwg⟩ | hnp
        · refine Or.inl ?_
          rw [countStudentsGP_of_students_eq (detachAll gid db g0.students) db2 hst2 gid p]
          exact countStudentsGP_ne_zero _ gid p w hw hwg hwp
        · refine Or.inr ?_
          intro hc
          exact hnp (pRef_of_groups_eq db2 (detachAll gid db g0.students) hgr2.symm gid p hc)
    have herr2 : processParents db2 (distinctParents db2 gid) (req.parents.getD [])
        = .error db2 := by
      rw [distinctParents_of_students_eq (detachAll gid db g0.students) db2 hst2 gid]
      exact processParents_error_replay (req.parents.getD []) (detachAll gid db g0.students)
        db2 (distinctParents (detachAll gid db g0.students) gid) hWp1 hWF2.2.2.1 hpp
    have hrun2 : patchGroupFull db2 gid req = (400, db2) := by
      rw [patchGroupFull_some db2 gid req GF hgF, if_pos he, hGFs, hid]
      exact parentPhase_error gid _ req db2 db2 herr2
    exact patch_fix_of_eq db db2 gid req 400 400 hrun1' hrun2
  | ok pr =>
    obtain ⟨finalIds, db2⟩ := pr
    have hrun1' : patchGroupFull db gid req = (200,
        cleanupRemoved gid (saveGroup db2
          { { applyMeta g0 req with students := [] } with parents := finalIds })
        (({ applyMeta g0 req with students := [] } : GroupDoc).parents.filter
          (· ∉ finalIds))) := by
      rw [hrun1]
      exact parentPhase_ok gid _ req _ finalIds db2 hpp
    have hgFindF := parentPhase_target gid { applyMeta g0 req with students := [] } req
      (detachAll gid db g0.students) finalIds db2 hgS hgmemgid hpp
    have hrep := parentPhase_replay gid { applyMeta g0 req with students := [] }
      { applyMeta { { applyMeta g0 req with students := [] } with parents := finalIds } req
        with students := [] } req (detachAll gid db g0.students) finalIds db2
      hWF1 hgS hgmemgid hpp (applyMeta_idem g0 req [] finalIds) (by rfl)
    have hrun2 : patchGroupFull (cleanupRemoved gid (saveGroup db2
        { { applyMeta g0 req with students := [] } with parents := finalIds })
        (({ applyMeta g0 req with students := [] } : GroupDoc).parents.filter
          (· ∉ finalIds))) gid req
        = (200, cleanupRemoved gid (saveGroup db2
          { { applyMeta g0 req with students := [] } with parents := finalIds })
          (({ applyMeta g0 req with students := [] } : GroupDoc).parents.filter
            (· ∉ finalIds))) := by
      rw [patchGroupFull_some _ gid req _ hgFindF, if_pos he]
      exact hrep
    exact patch_fix_of_eq db _ gid req 200 200 hrun1' hrun2

theorem patch_idem_roster (db : DB) (gid : Id) (req : PatchReq) (g0 : GroupDoc)
    (hWF : WF db) (hg : findGroup db gid = some g0)
    (he : (requestedIds req).isEmpty = false)
    (hlen : (db.students.filter (·.sid ∈ requestedIds req)).length
      = (requestedIds req).length) :
    (patchGroupFull (patchGroupFull db gid req).2 gid req).2
      = (patchGroupFull db gid req).2 := by
  have hsn : (db.students.map (·.sid)).Nodup := hWF.2.1
  have hrn : (requestedIds req).Nodup := requestedIds_nodup req
  have hrun1 : patchGroupFull db gid req
      = parentPhase gid { applyMeta g0 req with students := requestedIds req } req
        (assignListed gid (detachListed gid db (g0.students.filter (· ∉ requestedIds req)))
          (requestedIds req)) := by
    rw [patchGroupFull_some db gid req g0 hg,
      if_neg (by rw [he]; exact Bool.false_ne_true),
      if_neg (fun hc => hc hlen)]
  have hWF1 : WF (assignListed gid (detachListed gid db
      (g0.students.filter (· ∉ requestedIds req))) (requestedIds req)) :=
    roster_WF gid db _ _ hWF
  have hWp1 : WFp (assignListed gid (detachListed gid db
      (g0.students.filter (· ∉ requestedIds req))) (requestedIds req)) :=
    ⟨hWF1.2.2.1, hWF1.2.2.2.2.2.1⟩
  have hgmemgid : ({ applyMeta g0 req with students := requestedIds req } : GroupDoc).gid
      = gid := findGroup_gid db gid g0 hg
  have hsnD : ((detachListed gid db (g0.students.filter (· ∉ requestedIds req))).students.map
      (·.sid)).Nodup := by
    rw [detachListed_sidMap]
    exact hsn
  have hgD : gid ∈ gidsOf (detachListed gid db
      (g0.students.filter (· ∉ requestedIds req))) := by
    rw [gidsOf_detachListed]
    refine (findGroup_isSome_iff db gid).mp ?_
    rw [hg]
    rfl
  have hgS : gid ∈ gidsOf (assignListed gid (detachListed gid db
      (g0.students.filter (· ∉ requestedIds req))) (requestedIds req)) := by
    rw [gidsOf_assignListed]
    exact hgD
  have hsid1 : (assignListed gid (detachListed gid db
      (g0.students.filter (· ∉ requestedIds req))) (requestedIds req)).students.map (·.sid)
      = db.students.map (·.sid) := by
    rw [assignListed_sidMap, detachListed_sidMap]
  have hfind1 : ∀ s ∈ requestedIds req, ∃ orig, findStudent db s = some orig ∧
      findStudent (detachListed gid db (g0.students.filter (· ∉ requestedIds req))) s
        = some orig ∧
      findStudent (assignListed gid (detachListed gid db
        (g0.students.filter (· ∉ requestedIds req))) (requestedIds req)) s
        = some { orig with group := some gid } := by
    intro s hs
    obtain ⟨orig, horig⟩ := all_found_of_length_eq db (requestedIds req) hsn hrn hlen s hs
    have hsnr : s ∉ g0.students.filter (· ∉ requestedIds req) := by
      intro hc
      have h2 : s ∉ requestedIds req := by simpa using (List.mem_filter.mp hc).2
      exact h2 hs
    have hfD : findStudent (detachListed gid db
        (g0.students.filter (· ∉ requestedIds req))) s = some orig := by
      rw [findStudent_detachListed gid _ db s, if_neg hsnr, horig]
    refine ⟨orig, horig, hfD, ?_⟩
    rw [findStudent_assignListed gid (requestedIds req) _ s, if_pos hs, hfD]
    rfl
  cases hpp : processParents (assignListed gid (detachListed gid db
      (g0.students.filter (· ∉ requestedIds req))) (requestedIds req))
      (distinctParents (assignListed gid (detachListed gid db
        (g0.students.filter (· ∉ requestedIds req))) (requestedIds req)) gid)
      (req.parents.getD []) with
  | error db2 =>
    have hrun1' : patchGroupFull db gid req = (400, db2) := by
      rw [hrun1]
      exact parentPhase_error gid _ req _ db2 hpp
    have hWF2 : WF db2 := by
      have h1 := (patch_WF db gid req hWF).1
      rw [hrun1'] at h1
      exact h1
    obtain ⟨hgr2, hst2⟩ := (processParents_frame (req.parents.getD []) _ _).2 db2 hpp
    have hsid2 : db2.students.map (·.sid) = db.students.map (·.sid) := by
      rw [hst2, hsid1]
    have hlen2 : (db2.students.filter (·.sid ∈ requestedIds req)).length
        = (requestedIds req).length := by
      rw [filter_sid_length_congr db.students db2.students (requestedIds req) hsid2]
      exact hlen
    obtain ⟨GF, hgF⟩ : ∃ GF, findGroup db2 gid = some GF := by
      have h2 : (findGroup db2 gid).isSome := by
        rw [findGroup_isSome_iff, gidsOf_of_groups_eq _ db2 hgr2]
        exact hgS
      cases hfd : findGroup db2 gid with
      | none => rw [hfd] at h2; exact absurd h2 (by simp)
      | some GF => exact ⟨GF, rfl⟩
    have hmiss : ∀ x ∈ GF.students.filter (· ∉ requestedIds req),
        findStudent db2 x = none := by
      intro x hx
      have hxg : x ∈ GF.students := (List.mem_filter.mp hx).1
      have hxr : x ∉ requestedIds req := by simpa using (List.mem_filter.mp hx).2
      have hsref1 : sRef (assignListed gid (detachListed gid db
          (g0.students.filter (· ∉ requestedIds req))) (requestedIds req)) gid x :=
        sRef_of_groups_eq db2 _ hgr2.symm gid x ⟨GF, hgF, hxg⟩
      rcases assignListed_sRef_rev gid (requestedIds req) _ x hsref1 with hmem | hsrefD
      · exact absurd hmem hxr
      · obtain ⟨hsrefdb, himp⟩ := detachListed_sRef_rev gid
          (g0.students.filter (· ∉ requestedIds req)) db x hsrefD
        obtain ⟨d, hd, hxd⟩ := hsrefdb
        have hdg0 : d = g0 := Option.some.inj (hd.symm.trans hg)
        have hxg0 : x ∈ g0.students := by
          rw [← hdg0]
          exact hxd
        have hxtr : x ∈ g0.students.filter (· ∉ requestedIds req) :=
          List.mem_filter.mpr ⟨hxg0, by simpa using hxr⟩
        exact findStudent_none_transfer db db2 hsid2 x (himp hxtr)
    have hfacts2 : ∀ s ∈ requestedIds req, ∀ st2, findStudent db2 s = some st2 →
        st2.group = some gid ∧ sRef db2 gid s ∧
        (∀ p, st2.parent = some p → pRef db2 gid p) := by
      intro s hs st2 hfs2
      obtain ⟨orig, horig, hfD, hf1⟩ := hfind1 s hs
      have heq := findStudent_of_students_eq (assignListed gid (detachListed gid db
        (g0.students.filter (· ∉ requestedIds req))) (requestedIds req)) db2 hst2 s
      rw [heq, hf1] at hfs2
      have hst2eq : st2 = { orig with group := some gid } := (Option.some.inj hfs2).symm
      subst hst2eq
      refine ⟨rfl, ?_, ?_⟩
      · refine sRef_of_groups_eq _ db2 hgr2 gid s ?_
        refine assignListed_sRef_self gid (requestedIds req) _ hsnD hrn hgD s hs ?_
        rw [hfD]
        rfl
      · intro p hp
        have hporig : orig.parent = some p := hp
        refine pRef_of_groups_eq _ db2 hgr2 gid p ?_
        exact assignListed_pRef_self gid (requestedIds req) _ hsnD hrn hgD s hs orig hfD
          p hporig
    have herr2 : processParents db2 (distinctParents db2 gid) (req.parents.getD [])
        = .error db2 := by
      rw [distinctParents_of_students_eq (assignListed gid (detachListed gid db
        (g0.students.filter (· ∉ requestedIds req))) (requestedIds req)) db2 hst2 gid]
      exact processParents_error_replay (req.parents.getD []) _ db2 _ hWp1 hWF2.2.2.1 hpp
    have hrun2 : patchGroupFull db2 gid req = (400, db2) := by
      rw [patchGroupFull_some db2 gid req GF hgF,
        if_neg (by rw [he]; exact Bool.false_ne_true),
        if_neg (fun hc => hc hlen2),
        detachListed_all_missing gid (GF.students.filter (· ∉ requestedIds req)) db2 hmiss,
        assignListed_id gid (requestedIds req) db2 hWF2.1 hfacts2]
      exact parentPhase_error gid _ req db2 db2 herr2
    exact patch_fix_of_eq db db2 gid req 400 400 hrun1' hrun2
  | ok pr =>
    obtain ⟨finalIds, db2⟩ := pr
    have hrun1' : patchGroupFull db gid req = (200,
        cleanupRemoved gid (saveGroup db2
          { { applyMeta g0 req with students := requestedIds req } with parents := finalIds })
        (({ applyMeta g0 req with students := requestedIds req } : GroupDoc).parents.filter
          (· ∉ finalIds))) := by
      rw [hrun1]
      exact parentPhase_ok gid _ req _ finalIds db2 hpp
    obtain ⟨hgr2, hst2⟩ := (processParents_frame (req.parents.getD []) _ _).1 finalIds db2 hpp
    have hgFindF := parentPhase_target gid
      { applyMeta g0 req with students := requestedIds req } req
      (assignListed gid (detachListed gid db (g0.students.filter (· ∉ requestedIds req)))
        (requestedIds req)) finalIds db2 hgS hgmemgid hpp
    have hrep := parentPhase_replay gid
      { applyMeta g0 req with students := requestedIds req }
      { applyMeta { { applyMeta g0 req with students := requestedIds req }
          with parents := finalIds } req with students := requestedIds req }
      req (assignListed gid (detachListed gid db
        (g0.students.filter (· ∉ requestedIds req))) (requestedIds req)) finalIds db2
      hWF1 hgS hgmemgid hpp (applyMeta_idem g0 req (requestedIds req) finalIds) (by rfl)
    have hWFF : WF (cleanupRemoved gid (saveGroup db2
        { { applyMeta g0 req with students := requestedIds req } with parents := finalIds })
        (({ applyMeta g0 req with students := requestedIds req } : GroupDoc).parents.filter
          (· ∉ finalIds))) := by
      have h1 := (patch_WF db gid req hWF).1
      rw [hrun1'] at h1
      exact h1
    have hstF : (cleanupRemoved gid (saveGroup db2
        { { applyMeta g0 req with students := requestedIds req } with parents := finalIds })
        (({ applyMeta g0 req with students := requestedIds req } : GroupDoc).parents.filter
          (· ∉ finalIds))).students
        = (assignListed gid (detachListed gid db
          (g0.students.filter (· ∉ requestedIds req))) (requestedIds req)).students := by
      rw [cleanupRemoved_students, saveGroup_students, hst2]
    have hsidF : (cleanupRemoved gid (saveGroup db2
        { { applyMeta g0 req with students := requestedIds req } with parents := finalIds })
        (({ applyMeta g0 req with students := requestedIds req } : GroupDoc).parents.filter
          (· ∉ finalIds))).students.map (·.sid)
        = db.students.map (·.sid) := by
      rw [hstF, hsid1]
    have hlenF : ((cleanupRemoved gid (saveGroup db2
        { { applyMeta g0 req with students := requestedIds req } with parents := finalIds })
        (({ applyMeta g0 req with students := requestedIds req } : GroupDoc).parents.filter
          (· ∉ finalIds))).students.filter (·.sid ∈ requestedIds req)).length
        = (requestedIds req).length := by
      rw [filter_sid_length_congr db.students _ (requestedIds req) hsidF]
      exact hlen
    have hfactsF : ∀ s ∈ requestedIds req, ∀ st2,
        findStudent (cleanupRemoved gid (saveGroup db2
          { { applyMeta g0 req with students := requestedIds req } with parents := finalIds })
          (({ applyMeta g0 req with students := requestedIds req } : GroupDoc).parents.filter
            (· ∉ finalIds))) s = some st2 →
        st2.group = some gid ∧
        sRef (cleanupRemoved gid (saveGroup db2
          { { applyMeta g0 req with students := requestedIds req } with parents := finalIds })
          (({ applyMeta g0 req with students := requestedIds req } : GroupDoc).parents.filter
            (· ∉ finalIds))) gid s ∧
        (∀ p, st2.parent = some p → pRef (cleanupRemoved gid (saveGroup db2
          { { applyMeta g0 req with students := requestedIds req } with parents := finalIds })
          (({ applyMeta g0 req with students := requestedIds req } : GroupDoc).parents.filter
            (· ∉ finalIds))) gid p) := by
      intro s hs st2 hfs2
      obtain ⟨orig, horig, hfD, hf1⟩ := hfind1 s hs
      have heq := findStudent_of_students_eq (assignListed gid (detachListed gid db
        (g0.students.filter (· ∉ requestedIds req))) (requestedIds req)) _ hstF s
      rw [heq, hf1] at hfs2
      have hst2eq : st2 = { orig with group := some gid } := (Option.some.inj hfs2).symm
      subst hst2eq
      refine ⟨rfl, ⟨_, hgFindF, hs⟩, ?_⟩
      intro p hp
      have hporig : orig.parent = some p := hp
      have hmem1 : ({ orig with group := some gid } : StudentDoc) ∈ (assignListed gid
          (detachListed gid db (g0.students.filter (· ∉ requestedIds req)))
          (requestedIds req)).students :=
        (findStudent_mem _ s _ hf1).1
      have hpacc : p ∈ distinctParents (assignListed gid (detachListed gid db
          (g0.students.filter (· ∉ requestedIds req))) (requestedIds req)) gid :=
        mem_distinctParents _ gid { orig with group := some gid } hmem1 rfl p hporig
      have hpfin : p ∈ finalIds :=
        processParents_acc_mono (req.parents.getD []) _ _ finalIds db2 hpp hpacc
      exact ⟨_, hgFindF, hpfin⟩
    have hrun2 : patchGroupFull (cleanupRemoved gid (saveGroup db2
        { { applyMeta g0 req with students := requestedIds req } with parents := finalIds })
        (({ applyMeta g0 req with students := requestedIds req } : GroupDoc).parents.filter
          (· ∉ finalIds))) gid req
        = (200, cleanupRemoved gid (saveGroup db2
          { { applyMeta g0 req with students := requestedIds req } with parents := finalIds })
          (({ applyMeta g0 req with students := requestedIds req } : GroupDoc).parents.filter
            (· ∉ finalIds))) := by
      have hrem0 : ({ { applyMeta g0 req with students := requestedIds req }
          with parents := finalIds } : GroupDoc).students.filter (· ∉ requestedIds req)
          = ([] : List Id) := filter_not_mem_self (requestedIds req)
      have hdid : detachListed gid (cleanupRemoved gid (saveGroup db2
          { { applyMeta g0 req with students := requestedIds req } with parents := finalIds })
          (({ applyMeta g0 req with students := requestedIds req } : GroupDoc).parents.filter
            (· ∉ finalIds))) ([] : List Id)
          = cleanupRemoved gid (saveGroup db2
          { { applyMeta g0 req with students := requestedIds req } with parents := finalIds })
          (({ applyMeta g0 req with students := requestedIds req } : GroupDoc).parents.filter
            (· ∉ finalIds)) := rfl
      rw [patchGroupFull_some _ gid req _ hgFindF,
        if_neg (by rw [he]; exact Bool.false_ne_true),
        if_neg (fun hc => hc hlenF),
        hrem0, hdid,
        assignListed_id gid (requestedIds req) _ hWFF.1 hfactsF]
      exact hrep
    exact patch_fix_of_eq db _ gid req 200 200 hrun1' hrun2

/-- C1.  For every group id and every request payload, running the bulk
roster replace (`PATCH /groups/:id/full`) a second time with the same
arguments on the state produced by the first run leaves that state unchanged:
the final Group, Student, and Parent records are exactly those of a single
run, for any well-formed starting store. -/
theorem C1_bulk_replace_idempotent (db : DB) (gid : Id) (req : PatchReq) (hWF : WF db) :
    (patchGroupFull (patchGroupFull db gid req).2 gid req).2
      = (patchGroupFull db gid req).2 := by
  cases hg : findGroup db gid with
  | none =>
    have h1 : patchGroupFull db gid req = (404, db) := patchGroupFull_none db gid req hg
    rw [h1]
    show (patchGroupFull db gid req).2 = db
    rw [h1]
  | some g0 =>
    cases he : (requestedIds req).isEmpty with
    | true => exact patch_idem_empty db gid req g0 hWF hg he
    | false =>
      by_cases hlen : (db.students.filter (·.sid ∈ requestedIds req)).length
          = (requestedIds req).length
      · exact patch_idem_roster db gid req g0 hWF hg he hlen
      · have h1 : patchGroupFull db gid req = (400, db) := by
          rw [patchGroupFull_some db gid req g0 hg,
            if_neg (by rw [he]; exact Bool.false_ne_true),
            if_pos hlen]
        rw [h1]
        show (patchGroupFull db gid req).2 = db
        rw [h1]

/-- Witness: idempotence of the bulk replace on the concrete fixture store
with the roster request `[S2]`. -/
theorem C1_bulk_replace_idempotent_witness :
    WF fixDB ∧
      (patchGroupFull (patchGroupFull fixDB 1 fixReqS2).2 1 fixReqS2).2
        = (patchGroupFull fixDB 1 fixReqS2).2 :=
  ⟨fixDB_WF, C1_bulk_replace_idempotent fixDB 1 fixReqS2 fixDB_WF⟩

end VP
